import Mathlib

/-!
# MicroDLNA: path and escape utilities, HTTP front end, media streamer, events, SSDP

A shallow embedding of parts of the MicroDLNA media server
(`utils.c`, `upnpsoap.c`, `upnphttp.c`, `dirlist.c`, `mime.c`, `stream.c`,
`xmlregex.c`, `upnpevents.c`, `minissdp.c`, `threads.c`, `getifaddr.c`, `sendfile.c`)
together with proofs about them.

Conventions of the embedding

* A C string is the list of the bytes that precede its terminating NUL; a byte
  is held in a `Char`.  Reading position `length` of a buffer yields the
  terminator (`rd`).
* Loops of the C code are recursive functions with an explicit `fuel`
  argument; running out of fuel yields `none`.  The top-level functions supply
  the fuel themselves and the theorems show that the result is `some _`.
* C `int` indices are `Nat` (or `Int` where the code lets them go below zero);
  buffers are far shorter than `2^31` bytes, so no index wraps.
-/

namespace MicroDLNA

/-! ## utils.c : sanitise_path -/

/-- The terminating byte of a C string. -/
def NUL : Char := Char.ofNat 0

/-- The byte `path[i]` of a NUL-terminated buffer whose contents are `path`. -/
def rd (path : List Char) (i : Nat) : Char := path.getD i NUL

/-- The loop `while (path[i] == '/') i++;` (also `while (*r == '/') r++;`). -/
def skip_slashes : Nat → List Char → Nat → Option Nat
  | 0, _, _ => none
  | fuel + 1, path, i =>
    if rd path i = '/' then skip_slashes fuel path (i + 1) else some i

/-- The loop `while (path[i] != '/' && path[i] != '\0') i++;`. -/
def skip_segment : Nat → List Char → Nat → Option Nat
  | 0, _, _ => none
  | fuel + 1, path, i =>
    if rd path i ≠ '/' ∧ rd path i ≠ NUL then skip_segment fuel path (i + 1) else some i

/-- The loop `while (j > -1 && path[j] == '/') j--;`. -/
def back_slashes : Nat → List Char → Int → Option Int
  | 0, _, _ => none
  | fuel + 1, path, j =>
    if j > -1 ∧ rd path j.toNat = '/' then back_slashes fuel path (j - 1) else some j

/-- The loop `while (j > -1 && path[j] != '/') path[j--] = '/';`. -/
def wipe_segment : Nat → List Char → Int → Option (List Char)
  | 0, _, _ => none
  | fuel + 1, path, j =>
    if j > -1 ∧ rd path j.toNat ≠ '/' then wipe_segment fuel (path.set j.toNat '/') (j - 1)
    else some path

/-- The first loop of `sanitise_path` (`while (1) { ... }`), started at index `i`.
The result is `(false, buffer)` when the function returns 0 from inside the loop
and `(true, buffer)` when the loop is left by `break`. -/
def scan_segments : Nat → List Char → Nat → Option (Bool × List Char)
  | 0, _, _ => none
  | fuel + 1, path, i =>
    match skip_slashes (path.length + 1) path i with
    | none => none
    | some i =>
      if rd path i = NUL then some (true, path)
      else if rd path i = '.' ∧ (rd path (i + 1) = '/' ∨ rd path (i + 1) = NUL) then
        -- ignore single dot dirs
        scan_segments fuel (path.set i '/') i
      else if rd path i = '.' ∧ rd path (i + 1) = '.'
          ∧ (rd path (i + 2) = '/' ∨ rd path (i + 2) = NUL) then
        -- write over two-dot dirs and ...
        let path := (path.set i '/').set (i + 1) '/'
        -- find a previous directory to delete too (if any)
        match back_slashes (path.length + 1) path ((i : Int) - 1) with
        | none => none
        | some j =>
          -- if none, it's not a valid url
          if j < 0 then some (false, path)
          else
            -- write over it with slashes
            match wipe_segment (path.length + 1) path j with
            | none => none
            | some path => scan_segments fuel path i
      else
        match skip_segment (path.length + 1) path i with
        | none => none
        | some i => if rd path i = NUL then some (true, path) else scan_segments fuel path i

/-- The loop `while (*(r + 1) == '/') r++;`. -/
def skip_to_last_slash : Nat → List Char → Nat → Option Nat
  | 0, _, _ => none
  | fuel + 1, path, r =>
    if rd path (r + 1) = '/' then skip_to_last_slash fuel path (r + 1) else some r

/-- The copying loop `while (*r != '\0') { ...; *w++ = *r++; }` of `sanitise_path`,
which works in place; it yields the buffer and the final `w`. -/
def squeeze_slashes : Nat → List Char → Nat → Nat → Option (List Char × Nat)
  | 0, _, _, _ => none
  | fuel + 1, path, r, w =>
    if rd path r = NUL then some (path, w)
    else
      match (if rd path r = '/' then skip_to_last_slash (path.length + 1) path r
             else some r) with
      | none => none
      | some r => squeeze_slashes fuel (path.set w (rd path r)) (r + 1) (w + 1)

/-- The second half of `sanitise_path` (`'//+' -> '/'`): leading slashes are skipped, the
rest is copied to the front of the buffer with runs of slashes collapsed, a trailing slash
is dropped and the terminator is written. -/
def collapse_slashes (path : List Char) : Option (List Char) :=
  match skip_slashes (path.length + 1) path 0 with
  | none => none
  | some r =>
    match squeeze_slashes (path.length + 1) path r 0 with
    | none => none
    | some (path, w) =>
      let w := if w > 0 ∧ rd path (w - 1) = '/' then w - 1 else w
      -- *w = '\0';
      some (path.take w)

/-- The function `sanitise_path` of `utils.c`: the return value (`true` for 1) and the
string left in the buffer. -/
def sanitise_path (path : List Char) : Option (Bool × List Char) :=
  match scan_segments (path.length + 1) path 0 with
  | none => none
  | some (false, path) => some (false, path)
  | some (true, path) =>
    match collapse_slashes path with
    | none => none
    | some path => some (true, path)

/-! ### The reference normaliser -/

/-- One step of the reference normaliser: empty and `.` segments are skipped, `..` pops
the stack (failing when it is empty), any other segment is pushed. -/
def norm_step (stack : List (List Char)) (seg : List Char) : Option (List (List Char)) :=
  if seg = [] ∨ seg = ['.'] then some stack
  else if seg = ['.', '.'] then
    match stack with
    | [] => none
    | _ :: below => some below
  else some (seg :: stack)

/-- The left-to-right scan of the segments; the head of `stack` is its top. -/
def norm_scan : List (List Char) → List (List Char) → Option (List (List Char))
  | [], stack => some stack
  | seg :: segs, stack =>
    match norm_step stack seg with
    | none => none
    | some stack => norm_scan segs stack

/-- The reference normaliser: `none` when a `..` meets the empty stack, otherwise the
segments of the stack joined by single `/`. -/
def reference_normalise (p : List Char) : Option (List Char) :=
  (norm_scan (p.splitOn '/') []).map (fun stack => ['/'].intercalate stack.reverse)

/-! ## utils.c : url_escape -/

/-- The function `needs_escaping`: every char except
`*+-./0123456789@ABCDEFGHIJKLMNOPQRSTUVWXYZ_abcdefghijklmnopqrstuvwxyz~` needs to be
escaped.  The case ranges compare byte values. -/
def needs_escaping (c : Char) : Bool :=
  if c = '*' then false
  else if c = '+' then false
  else if '-'.toNat ≤ c.toNat ∧ c.toNat ≤ '9'.toNat then false
  else if '@'.toNat ≤ c.toNat ∧ c.toNat ≤ 'Z'.toNat then false
  else if c = '_' then false
  else if 'a'.toNat ≤ c.toNat ∧ c.toNat ≤ 'z'.toNat then false
  else if c = '~' then false
  else true

/-- The counting loop of `url_escape`; the result is `(normal, to_escape)`. -/
def count_escapes (input_string : List Char) : Nat × Nat :=
  input_string.foldl
    (fun counts c => if needs_escaping c then (counts.1, counts.2 + 1)
      else (counts.1 + 1, counts.2))
    (0, 0)

/-- An upper-case hexadecimal digit as printed by the `X` conversion of `sprintf`. -/
def hex_digit_upper (n : Nat) : Char :=
  if n < 10 then Char.ofNat ('0'.toNat + n) else Char.ofNat ('A'.toNat + (n - 10))

/-- The output of `sprintf(p, "%%%02X", v)` for a value `v` below 256. -/
def sprintf_percent_02X (v : Nat) : List Char :=
  ['%', hex_digit_upper (v / 16 % 16), hex_digit_upper (v % 16)]

/-- The copying loop of `url_escape`; `(unsigned char)c` is `c.toNat % 256`. -/
def escape_copy : List Char → List Char
  | [] => []
  | c :: input_string =>
    if needs_escaping c then sprintf_percent_02X (c.toNat % 256) ++ escape_copy input_string
    else c :: escape_copy input_string

/-- The function `url_escape` of `utils.c` (the contents of the string it returns). -/
def url_escape (input_string : List Char) : List Char :=
  if (count_escapes input_string).2 = 0 then input_string
  else escape_copy input_string

/-! ## utils.c : url_unescape -/

/-- One round of the loop of `convert_hex`: the value of a hexadecimal digit. -/
def hex_value (c : Char) : Option Nat :=
  if 'A'.toNat ≤ c.toNat ∧ c.toNat ≤ 'F'.toNat then some (c.toNat - 'A'.toNat + 10)
  else if 'a'.toNat ≤ c.toNat ∧ c.toNat ≤ 'f'.toNat then some (c.toNat - 'a'.toNat + 10)
  else if '0'.toNat ≤ c.toNat ∧ c.toNat ≤ '9'.toNat then some (c.toNat - '0'.toNat)
  else none

/-- The function `convert_hex` applied to the pointer `tag + i`; it returns -1 when one of
the two bytes is not a hexadecimal digit. -/
def convert_hex (tag : List Char) (i : Nat) : Int :=
  match hex_value (rd tag i) with
  | none => -1
  | some a =>
    match hex_value (rd tag (i + 1)) with
    | none => -1
    | some b => (((0 * 16 + a) * 16 + b : Nat) : Int)

/-- A loop of the form `while (*r != '\0') { ...; *w++ = c; r += n; }` that rewrites a
buffer in place; `step tag r` gives the byte `c` that is written and the number `n` of
bytes by which `r` advances.  The result is the buffer and the final `w`. -/
def rewrite_in_place (step : List Char → Nat → Char × Nat) :
    Nat → List Char → Nat → Nat → Option (List Char × Nat)
  | 0, _, _, _ => none
  | fuel + 1, tag, r, w =>
    if rd tag r = NUL then some (tag, w)
    else rewrite_in_place step fuel (tag.set w (step tag r).1) (r + (step tag r).2) (w + 1)

/-- The body of the loop of `url_unescape`: the byte written through `w` and the advance
of `r`. -/
def url_unescape_step (tag : List Char) (r : Nat) : Char × Nat :=
  if rd tag r = '+' then (' ', 1)
  else if rd tag r = '%' then
    if convert_hex tag (r + 1) > -1 then
      -- ignore control chars
      if convert_hex tag (r + 1) < 32 ∨ convert_hex tag (r + 1) = 127 then (' ', 3)
      else (Char.ofNat (convert_hex tag (r + 1)).toNat, 3)
    else if rd tag (r + 1) = '%' then ('%', 2)
    else ('%', 1)
  else (rd tag r, 1)

/-- The function `url_unescape` of `utils.c`, which converts in place: the string left in
the buffer. -/
def url_unescape (tag : List Char) : Option (List Char) :=
  match rewrite_in_place url_unescape_step (tag.length + 1) tag 0 0 with
  | none => none
  | some (tag, w) => some (tag.take w)

/-! ### The escaping and unescaping rules as the specification words them -/

/-- The set `A–Z a–z 0–9 * + - . / _ ~ @` of bytes that are not escaped. -/
def in_safe_set (c : Char) : Bool :=
  c.isUpper || c.isLower || c.isDigit || "*+-./_~@".toList.contains c

/-- The upper-case hexadecimal digit with value `n`. -/
def upper_hex_ref (n : Nat) : Char := "0123456789ABCDEF".toList.getD n '0'

/-- The percent-encoding of a byte: `%` followed by its two-digit upper-case hexadecimal
value. -/
def percent_encode_ref (c : Char) : List Char :=
  ['%', upper_hex_ref (c.toNat % 256 / 16), upper_hex_ref (c.toNat % 256 % 16)]

/-- The string `s` with every byte outside the safe set percent-encoded. -/
def url_escape_ref (s : List Char) : List Char :=
  s.flatMap (fun c => if in_safe_set c then [c] else percent_encode_ref c)

/-- The value of a hexadecimal digit of either case, by table lookup. -/
def hex_digit_ref (c : Char) : Option Nat :=
  (List.zip "0123456789ABCDEFabcdef".toList
    [0, 1, 2, 3, 4, 5, 6, 7, 8, 9, 10, 11, 12, 13, 14, 15, 10, 11, 12, 13, 14, 15]).lookup c

/-- The byte encoded by two hexadecimal digits, when both are hexadecimal digits. -/
def hex_pair_ref (a b : Char) : Option Nat :=
  match hex_digit_ref a, hex_digit_ref b with
  | some x, some y => some (16 * x + y)
  | _, _ => none

/-- The unescaping rule at the head of the remaining input: the byte it yields and the
number of bytes it consumes.  `+` becomes a space; `%` followed by two hexadecimal digits
becomes the byte they encode, or a space when that byte is a control byte; `%` followed by
`%` (and not by two hexadecimal digits) becomes a single `%`; any other `%` is kept; every
other byte is copied. -/
def url_unescape_rule : List Char → Char × Nat
  | [] => (NUL, 1)
  | c :: rest =>
    if c = '+' then (' ', 1)
    else if c = '%' then
      match rest with
      | a :: b :: _ =>
        match hex_pair_ref a b with
        | some v => (if v < 0x20 ∨ v = 0x7F then ' ' else Char.ofNat v, 3)
        | none => if a = '%' then ('%', 2) else ('%', 1)
      | [a] => if a = '%' then ('%', 2) else ('%', 1)
      | [] => ('%', 1)
    else (c, 1)

/-- The string obtained by applying a rule from left to right until the input is used
up; `fuel` bounds the number of applications. -/
def rewrite_by (rule : List Char → Char × Nat) : Nat → List Char → List Char
  | 0, _ => []
  | fuel + 1, s => if s = [] then [] else (rule s).1 :: rewrite_by rule fuel (s.drop (rule s).2)

/-- The string `s` rewritten from left to right by the unescaping rules. -/
def url_unescape_ref (s : List Char) : List Char := rewrite_by url_unescape_rule s.length s

/-! ## upnpsoap.c : xml_escape_double, xml_unescape -/

/-- The double quote character. -/
def QUOT : Char := Char.ofNat 34

/-- The single quote character. -/
def APOS : Char := Char.ofNat 39

/-- The counting loop of `xml_escape_double`; the result is `(normal_chars, escape_chars)`. -/
def xml_escape_count (input_string : List Char) : Nat × Nat :=
  input_string.foldl
    (fun counts c =>
      if c = '&' then (counts.1, counts.2 + 9)
      else if c = '<' then (counts.1, counts.2 + 8)
      else if c = '>' then (counts.1, counts.2 + 8)
      else if c = QUOT then (counts.1, counts.2 + 10)
      else if c = APOS then (counts.1, counts.2 + 10)
      else (counts.1 + 1, counts.2))
    (0, 0)

/-- The copying loop of `xml_escape_double`; the helper `copy` appends the literal. -/
def xml_escape_copy : List Char → List Char
  | [] => []
  | c :: r =>
    (if c = '&' then "&amp;amp;".toList
     else if c = '<' then "&amp;lt;".toList
     else if c = '>' then "&amp;gt;".toList
     else if c = QUOT then "&amp;quot;".toList
     else if c = APOS then "&amp;apos;".toList
     else [c]) ++ xml_escape_copy r

/-- The function `xml_escape_double` of `upnpsoap.c` (the contents of the string it
returns): when nothing needs escaping the input itself is returned. -/
def xml_escape_double (input_string : List Char) : List Char :=
  if (xml_escape_count input_string).2 = 0 then input_string
  else xml_escape_copy input_string

/-- The test `strncmp(tag + i, lit, strlen(lit)) == 0` for a literal `lit`. -/
def strncmp_eq (tag : List Char) : Nat → List Char → Bool
  | _, [] => true
  | i, c :: lit => rd tag i = c && strncmp_eq tag (i + 1) lit

/-- The body of the loop of `xml_unescape`: the byte written through `w` and the advance
of `r`. -/
def xml_unescape_step (tag : List Char) (r : Nat) : Char × Nat :=
  if rd tag r = '&' then
    if strncmp_eq tag (r + 1) "amp;".toList then ('&', 5)
    else if strncmp_eq tag (r + 1) "lt;".toList then ('<', 4)
    else if strncmp_eq tag (r + 1) "gt;".toList then ('>', 4)
    else if strncmp_eq tag (r + 1) "quot;".toList then (QUOT, 6)
    else if strncmp_eq tag (r + 1) "apos;".toList then (APOS, 6)
    else ('&', 1)
  else (rd tag r, 1)

/-- The function `xml_unescape` of `upnpsoap.c`, which converts in place: the string left
in the buffer. -/
def xml_unescape (tag : List Char) : Option (List Char) :=
  match rewrite_in_place xml_unescape_step (tag.length + 1) tag 0 0 with
  | none => none
  | some (tag, w) => some (tag.take w)

/-- The rule of `xml_unescape` at the head of the remaining input: the byte it yields and
the number of bytes it consumes. -/
def xml_unescape_rule : List Char → Char × Nat
  | [] => (NUL, 1)
  | c :: rest =>
    if c = '&' then
      if "amp;".toList.isPrefixOf rest then ('&', 5)
      else if "lt;".toList.isPrefixOf rest then ('<', 4)
      else if "gt;".toList.isPrefixOf rest then ('>', 4)
      else if "quot;".toList.isPrefixOf rest then (QUOT, 6)
      else if "apos;".toList.isPrefixOf rest then (APOS, 6)
      else ('&', 1)
    else (c, 1)

/-- The string `s` with each of the five special characters replaced by its entity, once. -/
def xml_escape_once : List Char → List Char
  | [] => []
  | c :: r =>
    (if c = '&' then "&amp;".toList
     else if c = '<' then "&lt;".toList
     else if c = '>' then "&gt;".toList
     else if c = QUOT then "&quot;".toList
     else if c = APOS then "&apos;".toList
     else [c]) ++ xml_escape_once r

/-- The string obtained by applying a rule from left to right to the whole of `s`. -/
def rewrite_all (rule : List Char → Char × Nat) (s : List Char) : List Char :=
  rewrite_by rule s.length s

/-! ## C library functions used by the HTTP front end -/

/-- The C string that starts at offset `i` of a buffer: the bytes up to the first NUL. -/
def cstr_at (buf : List Char) (i : Nat) : List Char := (buf.drop i).takeWhile (· ≠ NUL)

/-- The test `strcasecmp(a, b) == 0` (C locale). -/
def strcasecmp_eq (a b : List Char) : Bool := a.map Char.toLower = b.map Char.toLower

/-- The test `strncmp(a, b, n) == 0`: the first `n` bytes agree, the terminator
included. -/
def strncmp_eq_n (a b : List Char) (n : Nat) : Bool := (a ++ [NUL]).take n = (b ++ [NUL]).take n

/-- The test `strncasecmp(a, b, n) == 0` (C locale). -/
def strncasecmp_eq (a b : List Char) (n : Nat) : Bool :=
  ((a ++ [NUL]).take n).map Char.toLower = ((b ++ [NUL]).take n).map Char.toLower

/-- The function `isspace` in the C locale. -/
def isspace (c : Char) : Bool := c = ' ' ∨ (9 ≤ c.toNat ∧ c.toNat ≤ 13)

/-- The digits read by `strtoll` in base 10: the value read so far and the rest of the
string. -/
def scan_digits : List Char → Nat → Nat × List Char
  | [], acc => (acc, [])
  | c :: s, acc =>
    if c.isDigit then scan_digits s (acc * 10 + (c.toNat - '0'.toNat)) else (acc, c :: s)

/-- The value `LLONG_MAX`. -/
def LLONG_MAX : Int := 2 ^ 63 - 1

/-- The value `LLONG_MIN`. -/
def LLONG_MIN : Int := -(2 ^ 63)

/-- The function `strtoll(s, &end, 10)`: white space is skipped, a sign is accepted, the
digits are read and the value is clamped to the range of `long long`; without any digit
the value is 0 and `end` is `s`. -/
def strtoll (s : List Char) : Int × List Char :=
  let t := s.dropWhile isspace
  let signed : Bool × List Char :=
    match t with
    | '-' :: u => (true, u)
    | '+' :: u => (false, u)
    | _ => (false, t)
  match signed.2 with
  | [] => (0, s)
  | c :: _ =>
    if c.isDigit then
      let r := scan_digits signed.2 0
      let v : Int := if signed.1 then -(r.1 : Int) else (r.1 : Int)
      (max LLONG_MIN (min LLONG_MAX v), r.2)
    else (0, s)

/-- The function `atoll`. -/
def atoll (s : List Char) : Int := (strtoll s).1

/-- The function `atoi` as glibc has it: `(int) strtol(s, NULL, 10)`. -/
def atoi (s : List Char) : Int := ((strtoll s).1 + 2 ^ 31) % 2 ^ 32 - 2 ^ 31

/-- The conversion `%d` of `printf`. -/
def sprintf_d (v : Int) : List Char :=
  if v < 0 then '-' :: Nat.toDigits 10 v.natAbs else Nat.toDigits 10 v.natAbs

/-- The string written by `snprintf(buf, size, ...)` when the formatted text is `text`:
at most `size - 1` bytes. -/
def snprintf_buf (size : Nat) (text : List Char) : List Char := text.take (size - 1)

/-- The function `strxcpy(dst, src, size)` of `utils.h`: the string left in `dst`. -/
def strxcpy (src : List Char) (size : Nat) : List Char := src.take (size - 1)

/-! ## upnphttp.h -/

inductive HttpCommands
  | EUnknown | EGet | EPost | EHead | ESubscribe | EUnSubscribe
  deriving DecidableEq, Repr

inductive HttpResponseCode
  | HTTP_OK_200
  | HTTP_BAD_REQUEST_400
  | HTTP_FORBIDDEN_403
  | HTTP_PAGE_NOT_FOUND_404
  | HTTP_NOT_ACCEPTABLE_406
  | HTTP_PRECONDITION_FAILED_412
  | HTTP_INVALID_RANGE_416
  | HTTP_INTERNAL_ERROR_500
  | HTTP_NOT_IMPLEMENTED_501
  | HTTP_SERVICE_UNAVAILABLE_503
  deriving DecidableEq, Repr

/-- The functions that `req_soap_action` can point to. -/
inductive SoapAction
  | browse_content_directory
  | unsupported_soap_action
  | get_search_capabilities
  | get_sort_capabilities
  | get_protocol_info
  | invalid_soap_action
  deriving DecidableEq, Repr

def FLAG_TIMEOUT : Nat := 0x00000001
def FLAG_SID : Nat := 0x00000002
def FLAG_RANGE : Nat := 0x00000004
def FLAG_HOST : Nat := 0x00000008
def FLAG_INVALID_REQ : Nat := 0x00000040
def FLAG_HTML : Nat := 0x00000080
def FLAG_CHUNKED : Nat := 0x00000100
def FLAG_TIMESEEK : Nat := 0x00000200
def FLAG_REALTIMEINFO : Nat := 0x00000400
def FLAG_PLAYSPEED : Nat := 0x00000800
def FLAG_XFERSTREAMING : Nat := 0x00001000
def FLAG_XFERINTERACTIVE : Nat := 0x00002000
def FLAG_XFERBACKGROUND : Nat := 0x00004000
def FLAG_CAPTION : Nat := 0x00008000

/-- The request part of `struct upnphttp`; a null pointer is `none`. -/
structure upnphttp where
  iface : Int
  req_command : HttpCommands
  path : List Char
  data_len : Int
  reqflags : Nat
  req_soap_action : Option SoapAction
  remote_dirpath : Option (List Char)
  starting_index : Nat
  requested_count : Int
  req_callback : Option (List Char)
  req_nt : Option (List Char)
  req_timeout : Int
  req_sid : Option (List Char)
  req_range_start : Int
  req_range_end : Int
  respflags : Nat
  deriving DecidableEq

/-- The function `init_upnphttp_struct`: everything is zero but `iface` and
`requested_count`. -/
def init_upnphttp_struct (iface : Int) : upnphttp :=
  { iface := iface, req_command := HttpCommands.EUnknown, path := [], data_len := 0,
    reqflags := 0, req_soap_action := none, remote_dirpath := none, starting_index := 0,
    requested_count := -1, req_callback := none, req_nt := none, req_timeout := 0,
    req_sid := none, req_range_start := 0, req_range_end := 0, respflags := 0 }

/-- The global configuration read by the HTTP front end: `listening_port` and the
`str` fields of `lan_addr`. -/
structure Config where
  listening_port : Int
  lan_addr_str : Nat → List Char

/-- The function `get_interface_ip_str` of `getifaddr.c`. -/
def get_interface_ip_str (cfg : Config) (iface : Int) : List Char :=
  if iface = -1 then "127.0.0.1".toList else cfg.lan_addr_str iface.toNat

/-! ## upnphttp.c : parse_http_header -/

/-- The string `expected_host` built in the `Host` branch of `parse_http_header`. -/
def expected_host (cfg : Config) (iface : Int) : List Char :=
  if cfg.listening_port = 80 then strxcpy (get_interface_ip_str cfg iface) 30
  else snprintf_buf 30 (get_interface_ip_str cfg iface ++ ':' :: sprintf_d cfg.listening_port)

/-- The method name taken from a `SOAPAction` value: the text after the first `#`, up to
the first quote. -/
def soap_method (value : List Char) : List Char :=
  let v := match value.dropWhile (· ≠ '#') with
    | [] => value
    | _ :: t => t
  v.takeWhile (fun c => c ≠ APOS ∧ c ≠ QUOT)

/-- The statement `h->reqflags |= flag;`. -/
def set_reqflag (h : upnphttp) (flag : Nat) : upnphttp :=
  { h with reqflags := h.reqflags ||| flag }

/-- The `Content-Length` branch of `parse_http_header`. -/
def header_content_length (h : upnphttp) (value : List Char) : upnphttp :=
  { h with data_len := if atoi value < 0 then 0 else atoi value }

/-- The `SOAPAction` branch of `parse_http_header`. -/
def header_soap_action (h : upnphttp) (value : List Char) : upnphttp :=
  -- urn:schemas-upnp-org:service:ContentDirectory:1#Browse
  if soap_method value = "Browse".toList then
    { h with req_soap_action := some SoapAction.browse_content_directory }
  else if soap_method value = "Search".toList then
    { h with req_soap_action := some SoapAction.unsupported_soap_action }
  else if soap_method value = "GetSearchCapabilities".toList then
    { h with req_soap_action := some SoapAction.get_search_capabilities }
  else if soap_method value = "GetSortCapabilities".toList then
    { h with req_soap_action := some SoapAction.get_sort_capabilities }
  else if soap_method value = "GetProtocolInfo".toList then
    { h with req_soap_action := some SoapAction.get_protocol_info }
  else { h with req_soap_action := some SoapAction.invalid_soap_action }

/-- The `Callback` branch of `parse_http_header`; the value is the string at offset `i`
of the line buffer `buf`. -/
def header_callback (h : upnphttp) (buf : List Char) (i : Nat) (len : Int) : upnphttp :=
  if len ≥ 2 ∧ rd buf i = '<' ∧ rd buf (i + (len - 1).toNat) = '>' then
    { h with req_callback := some (cstr_at (buf.set (i + (len - 1).toNat) NUL) (i + 1)) }
  else { h with req_callback := some (cstr_at buf i) }

/-- The `Timeout` branch of `parse_http_header` (`Timeout: Second-nnnn`). -/
def header_timeout (h : upnphttp) (value : List Char) : upnphttp :=
  if strncasecmp_eq value "Second-".toList 7 then { h with req_timeout := atoi (value.drop 7) }
  else h

/-- The expression `*value != '\0' ? atoll(value + 1) : 0` of the `Range` branch, where
`value` is the end pointer left by `strtoll`. -/
def range_end_of (value : List Char) : Int :=
  if value ≠ [] then atoll (value.drop 1) else 0

/-- The `Range` branch of `parse_http_header` (`Range: bytes=xxx-yyy`). -/
def header_range (h : upnphttp) (value : List Char) : upnphttp :=
  if strncasecmp_eq value "bytes=".toList 6 then
    { h with
      reqflags := h.reqflags ||| FLAG_RANGE,
      req_range_start := (strtoll (value.drop 6)).1,
      req_range_end := range_end_of (strtoll (value.drop 6)).2 }
  else h

/-- The `Host` branch of `parse_http_header`: be strict on the host header to prevent DNS
rebinding attacks; host should be present and match the listening interface. -/
def header_host (cfg : Config) (h : upnphttp) (value : List Char) : upnphttp :=
  if strncmp_eq_n (expected_host cfg h.iface) value 30 then set_reqflag h FLAG_HOST else h

/-- The `transferMode.dlna.org` branch of `parse_http_header`. -/
def header_transfer_mode (h : upnphttp) (value : List Char) : upnphttp :=
  if strcasecmp_eq value "Streaming".toList then set_reqflag h FLAG_XFERSTREAMING
  else if strcasecmp_eq value "Interactive".toList then set_reqflag h FLAG_XFERINTERACTIVE
  else if strcasecmp_eq value "Background".toList then set_reqflag h FLAG_XFERBACKGROUND
  else h

/-- The function `parse_http_header(h, name, value, len)`, where `name` is the string at
the start of the line buffer `buf` and `value` the string at its offset `i`. -/
def parse_http_header (cfg : Config) (h : upnphttp) (buf : List Char) (i : Nat) (len : Int) :
    upnphttp :=
  if strcasecmp_eq (cstr_at buf 0) "Content-Length".toList then
    header_content_length h (cstr_at buf i)
  else if strcasecmp_eq (cstr_at buf 0) "SOAPAction".toList then
    header_soap_action h (cstr_at buf i)
  else if strcasecmp_eq (cstr_at buf 0) "Callback".toList then
    header_callback h buf i len
  else if strcasecmp_eq (cstr_at buf 0) "SID".toList then
    { h with req_sid := some (cstr_at buf i) }
  else if strncasecmp_eq (cstr_at buf 0) "NT".toList 2 then
    { h with req_nt := some (cstr_at buf i) }
  else if strncasecmp_eq (cstr_at buf 0) "Timeout".toList 7 then
    header_timeout h (cstr_at buf i)
  else if strncasecmp_eq (cstr_at buf 0) "Range".toList 5 then
    header_range h (cstr_at buf i)
  else if strcasecmp_eq (cstr_at buf 0) "Host".toList then
    header_host cfg h (cstr_at buf i)
  else if strcasecmp_eq (cstr_at buf 0) "Transfer-Encoding".toList then
    if strcasecmp_eq (cstr_at buf i) "chunked".toList then set_reqflag h FLAG_CHUNKED else h
  else if strcasecmp_eq (cstr_at buf 0) "TimeSeekRange.dlna.org".toList then
    set_reqflag h FLAG_TIMESEEK
  else if strcasecmp_eq (cstr_at buf 0) "PlaySpeed.dlna.org".toList then
    set_reqflag h FLAG_PLAYSPEED
  else if strcasecmp_eq (cstr_at buf 0) "realTimeInfo.dlna.org".toList then
    set_reqflag h FLAG_REALTIMEINFO
  else if strcasecmp_eq (cstr_at buf 0) "getcontentFeatures.dlna.org".toList then
    if ¬ strcasecmp_eq (cstr_at buf i) "1".toList then set_reqflag h FLAG_INVALID_REQ else h
  else if strcasecmp_eq (cstr_at buf 0) "getAvailableSeekRange.dlna.org".toList then
    if ¬ strcasecmp_eq (cstr_at buf i) "1".toList then set_reqflag h FLAG_INVALID_REQ else h
  else if strcasecmp_eq (cstr_at buf 0) "transferMode.dlna.org".toList then
    header_transfer_mode h (cstr_at buf i)
  else if strcasecmp_eq (cstr_at buf 0) "getCaptionInfo.sec".toList then
    set_reqflag h FLAG_CAPTION
  else h

/-! ## xmlregex.c : process_name_value_pair -/

/-- The function `process_name_value_pair` of `xmlregex.c`. -/
def process_name_value_pair (h : upnphttp) (name value : List Char) : upnphttp :=
  let h1 :=
    if name = "ObjectID".toList ∨ name = "ContainerID".toList then
      { h with remote_dirpath := some value }
    else if name = "StartingIndex".toList then
      if atoi value > 0 then { h with starting_index := (atoi value).toNat } else h
    else h
  if name = "RequestedCount".toList then { h1 with requested_count := atoi value } else h1

/-- The effect of `process_post_content` on the request, given the name/value pairs that
its scanner finds in the body, in the order in which it finds them. -/
def process_post_content_pairs (h : upnphttp) (pairs : List (List Char × List Char)) :
    upnphttp :=
  pairs.foldl (fun h nv => process_name_value_pair h nv.1 nv.2) h

/-! ## upnphttp.c : readline and the header loop of process_upnphttp_http_query -/

/-- The carriage return. -/
def CR : Char := Char.ofNat 13

/-- The line feed. -/
def LF : Char := Char.ofNat 10

/-- The function `readline(fd, buf, limit)` reading the bytes `input` that the socket
delivers; `acc` holds the bytes stored so far.  The result is the return value (the length
of the line, or -1), the line stored in `buf` and the bytes left in the socket. -/
def readline (limit : Nat) : List Char → List Char → Int × List Char × List Char
  | [], acc => (-1, acc, [])
  | c :: rest, acc =>
    if acc.length < limit then
      if c = CR then
        match rest with
        | [] => (-1, acc, [])
        | next :: rest' => if next = LF then ((acc.length : Int), acc, rest') else (-1, acc, rest')
      else readline limit rest (acc ++ [c])
    else (-1, acc, c :: rest)

/-- The loop `while (buf[l - 1] == ' ') buf[--l] = '\0';`; the result is `none` when the
loop would read `buf[-1]`. -/
def trim_end : List Char → Nat → Option (List Char × Nat)
  | _, 0 => none
  | buf, l + 1 => if rd buf l = ' ' then trim_end (buf.set l NUL) l else some (buf, l + 1)

/-- The loop `while (i < l && buf[i] != ':' && buf[i] != ' ') i++;`. -/
def skip_token : Nat → List Char → Nat → Nat → Option Nat
  | 0, _, _, _ => none
  | fuel + 1, buf, i, l =>
    if i < l ∧ rd buf i ≠ ':' ∧ rd buf i ≠ ' ' then skip_token fuel buf (i + 1) l else some i

/-- The loop `while (buf[i] == ' ') buf[i++] = '\0';`. -/
def zero_spaces : Nat → List Char → Nat → Option (List Char × Nat)
  | 0, _, _ => none
  | fuel + 1, buf, i =>
    if rd buf i = ' ' then zero_spaces fuel (buf.set i NUL) (i + 1) else some (buf, i)

/-- What the body of the header loop does with a line: `skip` stands for `continue`,
`field buf i l` for the call `parse_http_header(h, &buf[0], &buf[i], l)`. -/
inductive HeaderLine
  | skip
  | field (buf : List Char) (i : Nat) (l : Int)
  deriving DecidableEq

/-- The body of the header loop of `process_upnphttp_http_query` up to the call of
`parse_http_header`, for a line of length `len` stored in `buf`. -/
def split_header_line (buf : List Char) (len : Nat) : Option HeaderLine :=
  -- check there's some name
  if rd buf 0 = ' ' ∨ rd buf 0 = ':' then some HeaderLine.skip
  else
    -- trim at the end
    match trim_end buf len with
    | none => none
    | some (buf, l) =>
      -- trim first token
      match skip_token (l + 1) buf 0 l with
      | none => none
      | some i =>
        -- skip whitespace
        match zero_spaces (buf.length + 1) buf i with
        | none => none
        | some (buf, i) =>
          -- check there's a colon
          if rd buf i ≠ ':' then some HeaderLine.skip
          else
            -- skip more whitespace
            match zero_spaces (buf.length + 1) (buf.set i NUL) (i + 1) with
            | none => none
            | some (buf, i) => some (HeaderLine.field buf i ((l : Int) - (i : Int)))

/-- The header loop `while (header_no < 20 && (len = readline(...)) > 0) { ... }`; the
result is the final `len`, the request and the bytes left in the socket. -/
def read_headers (cfg : Config) :
    Nat → Nat → upnphttp → List Char → Int → Option (Int × upnphttp × List Char)
  | 0, _, _, _, _ => none
  | fuel + 1, header_no, h, input, len =>
    if header_no < 20 then
      if (readline 1024 input []).1 > 0 then
        match split_header_line (readline 1024 input []).2.1 (readline 1024 input []).1.toNat with
        | none => none
        | some HeaderLine.skip =>
          read_headers cfg fuel header_no h (readline 1024 input []).2.2
            (readline 1024 input []).1
        | some (HeaderLine.field buf i l) =>
          read_headers cfg fuel (header_no + 1) (parse_http_header cfg h buf i l)
            (readline 1024 input []).2.2 (readline 1024 input []).1
      else some ((readline 1024 input []).1, h, (readline 1024 input []).2.2)
    else some (len, h, input)

/-- The `(name, value)` pairs with which the header loop calls `parse_http_header`. -/
def parsed_headers : Nat → Nat → List Char → List (List Char × List Char)
  | 0, _, _ => []
  | fuel + 1, header_no, input =>
    if header_no < 20 then
      if (readline 1024 input []).1 > 0 then
        match split_header_line (readline 1024 input []).2.1 (readline 1024 input []).1.toNat with
        | none => []
        | some HeaderLine.skip => parsed_headers fuel header_no (readline 1024 input []).2.2
        | some (HeaderLine.field buf i _) =>
          (cstr_at buf 0, cstr_at buf i)
            :: parsed_headers fuel (header_no + 1) (readline 1024 input []).2.2
      else []
    else []

/-- How `process_upnphttp_http_query` ends once the request line has been accepted: with
an error response, or by reaching the `switch (h->req_command)` that dispatches the
request to its handler. -/
inductive Outcome
  | respond (code : HttpResponseCode)
  | dispatch (h : upnphttp)
  deriving DecidableEq

/-- The request that is dispatched, if any. -/
def Outcome.dispatched : Outcome → Option upnphttp
  | Outcome.respond _ => none
  | Outcome.dispatch h => some h

/-- The part of `process_upnphttp_http_query` that follows the request line: the header
loop, the reading of the body and the gate checks.  `h` is the request after the request
line (`len` being the length of that line), `input` the bytes that follow it and `pairs`
the name/value pairs that `process_post_content` finds in the body. -/
def process_headers_and_gate (cfg : Config) (h : upnphttp) (input : List Char) (len : Int)
    (pairs : List (List Char × List Char)) : Option Outcome :=
  match read_headers cfg (input.length + 1) 0 h input len with
  | none => none
  | some (len, h, _) =>
    if len < 0 then some (Outcome.respond HttpResponseCode.HTTP_BAD_REQUEST_400)
    -- legitimate http requests should be fairly small so reject anything too big
    else if h.data_len > 2048 then some (Outcome.respond HttpResponseCode.HTTP_BAD_REQUEST_400)
    else
      let h := if h.data_len > 0 ∨ h.reqflags &&& FLAG_CHUNKED ≠ 0
        then process_post_content_pairs h pairs else h
      -- Be strict on host header to prevent DNS rebinding attacks
      if h.reqflags &&& FLAG_HOST = 0 then
        some (Outcome.respond HttpResponseCode.HTTP_BAD_REQUEST_400)
      else if h.reqflags &&& FLAG_INVALID_REQ ≠ 0 then
        some (Outcome.respond HttpResponseCode.HTTP_BAD_REQUEST_400)
      else if h.reqflags &&& (FLAG_TIMESEEK ||| FLAG_PLAYSPEED) ≠ 0
          ∧ h.reqflags &&& FLAG_RANGE = 0 then
        some (Outcome.respond HttpResponseCode.HTTP_NOT_ACCEPTABLE_406)
      else some (Outcome.dispatch h)

/-- A sample configuration: port 2800, every interface at 192.168.1.5. -/
def sample_config : Config := { listening_port := 2800, lan_addr_str := fun _ => "192.168.1.5".toList }

/-- A request after the request line `GET /rootDesc.xml HTTP/1.1` on interface 0. -/
def sample_get : upnphttp :=
  { init_upnphttp_struct 0 with req_command := HttpCommands.EGet, path := "/rootDesc.xml".toList }

/-- The header lines of a request, each ended by CR LF, followed by the empty line. -/
def header_block (lines : List (List Char)) : List Char :=
  (lines.map (fun l => l ++ [CR, LF])).flatten ++ [CR, LF]

/-- The text `<ip of the accepting interface>:<listening port>`, or just the ip when the
listening port is 80, with the port in decimal. -/
def host_text (cfg : Config) (iface : Int) : List Char :=
  if cfg.listening_port = 80 then get_interface_ip_str cfg iface
  else get_interface_ip_str cfg iface ++ ":".toList ++ (Nat.repr cfg.listening_port.toNat).toList

/-! ## upnphttp.c : serve_file -/

/-- Modelled from the spec: the header `mime.h` is missing; the major class of a MIME
type is one of video, audio, image and text (`enum MimeType`, as `mime.c` uses it). -/
inductive MimeType
  | M_VIDEO | M_AUDIO | M_IMAGE | M_TEXT
  deriving DecidableEq, Repr

/-- Modelled from the spec: the header `mime.h` is missing; an entry of the extension
table carries the extension, the major class and the subtype (`struct ext_info`, as the
initialisers of `mime.c` fill it). -/
structure ext_info where
  ext : List Char
  type : MimeType
  sub_type : List Char
  deriving DecidableEq

/-- What the file system and `get_mime_type` report for a path: whether `stat` succeeds,
whether the file is regular, whether `open` succeeds, the size found by `lseek`, the
result of `get_mime_type` and whether `setpriority` succeeds. -/
structure FileEnv where
  stat_ok : Bool
  is_reg : Bool
  open_ok : Bool
  size : Int
  mime : Option ext_info
  setpriority_ok : Bool

/-- The conversion of an `off_t` to `int` in `int start = h->req_range_start;`. -/
def to_int32 (v : Int) : Int := (v + 2 ^ 31) % 2 ^ 32 - 2 ^ 31

/-- The conversion of an `int` to the `size_t` parameter `end_offset` of `send_file`. -/
def to_size_t (v : Int) : Int := v % 2 ^ 64

/-- How `serve_file` ends: with an error response, or with the headers of the file
(status, transfer mode, `Content-Length`, `Content-Range` when ranged, the DLNA flags)
and, unless the request is a HEAD, the call `send_file(fd, sendfh, start, end)`. -/
inductive ServeResult
  | error (code : HttpResponseCode)
  | served (status : Nat) (tmode : List Char) (content_length : Int)
      (content_range : Option (Int × Int × Int)) (dlna_flags : Nat)
      (send_file_args : Option (Int × Int))
  deriving DecidableEq

def DLNA_FLAG_DLNA_V1_5 : Nat := 0x00100000
def DLNA_FLAG_HTTP_STALLING : Nat := 0x00200000
def DLNA_FLAG_TM_B : Nat := 0x00400000
def DLNA_FLAG_TM_I : Nat := 0x00800000
def DLNA_FLAG_TM_S : Nat := 0x01000000

/-- The part of `serve_file` that follows the transfer-mode check: the choice of the
transfer mode, the range check, the headers and the hand-over to `send_file`.  (The
`CaptionInfo.sec` header is left out.) -/
def serve_file_range (h : upnphttp) (size : Int) (mime : ext_info) (setpriority_ok : Bool) :
    ServeResult :=
  let tmode :=
    if h.reqflags &&& FLAG_XFERBACKGROUND ≠ 0 ∧ setpriority_ok then "Background".toList
    else if mime.type = MimeType.M_IMAGE then "Interactive".toList
    else "Streaming".toList
  let dlna_flags := DLNA_FLAG_DLNA_V1_5 ||| DLNA_FLAG_HTTP_STALLING ||| DLNA_FLAG_TM_B
    ||| (if mime.type = MimeType.M_IMAGE then DLNA_FLAG_TM_I else DLNA_FLAG_TM_S)
  if h.reqflags &&& FLAG_RANGE ≠ 0 then
    let req_range_end := if h.req_range_end = 0 then size - 1 else h.req_range_end
    if h.req_range_start > req_range_end ∨ h.req_range_start < 0 then
      ServeResult.error HttpResponseCode.HTTP_BAD_REQUEST_400
    else if req_range_end ≥ size then
      ServeResult.error HttpResponseCode.HTTP_INVALID_RANGE_416
    else
      ServeResult.served 206 tmode (req_range_end - h.req_range_start + 1)
        (some (h.req_range_start, req_range_end, size)) dlna_flags
        (if h.req_command ≠ HttpCommands.EHead then
          some (to_int32 h.req_range_start, to_size_t (to_int32 req_range_end))
         else none)
  else
    ServeResult.served 200 tmode size none dlna_flags
      (if h.req_command ≠ HttpCommands.EHead then
        some (to_int32 h.req_range_start, to_size_t (to_int32 (size - 1)))
       else none)

/-- The function `serve_file` of `upnphttp.c`; `fs` tells what the file system reports
for the sanitised path. -/
def serve_file (h : upnphttp) (fs : List Char → FileEnv) : Option ServeResult :=
  match url_unescape h.path with
  | none => none
  | some path =>
    match sanitise_path path with
    | none => none
    | some (false, _) => some (ServeResult.error HttpResponseCode.HTTP_NOT_ACCEPTABLE_406)
    | some (true, path) =>
      if ¬ (fs path).stat_ok then
        some (ServeResult.error HttpResponseCode.HTTP_PAGE_NOT_FOUND_404)
      else if ¬ (fs path).is_reg then
        some (ServeResult.error HttpResponseCode.HTTP_FORBIDDEN_403)
      else if ¬ (fs path).open_ok then
        some (ServeResult.error HttpResponseCode.HTTP_PAGE_NOT_FOUND_404)
      else
        match (fs path).mime with
        | none => some (ServeResult.error HttpResponseCode.HTTP_NOT_ACCEPTABLE_406)
        | some mime =>
          if h.reqflags &&& FLAG_XFERSTREAMING ≠ 0 then
            if mime.type = MimeType.M_IMAGE then
              some (ServeResult.error HttpResponseCode.HTTP_NOT_ACCEPTABLE_406)
            else some (serve_file_range h (fs path).size mime (fs path).setpriority_ok)
          else if h.reqflags &&& FLAG_XFERINTERACTIVE ≠ 0 then
            if h.reqflags &&& FLAG_REALTIMEINFO ≠ 0 then
              some (ServeResult.error HttpResponseCode.HTTP_BAD_REQUEST_400)
            else if mime.type = MimeType.M_IMAGE then
              some (ServeResult.error HttpResponseCode.HTTP_NOT_ACCEPTABLE_406)
            else some (serve_file_range h (fs path).size mime (fs path).setpriority_ok)
          else some (serve_file_range h (fs path).size mime (fs path).setpriority_ok)

/-- The number of the status line of the answer. -/
def HttpResponseCode.number : HttpResponseCode → Nat
  | HttpResponseCode.HTTP_OK_200 => 200
  | HttpResponseCode.HTTP_BAD_REQUEST_400 => 400
  | HttpResponseCode.HTTP_FORBIDDEN_403 => 403
  | HttpResponseCode.HTTP_PAGE_NOT_FOUND_404 => 404
  | HttpResponseCode.HTTP_NOT_ACCEPTABLE_406 => 406
  | HttpResponseCode.HTTP_PRECONDITION_FAILED_412 => 412
  | HttpResponseCode.HTTP_INVALID_RANGE_416 => 416
  | HttpResponseCode.HTTP_INTERNAL_ERROR_500 => 500
  | HttpResponseCode.HTTP_NOT_IMPLEMENTED_501 => 501
  | HttpResponseCode.HTTP_SERVICE_UNAVAILABLE_503 => 503

/-- The status with which `serve_file` answers. -/
def ServeResult.status : ServeResult → Nat
  | ServeResult.error code => code.number
  | ServeResult.served status _ _ _ _ _ => status

/-- The `Content-Length` header of the answer of `serve_file`, when it serves the file. -/
def ServeResult.content_length : ServeResult → Option Int
  | ServeResult.error _ => none
  | ServeResult.served _ _ len _ _ _ => some len

/-- The `Content-Range: bytes start-end/size` header of the answer of `serve_file`. -/
def ServeResult.content_range : ServeResult → Option (Int × Int × Int)
  | ServeResult.error _ => none
  | ServeResult.served _ _ _ range _ _ => range

/-- A file system in which every path is a regular file of `size` bytes with the MIME
type video/mp4. -/
def sample_fs (size : Int) : List Char → FileEnv := fun _ =>
  { stat_ok := true, is_reg := true, open_ok := true, size := size,
    mime := some { ext := "mp4".toList, type := MimeType.M_VIDEO, sub_type := "mp4".toList },
    setpriority_ok := true }

/-- A GET of `/MediaItems/clip.mp4` as `serve_file` receives it, with a `Range` header
of the given value. -/
def sample_range_get (value : List Char) : upnphttp :=
  header_range { sample_get with path := "/clip.mp4".toList } value

/-! ## dirlist.c : get_directory_listing -/

/-- Modelled from the spec: the header `dirlist.h` is missing; the kind of a content
entry, directory or file, directories being the smaller kind (`T_DIR`, `T_FILE`). -/
inductive filetype
  | T_DIR | T_FILE
  deriving DecidableEq, Repr

/-- The integer value of a kind. -/
def filetype.toInt : filetype → Int
  | filetype.T_DIR => 0
  | filetype.T_FILE => 1

/-- Modelled from the spec: the header `dirlist.h` is missing; a content entry carries its
kind, its size in bytes, the MIME entry of a file and its name (`content_entry`, as
`get_directory_listing` fills it). -/
structure content_entry where
  type : filetype
  size : Nat
  mime : Option ext_info
  name : List Char
  deriving DecidableEq

/-- What `readdir`, `fstatat`, `faccessat` and `get_mime_type` report for one entry of an
open directory. -/
structure dirent where
  d_name : List Char
  fstatat_ok : Bool
  is_dir : Bool
  is_reg : Bool
  faccessat_ok : Bool
  st_size : Nat
  mime : Option ext_info

/-- The media directory as `get_directory_listing` sees it: whether `chdir_to_media_dir`
succeeds, and what `opendir` and `readdir` deliver for a relative path. -/
structure MediaDir where
  chdir_ok : Bool
  opendir : List Char → Option (List dirent)

/-- The function `strcasecmp` (C locale): the difference of the first two bytes that
differ once lowered. -/
def strcasecmp : List Char → List Char → Int
  | [], [] => 0
  | [], b :: _ => 0 - (b.toLower.toNat : Int)
  | a :: _, [] => (a.toLower.toNat : Int)
  | a :: s, b :: t =>
    if a.toLower = b.toLower then strcasecmp s t
    else (a.toLower.toNat : Int) - (b.toLower.toNat : Int)

/-- The function `content_entry_compare` of `dirlist.c`. -/
def content_entry_compare (a b : content_entry) : Int :=
  if a.type ≠ b.type then a.type.toInt - b.type.toInt
  else strcasecmp a.name b.name

/-- The body of the `readdir` loop of `get_directory_listing`: the entry that is kept for
a directory entry, if any. -/
def keep_entry (de : dirent) : Option content_entry :=
  if rd de.d_name 0 = '.' ∨ rd de.d_name 0 = '$' then none
  else if de.fstatat_ok = false then none
  else if de.is_dir then
    if de.faccessat_ok = false then none
    else some { type := filetype.T_DIR, size := 0, mime := none,
                name := strxcpy de.d_name (de.d_name.length + 1) }
  else if de.is_reg then
    match de.mime with
    | none => none
    | some m => some { type := filetype.T_FILE, size := de.st_size, mime := some m,
                       name := strxcpy de.d_name (de.d_name.length + 1) }
  else none

/-- The order that `qsort` gives with `content_entry_compare`. -/
def qsort_entries (entries : List content_entry) : List content_entry :=
  entries.insertionSort (fun a b => content_entry_compare a b ≤ 0)

/-- How `get_directory_listing` ends: with an error response and no listing, or with the
entries it returns, the request as it leaves it and `*file_count`. -/
inductive ListingResult
  | error (code : HttpResponseCode)
  | listing (h : upnphttp) (entries : List content_entry) (file_count : Nat)
  deriving DecidableEq

/-- The function `get_directory_listing` of `dirlist.c`, `remote_dirpath` being the
string that `h->remote_dirpath` points to. -/
def get_directory_listing (h : upnphttp) (remote_dirpath : List Char) (md : MediaDir) :
    Option ListingResult :=
  match sanitise_path remote_dirpath with
  | none => none
  | some (false, _) => some (ListingResult.error HttpResponseCode.HTTP_FORBIDDEN_403)
  | some (true, dirpath) =>
    let rel_dir := if rd dirpath 0 = NUL then ".".toList else dirpath
    if md.chdir_ok = false then
      some (ListingResult.error HttpResponseCode.HTTP_SERVICE_UNAVAILABLE_503)
    else
      match md.opendir rel_dir with
      | none => some (ListingResult.error HttpResponseCode.HTTP_SERVICE_UNAVAILABLE_503)
      | some des =>
        let entries := qsort_entries (des.filterMap keep_entry)
        let file_count := entries.length
        let starting_index := if h.starting_index ≥ file_count then 0 else h.starting_index
        let requested_count : Int :=
          if h.starting_index ≥ file_count then 0 else h.requested_count
        let requested_count : Int :=
          if requested_count = -1
              ∨ ((starting_index : Int) + requested_count) % 2 ^ 32 > (file_count : Int) then
            to_int32 ((file_count : Int) - (starting_index : Int))
          else requested_count
        some (ListingResult.listing
          { h with remote_dirpath := some dirpath, starting_index := starting_index,
                   requested_count := requested_count }
          ((entries.drop starting_index).take requested_count.toNat) file_count)

/-! ## upnpsoap.c : print_xml_directory_listing, browse_content_directory -/

/-- The function `mime_type_to_text` of `mime.c`. -/
def mime_type_to_text : MimeType → List Char
  | MimeType.M_VIDEO => "video".toList
  | MimeType.M_AUDIO => "audio".toList
  | MimeType.M_IMAGE => "image".toList
  | MimeType.M_TEXT => "text".toList

/-- The macro `CONTENT_DIRECTORY_SCHEMAS`. -/
def CONTENT_DIRECTORY_SCHEMAS : List Char :=
  " xmlns:dc=".toList ++ [QUOT] ++ "http://purl.org/dc/elements/1.1/".toList ++ [QUOT]
    ++ " xmlns:upnp=".toList ++ [QUOT] ++ "urn:schemas-upnp-org:metadata-1-0/upnp/".toList
    ++ [QUOT] ++ " xmlns=".toList ++ [QUOT]
    ++ "urn:schemas-upnp-org:metadata-1-0/DIDL-Lite/".toList ++ [QUOT]

/-- The string `beforebody`. -/
def beforebody : List Char :=
  "<?xml version=".toList ++ [QUOT] ++ "1.0".toList ++ [QUOT] ++ " encoding=".toList ++ [QUOT]
    ++ "utf-8".toList ++ [QUOT] ++ "?>".toList ++ [LF] ++ "<s:Envelope xmlns:s=".toList
    ++ [QUOT] ++ "http://schemas.xmlsoap.org/soap/envelope/".toList ++ [QUOT]
    ++ " s:encodingStyle=".toList ++ [QUOT]
    ++ "http://schemas.xmlsoap.org/soap/encoding/".toList ++ [QUOT] ++ "><s:Body>".toList

/-- The string `afterbody`. -/
def afterbody : List Char :=
  "</s:Body></s:Envelope>".toList ++ [LF]

/-- The string `listening_port_str` of `print_xml_directory_listing`: empty for port 80,
otherwise what `snprintf(listening_port_str, 6, ":%d", listening_port)` leaves. -/
def listening_port_str (cfg : Config) : List Char :=
  if cfg.listening_port = 80 then []
  else snprintf_buf 6 (':' :: sprintf_d cfg.listening_port)

/-- The text of a directory entry in the listing. -/
def print_container (xml_escaped_dirpath xml_escaped_filename : List Char) : List Char :=
  "&lt;container id=".toList ++ [QUOT] ++ xml_escaped_dirpath ++ "/".toList
    ++ xml_escaped_filename ++ [QUOT] ++ " parentID=".toList ++ [QUOT] ++ xml_escaped_dirpath
    ++ [QUOT] ++ " restricted=".toList ++ [QUOT] ++ "1".toList ++ [QUOT]
    ++ " searchable=".toList ++ [QUOT] ++ "0".toList ++ [QUOT] ++ "&gt;&lt;dc:title&gt;".toList
    ++ xml_escaped_filename
    ++ "&lt;/dc:title&gt;&lt;upnp:class&gt;object.container.storageFolder&lt;/upnp:class&gt;&lt;upnp:storageUsed&gt; -1 &lt;/upnp:storageUsed&gt;&lt;/container&gt;".toList

/-- The text of a file entry up to and including the `protocolInfo` attribute and the
`&gt;` that closes the opening `res` tag. -/
def print_item_head (xml_escaped_dirpath xml_escaped_filename : List Char)
    (entry : content_entry) : List Char :=
  let type := match entry.mime with
    | some m => mime_type_to_text m.type
    | none => []
  let sub_type := match entry.mime with
    | some m => m.sub_type
    | none => []
  "&lt;item id=".toList ++ [QUOT] ++ xml_escaped_dirpath ++ "/".toList ++ xml_escaped_filename
    ++ [QUOT] ++ " parentID=".toList ++ [QUOT] ++ xml_escaped_dirpath ++ [QUOT]
    ++ " restricted=".toList ++ [QUOT] ++ "1".toList ++ [QUOT] ++ "&gt;&lt;dc:title&gt;".toList
    ++ xml_escaped_filename ++ "&lt;/dc:title&gt;&lt;upnp:class&gt;object.item.".toList ++ type
    ++ "Item&lt;/upnp:class&gt;".toList ++ "&lt;res size=".toList ++ [QUOT]
    ++ Nat.toDigits 10 entry.size ++ [QUOT] ++ " ".toList ++ "protocolInfo=".toList ++ [QUOT]
    ++ "http-get:*:".toList ++ type ++ "/".toList ++ sub_type
    ++ ":DLNA.ORG_OP=01;DLNA.ORG_CI=0;DLNA.ORG_FLAGS=01700000000000000000000000000000".toList
    ++ [QUOT] ++ "&gt;".toList

/-- The URL that `print_xml_directory_listing` prints between `&gt;` and `&lt;/res&gt;`
for a file entry: the chunks from `http://` to `url_escaped_filename`. -/
def res_url (cfg : Config) (h : upnphttp) (url_escaped_dirpath name : List Char) :
    List Char :=
  "http://".toList ++ get_interface_ip_str cfg h.iface ++ listening_port_str cfg
    ++ "/MediaItems/".toList ++ url_escaped_dirpath ++ "/".toList ++ url_escape name

/-- One round of the loop of `print_xml_directory_listing`. -/
def print_entry (cfg : Config) (h : upnphttp) (remote_dirpath : List Char)
    (entry : content_entry) : List Char :=
  match entry.type with
  | filetype.T_DIR =>
    print_container (xml_escape_double remote_dirpath) (xml_escape_double entry.name)
  | filetype.T_FILE =>
    print_item_head (xml_escape_double remote_dirpath) (xml_escape_double entry.name) entry
      ++ res_url cfg h (url_escape remote_dirpath) entry.name
      ++ "&lt;/res&gt;&lt;/item&gt;".toList

/-- The body that `print_xml_directory_listing` sends, `remote_dirpath` being the string
that `h->remote_dirpath` points to. -/
def print_xml_directory_listing (cfg : Config) (h : upnphttp) (remote_dirpath : List Char)
    (entries : List content_entry) (number_returned : Int) (total_matches : Nat) :
    List Char :=
  beforebody
    ++ "<u:BrowseResponse xmlns:u=".toList ++ [QUOT]
    ++ "urn:schemas-upnp-org:service:ContentDirectory:1".toList ++ [QUOT]
    ++ "><Result>&lt;DIDL-Lite".toList ++ CONTENT_DIRECTORY_SCHEMAS ++ "&gt;".toList ++ [LF]
    ++ ((entries.take number_returned.toNat).map (print_entry cfg h remote_dirpath)).flatten
    ++ "&lt;/DIDL-Lite&gt;</Result>".toList ++ [LF] ++ "<NumberReturned>".toList
    ++ Nat.toDigits 10 (number_returned % 2 ^ 32).toNat ++ "</NumberReturned>".toList ++ [LF]
    ++ "<TotalMatches>".toList ++ Nat.toDigits 10 total_matches ++ "</TotalMatches>".toList
    ++ [LF] ++ "<UpdateID>0</UpdateID></u:BrowseResponse>".toList
    ++ afterbody

/-- How `browse_content_directory` ends: with a SOAP error, with the error response of
`get_directory_listing`, or with the listing that `print_xml_directory_listing` sends (the
request as it stands then, the entries listed, the total number of entries and the
body). -/
inductive BrowseResult
  | soap_error (code : Nat)
  | error (code : HttpResponseCode)
  | listing (h : upnphttp) (entries : List content_entry) (total_matches : Nat)
      (body : List Char)
  deriving DecidableEq

/-- The function `browse_content_directory` of `upnpsoap.c`. -/
def browse_content_directory (cfg : Config) (h : upnphttp) (md : MediaDir) :
    Option BrowseResult :=
  let h := if h.requested_count < 1 then { h with requested_count := -1 } else h
  match h.remote_dirpath with
  | none => some (BrowseResult.soap_error 402)
  | some dirpath =>
    let dirpath := if dirpath = "0".toList then [] else dirpath
    match url_unescape dirpath with
    | none => none
    | some dirpath =>
      match xml_unescape dirpath with
      | none => none
      | some dirpath =>
        match get_directory_listing h dirpath md with
        | none => none
        | some (ListingResult.error code) => some (BrowseResult.error code)
        | some (ListingResult.listing h entries total_file_count) =>
          some (BrowseResult.listing h entries total_file_count
            (print_xml_directory_listing cfg h (h.remote_dirpath.getD []) entries
              h.requested_count total_file_count))

/-- The URLs of the files of a listing, as they are printed. -/
def BrowseResult.res_urls (cfg : Config) : BrowseResult → List (List Char)
  | BrowseResult.listing h entries _ _ =>
    (entries.filter (fun e => e.type = filetype.T_FILE)).map
      (fun e => res_url cfg h (url_escape (h.remote_dirpath.getD [])) e.name)
  | _ => []

/-- The path of an `http://` URL: what follows the host and the port. -/
def url_path (url : List Char) : List Char := (url.drop 7).dropWhile (· ≠ '/')

/-- A media directory whose root holds the directories `Music` and `.hidden` and the
files `clip.mp4` (video/mp4, 1,048,576 bytes) and `notes.xyz` (no MIME type). -/
def sample_media_dir : MediaDir :=
  { chdir_ok := true,
    opendir := fun p =>
      if p = ".".toList then
        some [
          { d_name := "clip.mp4".toList, fstatat_ok := true, is_dir := false, is_reg := true,
            faccessat_ok := true, st_size := 1048576,
            mime := some { ext := "mp4".toList, type := MimeType.M_VIDEO,
                           sub_type := "mp4".toList } },
          { d_name := ".hidden".toList, fstatat_ok := true, is_dir := true, is_reg := false,
            faccessat_ok := true, st_size := 4096, mime := none },
          { d_name := "notes.xyz".toList, fstatat_ok := true, is_dir := false, is_reg := true,
            faccessat_ok := true, st_size := 12, mime := none },
          { d_name := "Music".toList, fstatat_ok := true, is_dir := true, is_reg := false,
            faccessat_ok := true, st_size := 4096, mime := none } ]
      else none }

/-- A Browse request for the object `0` with `StartingIndex` 0 and `RequestedCount` 5. -/
def sample_browse : upnphttp :=
  { init_upnphttp_struct 0 with
    req_command := HttpCommands.EPost, remote_dirpath := some "0".toList,
    starting_index := 0, requested_count := 5 }

/-- The request reaches the range check of `serve_file`: its path is accepted by
`sanitise_path` (giving `path`), the file can be examined and opened, is regular, has the
MIME entry `mime`, and the transfer-mode check does not reject it. -/
def passes_file_checks (h : upnphttp) (fs : List Char → FileEnv) (path : List Char)
    (mime : ext_info) : Prop :=
  (∃ u, url_unescape h.path = some u ∧ sanitise_path u = some (true, path))
  ∧ (fs path).stat_ok = true ∧ (fs path).is_reg = true ∧ (fs path).open_ok = true
  ∧ (fs path).mime = some mime
  ∧ (h.reqflags &&& FLAG_XFERSTREAMING ≠ 0 → mime.type ≠ MimeType.M_IMAGE)
  ∧ (h.reqflags &&& FLAG_XFERSTREAMING = 0 → h.reqflags &&& FLAG_XFERINTERACTIVE ≠ 0 →
      h.reqflags &&& FLAG_REALTIMEINFO = 0 ∧ mime.type ≠ MimeType.M_IMAGE)

/-- The start that a `Range: bytes=...` header value gives. -/
def range_start (value : List Char) : Int := (strtoll (value.drop 6)).1

/-- The end that a `Range: bytes=...` header value gives for a file of `size` bytes: an
end of 0 or an absent end is replaced by `size - 1`. -/
def range_end (value : List Char) (size : Int) : Int :=
  if range_end_of (strtoll (value.drop 6)).2 = 0 then size - 1
  else range_end_of (strtoll (value.drop 6)).2

/-- The number that a string of decimal digits denotes. -/
def dec_value (ds : List Char) : Nat :=
  ds.foldl (fun a c => a * 10 + (c.toNat - '0'.toNat)) 0

/-! ## Sample requests for the listings and the media streamer -/

/-- The sample configuration with another listening port. -/
def sample_config_port (port : Int) : Config := { sample_config with listening_port := port }

/-- A file system in which every path is a regular file of `size` bytes with the MIME
type image/jpeg. -/
def sample_image_fs (size : Int) : List Char → FileEnv := fun _ =>
  { stat_ok := true, is_reg := true, open_ok := true, size := size,
    mime := some { ext := "jpg".toList, type := MimeType.M_IMAGE, sub_type := "jpeg".toList },
    setpriority_ok := true }

/-- A GET of `/MediaItems/clip.mp4` as `serve_file` receives it, with a
`transferMode.dlna.org` header of the given value. -/
def sample_transfer_get (value : List Char) : upnphttp :=
  header_transfer_mode { sample_get with path := "/clip.mp4".toList } value

/-! ## mime.c -/

/-- The entries 0 to 21 of the table `types` of `mime.c`. -/
def types_0 : List ext_info :=
  [
    ⟨"3ds".toList, MimeType.M_IMAGE, "x-3ds".toList⟩,
    ⟨"3g2".toList, MimeType.M_VIDEO, "3gpp2".toList⟩,
    ⟨"3gp".toList, MimeType.M_VIDEO, "3gpp".toList⟩,
    ⟨"aac".toList, MimeType.M_AUDIO, "x-aac".toList⟩,
    ⟨"adp".toList, MimeType.M_AUDIO, "adpcm".toList⟩,
    ⟨"aif".toList, MimeType.M_AUDIO, "x-aiff".toList⟩,
    ⟨"aifc".toList, MimeType.M_AUDIO, "x-aiff".toList⟩,
    ⟨"aiff".toList, MimeType.M_AUDIO, "x-aiff".toList⟩,
    ⟨"asf".toList, MimeType.M_VIDEO, "x-ms-asf".toList⟩,
    ⟨"asx".toList, MimeType.M_VIDEO, "x-ms-asf".toList⟩,
    ⟨"au".toList, MimeType.M_AUDIO, "basic".toList⟩,
    ⟨"avi".toList, MimeType.M_VIDEO, "x-msvideo".toList⟩,
    ⟨"bmp".toList, MimeType.M_IMAGE, "bmp".toList⟩,
    ⟨"btif".toList, MimeType.M_IMAGE, "prs.btif".toList⟩,
    ⟨"caf".toList, MimeType.M_AUDIO, "x-caf".toList⟩,
    ⟨"cgm".toList, MimeType.M_IMAGE, "cgm".toList⟩,
    ⟨"cmx".toList, MimeType.M_IMAGE, "x-cmx".toList⟩,
    ⟨"dif".toList, MimeType.M_VIDEO, "x-dv".toList⟩,
    ⟨"djv".toList, MimeType.M_IMAGE, "vnd.djvu".toList⟩,
    ⟨"djvu".toList, MimeType.M_IMAGE, "vnd.djvu".toList⟩,
    ⟨"dra".toList, MimeType.M_AUDIO, "vnd.dra".toList⟩,
    ⟨"dsd".toList, MimeType.M_AUDIO, "x-dsd".toList⟩ ]

/-- The entries 22 to 43 of the table `types` of `mime.c`. -/
def types_1 : List ext_info :=
  [
    ⟨"dts".toList, MimeType.M_AUDIO, "vnd.dts".toList⟩,
    ⟨"dtshd".toList, MimeType.M_AUDIO, "vnd.dts.hd".toList⟩,
    ⟨"dv".toList, MimeType.M_VIDEO, "x-dv".toList⟩,
    ⟨"dvb".toList, MimeType.M_VIDEO, "vnd.dvb.file".toList⟩,
    ⟨"dwg".toList, MimeType.M_IMAGE, "vnd.dwg".toList⟩,
    ⟨"dxf".toList, MimeType.M_IMAGE, "vnd.dxf".toList⟩,
    ⟨"eol".toList, MimeType.M_AUDIO, "vnd.digital-winds".toList⟩,
    ⟨"f4v".toList, MimeType.M_VIDEO, "x-f4v".toList⟩,
    ⟨"fbs".toList, MimeType.M_IMAGE, "vnd.fastbidsheet".toList⟩,
    ⟨"fh".toList, MimeType.M_IMAGE, "x-freehand".toList⟩,
    ⟨"fh4".toList, MimeType.M_IMAGE, "x-freehand".toList⟩,
    ⟨"fh5".toList, MimeType.M_IMAGE, "x-freehand".toList⟩,
    ⟨"fh7".toList, MimeType.M_IMAGE, "x-freehand".toList⟩,
    ⟨"fhc".toList, MimeType.M_IMAGE, "x-freehand".toList⟩,
    ⟨"flac".toList, MimeType.M_AUDIO, "x-flac".toList⟩,
    ⟨"fli".toList, MimeType.M_VIDEO, "x-fli".toList⟩,
    ⟨"flv".toList, MimeType.M_VIDEO, "x-flv".toList⟩,
    ⟨"fpx".toList, MimeType.M_IMAGE, "vnd.fpx".toList⟩,
    ⟨"fst".toList, MimeType.M_IMAGE, "vnd.fst".toList⟩,
    ⟨"fvt".toList, MimeType.M_VIDEO, "vnd.fvt".toList⟩,
    ⟨"g3".toList, MimeType.M_IMAGE, "g3fax".toList⟩,
    ⟨"gif".toList, MimeType.M_IMAGE, "gif".toList⟩ ]

/-- The entries 44 to 65 of the table `types` of `mime.c`. -/
def types_2 : List ext_info :=
  [
    ⟨"h261".toList, MimeType.M_VIDEO, "h261".toList⟩,
    ⟨"h263".toList, MimeType.M_VIDEO, "h263".toList⟩,
    ⟨"h264".toList, MimeType.M_VIDEO, "h264".toList⟩,
    ⟨"ico".toList, MimeType.M_IMAGE, "x-icon".toList⟩,
    ⟨"ief".toList, MimeType.M_IMAGE, "ief".toList⟩,
    ⟨"jp2".toList, MimeType.M_IMAGE, "jp2".toList⟩,
    ⟨"jpe".toList, MimeType.M_IMAGE, "jpeg".toList⟩,
    ⟨"jpeg".toList, MimeType.M_IMAGE, "jpeg".toList⟩,
    ⟨"jpg".toList, MimeType.M_IMAGE, "jpeg".toList⟩,
    ⟨"jpgm".toList, MimeType.M_VIDEO, "jpm".toList⟩,
    ⟨"jpgv".toList, MimeType.M_VIDEO, "jpeg".toList⟩,
    ⟨"jpm".toList, MimeType.M_VIDEO, "jpm".toList⟩,
    ⟨"kar".toList, MimeType.M_AUDIO, "midi".toList⟩,
    ⟨"ktx".toList, MimeType.M_IMAGE, "ktx".toList⟩,
    ⟨"lvp".toList, MimeType.M_AUDIO, "vnd.lucent.voice".toList⟩,
    ⟨"m1v".toList, MimeType.M_VIDEO, "mpeg".toList⟩,
    ⟨"m2a".toList, MimeType.M_AUDIO, "mpeg".toList⟩,
    ⟨"m2v".toList, MimeType.M_VIDEO, "mpeg".toList⟩,
    ⟨"m3a".toList, MimeType.M_AUDIO, "mpeg".toList⟩,
    ⟨"m3u".toList, MimeType.M_AUDIO, "x-mpegurl".toList⟩,
    ⟨"m4a".toList, MimeType.M_AUDIO, "mp4a-latm".toList⟩,
    ⟨"m4p".toList, MimeType.M_AUDIO, "mp4a-latm".toList⟩ ]

/-- The entries 66 to 87 of the table `types` of `mime.c`. -/
def types_3 : List ext_info :=
  [
    ⟨"m4u".toList, MimeType.M_VIDEO, "vnd.mpegurl".toList⟩,
    ⟨"m4v".toList, MimeType.M_VIDEO, "x-m4v".toList⟩,
    ⟨"mac".toList, MimeType.M_IMAGE, "x-macpaint".toList⟩,
    ⟨"mdi".toList, MimeType.M_IMAGE, "vnd.ms-modi".toList⟩,
    ⟨"mid".toList, MimeType.M_AUDIO, "midi".toList⟩,
    ⟨"midi".toList, MimeType.M_AUDIO, "midi".toList⟩,
    ⟨"mj2".toList, MimeType.M_VIDEO, "mj2".toList⟩,
    ⟨"mjp2".toList, MimeType.M_VIDEO, "mj2".toList⟩,
    ⟨"mk3d".toList, MimeType.M_VIDEO, "x-matroska".toList⟩,
    ⟨"mka".toList, MimeType.M_AUDIO, "x-matroska".toList⟩,
    ⟨"mks".toList, MimeType.M_VIDEO, "x-matroska".toList⟩,
    ⟨"mkv".toList, MimeType.M_VIDEO, "x-matroska".toList⟩,
    ⟨"mmr".toList, MimeType.M_IMAGE, "vnd.fujixerox.edmics-mmr".toList⟩,
    ⟨"mng".toList, MimeType.M_VIDEO, "x-mng".toList⟩,
    ⟨"mov".toList, MimeType.M_VIDEO, "quicktime".toList⟩,
    ⟨"movie".toList, MimeType.M_VIDEO, "x-sgi-movie".toList⟩,
    ⟨"mp2".toList, MimeType.M_AUDIO, "mpeg".toList⟩,
    ⟨"mp2a".toList, MimeType.M_AUDIO, "mpeg".toList⟩,
    ⟨"mp3".toList, MimeType.M_AUDIO, "mpeg".toList⟩,
    ⟨"mp4".toList, MimeType.M_VIDEO, "mp4".toList⟩,
    ⟨"mp4a".toList, MimeType.M_AUDIO, "mp4".toList⟩,
    ⟨"mp4v".toList, MimeType.M_VIDEO, "mp4".toList⟩ ]

/-- The entries 88 to 109 of the table `types` of `mime.c`. -/
def types_4 : List ext_info :=
  [
    ⟨"mpe".toList, MimeType.M_VIDEO, "mpeg".toList⟩,
    ⟨"mpeg".toList, MimeType.M_VIDEO, "mpeg".toList⟩,
    ⟨"mpg".toList, MimeType.M_VIDEO, "mpeg".toList⟩,
    ⟨"mpg4".toList, MimeType.M_VIDEO, "mp4".toList⟩,
    ⟨"mpga".toList, MimeType.M_AUDIO, "mpeg".toList⟩,
    ⟨"mxu".toList, MimeType.M_VIDEO, "vnd.mpegurl".toList⟩,
    ⟨"npx".toList, MimeType.M_IMAGE, "vnd.net-fpx".toList⟩,
    ⟨"oga".toList, MimeType.M_AUDIO, "ogg".toList⟩,
    ⟨"ogg".toList, MimeType.M_AUDIO, "ogg".toList⟩,
    ⟨"ogv".toList, MimeType.M_VIDEO, "ogg".toList⟩,
    ⟨"pbm".toList, MimeType.M_IMAGE, "x-portable-bitmap".toList⟩,
    ⟨"pcm".toList, MimeType.M_AUDIO, "L16".toList⟩,
    ⟨"pct".toList, MimeType.M_IMAGE, "x-pict".toList⟩,
    ⟨"pcx".toList, MimeType.M_IMAGE, "x-pcx".toList⟩,
    ⟨"pgm".toList, MimeType.M_IMAGE, "x-portable-graymap".toList⟩,
    ⟨"pic".toList, MimeType.M_IMAGE, "x-pict".toList⟩,
    ⟨"pict".toList, MimeType.M_IMAGE, "pict".toList⟩,
    ⟨"png".toList, MimeType.M_IMAGE, "png".toList⟩,
    ⟨"pnm".toList, MimeType.M_IMAGE, "x-portable-anymap".toList⟩,
    ⟨"pnt".toList, MimeType.M_IMAGE, "x-macpaint".toList⟩,
    ⟨"pntg".toList, MimeType.M_IMAGE, "x-macpaint".toList⟩,
    ⟨"ppm".toList, MimeType.M_IMAGE, "x-portable-pixmap".toList⟩ ]

/-- The entries 110 to 131 of the table `types` of `mime.c`. -/
def types_5 : List ext_info :=
  [
    ⟨"psd".toList, MimeType.M_IMAGE, "vnd.adobe.photoshop".toList⟩,
    ⟨"pya".toList, MimeType.M_AUDIO, "vnd.ms-playready.media.pya".toList⟩,
    ⟨"pyv".toList, MimeType.M_VIDEO, "vnd.ms-playready.media.pyv".toList⟩,
    ⟨"qt".toList, MimeType.M_VIDEO, "quicktime".toList⟩,
    ⟨"qti".toList, MimeType.M_IMAGE, "x-quicktime".toList⟩,
    ⟨"qtif".toList, MimeType.M_IMAGE, "x-quicktime".toList⟩,
    ⟨"ra".toList, MimeType.M_AUDIO, "x-pn-realaudio".toList⟩,
    ⟨"ram".toList, MimeType.M_AUDIO, "x-pn-realaudio".toList⟩,
    ⟨"ras".toList, MimeType.M_IMAGE, "x-cmu-raster".toList⟩,
    ⟨"rgb".toList, MimeType.M_IMAGE, "x-rgb".toList⟩,
    ⟨"rip".toList, MimeType.M_AUDIO, "vnd.rip".toList⟩,
    ⟨"rlc".toList, MimeType.M_IMAGE, "vnd.fujixerox.edmics-rlc".toList⟩,
    ⟨"rmi".toList, MimeType.M_AUDIO, "midi".toList⟩,
    ⟨"rmp".toList, MimeType.M_AUDIO, "x-pn-realaudio-plugin".toList⟩,
    ⟨"s3m".toList, MimeType.M_AUDIO, "s3m".toList⟩,
    ⟨"sgi".toList, MimeType.M_IMAGE, "sgi".toList⟩,
    ⟨"sid".toList, MimeType.M_IMAGE, "x-mrsid-image".toList⟩,
    ⟨"sil".toList, MimeType.M_AUDIO, "silk".toList⟩,
    ⟨"smv".toList, MimeType.M_VIDEO, "x-smv".toList⟩,
    ⟨"snd".toList, MimeType.M_AUDIO, "basic".toList⟩,
    ⟨"spx".toList, MimeType.M_AUDIO, "ogg".toList⟩,
    ⟨"srt".toList, MimeType.M_TEXT, "srt".toList⟩ ]

/-- The entries 132 to 153 of the table `types` of `mime.c`. -/
def types_6 : List ext_info :=
  [
    ⟨"sub".toList, MimeType.M_IMAGE, "vnd.dvb.subtitle".toList⟩,
    ⟨"svg".toList, MimeType.M_IMAGE, "svg+xml".toList⟩,
    ⟨"svgz".toList, MimeType.M_IMAGE, "svg+xml".toList⟩,
    ⟨"tga".toList, MimeType.M_IMAGE, "x-tga".toList⟩,
    ⟨"tif".toList, MimeType.M_IMAGE, "tiff".toList⟩,
    ⟨"tiff".toList, MimeType.M_IMAGE, "tiff".toList⟩,
    ⟨"ts".toList, MimeType.M_VIDEO, "mp2t".toList⟩,
    ⟨"uva".toList, MimeType.M_AUDIO, "vnd.dece.audio".toList⟩,
    ⟨"uvg".toList, MimeType.M_IMAGE, "vnd.dece.graphic".toList⟩,
    ⟨"uvh".toList, MimeType.M_VIDEO, "vnd.dece.hd".toList⟩,
    ⟨"uvi".toList, MimeType.M_IMAGE, "vnd.dece.graphic".toList⟩,
    ⟨"uvm".toList, MimeType.M_VIDEO, "vnd.dece.mobile".toList⟩,
    ⟨"uvp".toList, MimeType.M_VIDEO, "vnd.dece.pd".toList⟩,
    ⟨"uvs".toList, MimeType.M_VIDEO, "vnd.dece.sd".toList⟩,
    ⟨"uvu".toList, MimeType.M_VIDEO, "vnd.uvvu.mp4".toList⟩,
    ⟨"uvv".toList, MimeType.M_VIDEO, "vnd.dece.video".toList⟩,
    ⟨"uvva".toList, MimeType.M_AUDIO, "vnd.dece.audio".toList⟩,
    ⟨"uvvg".toList, MimeType.M_IMAGE, "vnd.dece.graphic".toList⟩,
    ⟨"uvvh".toList, MimeType.M_VIDEO, "vnd.dece.hd".toList⟩,
    ⟨"uvvi".toList, MimeType.M_IMAGE, "vnd.dece.graphic".toList⟩,
    ⟨"uvvm".toList, MimeType.M_VIDEO, "vnd.dece.mobile".toList⟩,
    ⟨"uvvp".toList, MimeType.M_VIDEO, "vnd.dece.pd".toList⟩ ]

/-- The entries 154 to 175 of the table `types` of `mime.c`. -/
def types_7 : List ext_info :=
  [
    ⟨"uvvs".toList, MimeType.M_VIDEO, "vnd.dece.sd".toList⟩,
    ⟨"uvvu".toList, MimeType.M_VIDEO, "vnd.uvvu.mp4".toList⟩,
    ⟨"uvvv".toList, MimeType.M_VIDEO, "vnd.dece.video".toList⟩,
    ⟨"viv".toList, MimeType.M_VIDEO, "vnd.vivo".toList⟩,
    ⟨"vob".toList, MimeType.M_VIDEO, "x-ms-vob".toList⟩,
    ⟨"wav".toList, MimeType.M_AUDIO, "x-wav".toList⟩,
    ⟨"wax".toList, MimeType.M_AUDIO, "x-ms-wax".toList⟩,
    ⟨"wbmp".toList, MimeType.M_IMAGE, "vnd.wap.wbmp".toList⟩,
    ⟨"wdp".toList, MimeType.M_IMAGE, "vnd.ms-photo".toList⟩,
    ⟨"weba".toList, MimeType.M_AUDIO, "webm".toList⟩,
    ⟨"webm".toList, MimeType.M_VIDEO, "webm".toList⟩,
    ⟨"webp".toList, MimeType.M_IMAGE, "webp".toList⟩,
    ⟨"wm".toList, MimeType.M_VIDEO, "x-ms-wm".toList⟩,
    ⟨"wma".toList, MimeType.M_AUDIO, "x-ms-wma".toList⟩,
    ⟨"wmv".toList, MimeType.M_VIDEO, "x-ms-wmv".toList⟩,
    ⟨"wmx".toList, MimeType.M_VIDEO, "x-ms-wmx".toList⟩,
    ⟨"wvx".toList, MimeType.M_VIDEO, "x-ms-wvx".toList⟩,
    ⟨"xbm".toList, MimeType.M_IMAGE, "x-xbitmap".toList⟩,
    ⟨"xif".toList, MimeType.M_IMAGE, "vnd.xiff".toList⟩,
    ⟨"xm".toList, MimeType.M_AUDIO, "xm".toList⟩,
    ⟨"xpm".toList, MimeType.M_IMAGE, "x-xpixmap".toList⟩,
    ⟨"xwd".toList, MimeType.M_IMAGE, "x-xwindowdump".toList⟩ ]

/-- The table `types` of `mime.c`. -/
def types : List ext_info :=
  types_0 ++ types_1 ++ types_2 ++ types_3 ++ types_4 ++ types_5 ++ types_6 ++ types_7

/-- The function `strcmp`: the difference of the first two bytes that differ, the
terminating NUL included. -/
def strcmp : List Char → List Char → Int
  | [], [] => 0
  | [], b :: _ => 0 - (b.toNat : Int)
  | a :: _, [] => (a.toNat : Int)
  | a :: s, b :: t => if a = b then strcmp s t else (a.toNat : Int) - (b.toNat : Int)

/-- The function `cmp` of `mime.c`. -/
def cmp (a : List Char) (x : ext_info) : Int := strcmp a x.ext

/-- The function `lowercase` of `mime.c`: the string written to `transformed`. -/
def lowercase (p : List Char) : List Char :=
  p.map (fun c => if 'A'.toNat ≤ c.toNat ∧ c.toNat ≤ 'Z'.toNat then Char.ofNat (c.toNat + 32) else c)

/-- The loop of the C library function `bsearch` on the bounds `l` and `u`. -/
def bsearch_loop (key : List Char) (base : List ext_info) : Nat → Nat → Nat → Option ext_info
  | 0, _, _ => none
  | fuel + 1, l, u =>
    if l < u then
      match base.get? ((l + u) / 2) with
      | none => none
      | some p =>
        if cmp key p < 0 then bsearch_loop key base fuel l ((l + u) / 2)
        else if cmp key p > 0 then bsearch_loop key base fuel ((l + u) / 2 + 1) u
        else some p
    else none

/-- The C library function `bsearch(key, base, nmemb, size, cmp)`. -/
def bsearch (key : List Char) (base : List ext_info) : Option ext_info :=
  bsearch_loop key base (base.length + 1) 0 base.length

/-- The function `get_mime_type_from_ext` of `mime.c`.  The result is `none` when
`lowercase` writes past the six bytes of `ext`. -/
def get_mime_type_from_ext (old_ext : List Char) : Option (Option ext_info) :=
  if old_ext.length + 1 > 6 then none
  else some (bsearch (lowercase old_ext) types)

/-- The loop of `get_mime_type` at the index `i`.  The result is `none` when `filename` is
read outside the string. -/
def get_mime_type_loop (filename : List Char) (len : Int) :
    Nat → Int → Option (Option ext_info)
  | 0, _ => none
  | fuel + 1, i =>
    if i > len - 7 then
      if i < 0 then none
      else if rd filename i.toNat = '.' then
        get_mime_type_from_ext (filename.drop (i.toNat + 1))
      else get_mime_type_loop filename len fuel (i - 1)
    else some none

/-- The function `get_mime_type` of `mime.c`. -/
def get_mime_type (filename : List Char) : Option (Option ext_info) :=
  get_mime_type_loop filename filename.length 7 ((filename.length : Int) - 1)

/-- Whether `e` is a variant of `ext` in which each byte has the case of `ext` or is its
upper-case form. -/
def case_variant : List Char → List Char → Bool
  | [], [] => true
  | c :: e, d :: ext => (c = d ∨ c = d.toUpper) && case_variant e ext
  | _, _ => false

/-- Whether a table is strictly sorted by `strcmp` on the extensions. -/
def strictly_sorted : List ext_info → Bool
  | [] => true
  | [_] => true
  | a :: b :: t => decide (strcmp a.ext b.ext < 0) && strictly_sorted (b :: t)

/-! ## stream.c : the chunked writer -/

/-- The constant `BUFFER_SIZE` of `stream.h`. -/
def BUFFER_SIZE : Nat := 1024

/-- The structure `stream`: the bytes written to `fh` so far, the array `buf` and `pos`. -/
structure stream where
  fh : List Char
  buf : List Char
  pos : Int

/-- The conversion `%X` of `printf` applied to an `int`. -/
def sprintf_X (v : Int) : List Char :=
  (Nat.toDigits 16 (v % 2 ^ 32).toNat).map Char.toUpper

/-- The function `stream_clear` of `stream.c`. -/
def stream_clear (s : stream) : stream :=
  if s.pos ≤ 0 then s
  else
    { s with
      fh := s.fh ++ (sprintf_X s.pos ++ [CR, LF]) ++ s.buf.take s.pos.toNat ++ [CR, LF],
      pos := 0 }

/-- One round of the loop of `chunk_print` and of `chunk_print_len`. -/
def chunk_print_char (s : stream) (c : Char) : stream :=
  let s1 := if s.pos = (BUFFER_SIZE : Int) then stream_clear s else s
  { s1 with buf := s1.buf.set s1.pos.toNat c, pos := s1.pos + 1 }

/-- The function `chunk_print` of `stream.c`. -/
def chunk_print (s : stream) : List Char → stream
  | [] => s
  | c :: text => chunk_print (chunk_print_char s c) text

/-- The function `chunk_print_len` of `stream.c`. -/
def chunk_print_len (s : stream) : List Char → Int → stream
  | [], _ => s
  | c :: text, len =>
    if len > 0 then chunk_print_len (chunk_print_char s c) text (len - 1) else s

/-- The function `chunk_print_end` of `stream.c`. -/
def chunk_print_end (s : stream) : stream :=
  { stream_clear s with fh := (stream_clear s).fh ++ ['0', CR, LF, CR, LF] }

/-- The function `stream_flush` of `stream.c`; `fflush` does not change the bytes
written. -/
def stream_flush (s : stream) : stream := stream_clear s

/-- A call of one of the appending functions or of `stream_flush`. -/
inductive StreamCall
  | print (text : List Char)
  | print_len (text : List Char) (len : Int)
  | flush

/-- The effect of a call on the stream. -/
def StreamCall.run (s : stream) : StreamCall → stream
  | StreamCall.print text => chunk_print s text
  | StreamCall.print_len text len => chunk_print_len s text len
  | StreamCall.flush => stream_flush s

/-- The text that a call appends: the whole string, or its first `len` bytes. -/
def StreamCall.appended : StreamCall → List Char
  | StreamCall.print text => text
  | StreamCall.print_len text len => text.take len.toNat
  | StreamCall.flush => []

/-- The stream after a sequence of calls followed by `chunk_print_end`. -/
def run_calls (s : stream) (calls : List StreamCall) : stream :=
  chunk_print_end (calls.foldl StreamCall.run s)

/-- A chunk of the chunked transfer coding: the length in hexadecimal, CR LF, the payload,
CR LF. -/
def chunk_frame (payload : List Char) : List Char :=
  sprintf_X payload.length ++ [CR, LF] ++ payload ++ [CR, LF]

/-- The hexadecimal number at the head of a string and what follows it. -/
def read_hex_length : List Char → Nat → Nat × List Char
  | [], acc => (acc, [])
  | c :: s, acc =>
    match hex_value c with
    | some v => read_hex_length s (acc * 16 + v)
    | none => (acc, c :: s)

/-- A decoder of chunked bodies: the payloads of the chunks that precede the terminating
zero-length chunk, which has to end the input. -/
def decode_chunked : Nat → List Char → Option (List (List Char))
  | 0, _ => none
  | fuel + 1, s =>
    if (hex_value (s.headD NUL)).isSome ∧ (read_hex_length s 0).2.take 2 = [CR, LF] then
      if (read_hex_length s 0).1 = 0 then
        if (read_hex_length s 0).2.drop 2 = [CR, LF] then some [] else none
      else if (read_hex_length s 0).1 + 2 ≤ ((read_hex_length s 0).2.drop 2).length
          ∧ (((read_hex_length s 0).2.drop 2).drop (read_hex_length s 0).1).take 2
              = [CR, LF] then
        (decode_chunked fuel (((read_hex_length s 0).2.drop 2).drop
            ((read_hex_length s 0).1 + 2))).map
          (fun chunks => ((read_hex_length s 0).2.drop 2).take (read_hex_length s 0).1 :: chunks)
      else none
    else none

/-- The chunks with the given payloads, one after the other. -/
def chunk_frames (chunks : List (List Char)) : List Char := (chunks.map chunk_frame).flatten

/-- The stream `s` has written the chunks `chunks` and holds `pend` in its buffer. -/
def StreamRep (s : stream) (chunks : List (List Char)) (pend : List Char) : Prop :=
  s.fh = chunk_frames chunks ∧ s.buf.length = BUFFER_SIZE ∧ s.pos = (pend.length : Int)
  ∧ pend.length ≤ BUFFER_SIZE ∧ s.buf.take pend.length = pend
  ∧ ∀ p ∈ chunks, p ≠ [] ∧ p.length ≤ BUFFER_SIZE

/-- A stream as `sdopen` leaves it, nothing written yet. -/
def sample_stream : stream := { fh := [], buf := List.replicate BUFFER_SIZE NUL, pos := 0 }

/-! ## upnpevents.c : SUBSCRIBE and renewal -/

inductive SubscriberServiceEnum
  | EContentDirectory | EConnectionManager | EMSMediaReceiverRegistrar
  deriving DecidableEq, Repr

inductive EventType
  | E_INVALID | E_SUBSCRIBE | E_RENEW
  deriving DecidableEq, Repr

/-- The structure `subscriber`; `notify` is the address of the notify object, if any, and
the list link `next` is the order of the list that holds the subscriber. -/
structure subscriber where
  notify : Option Nat
  timeout : Int
  seq : Nat
  service : SubscriberServiceEnum
  uuid : List Char
  callback : List Char
  deriving DecidableEq

/-- The path `CONTENTDIRECTORY_EVENTURL` of `microdlnapath.h`. -/
def CONTENTDIRECTORY_EVENTURL : List Char := "/evt/ContentDir".toList

/-- The path `CONNECTIONMGR_EVENTURL` of `microdlnapath.h`. -/
def CONNECTIONMGR_EVENTURL : List Char := "/evt/ConnectionMgr".toList

/-- The path `X_MS_MEDIARECEIVERREGISTRAR_EVENTURL` of `microdlnapath.h`. -/
def X_MS_MEDIARECEIVERREGISTRAR_EVENTURL : List Char := "/evt/X_MS_MediaReceiverRegistrar".toList

/-- What the handlers of `upnpevents.c` take from their environment: the value of
`time(NULL)`, the global `uuidvalue`, the value of `random()` and the notify object that
`upnp_event_create_notify` leaves in the new subscriber (none when it fails). -/
structure EventEnv where
  now : Int
  uuidvalue : List Char
  random : Nat
  notify : Option Nat

/-- The statement `send_http_response(h, code)` as far as the request is concerned:
`send_http_response_helper` sets `respflags` to `FLAG_HTML` before it sends the headers. -/
def send_http_response (h : upnphttp) (code : HttpResponseCode) : upnphttp × HttpResponseCode :=
  ({ h with respflags := FLAG_HTML }, code)

/-- The function `check_event` of `upnpevents.c`: the type of the event, the request as it
leaves it and the response it has sent, if any. -/
def check_event (h : upnphttp) : EventType × upnphttp × Option HttpResponseCode :=
  match h.req_callback with
  | some callback =>
    if h.req_sid ≠ none ∨ h.req_nt = none then
      (EventType.E_INVALID, (send_http_response h HttpResponseCode.HTTP_BAD_REQUEST_400).1,
        some HttpResponseCode.HTTP_BAD_REQUEST_400)
    else if strncmp_eq_n callback "http://".toList 7 = false
        ∨ h.req_nt ≠ some "upnp:event".toList then
      (EventType.E_INVALID,
        (send_http_response h HttpResponseCode.HTTP_PRECONDITION_FAILED_412).1,
        some HttpResponseCode.HTTP_PRECONDITION_FAILED_412)
    else (EventType.E_SUBSCRIBE, h, none)
  | none =>
    if h.req_sid ≠ none then
      if h.req_nt ≠ none then
        (EventType.E_INVALID, (send_http_response h HttpResponseCode.HTTP_BAD_REQUEST_400).1,
          some HttpResponseCode.HTTP_BAD_REQUEST_400)
      else (EventType.E_RENEW, h, none)
    else
      (EventType.E_INVALID,
        (send_http_response h HttpResponseCode.HTTP_PRECONDITION_FAILED_412).1,
        some HttpResponseCode.HTTP_PRECONDITION_FAILED_412)

/-- The conversion `%04lx` of `printf` for a value below 65536. -/
def sprintf_04lx (v : Nat) : List Char :=
  List.replicate (4 - (Nat.toDigits 16 v).length) '0' ++ Nat.toDigits 16 v

/-- The dummy uuid that `add_upnpevent_subscriber` makes: `uuidvalue` cut to 41 bytes,
with the four bytes from offset 37 on replaced by `random() & 0xffff` in hexadecimal. -/
def make_uuid (uuidvalue : List Char) (random : Nat) : List Char :=
  if (strxcpy uuidvalue 42).length < 37 then strxcpy uuidvalue 42
  else (strxcpy uuidvalue 42).take 37 ++ snprintf_buf 5 (sprintf_04lx (random % 65536))

/-- The function `add_upnpevent_subscriber` of `upnpevents.c`: the uuid it returns (none
for NULL) and the subscriber list it leaves. -/
def add_upnpevent_subscriber (env : EventEnv) (subscriberlist : List subscriber)
    (eventurl callback : Option (List Char)) (timeout : Int) :
    Option (List Char) × List subscriber :=
  match eventurl, callback with
  | some eventurl, some callback =>
    let srv : Option SubscriberServiceEnum :=
      if eventurl = CONTENTDIRECTORY_EVENTURL then
        some SubscriberServiceEnum.EContentDirectory
      else if eventurl = CONNECTIONMGR_EVENTURL then
        some SubscriberServiceEnum.EConnectionManager
      else if eventurl = X_MS_MEDIARECEIVERREGISTRAR_EVENTURL then
        some SubscriberServiceEnum.EMSMediaReceiverRegistrar
      else none
    match srv with
    | none => (none, subscriberlist)
    | some srv =>
      let ns : subscriber :=
        { notify := env.notify,
          timeout := if timeout ≠ 0 then env.now + timeout else 0,
          seq := 0,
          service := srv,
          uuid := make_uuid env.uuidvalue env.random,
          callback := callback }
      (some ns.uuid, ns :: subscriberlist)
  | _, _ => (none, subscriberlist)

/-- The test `memcmp(a, b, n) == 0` on two strings, the bytes that follow the terminator
of a string being taken as NUL. -/
def memcmp_eq (a b : List Char) (n : Nat) : Bool :=
  (a ++ List.replicate n NUL).take n = (b ++ List.replicate n NUL).take n

/-- The function `renew_upnpevent_subscriber` of `upnpevents.c`: its return value and the
subscriber list it leaves. -/
def renew_upnpevent_subscriber (now : Int) (sid : List Char) (timeout : Int) :
    List subscriber → Int × List subscriber
  | [] => (-1, [])
  | sub :: rest =>
    if memcmp_eq sid sub.uuid 41 then
      (0, { sub with timeout := if timeout ≠ 0 then now + timeout else 0 } :: rest)
    else
      ((renew_upnpevent_subscriber now sid timeout rest).1,
        sub :: (renew_upnpevent_subscriber now sid timeout rest).2)

/-- How `process_http_subscribe_upnphttp` ends: the response it has sent, the request as
it leaves it and the subscriber list. -/
structure SubscribeResult where
  response : Option HttpResponseCode
  h : upnphttp
  subscriberlist : List subscriber

/-- The function `process_http_subscribe_upnphttp` of `upnpevents.c`. -/
def process_http_subscribe_upnphttp (env : EventEnv) (h : upnphttp)
    (subscriberlist : List subscriber) : SubscribeResult :=
  match check_event h with
  | (EventType.E_SUBSCRIBE, h, _) =>
    let added := add_upnpevent_subscriber env subscriberlist (some h.path) h.req_callback
      h.req_timeout
    let h1 := { h with respflags := FLAG_TIMEOUT }
    let h2 :=
      match added.1 with
      | some sid => { h1 with respflags := h1.respflags ||| FLAG_SID, req_sid := some sid }
      | none => h1
    { response := some HttpResponseCode.HTTP_OK_200,
      h := (send_http_response h2 HttpResponseCode.HTTP_OK_200).1,
      subscriberlist := added.2 }
  | (EventType.E_RENEW, h, _) =>
    if (renew_upnpevent_subscriber env.now (h.req_sid.getD []) h.req_timeout
        subscriberlist).1 < 0 then
      { response := some HttpResponseCode.HTTP_PRECONDITION_FAILED_412,
        h := (send_http_response h HttpResponseCode.HTTP_PRECONDITION_FAILED_412).1,
        subscriberlist := (renew_upnpevent_subscriber env.now (h.req_sid.getD [])
          h.req_timeout subscriberlist).2 }
    else
      { response := some HttpResponseCode.HTTP_OK_200,
        h := (send_http_response
          { h with respflags := FLAG_TIMEOUT ||| FLAG_SID, req_timeout := 300 }
          HttpResponseCode.HTTP_OK_200).1,
        subscriberlist := (renew_upnpevent_subscriber env.now (h.req_sid.getD [])
          h.req_timeout subscriberlist).2 }
  | (EventType.E_INVALID, h, response) =>
    { response := response, h := h, subscriberlist := subscriberlist }

/-- A sample environment of the event handlers: the time 1000000. -/
def sample_event_env : EventEnv :=
  { now := 1000000, uuidvalue := "uuid:4d696e69-444c-164e-9d41-554e4b4e4f57".toList,
    random := 48879, notify := some 1 }

/-- A SUBSCRIBE request for `path` with the given `Callback`, `NT`, `SID` and `Timeout`
headers (none for a header that is absent). -/
def sample_subscribe (path : List Char) (callback nt sid timeout : Option (List Char)) :
    upnphttp :=
  let h0 : upnphttp :=
    { init_upnphttp_struct 0 with
      req_command := HttpCommands.ESubscribe, path := path, req_callback := callback,
      req_nt := nt, req_sid := sid }
  match timeout with
  | some value => header_timeout h0 value
  | none => h0

/-! ## xmlregex.c : read_char and process_post_content -/

/-- The horizontal tab. -/
def TAB : Char := Char.ofNat 9

/-- The constant `BUF_SIZE` of `xmlregex.c`. -/
def BUF_SIZE : Nat := 1024

inductive ChunkMode
  | FIRST_CHUNK | MIDDLE_CHUNK | NO_CHUNK
  deriving DecidableEq, Repr

/-- The structure `cursor`; `fd` holds the bytes that the socket still delivers. -/
structure cursor where
  fd : List Char
  bytes_left : Int
  chunked : ChunkMode
  deriving DecidableEq

/-- The function `is_white_space` of `xmlregex.c`. -/
def is_white_space (c : Char) : Bool := c = ' ' ∨ c = TAB ∨ c = CR ∨ c = LF

/-- The function `is_greater_than_sign_or_white_space` of `xmlregex.c`. -/
def is_greater_than_sign_or_white_space (c : Char) : Bool :=
  c = ' ' ∨ c = '>' ∨ c = TAB ∨ c = CR ∨ c = LF

/-- The hexadecimal digits read by `strtoll` in base 16: the value read so far and the
rest of the string. -/
def scan_hex_digits : List Char → Nat → Nat × List Char
  | [], acc => (acc, [])
  | c :: s, acc =>
    match hex_value c with
    | some v => scan_hex_digits s (acc * 16 + v)
    | none => (acc, c :: s)

/-- The prefix `0x` or `0X` that `strtoll` accepts in base 16 when a hexadecimal digit
follows it. -/
def skip_hex_prefix : List Char → List Char
  | '0' :: x :: d :: u =>
    if (x = 'x' ∨ x = 'X') ∧ (hex_value d).isSome then d :: u else '0' :: x :: d :: u
  | s => s

/-- The sign that `strtoll` accepts: whether it is a minus, and what follows it. -/
def strtoll_sign : List Char → Bool × List Char
  | '-' :: u => (true, u)
  | '+' :: u => (false, u)
  | t => (false, t)

/-- The function `strtoll(s, &end, 16)`: white space is skipped, a sign and the prefix
`0x` are accepted, the digits are read and the value is clamped to the range of
`long long`; without any digit the value is 0 and `end` is `s`. -/
def strtoll_hex (s : List Char) : Int × List Char :=
  let signed := strtoll_sign (s.dropWhile isspace)
  let digits := skip_hex_prefix signed.2
  if (hex_value (digits.headD NUL)).isSome then
    (max LLONG_MIN (min LLONG_MAX
      (if signed.1 then -((scan_hex_digits digits 0).1 : Int)
       else ((scan_hex_digits digits 0).1 : Int))),
      (scan_hex_digits digits 0).2)
  else (0, s)

/-- The loop of `read_char` that reads the chunk header: at most four bytes are read, up
to a CR.  The result is the bytes read before the CR (none when `read` fails or when no
CR is among the four bytes) and the bytes left in the socket. -/
def read_chunk_header : Nat → List Char → List Char → Option (List Char) × List Char
  | 0, fd, _ => (none, fd)
  | _ + 1, [], _ => (none, [])
  | n + 1, c :: fd, buf =>
    if c = CR then (some buf, fd) else read_chunk_header n fd (buf ++ [c])

/-- The end of `read_char`: `bytes_left` is decremented and one byte is read. -/
def read_payload_byte (xml : cursor) : Char × cursor :=
  match xml.fd with
  | [] => (NUL, { xml with bytes_left := xml.bytes_left - 1 })
  | c :: fd => (c, { xml with fd := fd, bytes_left := xml.bytes_left - 1 })

/-- The part of `read_char` that reads a chunk header and the byte that follows it.  The
bytes of `buf` that follow the CR are not set by this call; `strtoll` reads them only when
all bytes before the CR are white space, and they are taken as NUL here, so that no
conversion is made then. -/
def read_chunk_start (xml : cursor) : Char × cursor :=
  match read_chunk_header 4 xml.fd [] with
  | (none, fd) => (NUL, { xml with fd := fd })
  | (some buf, fd) =>
    if (strtoll_hex (buf ++ [CR])).2 = buf ++ [CR]
        ∨ (strtoll_hex (buf ++ [CR])).2.headD NUL ≠ CR then
      (NUL, { xml with fd := fd })
    else
      match fd with
      | [] => (NUL, { xml with fd := [] })
      | c :: fd =>
        if c ≠ LF ∨ to_int32 (strtoll_hex (buf ++ [CR])).1 < 1
            ∨ to_int32 (strtoll_hex (buf ++ [CR])).1 > 2048 then
          (NUL, { xml with fd := fd })
        else
          read_payload_byte
            { xml with fd := fd, bytes_left := to_int32 (strtoll_hex (buf ++ [CR])).1 }

/-- The function `read_char` of `xmlregex.c`: the byte it returns and the cursor it
leaves. -/
def read_char (xml : cursor) : Char × cursor :=
  if xml.bytes_left = 0 then
    match xml.chunked with
    | ChunkMode.NO_CHUNK => (NUL, xml)
    | ChunkMode.MIDDLE_CHUNK =>
      if xml.fd.length < 2 then (NUL, { xml with fd := [] })
      else if xml.fd.take 2 ≠ [CR, LF] then (NUL, { xml with fd := xml.fd.drop 2 })
      else read_chunk_start { xml with fd := xml.fd.drop 2 }
    | ChunkMode.FIRST_CHUNK => read_chunk_start { xml with chunked := ChunkMode.MIDDLE_CHUNK }
  else read_payload_byte xml

/-- The loops `while (c != stop && c != '\0') c = read_char(&xml);` of
`process_post_content`. -/
def skip_until (stop : Char) : Nat → Char → cursor → Option (Char × cursor)
  | 0, _, _ => none
  | fuel + 1, c, xml =>
    if c ≠ stop ∧ c ≠ NUL then skip_until stop fuel (read_char xml).1 (read_char xml).2
    else some (c, xml)

/-- The test `(c >= 'a' && c <= 'z') || (c >= 'A' && c <= 'Z')`. -/
def is_letter (c : Char) : Bool :=
  ('a'.toNat ≤ c.toNat ∧ c.toNat ≤ 'z'.toNat) ∨ ('A'.toNat ≤ c.toNat ∧ c.toNat ≤ 'Z'.toNat)

/-- The loop of `process_post_content` that reads the element name; `ele_name` holds the
`i` bytes stored so far. -/
def read_name : Nat → List Char → Char → cursor → Option (List Char × Char × cursor)
  | 0, _, _, _ => none
  | fuel + 1, ele_name, c, xml =>
    if ele_name.length < 20 ∧ is_letter c then
      read_name fuel (ele_name ++ [c]) (read_char xml).1 (read_char xml).2
    else some (ele_name, c, xml)

/-- The loop `while (is_white_space(c)) c = read_char(&xml);`. -/
def skip_white_space : Nat → Char → cursor → Option (Char × cursor)
  | 0, _, _ => none
  | fuel + 1, c, xml =>
    if is_white_space c then skip_white_space fuel (read_char xml).1 (read_char xml).2
    else some (c, xml)

/-- The loop of `process_post_content` that reads the value; `ele_value` holds the `i`
bytes stored so far. -/
def read_value : Nat → List Char → Char → cursor → Option (List Char × Char × cursor)
  | 0, _, _, _ => none
  | fuel + 1, ele_value, c, xml =>
    if ele_value.length < BUF_SIZE ∧ c ≠ '<' ∧ c ≠ NUL then
      read_value fuel (ele_value ++ [c]) (read_char xml).1 (read_char xml).2
    else some (ele_value, c, xml)

/-- The loop `do ele_value[i] = '\0'; while (i > 0 && is_white_space(ele_value[--i]));`
applied to the `i` bytes stored in `ele_value`: the string it leaves is the value without
its trailing white space. -/
def right_trim (ele_value : List Char) : List Char :=
  (ele_value.reverse.dropWhile is_white_space).reverse

/-- The loop `while (*p != '\0' && c == *p)` that compares the closing tag with the
element name; `p` is what is left of the name. -/
def match_name : List Char → Char → cursor → List Char × Char × cursor
  | [], c, xml => ([], c, xml)
  | d :: p, c, xml =>
    if c = d then match_name p (read_char xml).1 (read_char xml).2 else (d :: p, c, xml)

/-- Where a round of the outer loop of `process_post_content` ends: the loop is left, or
it goes on, at its head or at the label `new_tag`, with `c` the byte read last. -/
inductive ScanStep
  | done (h : upnphttp)
  | next (at_new_tag : Bool) (h : upnphttp) (c : Char) (xml : cursor)

/-- The part of a round of the outer loop that follows an accepted element name: the
rest of the tag is ignored, the value is read and trimmed and the closing tag is
validated. -/
def scan_element (inner : Nat) (h : upnphttp) (ele_name : List Char) (c : Char)
    (xml : cursor) : Option ScanStep :=
  match skip_until '>' inner c xml with
  | none => none
  | some (c, xml) =>
    if c = NUL then some (ScanStep.done h)
    else
      match skip_white_space inner (read_char xml).1 (read_char xml).2 with
      | none => none
      | some (c, xml) =>
        match read_value inner [] c xml with
        | none => none
        | some (ele_value, c, xml) =>
          if ele_value.length = BUF_SIZE ∨ c = NUL then some (ScanStep.done h)
          else if (read_char xml).1 ≠ '/' then
            some (ScanStep.next true h (read_char xml).1 (read_char xml).2)
          else
            some (ScanStep.next false
              (if (match_name ele_name (read_char (read_char xml).2).1
                    (read_char (read_char xml).2).2).1 = []
                  ∧ is_greater_than_sign_or_white_space
                    (match_name ele_name (read_char (read_char xml).2).1
                      (read_char (read_char xml).2).2).2.1 then
                process_name_value_pair h ele_name (right_trim ele_value)
              else h)
              (match_name ele_name (read_char (read_char xml).2).1
                (read_char (read_char xml).2).2).2.1
              (match_name ele_name (read_char (read_char xml).2).1
                (read_char (read_char xml).2).2).2.2)

/-- The part of a round of the outer loop that starts at the label `new_tag`. -/
def scan_tag (inner : Nat) (h : upnphttp) (c : Char) (xml : cursor) : Option ScanStep :=
  match read_name inner [] c xml with
  | none => none
  | some (ele_name, c, xml) =>
    if ele_name.length = 0 ∨ ele_name.length = 20
        ∨ is_greater_than_sign_or_white_space c = false then
      some (ScanStep.next false h c xml)
    else scan_element inner h ele_name c xml

/-- One round of the outer loop of `process_post_content`, entered at its head or, for
`at_new_tag = true`, at the label `new_tag`; `inner` is the fuel of the inner loops. -/
def scan_round (inner : Nat) (at_new_tag : Bool) (h : upnphttp) (c : Char) (xml : cursor) :
    Option ScanStep :=
  if at_new_tag then scan_tag inner h c xml
  else if c = NUL then some (ScanStep.done h)
  else
    match skip_until '<' inner c xml with
    | none => none
    | some (c, xml) =>
      if c = NUL then some (ScanStep.done h)
      else scan_tag inner h (read_char xml).1 (read_char xml).2

/-- The outer loop of `process_post_content`. -/
def scan_elements (inner : Nat) : Nat → Bool → upnphttp → Char → cursor → Option upnphttp
  | 0, _, _, _, _ => none
  | fuel + 1, at_new_tag, h, c, xml =>
    match scan_round inner at_new_tag h c xml with
    | none => none
    | some (ScanStep.done h) => some h
    | some (ScanStep.next at_new_tag h c xml) => scan_elements inner fuel at_new_tag h c xml

/-- The function `process_post_content` of `xmlregex.c`; `fd` holds the bytes that the
socket delivers after the headers. -/
def process_post_content (h : upnphttp) (fd : List Char) : Option upnphttp :=
  let xml : cursor :=
    if h.reqflags &&& FLAG_CHUNKED ≠ 0 then
      { fd := fd, bytes_left := 0, chunked := ChunkMode.FIRST_CHUNK }
    else { fd := fd, bytes_left := h.data_len, chunked := ChunkMode.NO_CHUNK }
  scan_elements (fd.length + 1) (2 * fd.length + 2) false h (read_char xml).1 (read_char xml).2

/-! ### The scanner of process_post_content on the text that the cursor delivers -/

/-- The cursor `xml`, with `c` the byte read last, delivers the text `s` and then a NUL:
`s` holds `c` and the bytes that the following calls of `read_char` return, up to the
first NUL. -/
def Delivers : List Char → Char → cursor → Prop
  | [], c, _ => c = NUL
  | d :: s, c, xml => c = d ∧ d ≠ NUL ∧ Delivers s (read_char xml).1 (read_char xml).2

/-- The element name that the scanner reads at the head of a text: at most 20 letters. -/
def text_name (s : List Char) : List Char := (s.takeWhile is_letter).take 20

/-- The value that the scanner reads at the head of a text: at most `BUF_SIZE` bytes
before the next `<`. -/
def text_value (s : List Char) : List Char :=
  (s.takeWhile (fun c => decide (c ≠ '<'))).take BUF_SIZE

/-- The comparison of the closing tag with the element name on a text: what is left of
the name and of the text. -/
def text_match : List Char → List Char → List Char × List Char
  | [], s => ([], s)
  | d :: p, [] => (d :: p, [])
  | d :: p, c :: s => if c = d then text_match p s else (d :: p, c :: s)

/-- What one round of the outer loop of `process_post_content` does: it leaves the loop,
or it goes on (at the head of the loop or at `new_tag`) with what is left of the text. -/
inductive TextStep
  | done (h : upnphttp)
  | next (at_new_tag : Bool) (h : upnphttp) (s : List Char)

/-- The part of a round that follows an accepted element name; `s` is the text from the
byte that ended the name. -/
def text_element (h : upnphttp) (ele_name s : List Char) : TextStep :=
  if s.dropWhile (fun c => decide (c ≠ '>')) = [] then TextStep.done h
  else
    let s5 := (s.dropWhile (fun c => decide (c ≠ '>'))).tail.dropWhile is_white_space
    let s6 := s5.drop (text_value s5).length
    if (text_value s5).length = BUF_SIZE ∨ s6 = [] then TextStep.done h
    else if s6.tail.headD NUL ≠ '/' then TextStep.next true h s6.tail
    else
      TextStep.next false
        (if (text_match ele_name s6.tail.tail).1 = []
            ∧ is_greater_than_sign_or_white_space
              ((text_match ele_name s6.tail.tail).2.headD NUL) then
          process_name_value_pair h ele_name (right_trim (text_value s5))
        else h)
        (text_match ele_name s6.tail.tail).2

/-- The part of a round that starts at the label `new_tag`, on the text `s`. -/
def text_tag (h : upnphttp) (s : List Char) : TextStep :=
  if (text_name s).length = 0 ∨ (text_name s).length = 20
      ∨ is_greater_than_sign_or_white_space ((s.drop (text_name s).length).headD NUL)
        = false then
    TextStep.next false h (s.drop (text_name s).length)
  else text_element h (text_name s) (s.drop (text_name s).length)

/-- One round of the outer loop of `process_post_content` on the text `s`. -/
def text_step (at_new_tag : Bool) (h : upnphttp) (s : List Char) : TextStep :=
  if at_new_tag then text_tag h s
  else if s = [] then TextStep.done h
  else if s.dropWhile (fun c => decide (c ≠ '<')) = [] then TextStep.done h
  else text_tag h (s.dropWhile (fun c => decide (c ≠ '<'))).tail

/-- The outer loop of `process_post_content` as a function of the text that the cursor
delivers. -/
def scan_text : Nat → Bool → upnphttp → List Char → Option upnphttp
  | 0, _, _, _ => none
  | fuel + 1, at_new_tag, h, s =>
    match text_step at_new_tag h s with
    | TextStep.done h => some h
    | TextStep.next at_new_tag h s => scan_text fuel at_new_tag h s

/-- A round on the cursor and a round on the text end alike. -/
def StepRel : ScanStep → TextStep → Prop
  | ScanStep.done h, TextStep.done h1 => h = h1
  | ScanStep.next f h c xml, TextStep.next f1 h1 s => f = f1 ∧ h = h1 ∧ Delivers s c xml
  | _, _ => False

/-! ### Bodies in the chunked transfer coding -/

/-- The number that a string of hexadecimal digits denotes. -/
def hex_number (hdr : List Char) : Nat :=
  hdr.foldl (fun a c => a * 16 + (hex_value c).getD 0) 0

/-- A chunk as a client frames it: the length in hexadecimal, CR LF, the payload,
CR LF. -/
def framed_chunk (chunk : List Char × List Char) : List Char :=
  chunk.1 ++ [CR, LF] ++ chunk.2 ++ [CR, LF]

/-- A body as a client frames it: the chunks followed by the terminating zero-length
chunk. -/
def framed_body (chunks : List (List Char × List Char)) : List Char :=
  (chunks.map framed_chunk).flatten ++ ['0', CR, LF, CR, LF]

/-- The chunk has a payload of 1 to 2048 bytes and a header of one to three hexadecimal
digits that give the length of the payload. -/
def valid_chunk (chunk : List Char × List Char) : Prop :=
  1 ≤ chunk.1.length ∧ chunk.1.length ≤ 3 ∧ (∀ c ∈ chunk.1, (hex_value c).isSome = true)
  ∧ hex_number chunk.1 = chunk.2.length ∧ 1 ≤ chunk.2.length ∧ chunk.2.length ≤ 2048

/-- The body that the chunks carry. -/
def chunks_body (chunks : List (List Char × List Char)) : List Char :=
  (chunks.map (fun chunk => chunk.2)).flatten

/-- The fields of the request that `process_post_content` sets. -/
def browse_args (h : upnphttp) : Option (List Char) × Nat × Int :=
  (h.remote_dirpath, h.starting_index, h.requested_count)

/-- Where a round on the text ends, with the fields of the request that
`process_post_content` sets. -/
def TextStep.args : TextStep → Option (Bool × List Char) × (Option (List Char) × Nat × Int)
  | TextStep.done h => (none, browse_args h)
  | TextStep.next at_new_tag h s => (some (at_new_tag, s), browse_args h)

instance valid_chunk_decidable (chunk : List Char × List Char) : Decidable (valid_chunk chunk) := by
  unfold valid_chunk
  exact inferInstance

/-! ### The text of a SOAP request -/

/-- A piece of the text of a request that starts with `<`: a tag that the scanner passes
over (`<`, the letters `p`, a byte `d` that is no letter, and the text `t` up to the next
`<`), or a leaf element `<name>value</name>` followed by the text `gap`. -/
inductive Segment
  | skipped (p : List Char) (d : Char) (t : List Char)
  | leaf (name value gap : List Char)

/-- The text of a segment. -/
def Segment.text : Segment → List Char
  | Segment.skipped p d t => '<' :: (p ++ d :: t)
  | Segment.leaf name value gap =>
    '<' :: (name ++ '>' :: (value ++ '<' :: '/' :: (name ++ '>' :: gap)))

/-- The conditions on a segment: a tag that is passed over has fewer than 20 letters
before `d`, and `d` is neither `>` nor white space unless there is no letter; a leaf has
a name of 1 to 19 letters and a value without `<` that is shorter than `BUF_SIZE` once
its leading white space is dropped; the texts `t` and `gap` hold no `<`. -/
def Segment.valid : Segment → Prop
  | Segment.skipped p d t =>
    (∀ c ∈ p, is_letter c = true) ∧ p.length < 20 ∧ is_letter d = false ∧ d ≠ '<'
    ∧ (p = [] ∨ is_greater_than_sign_or_white_space d = false) ∧ ∀ c ∈ t, c ≠ '<'
  | Segment.leaf name value gap =>
    (∀ c ∈ name, is_letter c = true) ∧ 0 < name.length ∧ name.length < 20
    ∧ (∀ c ∈ value, c ≠ '<') ∧ (value.dropWhile is_white_space).length < BUF_SIZE
    ∧ ∀ c ∈ gap, c ≠ '<'

/-- The effect of a segment on the request: a leaf is handed to
`process_name_value_pair` with its value trimmed on both sides. -/
def Segment.apply (h : upnphttp) : Segment → upnphttp
  | Segment.skipped _ _ _ => h
  | Segment.leaf name value _ =>
    process_name_value_pair h name (right_trim (value.dropWhile is_white_space))

/-- The text that is left at the head of the outer loop after a segment: from the byte
that ended the tag. -/
def Segment.left : Segment → List Char
  | Segment.skipped _ d t => d :: t
  | Segment.leaf _ _ gap => '>' :: gap

instance segment_valid_decidable (seg : Segment) : Decidable seg.valid := by
  cases seg <;> (unfold Segment.valid; exact inferInstance)

/-- The text of a leaf element `<name>value</name>`. -/
def leaf_text (e : List Char × List Char) : List Char :=
  '<' :: e.1 ++ '>' :: e.2 ++ '<' :: '/' :: e.1 ++ ['>']

/-- The text of a sequence of leaf elements. -/
def leaves_text (es : List (List Char × List Char)) : List Char := (es.map leaf_text).flatten

/-- A leaf element that is none of the arguments read by `process_name_value_pair`: its
name has 1 to 19 letters and is none of `ObjectID`, `ContainerID`, `StartingIndex` and
`RequestedCount`; its value holds no `<` and no NUL and is shorter than `BUF_SIZE`. -/
def other_leaf (e : List Char × List Char) : Prop :=
  (∀ c ∈ e.1, is_letter c = true) ∧ 0 < e.1.length ∧ e.1.length < 20
  ∧ e.1 ≠ "ObjectID".toList ∧ e.1 ≠ "ContainerID".toList ∧ e.1 ≠ "StartingIndex".toList
  ∧ e.1 ≠ "RequestedCount".toList
  ∧ (∀ c ∈ e.2, c ≠ '<' ∧ c ≠ NUL) ∧ e.2.length < BUF_SIZE

/-- The XML declaration and the opening tags `s:Envelope`, `s:Body` and `u:Browse` of a
SOAP Browse request. -/
def envelope_open : List Char :=
  "<?xml version=".toList ++ [QUOT] ++ "1.0".toList ++ [QUOT] ++ " encoding=".toList ++ [QUOT]
    ++ "utf-8".toList ++ [QUOT] ++ "?><s:Envelope xmlns:s=".toList ++ [QUOT]
    ++ "http://schemas.xmlsoap.org/soap/envelope/".toList ++ [QUOT]
    ++ " s:encodingStyle=".toList ++ [QUOT]
    ++ "http://schemas.xmlsoap.org/soap/encoding/".toList ++ [QUOT]
    ++ "><s:Body><u:Browse xmlns:u=".toList ++ [QUOT]
    ++ "urn:schemas-upnp-org:service:ContentDirectory:1".toList ++ [QUOT] ++ ">".toList

/-- The closing tags of a SOAP Browse request. -/
def envelope_close : List Char := "</u:Browse></s:Body></s:Envelope>".toList

/-- A SOAP Browse request with the ObjectID `v`, the StartingIndex `n` and the
RequestedCount `m` in decimal, and other leaf elements before, between and after them. -/
def browse_envelope (v : List Char) (n : Nat) (m : Int)
    (e0 e1 e2 e3 : List (List Char × List Char)) : List Char :=
  envelope_open ++ leaves_text e0 ++ leaf_text ("ObjectID".toList, v) ++ leaves_text e1
    ++ leaf_text ("StartingIndex".toList, sprintf_d (n : Int)) ++ leaves_text e2
    ++ leaf_text ("RequestedCount".toList, sprintf_d m) ++ leaves_text e3 ++ envelope_close

/-- The tags of `envelope_open` as segments. -/
def envelope_open_segments : List Segment :=
  [ Segment.skipped [] '?' ("xml version=".toList ++ [QUOT] ++ "1.0".toList ++ [QUOT] ++ " encoding=".toList ++ [QUOT] ++ "utf-8".toList ++ [QUOT] ++ "?>".toList),
    Segment.skipped ['s'] ':'
      ("Envelope xmlns:s=".toList ++
        [QUOT] ++
        "http://schemas.xmlsoap.org/soap/envelope/".toList ++
        [QUOT] ++
        " s:encodingStyle=".toList ++
        [QUOT] ++
        "http://schemas.xmlsoap.org/soap/encoding/".toList ++
        [QUOT] ++
        ">".toList),
    Segment.skipped ['s'] ':' "Body>".toList,
    Segment.skipped ['u'] ':'
      ("Browse xmlns:u=".toList ++
        [QUOT] ++
        "urn:schemas-upnp-org:service:ContentDirectory:1".toList ++
        [QUOT] ++
        ">".toList) ]

/-- The tags of `envelope_close` as segments. -/
def envelope_close_segments : List Segment :=
  [ Segment.skipped [] '/' "u:Browse>".toList, Segment.skipped [] '/' "s:Body>".toList,
    Segment.skipped [] '/' "s:Envelope>".toList ]

/-- A leaf element as a segment. -/
def leaf_segment (e : List Char × List Char) : Segment := Segment.leaf e.1 e.2 []

/-- The segments of `browse_envelope`. -/
def browse_segments (v : List Char) (n : Nat) (m : Int)
    (e0 e1 e2 e3 : List (List Char × List Char)) : List Segment :=
  envelope_open_segments ++ e0.map leaf_segment ++ [leaf_segment ("ObjectID".toList, v)]
    ++ e1.map leaf_segment ++ [leaf_segment ("StartingIndex".toList, sprintf_d (n : Int))]
    ++ e2.map leaf_segment ++ [leaf_segment ("RequestedCount".toList, sprintf_d m)]
    ++ e3.map leaf_segment ++ envelope_close_segments

instance other_leaf_decidable (e : List Char × List Char) : Decidable (other_leaf e) := by
  unfold other_leaf
  exact inferInstance

/-- A Browse request for the object `Music/A b` with the starting index 3 and the
requested count 5, as a control point sends it. -/
def sample_envelope : List Char :=
  browse_envelope "Music/A b".toList 3 5 []
    [("BrowseFlag".toList, "BrowseDirectChildren".toList), ("Filter".toList, "*".toList)] []
    [("SortCriteria".toList, [])]

/-- The request that carries `sample_envelope` with its `Content-Length`. -/
def sample_soap_request : upnphttp :=
  { init_upnphttp_struct 0 with
    req_command := HttpCommands.EPost, data_len := (sample_envelope.length : Int) }

/-- A body in two chunks of 16 and 40 bytes. -/
def sample_chunks : List (List Char × List Char) :=
  [("10".toList, "<ObjectID>0</Obj".toList),
    ("28".toList, "ectID><RequestedCount>5</RequestedCount>".toList)]

/-! ## minissdp.c : the search target of process_ssdp_request -/

/-- The array `known_service_types` of `minissdp.c`, without its terminating null
pointer; `uuidvalue` is the global of that name. -/
def known_service_types (uuidvalue : List Char) : List (List Char) :=
  [ uuidvalue,
    "upnp:rootdevice".toList,
    "urn:schemas-upnp-org:device:MediaServer:".toList,
    "urn:schemas-upnp-org:service:ContentDirectory:".toList,
    "urn:schemas-upnp-org:service:ConnectionManager:".toList,
    "urn:microsoft.com:service:X_MS_MediaReceiverRegistrar:".toList ]

/-- The function `isdigit` of the C library. -/
def isdigit (c : Char) : Bool := '0'.toNat ≤ c.toNat ∧ c.toNat ≤ '9'.toNat

/-- The loop `while (l < st_len)` of `process_ssdp_request`: `rest` holds the bytes of
`st` from the index `l` on, and the result is the value of `l` when the loop is left. -/
def skip_extra_data : List Char → Nat → Nat
  | [], l => l
  | c :: rest, l =>
    if isdigit c then l
    else if isspace c then skip_extra_data rest (l + 1)
    else l

/-- How the body of the loop over `known_service_types` ends for one entry: with
`continue`, with `break`, or with a response and `return`. -/
inductive StStep
  | next | stop | respond
  deriving DecidableEq

/-- The body of the loop over `known_service_types` for the entry `e`.  The result is
`none` when `st[l - 1]` is read with `l = 0`. -/
def match_service_type (st e : List Char) : Option StStep :=
  if st.length < e.length then some StStep.next
  else if st.take e.length ≠ e then some StStep.next
  else if st.length > e.length then
    if e.length = 0 then none
    else if skip_extra_data
          (st.drop (if rd st (e.length - 1) = ':' ∧ rd st e.length = '1' then e.length + 1
            else e.length))
          (if rd st (e.length - 1) = ':' ∧ rd st e.length = '1' then e.length + 1
            else e.length) ≠ st.length then
      some StStep.stop
    else some StStep.respond
  else some StStep.respond

/-- The loop over `known_service_types` from the index `i` on: the index for which a
response is sent (none when the loop ends or is left by `break`); the outer `none` is a
read of `st[-1]`. -/
def match_service_types (st : List Char) : List (List Char) → Nat → Option (Option Nat)
  | [], _ => some none
  | e :: es, i =>
    match match_service_type st e with
    | none => none
    | some StStep.next => match_service_types st es (i + 1)
    | some StStep.stop => some none
    | some StStep.respond => some (some i)

/-- The part of `process_ssdp_request` that follows the checks of the headers, from
`int st_len = strlen(st)` on: the indices `st_no` of the calls of `send_ssdp_response`,
in their order. -/
def ssdp_responses (uuidvalue st : List Char) : Option (List Nat) :=
  match match_service_types st (known_service_types uuidvalue) 0 with
  | none => none
  | some (some i) => some [i]
  | some none => if st = "ssdp:all".toList then some (List.range 6) else some []

/-- The rule of the code for a search target `st` and an entry `e`: `st` begins with `e`,
and what follows, after one `1` when `e` ends with a colon and the `1` comes next, is
white space only. -/
def st_matches (e st : List Char) : Bool :=
  e.isPrefixOf st
    && ((if e.getLast? = some ':' ∧ (st.drop e.length).head? = some '1' then
          (st.drop e.length).tail
         else st.drop e.length).all isspace)

/-- The value of `uuidvalue` that `set_uuid_value` takes when no MAC address is found. -/
def sample_uuidvalue : List Char := "uuid:4d696e69-444c-164e-9d41-554e4b4e4f57".toList

/-! ## threads.c : create_thread and decrement_thread_count -/

/-- The function `decrement_thread_count` of `threads.c` on the counter
`active_threads`. -/
def decrement_thread_count (active_threads : Int) : Int := active_threads - 1

/-- The function `create_thread` of `threads.c`: its return value and the counter
`active_threads` it leaves; `pthread_create` is the value that `pthread_create`
returns when it is called. -/
def create_thread (max_connections active_threads pthread_create : Int) : Int × Int :=
  if active_threads ≥ max_connections then (-1, active_threads)
  else if pthread_create = 0 then (0, active_threads + 1)
  else (-1, active_threads)

/-- The function `send_resp_dlnafile` of `upnphttp.c`: the error it answers, if any, and
the counter `active_threads` it leaves. -/
def send_resp_dlnafile (chdir_ok : Bool) (max_connections active_threads pthread_create : Int) :
    Option HttpResponseCode × Int :=
  if ¬ chdir_ok then (some HttpResponseCode.HTTP_SERVICE_UNAVAILABLE_503, active_threads)
  else if (create_thread max_connections active_threads pthread_create).1 ≠ 0 then
    (some HttpResponseCode.HTTP_INTERNAL_ERROR_500,
      (create_thread max_connections active_threads pthread_create).2)
  else (none, (create_thread max_connections active_threads pthread_create).2)

/-- What happens to the counter of `threads.c`: a call of `create_thread` (with the value
that `pthread_create` returns when it is reached), or the exit of a worker, which calls
`decrement_thread_count`.  The calls are serialised by the mutex `lock`. -/
inductive ThreadEvent
  | create (pthread_create : Int)
  | worker_exit
  deriving DecidableEq

/-- The counter `active_threads` and the number of workers that were started (calls of
`create_thread` that returned 0) and have not exited yet, after the events. -/
def run_thread_events (max_connections : Int) : List ThreadEvent → Int × Nat → Int × Nat
  | [], st => st
  | ThreadEvent.create r :: events, (active_threads, running) =>
    run_thread_events max_connections events
      ((create_thread max_connections active_threads r).2,
        if (create_thread max_connections active_threads r).1 = 0 then running + 1
        else running)
  | ThreadEvent.worker_exit :: events, (active_threads, running) =>
    run_thread_events max_connections events (decrement_thread_count active_threads, running - 1)

/-- Whether every exit in the events is the exit of a worker that was started and has
not exited before: `decrement_thread_count` is called once per started worker. -/
def exits_of_started_workers (max_connections : Int) : List ThreadEvent → Int × Nat → Bool
  | [], _ => true
  | ThreadEvent.create r :: events, st =>
    exits_of_started_workers max_connections events
      (run_thread_events max_connections [ThreadEvent.create r] st)
  | ThreadEvent.worker_exit :: events, st =>
    decide (0 < st.2) && exits_of_started_workers max_connections events
      (run_thread_events max_connections [ThreadEvent.worker_exit] st)

/-! ## getifaddr.c : get_interface, and the accept branch of main -/

/-- The structure `lan_addr_s` of `getifaddr.h`, as far as `get_interface` reads it; the
fields `addr` and `mask` hold the value of `s_addr`, a 32-bit number that the host reads
from four bytes in network byte order. -/
structure lan_addr_s where
  str : List Char
  addr : Nat
  mask : Nat
  deriving DecidableEq

/-- The loop of `get_interface` from the index `i` on; `lan_addr` holds the entries from
`i` to `n_lan_addr - 1`. -/
def get_interface_loop (client : Nat) : List lan_addr_s → Nat → Int
  | [], _ => -1
  | a :: lan_addr, i =>
    if client &&& a.mask = a.addr &&& a.mask then (i : Int)
    else get_interface_loop client lan_addr (i + 1)

/-- The function `get_interface` of `getifaddr.c`; `lan_addr` holds the `n_lan_addr`
entries in use and `client` is the value of `client->s_addr`. -/
def get_interface (lan_addr : List lan_addr_s) (client : Nat) : Int :=
  get_interface_loop client lan_addr 0

/-- The constant `INADDR_LOOPBACK` of `netinet/in.h`: 127.0.0.1 in host byte order. -/
def INADDR_LOOPBACK : Nat := 0x7f000001

/-- The value that a host reads from the field `s_addr` when it holds the address
`a.b.c.d` in network byte order (the byte `a` first in memory). -/
def s_addr_of (little_endian : Bool) (a b c d : Nat) : Nat :=
  if little_endian then a + 256 * b + 65536 * c + 16777216 * d
  else 16777216 * a + 65536 * b + 256 * c + d

/-- The branch of the main loop that follows a successful `accept`: the value of `iface`
that is handed to `process_upnphttp_http_query`, or `none` when the connection is
rejected and closed; `s_addr` is the value of `clientname.sin_addr.s_addr`. -/
def accept_http (lan_addr : List lan_addr_s) (s_addr : Nat) : Option Int :=
  if s_addr ≠ INADDR_LOOPBACK then
    if get_interface lan_addr s_addr = -1 then none
    else some (get_interface lan_addr s_addr)
  else some (-1)

/-- The interface 192.168.1.5 with the netmask 255.255.255.0, the only entry of
`lan_addr`. -/
def sample_lan_addr (little_endian : Bool) : List lan_addr_s :=
  [{ str := "192.168.1.5".toList, addr := s_addr_of little_endian 192 168 1 5,
     mask := s_addr_of little_endian 255 255 255 0 }]

/-! ## upnpevents.c : the subscriber list and the notify list -/

/-- The states of a notify object (the enumeration in `struct upnp_event_notify`). -/
inductive NotifyState
  | ECreated | EConnecting | ESending | EWaitingForResponse | EFinished | EError
  deriving DecidableEq, Repr

/-- The structure `upnp_event_notify`, as far as the handling of the lists reads it: the
socket, the state and the address of the subscriber (none for NULL). -/
structure upnp_event_notify where
  s : Int
  state : NotifyState
  sub : Option Nat
  deriving DecidableEq

/-- The lists `subscriberlist` and `notifylist` of `upnpevents.c`.  Every object is held
with its address, a pointer to an object is its address, and the links `next` are the
order of the lists. -/
structure EventLists where
  subscriberlist : List (Nat × subscriber)
  notifylist : List (Nat × upnp_event_notify)

/-- The assignment `sub->notify = v` for the subscriber at the address `x`. -/
def set_notify (x : Nat) (v : Option Nat) (subs : List (Nat × subscriber)) :
    List (Nat × subscriber) :=
  subs.map (fun e => if e.1 = x then (e.1, { e.2 with notify := v }) else e)

/-- The assignment `obj->sub = NULL` for the notify object at the address `j`. -/
def clear_sub (j : Nat) (objs : List (Nat × upnp_event_notify)) :
    List (Nat × upnp_event_notify) :=
  objs.map (fun o => if o.1 = j then (o.1, { o.2 with sub := none }) else o)

/-- The statements `sub->seq++; if (!sub->seq) sub->seq++;` on the `uint32_t` field of
the subscriber at the address `x`. -/
def bump_seq (x : Nat) (subs : List (Nat × subscriber)) : List (Nat × subscriber) :=
  subs.map (fun e =>
    if e.1 = x then
      (e.1, { e.2 with seq := if (e.2.seq + 1) % 2 ^ 32 = 0 then 1 else (e.2.seq + 1) % 2 ^ 32 })
    else e)

/-- The function `upnp_event_create_notify(sub)`; `obj` is the address that `safe_malloc`
returns, `socket` the value that `socket` returns and `fcntl_ok` tells whether both
calls of `fcntl` succeed.  On an error the object is freed and the lists are left as
they are. -/
def upnp_event_create_notify (obj : Nat) (socket : Int) (fcntl_ok : Bool) (sub : Option Nat)
    (l : EventLists) : EventLists :=
  if socket < 0 ∨ fcntl_ok = false then l
  else
    { subscriberlist :=
        match sub with
        | some x => set_notify x (some obj) l.subscriberlist
        | none => l.subscriberlist,
      notifylist := (obj, { s := socket, state := NotifyState.ECreated, sub := sub })
        :: l.notifylist }

/-- The function `add_upnpevent_subscriber` on the two lists: the new subscriber is
filled as `MicroDLNA.add_upnpevent_subscriber` fills it, put at the address `ns` that
`safe_malloc` returns and at the head of the subscriber list, and
`upnp_event_create_notify` is called for it. -/
def EventLists.add_upnpevent_subscriber (env : EventEnv) (ns obj : Nat) (socket : Int)
    (fcntl_ok : Bool) (eventurl callback : Option (List Char)) (timeout : Int)
    (l : EventLists) : Option (List Char) × EventLists :=
  match MicroDLNA.add_upnpevent_subscriber { env with notify := none } [] eventurl callback
      timeout with
  | (some uuid, sub :: _) =>
    (some uuid,
      upnp_event_create_notify obj socket fcntl_ok (some ns)
        { l with subscriberlist := (ns, sub) :: l.subscriberlist })
  | _ => (none, l)

/-- The loop of `renew_upnpevent_subscriber` on the subscribers with their addresses. -/
def renew_subscriber_loop (now : Int) (sid : List Char) (timeout : Int) :
    List (Nat × subscriber) → Int × List (Nat × subscriber)
  | [] => (-1, [])
  | e :: rest =>
    if memcmp_eq sid e.2.uuid 41 then
      (0, (e.1, { e.2 with timeout := if timeout ≠ 0 then now + timeout else 0 }) :: rest)
    else
      ((renew_subscriber_loop now sid timeout rest).1,
        e :: (renew_subscriber_loop now sid timeout rest).2)

/-- The loop of `remove_upnpevent_subscriber`: the subscriber that is unlinked, if any,
and the list that is left. -/
def remove_subscriber_loop (sid : List Char) :
    List (Nat × subscriber) → Option (Nat × subscriber) × List (Nat × subscriber)
  | [] => (none, [])
  | e :: rest =>
    if memcmp_eq sid e.2.uuid 41 then (some e, rest)
    else ((remove_subscriber_loop sid rest).1, e :: (remove_subscriber_loop sid rest).2)

/-- The function `remove_upnpevent_subscriber`: its return value and the lists it
leaves. -/
def EventLists.remove_upnpevent_subscriber (sid : Option (List Char)) (l : EventLists) :
    Int × EventLists :=
  match sid with
  | none => (-1, l)
  | some sid =>
    match remove_subscriber_loop sid l.subscriberlist with
    | (none, _) => (-1, l)
    | (some e, rest) =>
      (0, { subscriberlist := rest,
            notifylist :=
              match e.2.notify with
              | some j => clear_sub j l.notifylist
              | none => l.notifylist })

/-- The function `process_http_subscribe_upnphttp` on the two lists: the response it
sends and the lists it leaves. -/
def EventLists.process_http_subscribe_upnphttp (env : EventEnv) (ns obj : Nat)
    (socket : Int) (fcntl_ok : Bool) (h : upnphttp) (l : EventLists) :
    Option HttpResponseCode × EventLists :=
  match check_event h with
  | (EventType.E_SUBSCRIBE, h, _) =>
    (some HttpResponseCode.HTTP_OK_200,
      (l.add_upnpevent_subscriber env ns obj socket fcntl_ok (some h.path) h.req_callback
        h.req_timeout).2)
  | (EventType.E_RENEW, h, _) =>
    if (renew_subscriber_loop env.now (h.req_sid.getD []) h.req_timeout l.subscriberlist).1
        < 0 then
      (some HttpResponseCode.HTTP_PRECONDITION_FAILED_412, l)
    else
      (some HttpResponseCode.HTTP_OK_200,
        { l with subscriberlist :=
            (renew_subscriber_loop env.now (h.req_sid.getD []) h.req_timeout
              l.subscriberlist).2 })
  | (EventType.E_INVALID, _, response) => (response, l)

/-- The function `process_http_un_subscribe_upnphttp` on the two lists. -/
def EventLists.process_http_un_subscribe_upnphttp (h : upnphttp) (l : EventLists) :
    Option HttpResponseCode × EventLists :=
  match check_event h with
  | (EventType.E_INVALID, _, response) => (response, l)
  | (_, h, _) =>
    if (l.remove_upnpevent_subscriber h.req_sid).1 < 0 then
      (some HttpResponseCode.HTTP_PRECONDITION_FAILED_412,
        (l.remove_upnpevent_subscriber h.req_sid).2)
    else (some HttpResponseCode.HTTP_OK_200, (l.remove_upnpevent_subscriber h.req_sid).2)

/-- The function `upnp_event_notify_connect`, as far as the state is concerned;
`connect_ok` tells whether `connect` succeeds or is in progress. -/
def upnp_event_notify_connect (connect_ok : Bool) (obj : upnp_event_notify) :
    upnp_event_notify :=
  if obj.sub = none then { obj with state := NotifyState.EError }
  else if connect_ok then { obj with state := NotifyState.EConnecting }
  else { obj with state := NotifyState.EError }

/-- The body of the loop of `upnpevents_selectfds` for one notify object: the object as
it is left and the sockets that are added to the read set and to the write set. -/
def selectfds_step (connect_ok : Bool) (obj : upnp_event_notify) :
    upnp_event_notify × List Int × List Int :=
  if obj.s ≥ 0 then
    match obj.state with
    | NotifyState.ECreated =>
      if (upnp_event_notify_connect connect_ok obj).state ≠ NotifyState.EConnecting then
        (upnp_event_notify_connect connect_ok obj, [], [])
      else (upnp_event_notify_connect connect_ok obj, [], [obj.s])
    | NotifyState.EConnecting => (obj, [], [obj.s])
    | NotifyState.ESending => (obj, [], [obj.s])
    | NotifyState.EWaitingForResponse => (obj, [obj.s], [])
    | _ => (obj, [], [])
  else (obj, [], [])

/-- The function `upnpevents_selectfds`: the lists it leaves, the read set and the write
set; `connect_ok` tells, for the object at an address, how `connect` ends. -/
def upnpevents_selectfds (connect_ok : Nat → Bool) (l : EventLists) :
    EventLists × List Int × List Int :=
  ({ l with notifylist :=
      l.notifylist.map (fun o => (o.1, (selectfds_step (connect_ok o.1) o.2).1)) },
    (l.notifylist.map (fun o => (selectfds_step (connect_ok o.1) o.2).2.1)).flatten,
    (l.notifylist.map (fun o => (selectfds_step (connect_ok o.1) o.2).2.2)).flatten)

/-- How the sending of `upnp_event_prepare` ends: nothing is sent because `dup` or
`sdopen` fails, the writing ends with EOF, or the message is sent. -/
inductive PrepareOutcome
  | not_sent | eof | sent
  deriving DecidableEq

/-- The function `upnp_event_prepare`, as far as the state is concerned. -/
def upnp_event_prepare (outcome : PrepareOutcome) (obj : upnp_event_notify) :
    upnp_event_notify :=
  if obj.sub = none ∨ obj.s = -1 then { obj with state := NotifyState.EError }
  else
    match outcome with
    | PrepareOutcome.not_sent => obj
    | PrepareOutcome.eof => { obj with state := NotifyState.EError }
    | PrepareOutcome.sent => { obj with state := NotifyState.EWaitingForResponse }

/-- The function `upnp_event_recv`; `n` is the value that `recv` returns. -/
def upnp_event_recv (n : Int) (obj : upnp_event_notify) (subs : List (Nat × subscriber)) :
    upnp_event_notify × List (Nat × subscriber) :=
  if n < 0 then ({ obj with state := NotifyState.EError }, subs)
  else
    ({ obj with state := NotifyState.EFinished },
      match obj.sub with
      | some x => bump_seq x subs
      | none => subs)

/-- The function `upnp_event_process_notify`. -/
def upnp_event_process_notify (outcome : PrepareOutcome) (n : Int) (obj : upnp_event_notify)
    (subs : List (Nat × subscriber)) : upnp_event_notify × List (Nat × subscriber) :=
  match obj.state with
  | NotifyState.EConnecting => (upnp_event_prepare outcome obj, subs)
  | NotifyState.EWaitingForResponse => upnp_event_recv n obj subs
  | NotifyState.EFinished => ({ obj with s := -1 }, subs)
  | _ => (obj, subs)

/-- The first loop of `upnpevents_processfds`: every object whose socket is in one of
the sets is handed to `upnp_event_process_notify`. -/
def process_notifylist (readset writeset : List Int) (outcome : Nat → PrepareOutcome)
    (n : Nat → Int) :
    List (Nat × upnp_event_notify) → List (Nat × subscriber) →
      List (Nat × upnp_event_notify) × List (Nat × subscriber)
  | [], subs => ([], subs)
  | o :: rest, subs =>
    if o.2.s ≥ 0 ∧ (o.2.s ∈ readset ∨ o.2.s ∈ writeset) then
      ((o.1, (upnp_event_process_notify (outcome o.1) (n o.1) o.2 subs).1)
          :: (process_notifylist readset writeset outcome n rest
                (upnp_event_process_notify (outcome o.1) (n o.1) o.2 subs).2).1,
        (process_notifylist readset writeset outcome n rest
          (upnp_event_process_notify (outcome o.1) (n o.1) o.2 subs).2).2)
    else
      (o :: (process_notifylist readset writeset outcome n rest subs).1,
        (process_notifylist readset writeset outcome n rest subs).2)

/-- The second loop of `upnpevents_processfds`: every object in the state `EError` or
`EFinished` is unlinked and freed, after `obj->sub->notify = NULL` when it has a
subscriber. -/
def sweep_notifylist :
    List (Nat × upnp_event_notify) → List (Nat × subscriber) →
      List (Nat × upnp_event_notify) × List (Nat × subscriber)
  | [], subs => ([], subs)
  | o :: rest, subs =>
    if o.2.state = NotifyState.EError ∨ o.2.state = NotifyState.EFinished then
      sweep_notifylist rest
        (match o.2.sub with
         | some x => set_notify x none subs
         | none => subs)
    else ((o :: (sweep_notifylist rest subs).1), (sweep_notifylist rest subs).2)

/-- The function `upnpevents_processfds`. -/
def upnpevents_processfds (readset writeset : List Int) (outcome : Nat → PrepareOutcome)
    (n : Nat → Int) (l : EventLists) : EventLists :=
  { subscriberlist :=
      (sweep_notifylist
        (process_notifylist readset writeset outcome n l.notifylist l.subscriberlist).1
        (process_notifylist readset writeset outcome n l.notifylist l.subscriberlist).2).2,
    notifylist :=
      (sweep_notifylist
        (process_notifylist readset writeset outcome n l.notifylist l.subscriberlist).1
        (process_notifylist readset writeset outcome n l.notifylist l.subscriberlist).2).1 }

/-- The function `upnpevents_removed_timedout_subs`; `curtime` is the value of
`time(NULL)`. -/
def upnpevents_removed_timedout_subs (curtime : Int) (l : EventLists) : EventLists :=
  { l with subscriberlist :=
      l.subscriberlist.filter (fun e =>
        ¬ (e.2.timeout ≠ 0 ∧ curtime > e.2.timeout ∧ e.2.notify = none)) }

/-- The operations of the event engine: a SUBSCRIBE request (which creates a subscriber
or renews one), an UNSUBSCRIBE request, `upnpevents_selectfds`, `upnpevents_processfds`
and the expiry sweep, each with what it takes from its environment. -/
inductive EventOp
  | subscribe (env : EventEnv) (ns obj : Nat) (socket : Int) (fcntl_ok : Bool) (h : upnphttp)
  | unsubscribe (h : upnphttp)
  | selectfds (connect_ok : Nat → Bool)
  | processfds (readset writeset : List Int) (outcome : Nat → PrepareOutcome) (n : Nat → Int)
  | removed_timedout_subs (curtime : Int)

/-- The lists that an operation leaves. -/
def EventOp.run (l : EventLists) : EventOp → EventLists
  | EventOp.subscribe env ns obj socket fcntl_ok h =>
    (l.process_http_subscribe_upnphttp env ns obj socket fcntl_ok h).2
  | EventOp.unsubscribe h => (l.process_http_un_subscribe_upnphttp h).2
  | EventOp.selectfds connect_ok => (upnpevents_selectfds connect_ok l).1
  | EventOp.processfds readset writeset outcome n =>
    upnpevents_processfds readset writeset outcome n l
  | EventOp.removed_timedout_subs curtime => upnpevents_removed_timedout_subs curtime l

/-- What `safe_malloc` guarantees for an operation: the addresses it returns are not the
addresses of objects that are in the lists. -/
def EventOp.fresh (l : EventLists) : EventOp → Bool
  | EventOp.subscribe _ ns obj _ _ _ =>
    decide (ns ∉ l.subscriberlist.map Prod.fst) && decide (obj ∉ l.notifylist.map Prod.fst)
  | _ => true

/-- The lists after a sequence of operations. -/
def run_event_ops : List EventOp → EventLists → EventLists
  | [], l => l
  | op :: ops, l => run_event_ops ops (op.run l)

/-- Whether `safe_malloc` keeps its guarantee all along a sequence of operations. -/
def fresh_event_ops : List EventOp → EventLists → Bool
  | [], _ => true
  | op :: ops, l => op.fresh l && fresh_event_ops ops (op.run l)

/-- The lists at the start of the program: both are empty. -/
def empty_event_lists : EventLists := { subscriberlist := [], notifylist := [] }

/-- The invariant of the two lists on the addresses and the pointers: the addresses of
each list are distinct, a notify object with a subscriber is the notify object of that
subscriber, and the notify object of a subscriber has that subscriber. -/
def ListsInv (S J : List (Nat × Option Nat)) : Prop :=
  (S.map Prod.fst).Nodup ∧ (J.map Prod.fst).Nodup
  ∧ (∀ a x, (a, some x) ∈ J → (x, some a) ∈ S)
  ∧ (∀ x a, (x, some a) ∈ S → (a, some x) ∈ J)

/-- The addresses of the subscribers with their pointers `notify`. -/
def sub_links (subs : List (Nat × subscriber)) : List (Nat × Option Nat) :=
  subs.map (fun e => (e.1, e.2.notify))

/-- The addresses of the notify objects with their pointers `sub`. -/
def notify_links (objs : List (Nat × upnp_event_notify)) : List (Nat × Option Nat) :=
  objs.map (fun o => (o.1, o.2.sub))

/-- The assignment of the pointer `v` to the object at the address `x`, on the addresses
and pointers of a list. -/
def link_set (x : Nat) (v : Option Nat) (L : List (Nat × Option Nat)) :
    List (Nat × Option Nat) :=
  L.map (fun e => if e.1 = x then (e.1, v) else e)

/-- The assignment of NULL to the pointer of the object that `n` points to, if any. -/
def link_clear (n : Option Nat) (L : List (Nat × Option Nat)) : List (Nat × Option Nat) :=
  match n with
  | some a => link_set a none L
  | none => L

/-- A SUBSCRIBE request for the ContentDirectory events with a callback and the timeout
of 1800 seconds. -/
def sample_subscribe_request : upnphttp :=
  sample_subscribe CONTENTDIRECTORY_EVENTURL (some "http://192.168.1.9:4000/cb".toList)
    (some "upnp:event".toList) none (some "Second-1800".toList)

/-- An UNSUBSCRIBE request with the SID that `sample_event_env` gives to a subscriber. -/
def sample_unsubscribe_request : upnphttp :=
  sample_subscribe CONTENTDIRECTORY_EVENTURL none none
    (some (make_uuid sample_event_env.uuidvalue sample_event_env.random)) none

/-- A run of the event engine: a subscriber is created at the address 100 with its
notify object at 200 and the socket 7, the object connects, a second subscriber is
created at 101 with the notify object 201 and the socket 8, the first message is sent,
the subscriber at 101 (the first in the list) is removed by an UNSUBSCRIBE, the answer
to the first message is received and the object is freed, and the expiry sweep runs. -/
def sample_event_ops : List EventOp :=
  [ EventOp.subscribe sample_event_env 100 200 7 true sample_subscribe_request,
    EventOp.selectfds (fun _ => true),
    EventOp.subscribe sample_event_env 101 201 8 true sample_subscribe_request,
    EventOp.processfds [] [7] (fun _ => PrepareOutcome.sent) (fun _ => 0),
    EventOp.unsubscribe sample_unsubscribe_request,
    EventOp.processfds [7] [] (fun _ => PrepareOutcome.sent) (fun _ => 0),
    EventOp.removed_timedout_subs 1000001 ]

/-! ## upnphttp.c and sendfile.c : the byte positions handed to send_file -/

/-- The arguments `(offset, end_offset)` with which `serve_file` calls `send_file`. -/
def ServeResult.send_file_args : ServeResult → Option (Int × Int)
  | ServeResult.error _ => none
  | ServeResult.served _ _ _ _ _ args => args

/-- The constant `MAX_BUFFER_SIZE` of `sendfile.c`. -/
def MAX_BUFFER_SIZE : Int := 2147483647

/-- The first round of the loop `while (offset <= end_offset)` of `send_file`: the
comparison is made on `size_t`, and the result is the offset and the number of bytes
`send_size` that are asked of `sys_sendfile`, or `none` when the loop is not entered. -/
def send_file_first_round (offset end_offset : Int) : Option (Int × Int) :=
  if to_size_t offset ≤ end_offset then
    some (offset,
      if to_size_t (end_offset - to_size_t offset + 1) > MAX_BUFFER_SIZE then MAX_BUFFER_SIZE
      else to_size_t (end_offset - to_size_t offset + 1))
  else none

/-- A GET of `/MediaItems/clip.mp4` as `serve_file` receives it, without a `Range`
header. -/
def sample_file_get : upnphttp := { sample_get with path := "/clip.mp4".toList }

/-! ## upnphttp.c : the Timeout header of send_http_headers -/

/-- The number `n` of the line `Timeout: Second-n` that `send_http_headers` prints for
the request `h`, or none when `FLAG_TIMEOUT` is not set in `respflags` and the line is
left out. -/
def send_http_headers_timeout (h : upnphttp) : Option Int :=
  if h.respflags &&& FLAG_TIMEOUT ≠ 0 then
    some (if h.req_timeout ≠ 0 then h.req_timeout else 300)
  else none

/-- A SUBSCRIBE request for the ContentDirectory events with a callback and without a
`Timeout` header. -/
def sample_subscribe_no_timeout : upnphttp :=
  sample_subscribe CONTENTDIRECTORY_EVENTURL (some "http://192.168.1.9:4000/cb".toList)
    (some "upnp:event".toList) none none

/-- A renewal with the SID that `sample_event_env` gives to a subscriber and the header
`Timeout: Second-1800`. -/
def sample_renewal : upnphttp :=
  sample_subscribe CONTENTDIRECTORY_EVENTURL none none
    (some (make_uuid sample_event_env.uuidvalue sample_event_env.random))
    (some "Second-1800".toList)

/-! ### Request bodies with an element that is not captured -/

/-- The text of a sequence of segments. -/
def segments_text (segs : List Segment) : List Char := (segs.map Segment.text).flatten

/-- A request body in which the element `<name>value</closer` stands between the
segments `pre` and the text `rest`. -/
def body_with_element (pre : List Segment) (name value closer rest : List Char) : List Char :=
  segments_text pre ++ '<' :: (name ++ '>' :: (value ++ '<' :: '/' :: (closer ++ rest)))

/-- The start of a Browse request: the opening tags and the ObjectID `0`. -/
def sample_pre_segments : List Segment :=
  envelope_open_segments ++ [leaf_segment ("ObjectID".toList, "0".toList)]

/-- The end of a Browse request: the StartingIndex 7, the RequestedCount 5 and the
closing tags. -/
def sample_post_segments : List Segment :=
  [leaf_segment ("StartingIndex".toList, "7".toList),
    leaf_segment ("RequestedCount".toList, "5".toList)] ++ envelope_close_segments

/-- A Browse request whose element `Filter` is closed by `</Filtre>`. -/
def sample_malformed_body : List Char :=
  body_with_element sample_pre_segments "Filter".toList "*".toList "Filtre>".toList
    (segments_text sample_post_segments)

/-- A Browse request whose element `Filter` has a value of 1024 bytes and a well-formed
closing tag. -/
def sample_overflow_body : List Char :=
  body_with_element sample_pre_segments "Filter".toList (List.replicate 1024 'x')
    "Filter>".toList (segments_text sample_post_segments)

/-- The POST request that carries `body` with its `Content-Length`. -/
def sample_post_request (body : List Char) : upnphttp :=
  { init_upnphttp_struct 0 with
    req_command := HttpCommands.EPost, data_len := (body.length : Int) }

/-! ## getifaddr.c : validate_uuid -/

/-- The test that `validate_uuid` makes on a byte of a group: the byte passes when it is
NUL or a hexadecimal digit (`*s != '\0' && (*s < 'A' || *s > 'F') && (*s < 'a' || *s > 'f')
&& (*s < '0' || *s > '9')` is false). -/
def uuid_byte_passes (c : Char) : Bool :=
  ¬ (c ≠ NUL ∧ (c.toNat < 'A'.toNat ∨ c.toNat > 'F'.toNat)
      ∧ (c.toNat < 'a'.toNat ∨ c.toNat > 'f'.toNat)
      ∧ (c.toNat < '0'.toNat ∨ c.toNat > '9'.toNat))

/-- The inner loop `for (j = 0; j < lens[i]; j++, s++)` of `validate_uuid` on the memory
`mem`, with `s` at the offset `p` and `n` bytes of the group left.  The result is `none`
when a byte outside `mem` is read, `some none` when the function returns 0 and
`some (some p)` when the loop ends with `s` at the offset `p`. -/
def validate_uuid_group (mem : List Char) : Nat → Nat → Option (Option Nat)
  | 0, p => some (some p)
  | n + 1, p =>
    match mem.get? p with
    | none => none
    | some c => if uuid_byte_passes c then validate_uuid_group mem n (p + 1) else some none

/-- The outer loop `for (i = 0; i < 5; i++)` of `validate_uuid` and the final
`return *s == '\0'`; `lens` holds the lengths of the groups that are left and `first`
tells whether `i` is 0. -/
def validate_uuid_groups (mem : List Char) : List Nat → Bool → Nat → Option Int
  | [], _, p =>
    match mem.get? p with
    | none => none
    | some c => some (if c = NUL then 1 else 0)
  | len :: lens, first, p =>
    if first then
      match validate_uuid_group mem len p with
      | none => none
      | some none => some 0
      | some (some p) => validate_uuid_groups mem lens false p
    else
      match mem.get? p with
      | none => none
      | some c =>
        if c ≠ '-' then some 0
        else
          match validate_uuid_group mem len (p + 1) with
          | none => none
          | some none => some 0
          | some (some p) => validate_uuid_groups mem lens false p

/-- The function `validate_uuid` of `getifaddr.c`.  The argument is the memory from `s`
on: the string `s`, its terminating NUL and the bytes that follow it.  The result is
`none` when the function reads past the end of `mem`. -/
def validate_uuid (mem : List Char) : Option Int :=
  validate_uuid_groups mem [8, 4, 4, 4, 12] true 0

/-- The string that starts at the head of the memory `mem`. -/
def string_at (mem : List Char) : List Char := cstr_at mem 0

/-- Whether a string has the canonical form of a uuid: 36 bytes, `-` at the positions 8,
13, 18 and 23 and a hexadecimal digit at every other position. -/
def canonical_uuid (s : List Char) : Bool :=
  decide (s.length = 36) && (List.range 36).all (fun i =>
    if i = 8 ∨ i = 13 ∨ i = 18 ∨ i = 23 then decide (rd s i = '-')
    else (hex_value (rd s i)).isSome)

/-- The memory that holds the argument vector of
`microdlna -U 1234567 -1234-1234-1234-123456789012`, from the option value on: the
arguments lie one after the other, each with its terminating NUL. -/
def sample_argv_memory : List Char :=
  "1234567".toList ++ [NUL] ++ "-1234-1234-1234-123456789012".toList ++ [NUL]

/-! ## upnphttp.c : the request line of process_upnphttp_http_query -/

/-- How the part of `process_upnphttp_http_query` that handles the request line ends: the
connection is closed without an answer, an error is answered, the protocol check reads
`buf` at a negative index, or the line is accepted with its method and the path
`path_tmp` (which `url_unescape` then rewrites). -/
inductive RequestLine
  | closed
  | answered (code : HttpResponseCode)
  | out_of_bounds (index : Int)
  | parsed (req_command : HttpCommands) (path_tmp : List Char)
  deriving DecidableEq

/-- The method check of `process_upnphttp_http_query`. -/
def request_method (method : List Char) : Option HttpCommands :=
  if method = "GET".toList then some HttpCommands.EGet
  else if method = "HEAD".toList then some HttpCommands.EHead
  else if method = "POST".toList then some HttpCommands.EPost
  else if method = "SUBSCRIBE".toList then some HttpCommands.ESubscribe
  else if method = "UNSUBSCRIBE".toList then some HttpCommands.EUnSubscribe
  else none

/-- The part of `process_upnphttp_http_query` from the first `readline` to the loops that
skip the host or the blanks before the path; `input` holds the bytes that the socket
delivers.  The line that `readline` stores has `len` bytes and its terminating NUL at the
index `len`. -/
def process_request_line (input : List Char) : RequestLine :=
  let len := (readline 1024 input []).1
  let buf := (readline 1024 input []).2.1
  if len < 1 then RequestLine.closed
  else
    let space := (buf.takeWhile (fun c => decide (c ≠ ' ' ∧ c ≠ NUL))).length
    if rd buf space ≠ ' ' then RequestLine.closed
    else
      let buf1 := buf.set space NUL
      match request_method (cstr_at buf1 0) with
      | none => RequestLine.answered HttpResponseCode.HTTP_NOT_IMPLEMENTED_501
      | some req_command =>
        if len - 9 < 0 then RequestLine.out_of_bounds (len - 9)
        else if cstr_at buf1 (len - 9).toNat ≠ " HTTP/1.1".toList then
          RequestLine.answered HttpResponseCode.HTTP_NOT_IMPLEMENTED_501
        else
          let path_tmp := cstr_at (buf1.set (len - 9).toNat NUL) (space + 1)
          if strncmp_eq_n path_tmp "http://".toList 7 then
            RequestLine.parsed req_command
              ((path_tmp.drop 7).dropWhile (fun c => decide (c ≠ '/')))
          else RequestLine.parsed req_command (path_tmp.dropWhile (fun c => decide (c = ' ')))

/-- The bytes of a request that consists of one line. -/
def request_bytes (line : List Char) : List Char := line ++ [CR, LF]

/-! ### Invariants used in the proofs -/

/-- The predicate `Stk A st` says that the buffer prefix `A` holds the segments of the stack `st`
(top first), each preceded by a run of slashes (which may be empty only for the first
one), and that it ends with the top segment. -/
inductive Stk : List Char → List (List Char) → Prop
  | nil : Stk [] []
  | push (A : List Char) (st : List (List Char)) (k : Nat) (seg : List Char) :
      Stk A st → seg ≠ [] → '/' ∉ seg → NUL ∉ seg → (A = [] ∨ 0 < k) →
      Stk (A ++ (List.replicate k '/' ++ seg)) (seg :: st)

/-- What the first loop of `sanitise_path` has to deliver, given the result of the reference
scan: a rejection, or a buffer that holds the final stack followed by slashes. -/
def ScanOK (res : Option (Bool × List Char)) : Option (List (List Char)) → Prop
  | none => ∃ b, res = some (false, b)
  | some st => ∃ A k, Stk A st ∧ res = some (true, A ++ List.replicate k '/')

/-- The string `s` with every run of slashes reduced to its last slash: what the copying
loop of `sanitise_path` writes when it reads `s`. -/
def squeezed : List Char → List Char
  | [] => []
  | c :: s => if c = '/' ∧ rd s 0 = '/' then squeezed s else c :: squeezed s

/-- A segment that the reference normaliser pushes: not empty, free of slashes, and
neither `.` nor `..`. -/
def GoodSeg (seg : List Char) : Prop :=
  seg ≠ [] ∧ '/' ∉ seg ∧ seg ≠ ['.'] ∧ seg ≠ ['.', '.']

/-! ### Evaluations on concrete inputs -/

theorem sanitise_path_eval_escape : sanitise_path "/../etc/passwd".toList = some (false, "////etc/passwd".toList) := by decide

theorem sanitise_path_eval_mixed : sanitise_path "a/b/../c/./d//".toList = some (true, "a/c/d".toList) := by decide

theorem reference_normalise_eval_mixed : reference_normalise "a/b/../c/./d//".toList = some "a/c/d".toList := by decide

theorem reference_normalise_eval_escape : reference_normalise "/../etc/passwd".toList = none := by decide

theorem url_escape_eval_mixed : url_escape "a b/c+d%".toList = "a%20b/c+d%25".toList := by decide

theorem url_escape_eval_plain : url_escape "clip.mp4".toList = "clip.mp4".toList := by decide

theorem url_unescape_eval_mixed : url_unescape "a%20b/c+d%25%zz%%4".toList = some "a b/c d%%zz%4".toList := by decide

theorem url_unescape_ref_eval_mixed : url_unescape_ref "a%20b/c+d%25%zz%%4".toList = "a b/c d%%zz%4".toList := by decide

theorem url_escape_ref_eval_mixed : url_escape_ref "a b/c+d%".toList = "a%20b/c+d%25".toList := by decide

theorem xml_escape_double_eval : xml_escape_double "Tom & Jerry <1>".toList = "Tom &amp;amp; Jerry &amp;lt;1&amp;gt;".toList := by
  decide

theorem xml_unescape_twice_eval : (xml_unescape (xml_escape_double "Tom & Jerry <1>".toList)).bind xml_unescape
    = some "Tom & Jerry <1>".toList := by
  decide

theorem process_headers_eval_wrong_host : process_headers_and_gate sample_config sample_get
    (header_block ["Host: evil.example.com".toList]) 26 []
    = some (Outcome.respond HttpResponseCode.HTTP_BAD_REQUEST_400) := by
  decide

theorem process_headers_eval_good_host : (process_headers_and_gate sample_config sample_get
    (header_block ["HOST :  192.168.1.5:2800  ".toList, "Range: bytes=5-".toList]) 26 []).map
      (fun o => o.dispatched.map (fun h => (h.reqflags, h.req_range_start, h.req_range_end)))
    = some (some (12, 5, 0)) := by
  decide

theorem serve_file_eval_range : (serve_file (sample_range_get "bytes=1024-2047".toList) (sample_fs 1048576)).map
    (fun r => (r.status, r.content_length, r.content_range))
    = some (206, some 1024, some (1024, 2047, 1048576)) := by
  decide

theorem serve_file_eval_open_range : (serve_file (sample_range_get "bytes=2000000-".toList) (sample_fs 1048576))
    = some (ServeResult.error HttpResponseCode.HTTP_BAD_REQUEST_400) := by
  decide

/-! ### Reading and writing buffers -/

theorem rd_append_right (X Y : List Char) (i : Nat) : rd (X ++ Y) (X.length + i) = rd Y i := by
  induction X with
  | nil => simp
  | cons x X ih =>
    have h : (x :: X).length + i = (X.length + i) + 1 := by simp; omega
    rw [h]
    exact ih

theorem rd_append_len (X Y : List Char) : rd (X ++ Y) X.length = rd Y 0 := by
  simpa using rd_append_right X Y 0

theorem rd_append_left (X Y : List Char) (i : Nat) (h : i < X.length) :
    rd (X ++ Y) i = rd X i := by
  simp [rd, List.getD_eq_getElem?_getD, List.getElem?_append_left h]

theorem rd_cons_zero (c : Char) (Y : List Char) : rd (c :: Y) 0 = c := rfl

theorem rd_cons_succ (c : Char) (Y : List Char) (i : Nat) : rd (c :: Y) (i + 1) = rd Y i := rfl

theorem rd_nil (i : Nat) : rd [] i = NUL := by simp [rd]

theorem rd_replicate_append (n : Nat) (c : Char) (Y : List Char) (i : Nat) (h : i < n) :
    rd (List.replicate n c ++ Y) i = c := by
  rw [rd_append_left _ _ _ (by simpa using h)]
  simp [rd, List.getD_eq_getElem?_getD, h]

theorem set_append_len (X Y : List Char) (c d : Char) :
    (X ++ c :: Y).set X.length d = X ++ d :: Y := by
  induction X with
  | nil => rfl
  | cons x X ih => simp [ih]

/-! ### The inner loops of `sanitise_path` -/

theorem skip_slashes_run (n : Nat) : ∀ (fuel : Nat) (X rest : List Char), n < fuel →
    rd rest 0 ≠ '/' →
    skip_slashes fuel (X ++ (List.replicate n '/' ++ rest)) X.length = some (X.length + n) := by
  induction n with
  | zero =>
    intro fuel X rest hf hr
    cases fuel with
    | zero => omega
    | succ f => simp [skip_slashes, rd_append_len, hr]
  | succ n ih =>
    intro fuel X rest hf hr
    cases fuel with
    | zero => omega
    | succ f =>
      have h := ih f (X ++ ['/']) rest (by omega) hr
      simp only [List.append_assoc, List.singleton_append, List.length_append,
        List.length_singleton] at h
      simp only [skip_slashes, rd_append_len, List.replicate_succ, List.cons_append,
        rd_cons_zero, if_true]
      rw [h]
      congr 1
      omega

theorem skip_segment_run (seg : List Char) : ∀ (fuel : Nat) (X rest : List Char),
    seg.length < fuel → '/' ∉ seg → NUL ∉ seg → (rd rest 0 = '/' ∨ rd rest 0 = NUL) →
    skip_segment fuel (X ++ (seg ++ rest)) X.length = some (X.length + seg.length) := by
  induction seg with
  | nil =>
    intro fuel X rest hf _ _ hr
    cases fuel with
    | zero => omega
    | succ f =>
      simp only [skip_segment, rd_append_len, List.nil_append]
      rcases hr with hr | hr <;> simp [hr]
  | cons c s ih =>
    intro fuel X rest hf h1 h2 hr
    cases fuel with
    | zero => simp at hf
    | succ f =>
      have hc1 : c ≠ '/' := fun h => h1 (by simp [h])
      have hc2 : c ≠ NUL := fun h => h2 (by simp [h])
      have h := ih f (X ++ [c]) rest (by simp at hf; omega) (fun h => h1 (by simp [h]))
        (fun h => h2 (by simp [h])) hr
      simp only [List.append_assoc, List.singleton_append, List.length_append,
        List.length_singleton] at h
      simp only [skip_segment, rd_append_len, List.cons_append, rd_cons_zero]
      rw [if_pos ⟨hc1, hc2⟩, h]
      congr 1
      simp
      omega

theorem back_slashes_run (n : Nat) : ∀ (fuel : Nat) (A Y : List Char), n < fuel →
    (∀ B c, A = B ++ [c] → c ≠ '/') →
    back_slashes fuel (A ++ (List.replicate n '/' ++ Y)) (((A.length + n : Nat) : Int) - 1)
      = some ((A.length : Int) - 1) := by
  induction n with
  | zero =>
    intro fuel A Y hf hA
    cases fuel with
    | zero => omega
    | succ f =>
      rcases List.eq_nil_or_concat A with h | ⟨B, c, h⟩
      · subst h
        simp [back_slashes]
      · rw [List.concat_eq_append] at h
        subst h
        have hc := hA B c rfl
        have e : (((B ++ [c]).length + 0 : Nat) : Int) - 1 = (B.length : Int) := by simp
        have e2 : (((B ++ [c]).length : Nat) : Int) - 1 = (B.length : Int) := by simp
        rw [e, e2]
        simp only [back_slashes, Int.toNat_ofNat, List.replicate_zero, List.nil_append,
          List.append_assoc, rd_append_len, List.singleton_append, rd_cons_zero]
        simp [hc]
  | succ n ih =>
    intro fuel A Y hf hA
    cases fuel with
    | zero => omega
    | succ f =>
      have h := ih f A ('/' :: Y) (by omega) hA
      have e : (((A.length + (n + 1) : Nat) : Int) - 1) = ((A.length + n : Nat) : Int) := by
        push_cast; omega
      have e3 : List.replicate (n + 1) '/' ++ Y = List.replicate n '/' ++ '/' :: Y := by
        rw [List.replicate_succ']; simp
      rw [e, e3]
      have hr : rd (A ++ (List.replicate n '/' ++ '/' :: Y)) (A.length + n) = '/' := by
        rw [rd_append_right]
        have := rd_append_len (List.replicate n '/') ('/' :: Y)
        simpa using this
      simp only [back_slashes, Int.toNat_ofNat, hr]
      rw [if_pos ⟨by omega, trivial⟩]
      exact h

theorem wipe_segment_run (seg : List Char) : ∀ (fuel : Nat) (B Y : List Char),
    seg.length < fuel → '/' ∉ seg → (∀ B0 c, B = B0 ++ [c] → c = '/') →
    wipe_segment fuel (B ++ (seg ++ Y)) (((B.length + seg.length : Nat) : Int) - 1)
      = some (B ++ (List.replicate seg.length '/' ++ Y)) := by
  induction seg using List.reverseRecOn with
  | nil =>
    intro fuel B Y hf _ hB
    cases fuel with
    | zero => omega
    | succ f =>
      rcases List.eq_nil_or_concat B with h | ⟨B0, c, h⟩
      · subst h
        simp [wipe_segment]
      · rw [List.concat_eq_append] at h
        subst h
        have hc := hB B0 c rfl
        subst hc
        have e : (((B0 ++ ['/']).length + ([] : List Char).length : Nat) : Int) - 1
            = (B0.length : Int) := by simp
        rw [e]
        simp only [wipe_segment, Int.toNat_ofNat, List.nil_append, List.append_assoc,
          rd_append_len, List.singleton_append, rd_cons_zero]
        simp
  | append_singleton s c ih =>
    intro fuel B Y hf h1 hB
    cases fuel with
    | zero => omega
    | succ f =>
      have hc : c ≠ '/' := fun h => h1 (by simp [h])
      have h := ih f B ('/' :: Y) (by simp at hf; omega) (fun h => h1 (by simp [h])) hB
      have e : (((B.length + (s ++ [c]).length : Nat) : Int) - 1)
          = ((B.length + s.length : Nat) : Int) := by
        simp only [List.length_append, List.length_singleton]
        push_cast
        omega
      have hr : rd (B ++ (s ++ [c] ++ Y)) (B.length + s.length) = c := by
        rw [rd_append_right]
        have := rd_append_len s (c :: Y)
        simpa using this
      have hs : (B ++ (s ++ [c] ++ Y)).set (B.length + s.length) '/' = B ++ (s ++ '/' :: Y) := by
        have := set_append_len (B ++ s) Y c '/'
        simp at this
        simp [this]
      rw [e]
      simp only [wipe_segment, Int.toNat_ofNat, hr, hs]
      rw [if_pos ⟨by omega, hc⟩]
      have e2 : (((B.length + s.length : Nat) : Int) - 1)
          = (((B.length + s.length : Nat) : Int) - 1) := rfl
      rw [h]
      congr 2
      rw [List.length_append, List.length_singleton, List.replicate_succ']
      simp

/-! ### Splitting a string into segments and runs of slashes -/

theorem NUL_ne_slash : NUL ≠ '/' := by decide

theorem rd_zero_of_not_mem (l : List Char) (h : NUL ∉ l) : rd l 0 = NUL ↔ l = [] := by
  cases l with
  | nil => simp [rd_nil]
  | cons c s =>
    simp only [rd_cons_zero, reduceCtorEq, iff_false]
    intro hc
    exact h (by simp [hc])

theorem slash_decomp (l : List Char) :
    ∃ n rest, l = List.replicate n '/' ++ rest ∧ rd rest 0 ≠ '/' ∧ rest.length + n = l.length := by
  induction l with
  | nil => exact ⟨0, [], rfl, by simpa [rd_nil] using NUL_ne_slash, rfl⟩
  | cons c s ih =>
    by_cases hc : c = '/'
    · obtain ⟨n, rest, h1, h2, h3⟩ := ih
      refine ⟨n + 1, rest, ?_, h2, ?_⟩
      · rw [hc, List.replicate_succ, List.cons_append, ← h1]
      · simp; omega
    · exact ⟨0, c :: s, rfl, by simpa [rd_cons_zero] using hc, rfl⟩

theorem seg_split (l : List Char) :
    ∃ seg r, l = seg ++ r ∧ '/' ∉ seg ∧ (r = [] ∨ rd r 0 = '/') := by
  induction l with
  | nil => exact ⟨[], [], rfl, by simp, Or.inl rfl⟩
  | cons c s ih =>
    by_cases hc : c = '/'
    · exact ⟨[], c :: s, rfl, by simp, Or.inr (by simp [rd_cons_zero, hc])⟩
    · obtain ⟨seg, r, h1, h2, h3⟩ := ih
      refine ⟨c :: seg, r, by simp [h1], ?_, h3⟩
      simp only [List.mem_cons, not_or]
      exact ⟨fun h => hc h.symm, h2⟩

theorem seg_decomp (rest : List Char) (h0 : rd rest 0 ≠ '/') (hne : rest ≠ []) :
    ∃ seg n rest', rest = seg ++ (List.replicate n '/' ++ rest') ∧ seg ≠ [] ∧ '/' ∉ seg
      ∧ rd rest' 0 ≠ '/' ∧ (rest' = [] ∨ 0 < n) ∧ rest'.length < rest.length := by
  obtain ⟨seg, r, h1, h2, h3⟩ := seg_split rest
  obtain ⟨n, rest', h4, h5, h6⟩ := slash_decomp r
  have hseg : seg ≠ [] := by
    intro h
    subst h
    simp only [List.nil_append] at h1
    subst h1
    rcases h3 with h3 | h3
    · exact hne h3
    · exact h0 h3
  refine ⟨seg, n, rest', by rw [h1, h4], hseg, h2, h5, ?_, ?_⟩
  · rcases h3 with h3 | h3
    · left
      subst h3
      cases n with
      | zero => simpa using h4.symm
      | succ n => simp [List.replicate_succ] at h4
    · cases n with
      | zero =>
        simp only [List.replicate_zero, List.nil_append] at h4
        subst h4
        exact absurd h3 h5
      | succ n => right; omega
  · have : 0 < seg.length := List.length_pos.mpr hseg
    rw [h1, List.length_append]
    omega

/-! ### The reference normaliser on split strings -/

theorem splitOn_slash_cons (l : List Char) : ('/' :: l).splitOn '/' = [] :: l.splitOn '/' := by
  simp [List.splitOn, List.splitOnP_cons]

theorem splitOn_seg_slash (seg l : List Char) (h : '/' ∉ seg) :
    (seg ++ '/' :: l).splitOn '/' = seg :: l.splitOn '/' := by
  have := List.splitOnP_first (· == '/') seg
    (fun x hx => by
      simp only [beq_iff_eq]
      intro hxe
      exact h (hxe ▸ hx)) '/' (by simp) l
  simpa [List.splitOn] using this

theorem splitOn_seg (seg : List Char) (h : '/' ∉ seg) : seg.splitOn '/' = [seg] := by
  have := List.splitOnP_eq_single (· == '/') seg
    (fun x hx => by
      simp only [beq_iff_eq]
      intro hxe
      exact h (hxe ▸ hx))
  simpa [List.splitOn] using this

theorem norm_scan_nil_cons (segs st) : norm_scan ([] :: segs) st = norm_scan segs st := by
  simp [norm_scan, norm_step]

theorem norm_scan_slashes (n : Nat) (rest : List Char) (st : List (List Char)) :
    norm_scan ((List.replicate n '/' ++ rest).splitOn '/') st
      = norm_scan (rest.splitOn '/') st := by
  induction n with
  | zero => simp
  | succ n ih =>
    rw [List.replicate_succ, List.cons_append, splitOn_slash_cons, norm_scan_nil_cons, ih]

theorem norm_scan_split (seg rest' : List Char) (n : Nat) (st : List (List Char))
    (h1 : '/' ∉ seg) (h : rest' = [] ∨ 0 < n) :
    norm_scan ((seg ++ (List.replicate n '/' ++ rest')).splitOn '/') st =
      (norm_step st seg).bind (fun st' => norm_scan (rest'.splitOn '/') st') := by
  cases n with
  | zero =>
    have hr : rest' = [] := by
      rcases h with h | h
      · exact h
      · omega
    subst hr
    simp only [List.replicate_zero, List.append_nil, splitOn_seg seg h1, List.splitOn_nil]
    cases hs : norm_step st seg with
    | none => simp [norm_scan, hs]
    | some st' =>
      simp only [norm_scan, hs, Option.some_bind]
      simp [norm_step]
  | succ n =>
    rw [List.replicate_succ, List.cons_append, splitOn_seg_slash seg _ h1]
    cases hs : norm_step st seg with
    | none => simp [norm_scan, hs]
    | some st' => simp [norm_scan, hs, norm_scan_slashes]

/-! ### One iteration of the first loop -/

theorem iter_end (f : Nat) (path : List Char) (i j : Nat)
    (h1 : skip_slashes (path.length + 1) path i = some j) (h2 : rd path j = NUL) :
    scan_segments (f + 1) path i = some (true, path) := by
  simp [scan_segments, h1, h2]

theorem iter_dot (f : Nat) (path : List Char) (i j : Nat)
    (h1 : skip_slashes (path.length + 1) path i = some j) (h2 : rd path j = '.')
    (h3 : rd path (j + 1) = '/' ∨ rd path (j + 1) = NUL) :
    scan_segments (f + 1) path i = scan_segments f (path.set j '/') j := by
  have h4 : ('.' : Char) ≠ NUL := by decide
  simp [scan_segments, h1, h2, h3, h4]

theorem iter_dotdot_fail (f : Nat) (path : List Char) (i j : Nat) (b : Int)
    (h1 : skip_slashes (path.length + 1) path i = some j) (h2 : rd path j = '.')
    (h3 : rd path (j + 1) = '.') (h4 : rd path (j + 2) = '/' ∨ rd path (j + 2) = NUL)
    (h5 : back_slashes (path.length + 1) ((path.set j '/').set (j + 1) '/') ((j : Int) - 1)
      = some b) (h6 : b < 0) :
    scan_segments (f + 1) path i = some (false, (path.set j '/').set (j + 1) '/') := by
  have e1 : ('.' : Char) ≠ NUL := by decide
  have e2 : ('.' : Char) ≠ '/' := by decide
  simp [scan_segments, h1, h2, h3, h4, h5, h6, e1, e2]

theorem iter_dotdot (f : Nat) (path path3 : List Char) (i j : Nat) (b : Int)
    (h1 : skip_slashes (path.length + 1) path i = some j) (h2 : rd path j = '.')
    (h3 : rd path (j + 1) = '.') (h4 : rd path (j + 2) = '/' ∨ rd path (j + 2) = NUL)
    (h5 : back_slashes (path.length + 1) ((path.set j '/').set (j + 1) '/') ((j : Int) - 1)
      = some b) (h6 : ¬ b < 0)
    (h7 : wipe_segment (path.length + 1) ((path.set j '/').set (j + 1) '/') b = some path3) :
    scan_segments (f + 1) path i = scan_segments f path3 j := by
  have e1 : ('.' : Char) ≠ NUL := by decide
  have e2 : ('.' : Char) ≠ '/' := by decide
  simp [scan_segments, h1, h2, h3, h4, h5, h6, h7, e1, e2]

theorem iter_seg (f : Nat) (path : List Char) (i j j2 : Nat)
    (h1 : skip_slashes (path.length + 1) path i = some j) (h2 : rd path j ≠ NUL)
    (h3 : ¬ (rd path j = '.' ∧ (rd path (j + 1) = '/' ∨ rd path (j + 1) = NUL)))
    (h4 : ¬ (rd path j = '.' ∧ rd path (j + 1) = '.'
      ∧ (rd path (j + 2) = '/' ∨ rd path (j + 2) = NUL)))
    (h5 : skip_segment (path.length + 1) path j = some j2) :
    scan_segments (f + 1) path i
      = if rd path j2 = NUL then some (true, path) else scan_segments f path j2 := by
  simp only [scan_segments, h1, h2, h5, if_false, if_neg h3, if_neg h4]

/-! ### Buffers of the shape `A ++ slashes ++ rest` -/

theorem lay_rd (A : List Char) (k : Nat) (rest : List Char) (i : Nat) :
    rd (A ++ (List.replicate k '/' ++ rest)) (A.length + k + i) = rd rest i := by
  rw [Nat.add_assoc, rd_append_right]
  have := rd_append_right (List.replicate k '/') rest i
  simpa using this

theorem lay_skip (A : List Char) (k m : Nat) (rest : List Char) (fuel : Nat) (hm : m ≤ k)
    (hf : k < fuel) (hr : rd rest 0 ≠ '/') :
    skip_slashes fuel (A ++ (List.replicate k '/' ++ rest)) (A.length + m)
      = some (A.length + k) := by
  obtain ⟨d, rfl⟩ := Nat.exists_eq_add_of_le hm
  have h := skip_slashes_run d fuel (A ++ List.replicate m '/') rest (by omega) hr
  simp only [List.append_assoc, List.length_append, List.length_replicate] at h
  rw [List.replicate_add, List.append_assoc, h]
  congr 1
  omega

theorem lay_set (A : List Char) (k : Nat) (c d : Char) (Y : List Char) :
    (A ++ (List.replicate k '/' ++ c :: Y)).set (A.length + k) d
      = A ++ (List.replicate k '/' ++ d :: Y) := by
  have h := set_append_len (A ++ List.replicate k '/') Y c d
  simp only [List.append_assoc, List.length_append, List.length_replicate] at h
  exact h

theorem lay_set_one (A : List Char) (k : Nat) (a c d : Char) (Y : List Char) :
    (A ++ (List.replicate k '/' ++ a :: c :: Y)).set (A.length + k + 1) d
      = A ++ (List.replicate k '/' ++ a :: d :: Y) := by
  have h := set_append_len (A ++ (List.replicate k '/' ++ [a])) Y c d
  simp only [List.append_assoc, List.length_append, List.length_replicate,
    List.length_singleton, List.singleton_append, List.cons_append, List.nil_append] at h
  rw [Nat.add_assoc]
  exact h

theorem lay_slash (A : List Char) (k n : Nat) (rest : List Char) :
    A ++ (List.replicate k '/' ++ '/' :: (List.replicate n '/' ++ rest))
      = A ++ (List.replicate (k + 1 + n) '/' ++ rest) := by
  rw [List.replicate_add, List.replicate_add]
  simp

theorem lay_length (A : List Char) (k : Nat) (rest : List Char) :
    (A ++ (List.replicate k '/' ++ rest)).length = A.length + k + rest.length := by
  simp
  omega

/-! ### Facts about `Stk` -/

theorem Stk_getLast (A : List Char) (st : List (List Char)) (h : Stk A st) :
    A.getLast? ≠ some '/' := by
  cases h with
  | nil => simp
  | push A0 st0 k seg hS hne hns hnn hk =>
    rw [List.getLast?_append, List.getLast?_append]
    obtain ⟨x, hx⟩ := Option.isSome_iff_exists.mp (List.getLast?_isSome.mpr hne)
    rw [hx]
    simp only [Option.or_some, ne_eq, Option.some.injEq]
    intro h
    exact hns (h ▸ List.mem_of_getLast?_eq_some hx)

theorem Stk_last (A : List Char) (st : List (List Char)) (h : Stk A st) :
    ∀ B c, A = B ++ [c] → c ≠ '/' := by
  intro B c hA hc
  subst hA hc
  exact Stk_getLast _ _ h (List.getLast?_concat B)

theorem Stk_not_NUL (A : List Char) (st : List (List Char)) (h : Stk A st) : NUL ∉ A := by
  induction h with
  | nil => simp
  | push A0 st0 k seg hS hne hns hnn hk ih =>
    simp only [List.mem_append, List.mem_replicate, not_or]
    exact ⟨ih, fun h => NUL_ne_slash h.2, hnn⟩

theorem Stk_nil_iff (A : List Char) (st : List (List Char)) (h : Stk A st) :
    A = [] ↔ st = [] := by
  cases h with
  | nil => simp
  | push A0 st0 k seg hS hne hns hnn hk => simp [hne]

theorem sep_last (A0 : List Char) (k0 : Nat) (h : A0 = [] ∨ 0 < k0) :
    ∀ B0 c, A0 ++ List.replicate k0 '/' = B0 ++ [c] → c = '/' := by
  intro B0 c e
  have h1 : (A0 ++ List.replicate k0 '/').getLast? = some c := by
    rw [e]
    exact List.getLast?_concat B0
  rw [List.getLast?_append, List.getLast?_replicate] at h1
  rcases h with h | h
  · subst h
    by_cases hk : k0 = 0
    · simp [hk] at h1
    · simpa [hk] using h1.symm
  · have hk : k0 ≠ 0 := by omega
    simpa [hk] using h1.symm

theorem rd_sep (n : Nat) (rest' : List Char) (h : rest' = [] ∨ 0 < n) :
    rd (List.replicate n '/' ++ rest') 0 = '/' ∨ rd (List.replicate n '/' ++ rest') 0 = NUL := by
  cases n with
  | zero =>
    rcases h with h | h
    · right
      simp [h, rd_nil]
    · omega
  | succ n =>
    left
    simp [List.replicate_succ, rd_cons_zero]

theorem rd_sep_NUL (n : Nat) (rest' : List Char) :
    rd (List.replicate n '/' ++ rest') 0 = NUL → n = 0 := by
  cases n with
  | zero => intro _; rfl
  | succ n =>
    simp only [List.replicate_succ, List.cons_append, rd_cons_zero]
    intro h
    exact absurd h.symm NUL_ne_slash

theorem rep_merge (a b : Nat) (Y : List Char) :
    List.replicate a '/' ++ (List.replicate b '/' ++ Y) = List.replicate (a + b) '/' ++ Y := by
  rw [List.replicate_add, List.append_assoc]

/-! ### The first loop of `sanitise_path` follows the reference scan -/

theorem scan_else_case (f : Nat)
    (ih : ∀ (A : List Char) (st : List (List Char)) (k m : Nat) (rest : List Char),
      Stk A st → m ≤ k → rd rest 0 ≠ '/' → (A = [] ∨ rest = [] ∨ 0 < k) →
      NUL ∉ rest → rest.length < f →
      ScanOK (scan_segments f (A ++ (List.replicate k '/' ++ rest)) (A.length + m))
        (norm_scan (rest.splitOn '/') st))
    (A : List Char) (st : List (List Char)) (k m n : Nat) (seg rest' : List Char)
    (hS : Stk A st) (hseg : seg ≠ []) (hns : '/' ∉ seg) (hnseg : NUL ∉ seg)
    (hnrest : NUL ∉ rest') (h0' : rd rest' 0 ≠ '/') (hsep' : rest' = [] ∨ 0 < n)
    (hAk : A = [] ∨ 0 < k) (hlen : rest'.length < f)
    (hskip : skip_slashes ((A ++ (List.replicate k '/'
        ++ (seg ++ (List.replicate n '/' ++ rest')))).length + 1)
      (A ++ (List.replicate k '/' ++ (seg ++ (List.replicate n '/' ++ rest'))))
      (A.length + m) = some (A.length + k))
    (h3 : ¬ (rd (A ++ (List.replicate k '/' ++ (seg ++ (List.replicate n '/' ++ rest'))))
        (A.length + k) = '.'
      ∧ (rd (A ++ (List.replicate k '/' ++ (seg ++ (List.replicate n '/' ++ rest'))))
          (A.length + k + 1) = '/'
        ∨ rd (A ++ (List.replicate k '/' ++ (seg ++ (List.replicate n '/' ++ rest'))))
          (A.length + k + 1) = NUL)))
    (h4 : ¬ (rd (A ++ (List.replicate k '/' ++ (seg ++ (List.replicate n '/' ++ rest'))))
        (A.length + k) = '.'
      ∧ rd (A ++ (List.replicate k '/' ++ (seg ++ (List.replicate n '/' ++ rest'))))
        (A.length + k + 1) = '.'
      ∧ (rd (A ++ (List.replicate k '/' ++ (seg ++ (List.replicate n '/' ++ rest'))))
          (A.length + k + 2) = '/'
        ∨ rd (A ++ (List.replicate k '/' ++ (seg ++ (List.replicate n '/' ++ rest'))))
          (A.length + k + 2) = NUL))) :
    ScanOK (scan_segments (f + 1)
        (A ++ (List.replicate k '/' ++ (seg ++ (List.replicate n '/' ++ rest'))))
        (A.length + m))
      (norm_scan (rest'.splitOn '/') (seg :: st)) := by
  obtain ⟨c, s, rfl⟩ := List.exists_cons_of_ne_nil hseg
  have hc0 : rd (A ++ (List.replicate k '/' ++ (c :: s ++ (List.replicate n '/' ++ rest'))))
      (A.length + k) ≠ NUL := by
    have := lay_rd A k (c :: s ++ (List.replicate n '/' ++ rest')) 0
    rw [Nat.add_zero] at this
    rw [this, List.cons_append, rd_cons_zero]
    intro h
    exact hnseg (by simp [h])
  have hss := skip_segment_run (c :: s)
    ((A ++ (List.replicate k '/' ++ (c :: s ++ (List.replicate n '/' ++ rest')))).length + 1)
    (A ++ List.replicate k '/') (List.replicate n '/' ++ rest')
    (by simp only [List.length_append, List.length_replicate, List.length_cons]; omega)
    hns hnseg (rd_sep n rest' hsep')
  simp only [List.append_assoc, List.length_append, List.length_replicate] at hss
  have hss2 : skip_segment
      ((A ++ (List.replicate k '/' ++ (c :: s ++ (List.replicate n '/' ++ rest')))).length + 1)
      (A ++ (List.replicate k '/' ++ (c :: s ++ (List.replicate n '/' ++ rest'))))
      (A.length + k) = some (A.length + k + (c :: s).length) := by
    simp only [List.length_append, List.length_replicate]
    exact hss
  rw [iter_seg f _ _ _ _ hskip hc0 h3 h4 hss2]
  have hrd : rd (A ++ (List.replicate k '/' ++ (c :: s ++ (List.replicate n '/' ++ rest'))))
      (A.length + k + (c :: s).length) = rd (List.replicate n '/' ++ rest') 0 := by
    rw [lay_rd]
    exact rd_append_len _ _
  rw [hrd]
  have hpush : Stk (A ++ (List.replicate k '/' ++ (c :: s))) ((c :: s) :: st) :=
    Stk.push A st k (c :: s) hS hseg hns hnseg hAk
  cases n with
  | zero =>
    have hr : rest' = [] := by
      rcases hsep' with h | h
      · exact h
      · omega
    subst hr
    simp only [List.replicate_zero, List.append_nil, rd_nil, if_true, List.splitOn_nil,
      norm_scan_nil_cons, norm_scan]
    exact ⟨_, 0, hpush, by simp⟩
  | succ n =>
    have hne : rd (List.replicate (n + 1) '/' ++ rest') 0 ≠ NUL := by
      simp only [List.replicate_succ, List.cons_append, rd_cons_zero]
      exact fun h => NUL_ne_slash h.symm
    rw [if_neg hne]
    have h := ih (A ++ (List.replicate k '/' ++ (c :: s))) ((c :: s) :: st) (n + 1) 0 rest'
      hpush (Nat.zero_le _) h0' (Or.inr (Or.inr (by omega))) hnrest hlen
    simp only [List.append_assoc, List.length_append, List.length_replicate,
      Nat.add_zero] at h
    rw [Nat.add_assoc]
    exact h

theorem scan_segments_spec : ∀ (fuel : Nat) (A : List Char) (st : List (List Char))
    (k m : Nat) (rest : List Char),
    Stk A st → m ≤ k → rd rest 0 ≠ '/' → (A = [] ∨ rest = [] ∨ 0 < k) →
    NUL ∉ rest → rest.length < fuel →
    ScanOK (scan_segments fuel (A ++ (List.replicate k '/' ++ rest)) (A.length + m))
      (norm_scan (rest.splitOn '/') st) := by
  intro fuel
  induction fuel with
  | zero =>
    intro A st k m rest _ _ _ _ _ hf
    omega
  | succ f ih =>
    intro A st k m rest hS hm h0 hsep hnul hf
    have hskip := lay_skip A k m rest ((A ++ (List.replicate k '/' ++ rest)).length + 1) hm
      (by rw [lay_length]; omega) h0
    by_cases hrest : rest = []
    · subst hrest
      have hr : rd (A ++ (List.replicate k '/' ++ [])) (A.length + k) = NUL := by
        have := lay_rd A k [] 0
        simpa [rd_nil] using this
      rw [iter_end f _ _ _ hskip hr]
      simp only [List.splitOn_nil, norm_scan_nil_cons, norm_scan]
      exact ⟨A, k, hS, by simp⟩
    · obtain ⟨seg, n, rest', e, hseg, hns, h0', hsep', hlen⟩ := seg_decomp rest h0 hrest
      subst e
      have hnseg : NUL ∉ seg := fun h => hnul (by simp [h])
      have hnrest : NUL ∉ rest' := fun h => hnul (by simp [h])
      have hAk : A = [] ∨ 0 < k := by
        rcases hsep with h | h | h
        · exact Or.inl h
        · exact absurd h hrest
        · exact Or.inr h
      have hlen' : rest'.length < f := by omega
      rw [norm_scan_split seg rest' n st hns hsep']
      have hrd : ∀ i, rd (A ++ (List.replicate k '/' ++ (seg ++ (List.replicate n '/' ++ rest'))))
          (A.length + k + i) = rd (seg ++ (List.replicate n '/' ++ rest')) i :=
        fun i => lay_rd A k _ i
      have hrd0 := hrd 0
      rw [Nat.add_zero] at hrd0
      have els := scan_else_case f ih A st k m n seg rest' hS hseg hns hnseg hnrest h0' hsep'
        hAk hlen' hskip
      have hstep_else : seg ≠ ['.'] → seg ≠ ['.', '.'] → norm_step st seg = some (seg :: st) := by
        intro h1 h2
        simp [norm_step, hseg, h1, h2]
      rw [hrd0, hrd 1, hrd 2] at els
      match seg, hseg, hns, hnseg, hskip, hrd, hrd0, els, hstep_else with
      | [c], _, hns, hnseg, hskip, hrd, hrd0, els, hstep_else =>
        by_cases hc : c = '.'
        · subst hc
          have hr1 := rd_sep n rest' hsep'
          have e1 := hrd 1
          simp only [List.singleton_append, rd_cons_succ] at e1
          simp only [List.singleton_append, rd_cons_zero] at hrd0
          rw [← e1] at hr1
          rw [iter_dot f _ _ _ hskip hrd0 hr1]
          simp only [List.singleton_append, lay_set, lay_slash]
          have hst : norm_step st ['.'] = some st := by simp [norm_step]
          rw [hst, Option.some_bind]
          exact ih A st (k + 1 + n) k rest' hS (by omega) h0' (Or.inr (Or.inr (by omega)))
            hnrest hlen'
        · rw [hstep_else (by simpa using hc) (by simp), Option.some_bind]
          apply els
          · simp [rd_cons_zero, hc]
          · simp [rd_cons_zero, hc]
      | [c, d], _, hns, hnseg, hskip, hrd, hrd0, els, hstep_else =>
        have hd1 : d ≠ '/' := fun h => hns (by simp [h])
        have hd2 : d ≠ NUL := fun h => hnseg (by simp [h])
        by_cases hcd : c = '.' ∧ d = '.'
        · obtain ⟨hc, hd⟩ := hcd
          subst hc hd
          have hr2 := rd_sep n rest' hsep'
          have e1 := hrd 1
          have e2 := hrd 2
          simp only [List.cons_append, List.nil_append, rd_cons_succ, rd_cons_zero] at e1 e2 hrd0
          rw [← e2] at hr2
          have hback := back_slashes_run k
            ((A ++ (List.replicate k '/'
              ++ (['.', '.'] ++ (List.replicate n '/' ++ rest')))).length + 1) A
            ('/' :: '/' :: (List.replicate n '/' ++ rest'))
            (by rw [lay_length]; omega) (Stk_last A st hS)
          have hp2 : ((A ++ (List.replicate k '/'
              ++ (['.', '.'] ++ (List.replicate n '/' ++ rest')))).set (A.length + k) '/').set
                (A.length + k + 1) '/'
              = A ++ (List.replicate k '/' ++ '/' :: '/' :: (List.replicate n '/' ++ rest')) := by
            simp only [List.cons_append, List.nil_append, lay_set, lay_set_one]
          rw [← hp2] at hback
          cases hS with
          | nil =>
            have hneg : ((([] : List Char).length : Int) - 1) < 0 := by simp
            rw [iter_dotdot_fail f _ _ _ _ hskip hrd0 e1 hr2 hback hneg]
            simp only [norm_step, Option.none_bind]
            exact ⟨_, rfl⟩
          | push A0 st0 k0 seg0 hS0 hne0 hns0 hnn0 hk0 =>
            have hpos : 0 < seg0.length := List.length_pos.mpr hne0
            have hnneg : ¬ ((((A0 ++ (List.replicate k0 '/' ++ seg0)).length : Nat) : Int) - 1
                < 0) := by
              simp only [List.length_append, List.length_replicate]
              push_cast
              omega
            have hw := wipe_segment_run seg0
              ((A0 ++ (List.replicate k0 '/' ++ seg0) ++ (List.replicate k '/'
                ++ (['.', '.'] ++ (List.replicate n '/' ++ rest')))).length + 1)
              (A0 ++ List.replicate k0 '/')
              (List.replicate k '/' ++ '/' :: '/' :: (List.replicate n '/' ++ rest'))
              (by simp only [List.length_append]; omega) hns0 (sep_last A0 k0 hk0)
            have ej : ((((A0 ++ List.replicate k0 '/').length + seg0.length : Nat) : Int) - 1)
                = ((((A0 ++ (List.replicate k0 '/' ++ seg0)).length : Nat) : Int) - 1) := by
              simp only [List.length_append, List.length_replicate]
              push_cast
              omega
            rw [ej] at hw
            have hp3 : A0 ++ List.replicate k0 '/' ++ (seg0 ++ (List.replicate k '/'
                  ++ '/' :: '/' :: (List.replicate n '/' ++ rest')))
                = A0 ++ (List.replicate k0 '/' ++ seg0) ++ (List.replicate k '/'
                  ++ '/' :: '/' :: (List.replicate n '/' ++ rest')) := by
              simp only [List.append_assoc]
            rw [hp3, ← hp2] at hw
            rw [iter_dotdot f _ _ _ _ _ hskip hrd0 e1 hr2 hback hnneg hw]
            simp only [norm_step, Option.some_bind]
            have hfin : A0 ++ List.replicate k0 '/' ++ (List.replicate seg0.length '/'
                  ++ (List.replicate k '/' ++ '/' :: '/' :: (List.replicate n '/' ++ rest')))
                = A0 ++ (List.replicate (k0 + seg0.length + k + 2 + n) '/' ++ rest') := by
              have e2 : '/' :: '/' :: (List.replicate n '/' ++ rest')
                  = List.replicate 2 '/' ++ (List.replicate n '/' ++ rest') := rfl
              rw [e2, List.append_assoc, rep_merge, rep_merge, rep_merge, rep_merge]
            have hidx : (A0 ++ (List.replicate k0 '/' ++ seg0)).length + k
                = A0.length + (k0 + seg0.length + k) := by
              simp only [List.length_append, List.length_replicate]
              omega
            rw [hfin, hidx]
            exact ih A0 st0 (k0 + seg0.length + k + 2 + n) (k0 + seg0.length + k) rest' hS0
              (by omega) h0' (Or.inr (Or.inr (by omega))) hnrest hlen'
        · have hne2 : [c, d] ≠ ['.', '.'] := by
            intro h
            simp at h
            exact hcd h
          rw [hstep_else (by simp) hne2, Option.some_bind]
          apply els
          · simp [rd_cons_zero, rd_cons_succ, hd1, hd2]
          · simp only [List.cons_append, rd_cons_zero, rd_cons_succ]
            intro h
            exact hcd ⟨h.1, h.2.1⟩
      | c :: d :: e :: s, _, hns, hnseg, hskip, hrd, hrd0, els, hstep_else =>
        have hd1 : d ≠ '/' := fun h => hns (by simp [h])
        have hd2 : d ≠ NUL := fun h => hnseg (by simp [h])
        have he1 : e ≠ '/' := fun h => hns (by simp [h])
        have he2 : e ≠ NUL := fun h => hnseg (by simp [h])
        rw [hstep_else (by simp) (by simp), Option.some_bind]
        apply els
        · simp [rd_cons_zero, rd_cons_succ, hd1, hd2]
        · simp [rd_cons_zero, rd_cons_succ, he1, he2]

/-! ### The copying loop of `sanitise_path` -/

theorem skip_to_last_slash_stop (f : Nat) (path : List Char) (r : Nat)
    (h : rd path (r + 1) ≠ '/') : skip_to_last_slash (f + 1) path r = some r := by
  simp [skip_to_last_slash, h]

theorem skip_to_last_slash_step (f : Nat) (path : List Char) (r : Nat)
    (h : rd path (r + 1) = '/') :
    skip_to_last_slash (f + 1) path r = skip_to_last_slash f path (r + 1) := by
  simp [skip_to_last_slash, h]

theorem sq_end (f : Nat) (path : List Char) (r w : Nat) (h : rd path r = NUL) :
    squeeze_slashes (f + 1) path r w = some (path, w) := by
  simp [squeeze_slashes, h]

theorem sq_slash (f : Nat) (path : List Char) (r r' w : Nat) (h : rd path r = '/')
    (h2 : skip_to_last_slash (path.length + 1) path r = some r') :
    squeeze_slashes (f + 1) path r w
      = squeeze_slashes f (path.set w (rd path r')) (r' + 1) (w + 1) := by
  have e : ('/' : Char) ≠ NUL := by decide
  simp [squeeze_slashes, h, h2, e]

theorem sq_char (f : Nat) (path : List Char) (r w : Nat) (h : rd path r ≠ NUL)
    (h2 : rd path r ≠ '/') :
    squeeze_slashes (f + 1) path r w
      = squeeze_slashes f (path.set w (rd path r)) (r + 1) (w + 1) := by
  simp [squeeze_slashes, h, h2]

theorem skip_to_last_slash_run (n : Nat) : ∀ (fuel : Nat) (X rest : List Char), n < fuel →
    rd rest 0 ≠ '/' →
    skip_to_last_slash fuel (X ++ (List.replicate (n + 1) '/' ++ rest)) X.length
      = some (X.length + n) := by
  induction n with
  | zero =>
    intro fuel X rest hf hr
    cases fuel with
    | zero => omega
    | succ f =>
      have h : rd (X ++ (List.replicate (0 + 1) '/' ++ rest)) (X.length + 1) = rd rest 0 := by
        rw [rd_append_right]
        rfl
      rw [skip_to_last_slash_stop f _ _ (by rw [h]; exact hr)]
      rfl
  | succ n ih =>
    intro fuel X rest hf hr
    cases fuel with
    | zero => omega
    | succ f =>
      have h : rd (X ++ (List.replicate (n + 1 + 1) '/' ++ rest)) (X.length + 1) = '/' := by
        rw [rd_append_right]
        rfl
      have h2 := ih f (X ++ ['/']) rest (by omega) hr
      simp only [List.append_assoc, List.singleton_append, List.length_append,
        List.length_singleton] at h2
      rw [skip_to_last_slash_step f _ _ h, List.replicate_succ, List.cons_append, h2]
      congr 1
      omega

theorem set_head (out L S : List Char) (c : Char) (hL : L ≠ []) :
    (out ++ (L ++ S)).set out.length c = (out ++ [c]) ++ (L.tail ++ S) := by
  obtain ⟨x, L', rfl⟩ := List.exists_cons_of_ne_nil hL
  have h := set_append_len out (L' ++ S) x c
  simp only [List.cons_append, List.tail_cons, List.append_assoc, List.singleton_append]
  exact h

theorem squeezed_slashes (n : Nat) (rest : List Char) (h : rd rest 0 ≠ '/') :
    squeezed (List.replicate (n + 1) '/' ++ rest) = '/' :: squeezed rest := by
  induction n with
  | zero => simp [squeezed, h]
  | succ n ih =>
    rw [List.replicate_succ, List.cons_append, squeezed, if_pos ⟨rfl, by
      simp [List.replicate_succ, rd_cons_zero]⟩, ih]

theorem squeeze_slashes_spec : ∀ (fuel : Nat) (out junk suf : List Char), NUL ∉ suf →
    suf.length < fuel →
    ∃ junk', squeeze_slashes fuel (out ++ (junk ++ suf)) (out.length + junk.length) out.length
      = some (out ++ (squeezed suf ++ junk'), out.length + (squeezed suf).length) := by
  intro fuel
  induction fuel with
  | zero =>
    intro out junk suf _ hf
    omega
  | succ f ih =>
    intro out junk suf hn hf
    have hrd : ∀ i, rd (out ++ (junk ++ suf)) (out.length + junk.length + i) = rd suf i := by
      intro i
      rw [Nat.add_assoc, rd_append_right, rd_append_right]
    cases suf with
    | nil =>
      have h0 := hrd 0
      rw [Nat.add_zero, rd_nil] at h0
      exact ⟨junk, by rw [sq_end f _ _ _ h0]; simp [squeezed]⟩
    | cons c s =>
      have hc : c ≠ NUL := fun h => hn (by simp [h])
      have hs : NUL ∉ s := fun h => hn (by simp [h])
      have h0 := hrd 0
      rw [Nat.add_zero, rd_cons_zero] at h0
      by_cases hsl : c = '/'
      · subst hsl
        obtain ⟨n, rest, e, hr, hl⟩ := slash_decomp s
        subst e
        have e1 : out ++ junk ++ (List.replicate (n + 1) '/' ++ rest)
            = out ++ (junk ++ '/' :: (List.replicate n '/' ++ rest)) := by
          simp [List.replicate_succ]
        have hskip : skip_to_last_slash
            ((out ++ (junk ++ '/' :: (List.replicate n '/' ++ rest))).length + 1)
            (out ++ (junk ++ '/' :: (List.replicate n '/' ++ rest)))
            (out.length + junk.length) = some (out.length + junk.length + n) := by
          have h := skip_to_last_slash_run n
            ((out ++ (junk ++ '/' :: (List.replicate n '/' ++ rest))).length + 1)
            (out ++ junk) rest (by simp; omega) hr
          rw [e1] at h
          simp only [List.length_append] at h ⊢
          exact h
        have hrn : rd (out ++ (junk ++ '/' :: (List.replicate n '/' ++ rest)))
            (out.length + junk.length + n) = '/' := by
          rw [hrd]
          have := rd_replicate_append (n + 1) '/' rest n (by omega)
          simpa [List.replicate_succ] using this
        have hset := set_head out (junk ++ List.replicate (n + 1) '/') rest '/' (by simp)
        have e2 : out ++ (junk ++ List.replicate (n + 1) '/' ++ rest)
            = out ++ (junk ++ '/' :: (List.replicate n '/' ++ rest)) := by
          simp [List.replicate_succ]
        rw [e2] at hset
        have hnr : NUL ∉ rest := fun h => hs (by simp [h])
        obtain ⟨junk', hj⟩ := ih (out ++ ['/']) (junk ++ List.replicate (n + 1) '/').tail rest
          hnr (by simp at hf; simp at hl; omega)
        refine ⟨junk', ?_⟩
        have hlen : (out ++ ['/']).length + (junk ++ List.replicate (n + 1) '/').tail.length
            = out.length + junk.length + n + 1 := by
          simp
          omega
        rw [hlen] at hj
        simp only [List.length_append, List.length_singleton] at hj
        rw [sq_slash f _ _ _ _ h0 hskip, hrn, hset, hj]
        have hsq := squeezed_slashes n rest hr
        rw [List.replicate_succ, List.cons_append] at hsq
        rw [hsq]
        simp
        omega
      · have hset := set_head out (junk ++ [c]) s c (by simp)
        have e2 : out ++ (junk ++ [c] ++ s) = out ++ (junk ++ c :: s) := by simp
        rw [e2] at hset
        obtain ⟨junk', hj⟩ := ih (out ++ [c]) (junk ++ [c]).tail s hs (by simp at hf; omega)
        refine ⟨junk', ?_⟩
        have hlen : (out ++ [c]).length + (junk ++ [c]).tail.length
            = out.length + junk.length + 1 := by
          simp
          omega
        rw [hlen] at hj
        simp only [List.length_append, List.length_singleton] at hj
        rw [sq_char f _ _ _ (by rw [h0]; exact hc) (by rw [h0]; exact hsl), h0, hset, hj]
        have hsq : squeezed (c :: s) = c :: squeezed s := by
          rw [squeezed, if_neg (fun h => hsl h.1)]
        rw [hsq]
        simp
        omega

/-! ### Squeezed strings and the stack -/

theorem squeezed_eq_nil (X : List Char) : squeezed X = [] ↔ X = [] := by
  induction X with
  | nil => simp [squeezed]
  | cons c s ih =>
    simp only [squeezed, reduceCtorEq, iff_false]
    split
    · rename_i h
      rw [ih]
      intro hs
      rw [hs, rd_nil] at h
      exact NUL_ne_slash h.2
    · simp

theorem squeezed_getLast (X : List Char) : (squeezed X).getLast? = X.getLast? := by
  induction X with
  | nil => simp [squeezed]
  | cons c s ih =>
    by_cases hs : s = []
    · subst hs
      simp [squeezed, rd_nil, NUL_ne_slash]
    · have hq : squeezed s ≠ [] := fun h => hs ((squeezed_eq_nil s).mp h)
      obtain ⟨x, s', rfl⟩ := List.exists_cons_of_ne_nil hs
      obtain ⟨y, q', hq'⟩ := List.exists_cons_of_ne_nil hq
      simp only [squeezed] at hq' ih ⊢
      split
      · rw [ih]
        simp
      · rw [List.getLast?_cons_cons] at *
        rw [hq'] at ih ⊢
        rw [List.getLast?_cons_cons]
        exact ih

theorem squeezed_seg (seg : List Char) (h : '/' ∉ seg) : squeezed seg = seg := by
  induction seg with
  | nil => rfl
  | cons c s ih =>
    have hc : c ≠ '/' := fun e => h (by simp [e])
    rw [squeezed, if_neg (fun e => hc e.1), ih (fun e => h (by simp [e]))]

theorem squeezed_append (X Y : List Char) (h : X.getLast? ≠ some '/') :
    squeezed (X ++ Y) = squeezed X ++ squeezed Y := by
  induction X with
  | nil => rfl
  | cons c s ih =>
    by_cases hs : s = []
    · subst hs
      have hc : c ≠ '/' := by simpa using h
      simp [squeezed, hc]
    · obtain ⟨x, s', rfl⟩ := List.exists_cons_of_ne_nil hs
      have h' : (x :: s').getLast? ≠ some '/' := by
        rw [List.getLast?_cons_cons] at h
        exact h
      have e : squeezed (c :: x :: s' ++ Y)
          = if c = '/' ∧ x = '/' then squeezed (x :: s' ++ Y) else c :: squeezed (x :: s' ++ Y) :=
        rfl
      have e2 : squeezed (c :: x :: s')
          = if c = '/' ∧ x = '/' then squeezed (x :: s') else c :: squeezed (x :: s') := rfl
      rw [e, e2, ih h']
      split <;> rfl

theorem squeezed_rep (k : Nat) :
    squeezed (List.replicate k '/') = if k = 0 then [] else ['/'] := by
  cases k with
  | zero => rfl
  | succ n =>
    have := squeezed_slashes n [] (by rw [rd_nil]; exact NUL_ne_slash)
    simpa [squeezed] using this

theorem intercalate_concat (sep : List Char) (xs : List (List Char)) (x : List Char)
    (h : xs ≠ []) : sep.intercalate (xs ++ [x]) = sep.intercalate xs ++ (sep ++ x) := by
  induction xs with
  | nil => exact absurd rfl h
  | cons y t ih =>
    cases t with
    | nil => simp [List.intercalate, List.intersperse]
    | cons z t =>
      have := ih (by simp)
      simp only [List.intercalate, List.cons_append, List.intersperse, List.flatten_cons,
        List.append_assoc] at this ⊢
      have e : t.append [x] = t ++ [x] := rfl
      rw [e, this]

theorem stk_squeezed (A : List Char) (st : List (List Char)) (h : Stk A st) :
    ∃ k0 A1, A = List.replicate k0 '/' ++ A1 ∧ rd A1 0 ≠ '/'
      ∧ squeezed A1 = ['/'].intercalate st.reverse := by
  induction h with
  | nil =>
    exact ⟨0, [], rfl, by rw [rd_nil]; exact NUL_ne_slash, by simp [squeezed, List.intercalate]⟩
  | push A0 st0 k seg hS hne hns hnn hk ih =>
    obtain ⟨k0, A01, e, hr, hq⟩ := ih
    obtain ⟨c, s, rfl⟩ := List.exists_cons_of_ne_nil hne
    have hc : c ≠ '/' := fun e => hns (by simp [e])
    by_cases hA : A0 = []
    · have hst := (Stk_nil_iff A0 st0 hS).mp hA
      subst hA hst
      refine ⟨k, c :: s, by simp, by simpa [rd_cons_zero] using hc, ?_⟩
      rw [squeezed_seg _ hns]
      simp [List.intercalate]
    · have hst : st0 ≠ [] := fun h => hA ((Stk_nil_iff A0 st0 hS).mpr h)
      have hk' : 0 < k := by
        rcases hk with h | h
        · exact absurd h hA
        · exact h
      have hlast := Stk_getLast A0 st0 hS
      have hA01 : A01 ≠ [] := by
        intro h
        subst h
        rw [e] at hlast hA
        simp only [List.append_nil, List.getLast?_replicate] at hlast hA
        by_cases hk0 : k0 = 0
        · subst hk0
          simp at hA
        · simp [hk0] at hlast
      have hlast' : A01.getLast? ≠ some '/' := by
        rw [e, List.getLast?_append] at hlast
        obtain ⟨x, hx⟩ := Option.isSome_iff_exists.mp (List.getLast?_isSome.mpr hA01)
        rw [hx] at hlast ⊢
        simpa using hlast
      obtain ⟨x, A02, rfl⟩ := List.exists_cons_of_ne_nil hA01
      refine ⟨k0, x :: A02 ++ (List.replicate k '/' ++ c :: s), by rw [e]; simp, ?_, ?_⟩
      · simpa [rd_cons_zero] using hr
      · obtain ⟨k1, rfl⟩ := Nat.exists_eq_succ_of_ne_zero (by omega : k ≠ 0)
        rw [squeezed_append _ _ hlast', hq, squeezed_slashes k1 _ (by
          simpa [rd_cons_zero] using hc), squeezed_seg _ hns, List.reverse_cons,
          intercalate_concat _ _ _ (by simpa using hst)]
        rfl

theorem rd_last (Q Y : List Char) (c : Char) (h : Q.getLast? = some c) :
    rd (Q ++ Y) (Q.length - 1) = c := by
  obtain ⟨Q', rfl⟩ := List.getLast?_eq_some_iff.mp h
  have := rd_append_len Q' ([c] ++ Y)
  simpa [rd_cons_zero] using this

/-! ### `sanitise_path` and the reference normaliser -/

theorem collapse_slashes_spec (A : List Char) (st : List (List Char)) (k : Nat)
    (hS : Stk A st) :
    collapse_slashes (A ++ List.replicate k '/') = some (['/'].intercalate st.reverse) := by
  obtain ⟨k0, A1, e, hr, hq⟩ := stk_squeezed A st hS
  have hnA := Stk_not_NUL A st hS
  have hlast := Stk_getLast A st hS
  by_cases hA1 : A1 = []
  · subst hA1
    have hk0 : k0 = 0 := by
      by_contra hk0
      rw [e] at hlast
      simp [List.getLast?_replicate, hk0] at hlast
    subst hk0
    simp only [List.replicate_zero, List.append_nil] at e
    subst e
    have hs := skip_slashes_run k (([] ++ List.replicate k '/').length + 1) [] [] (by simp)
      (by rw [rd_nil]; exact NUL_ne_slash)
    simp only [List.nil_append, List.append_nil, List.length_nil, Nat.zero_add] at hs
    obtain ⟨junk', hj⟩ := squeeze_slashes_spec (([] ++ List.replicate k '/').length + 1) []
      (List.replicate k '/') [] (by simp) (by simp)
    simp only [List.nil_append, List.append_nil, List.length_nil, Nat.zero_add,
      List.length_replicate, squeezed] at hj
    simp only [squeezed] at hq
    simp only [List.length_replicate] at hs
    simp only [collapse_slashes, List.nil_append, List.length_replicate, hs, hj, ← hq]
    simp
  · subst e
    have hnA1 : NUL ∉ A1 := fun h => hnA (by simp [h])
    have hlast1 : A1.getLast? ≠ some '/' := by
      rw [List.getLast?_append] at hlast
      obtain ⟨x, hx⟩ := Option.isSome_iff_exists.mp (List.getLast?_isSome.mpr hA1)
      rw [hx] at hlast ⊢
      simpa using hlast
    have hr' : rd (A1 ++ List.replicate k '/') 0 ≠ '/' := by
      obtain ⟨x, A2, rfl⟩ := List.exists_cons_of_ne_nil hA1
      simpa [rd_cons_zero] using hr
    have hs := skip_slashes_run k0
      ((List.replicate k0 '/' ++ A1 ++ List.replicate k '/').length + 1) []
      (A1 ++ List.replicate k '/') (by simp; omega) hr'
    simp only [List.nil_append, List.length_nil, Nat.zero_add] at hs
    have hn2 : NUL ∉ A1 ++ List.replicate k '/' := by
      simp only [List.mem_append, List.mem_replicate, not_or]
      exact ⟨hnA1, fun h => NUL_ne_slash h.2⟩
    obtain ⟨junk', hj⟩ := squeeze_slashes_spec
      ((List.replicate k0 '/' ++ A1 ++ List.replicate k '/').length + 1) []
      (List.replicate k0 '/') (A1 ++ List.replicate k '/') hn2 (by simp; omega)
    simp only [List.nil_append, List.length_nil, Nat.zero_add, List.length_replicate] at hj
    rw [squeezed_append _ _ hlast1, hq, squeezed_rep] at hj
    have e1 : List.replicate k0 '/' ++ A1 ++ List.replicate k '/'
        = List.replicate k0 '/' ++ (A1 ++ List.replicate k '/') := by simp
    have hQ : ['/'].intercalate st.reverse ≠ [] := by
      rw [← hq]
      exact fun h => hA1 ((squeezed_eq_nil A1).mp h)
    have hQlast : (['/'].intercalate st.reverse).getLast? ≠ some '/' := by
      rw [← hq, squeezed_getLast]
      exact hlast1
    simp only [collapse_slashes]
    rw [← e1] at hs hj
    rw [hs]
    simp only [hj]
    by_cases hk : k = 0
    · subst hk
      simp only [if_true, List.append_nil]
      obtain ⟨x, hx⟩ := Option.isSome_iff_exists.mp (List.getLast?_isSome.mpr hQ)
      have hxs : x ≠ '/' := by
        intro h
        rw [h] at hx
        exact hQlast hx
      rw [rd_last _ _ _ hx, if_neg (fun h => hxs h.2)]
      simp
    · simp only [if_neg hk]
      have hrd : rd (['/'].intercalate st.reverse ++ ['/'] ++ junk')
          ((['/'].intercalate st.reverse ++ ['/']).length - 1) = '/' :=
        rd_last _ _ _ (List.getLast?_concat _)
      rw [if_pos ⟨by simp, hrd⟩]
      simp

/-- The embedded `sanitise_path` computes what the reference normaliser computes: it
returns 0 when the reference fails and otherwise returns 1 and leaves the normalised
path in the buffer. -/
theorem sanitise_path_spec (p : List Char) (hp : NUL ∉ p) :
    (reference_normalise p = none ∧ ∃ b, sanitise_path p = some (false, b))
    ∨ ∃ q, reference_normalise p = some q ∧ sanitise_path p = some (true, q) := by
  obtain ⟨k, rest, e, hr, hl⟩ := slash_decomp p
  have hnr : NUL ∉ rest := by
    intro h
    apply hp
    rw [e]
    simp [h]
  have h := scan_segments_spec (p.length + 1) [] [] k 0 rest Stk.nil (Nat.zero_le _) hr
    (Or.inl rfl) hnr (by omega)
  simp only [List.nil_append, List.length_nil, Nat.add_zero] at h
  rw [← e] at h
  have href : norm_scan (p.splitOn '/') [] = norm_scan (rest.splitOn '/') [] := by
    rw [e, norm_scan_slashes]
  rw [← href] at h
  cases hn : norm_scan (p.splitOn '/') [] with
  | none =>
    rw [hn] at h
    obtain ⟨b, hb⟩ := h
    left
    exact ⟨by simp [reference_normalise, hn], b, by simp [sanitise_path, hb]⟩
  | some st =>
    rw [hn] at h
    obtain ⟨A, k', hS, hb⟩ := h
    right
    refine ⟨['/'].intercalate st.reverse, by simp [reference_normalise, hn], ?_⟩
    simp [sanitise_path, hb, collapse_slashes_spec A st k' hS]

/-! ### The shape of a sanitised path -/

theorem splitOn_cons_ne (c : Char) (l : List Char) (h : c ≠ '/') :
    (c :: l).splitOn '/' = (l.splitOn '/').modifyHead (List.cons c) := by
  simp [List.splitOn, List.splitOnP_cons, h]

theorem splitOn_ne_nil (l : List Char) : l.splitOn '/' ≠ [] :=
  List.splitOnP_ne_nil _ _

theorem splitOn_no_slash (l : List Char) : ∀ s ∈ l.splitOn '/', '/' ∉ s := by
  induction l with
  | nil => simp
  | cons c l ih =>
    by_cases hc : c = '/'
    · subst hc
      rw [splitOn_slash_cons]
      intro s hs
      rcases List.mem_cons.mp hs with h | h
      · simp [h]
      · exact ih s h
    · rw [splitOn_cons_ne c l hc]
      obtain ⟨x, t, e⟩ := List.exists_cons_of_ne_nil (splitOn_ne_nil l)
      rw [e] at ih ⊢
      intro s hs
      simp only [List.modifyHead_cons, List.mem_cons] at hs
      rcases hs with h | h
      · subst h
        simp only [List.mem_cons, not_or]
        exact ⟨fun h => hc h.symm, ih x (by simp)⟩
      · exact ih s (by simp [h])

theorem splitOn_append_slash (X Y : List Char) :
    (X ++ '/' :: Y).splitOn '/' = X.splitOn '/' ++ Y.splitOn '/' := by
  induction X with
  | nil => simp [splitOn_slash_cons]
  | cons c X ih =>
    by_cases hc : c = '/'
    · subst hc
      rw [List.cons_append, splitOn_slash_cons, splitOn_slash_cons, ih]
      rfl
    · rw [List.cons_append, splitOn_cons_ne _ _ hc, splitOn_cons_ne _ _ hc, ih]
      obtain ⟨x, t, e⟩ := List.exists_cons_of_ne_nil (splitOn_ne_nil X)
      rw [e]
      rfl

theorem norm_scan_good : ∀ (segs st st' : List (List Char)), (∀ s ∈ segs, '/' ∉ s) →
    (∀ s ∈ st, GoodSeg s) → norm_scan segs st = some st' → ∀ s ∈ st', GoodSeg s := by
  intro segs
  induction segs with
  | nil =>
    intro st st' _ hst h
    simp only [norm_scan, Option.some.injEq] at h
    subst h
    exact hst
  | cons seg segs ih =>
    intro st st' hsegs hst h
    simp only [norm_scan] at h
    cases hs : norm_step st seg with
    | none => simp [hs] at h
    | some st1 =>
      rw [hs] at h
      refine ih st1 st' (fun s m => hsegs s (by simp [m])) ?_ h
      unfold norm_step at hs
      split at hs
      · simp only [Option.some.injEq] at hs
        subst hs
        exact hst
      · rename_i h1
        split at hs
        · cases st with
          | nil => simp at hs
          | cons top below =>
            simp only [Option.some.injEq] at hs
            subst hs
            exact fun s m => hst s (by simp [m])
        · rename_i h2
          simp only [Option.some.injEq] at hs
          subst hs
          intro s m
          rcases List.mem_cons.mp m with e | e
          · subst e
            exact ⟨fun e => h1 (Or.inl e), hsegs s (by simp), fun e => h1 (Or.inr e), h2⟩
          · exact hst s e

/-- The segments of a path accepted by `sanitise_path`: the path is empty or all its
segments are good. -/
theorem sanitised_segments (p q : List Char) (hp : NUL ∉ p)
    (h : sanitise_path p = some (true, q)) :
    q = [] ∨ ∀ s ∈ q.splitOn '/', GoodSeg s := by
  rcases sanitise_path_spec p hp with ⟨_, b, hb⟩ | ⟨q', hq', hs⟩
  · rw [hb] at h
    simp at h
  · rw [hs] at h
    simp only [Option.some.injEq, Prod.mk.injEq, true_and] at h
    subst h
    unfold reference_normalise at hq'
    cases hn : norm_scan (p.splitOn '/') [] with
    | none => simp [hn] at hq'
    | some st =>
      rw [hn] at hq'
      simp only [Option.map_some', Option.some.injEq] at hq'
      subst hq'
      have hg := norm_scan_good _ [] st (splitOn_no_slash p) (by simp) hn
      by_cases hst : st = []
      · left
        subst hst
        rfl
      · right
        rw [List.splitOn_intercalate _ '/' (fun l hl => (hg l (by simpa using hl)).2.1)
          (by simpa using hst)]
        exact fun s m => hg s (by simpa using m)

/-- Claim C1.  Whenever `sanitise_path` returns true, the path left in the buffer has no
segment equal to `..` or `.`, contains no two adjacent slashes, and neither begins nor
ends with a slash. -/
theorem sanitise_path_result_shape (p q : List Char) (hp : NUL ∉ p)
    (h : sanitise_path p = some (true, q)) :
    ['.', '.'] ∉ q.splitOn '/' ∧ ['.'] ∉ q.splitOn '/' ∧ ¬ (['/', '/'] <:+: q)
      ∧ q.head? ≠ some '/' ∧ q.getLast? ≠ some '/' := by
  rcases sanitised_segments p q hp h with hq | hg
  · subst hq
    refine ⟨by simp, by simp, ?_, by simp, by simp⟩
    intro hi
    have := List.IsInfix.length_le hi
    simp at this
  · have hne : [] ∉ q.splitOn '/' := fun m => (hg [] m).1 rfl
    refine ⟨fun m => (hg _ m).2.2.2 rfl, fun m => (hg _ m).2.2.1 rfl, ?_, ?_, ?_⟩
    · rintro ⟨a, b, e⟩
      apply hne
      rw [← e]
      have e2 : a ++ ['/', '/'] ++ b = a ++ '/' :: ('/' :: b) := by simp
      rw [e2, splitOn_append_slash, splitOn_slash_cons]
      simp
    · intro hh
      apply hne
      cases q with
      | nil => simp at hh
      | cons c t =>
        simp only [List.head?_cons, Option.some.injEq] at hh
        subst hh
        rw [splitOn_slash_cons]
        simp
    · intro hl
      apply hne
      obtain ⟨a, e⟩ := List.getLast?_eq_some_iff.mp hl
      rw [e, splitOn_append_slash]
      simp

/-- Witness for claim C1 on the path `a/./b/../c//`. -/
theorem sanitise_path_result_shape_witness :
    NUL ∉ "a/./b/../c//".toList
    ∧ sanitise_path "a/./b/../c//".toList = some (true, "a/c".toList)
    ∧ (['.', '.'] ∉ "a/c".toList.splitOn '/' ∧ ['.'] ∉ "a/c".toList.splitOn '/'
      ∧ ¬ (['/', '/'] <:+: "a/c".toList)
      ∧ "a/c".toList.head? ≠ some '/' ∧ "a/c".toList.getLast? ≠ some '/') :=
  ⟨by decide, by decide,
    sanitise_path_result_shape "a/./b/../c//".toList "a/c".toList (by decide) (by decide)⟩

/-- Claim C2.  For every NUL-terminated path `p`, `sanitise_path` agrees with the reference
normaliser (split on slashes, skip empty and `.` segments, pop on `..`, push anything
else): it returns false exactly when the reference fails, that is when a `..` is met
while the stack is empty, and otherwise it returns true and leaves in the buffer the
segments of the stack joined by single slashes. -/
theorem sanitise_path_refines_reference (p : List Char) (hp : NUL ∉ p) :
    ∃ ret buf, sanitise_path p = some (ret, buf)
      ∧ (ret = false ↔ reference_normalise p = none)
      ∧ (ret = true → reference_normalise p = some buf) := by
  rcases sanitise_path_spec p hp with ⟨hr, b, hb⟩ | ⟨q, hq, hs⟩
  · exact ⟨false, b, hb, by simp [hr], by simp⟩
  · exact ⟨true, q, hs, by simp [hq], fun _ => hq⟩

/-- Witness for claim C2 on the path `/../etc/passwd`, which is rejected. -/
theorem sanitise_path_refines_reference_witness :
    NUL ∉ "/../etc/passwd".toList
    ∧ reference_normalise "/../etc/passwd".toList = none
    ∧ ∃ ret buf, sanitise_path "/../etc/passwd".toList = some (ret, buf)
      ∧ (ret = false ↔ reference_normalise "/../etc/passwd".toList = none)
      ∧ (ret = true → reference_normalise "/../etc/passwd".toList = some buf) :=
  ⟨by decide, by decide, sanitise_path_refines_reference "/../etc/passwd".toList (by decide)⟩

/-! ### url_escape -/

theorem char_eq_iff (c d : Char) : c = d ↔ c.toNat = d.toNat := by
  constructor
  · intro h
    rw [h]
  · intro h
    apply Char.ext
    apply UInt32.ext
    exact h

theorem isUpper_iff (c : Char) : c.isUpper = decide (65 ≤ c.toNat ∧ c.toNat ≤ 90) := by
  simp [Char.isUpper, Char.toNat, UInt32.le_def, Fin.le_def]
  rfl

theorem isLower_iff (c : Char) : c.isLower = decide (97 ≤ c.toNat ∧ c.toNat ≤ 122) := by
  simp [Char.isLower, Char.toNat, UInt32.le_def, Fin.le_def]
  rfl

theorem isDigit_iff (c : Char) : c.isDigit = decide (48 ≤ c.toNat ∧ c.toNat ≤ 57) := by
  simp [Char.isDigit, Char.toNat, UInt32.le_def, Fin.le_def]
  rfl

theorem needs_escaping_false_iff (c : Char) :
    needs_escaping c = false ↔ (c.toNat = 42 ∨ c.toNat = 43 ∨ (45 ≤ c.toNat ∧ c.toNat ≤ 57)
      ∨ (64 ≤ c.toNat ∧ c.toNat ≤ 90) ∨ c.toNat = 95 ∨ (97 ≤ c.toNat ∧ c.toNat ≤ 122)
      ∨ c.toNat = 126) := by
  have e : ∀ (d : Char), (c = d) = (c.toNat = d.toNat) := fun d => propext (char_eq_iff c d)
  unfold needs_escaping
  simp only [e]
  have : '*'.toNat = 42 ∧ '+'.toNat = 43 ∧ '-'.toNat = 45 ∧ '9'.toNat = 57 ∧ '@'.toNat = 64
      ∧ 'Z'.toNat = 90 ∧ '_'.toNat = 95 ∧ 'a'.toNat = 97 ∧ 'z'.toNat = 122
      ∧ '~'.toNat = 126 := by
    decide
  obtain ⟨a1, a2, a3, a4, a5, a6, a7, a8, a9, a10⟩ := this
  rw [a1, a2, a3, a4, a5, a6, a7, a8, a9, a10]
  repeat' split
  all_goals simp
  all_goals omega

theorem in_safe_set_iff (c : Char) :
    in_safe_set c = true ↔ ((65 ≤ c.toNat ∧ c.toNat ≤ 90) ∨ (97 ≤ c.toNat ∧ c.toNat ≤ 122)
      ∨ (48 ≤ c.toNat ∧ c.toNat ≤ 57) ∨ c.toNat = 42 ∨ c.toNat = 43 ∨ c.toNat = 45
      ∨ c.toNat = 46 ∨ c.toNat = 47 ∨ c.toNat = 95 ∨ c.toNat = 126 ∨ c.toNat = 64) := by
  have e : ∀ (d : Char), (c = d) = (c.toNat = d.toNat) := fun d => propext (char_eq_iff c d)
  unfold in_safe_set
  rw [isUpper_iff, isLower_iff, isDigit_iff]
  simp only [Bool.or_eq_true, decide_eq_true_eq, List.contains_eq_any_beq, List.any_eq_true,
    beq_iff_eq]
  have : "*+-./_~@".toList = ['*', '+', '-', '.', '/', '_', '~', '@'] := rfl
  rw [this]
  simp only [List.mem_cons, List.mem_singleton, List.not_mem_nil, or_false, exists_eq_or_imp,
    exists_eq_left, e]
  have : '*'.toNat = 42 ∧ '+'.toNat = 43 ∧ '-'.toNat = 45 ∧ '.'.toNat = 46 ∧ '/'.toNat = 47
      ∧ '_'.toNat = 95 ∧ '~'.toNat = 126 ∧ '@'.toNat = 64 := by
    decide
  obtain ⟨a1, a2, a3, a4, a5, a6, a7, a8⟩ := this
  rw [a1, a2, a3, a4, a5, a6, a7, a8]
  constructor
  · intro h
    omega
  · intro h
    omega

theorem needs_escaping_eq (c : Char) : needs_escaping c = !in_safe_set c := by
  cases h1 : needs_escaping c <;> cases h2 : in_safe_set c <;> simp
  · have := (needs_escaping_false_iff c).mp h1
    have h3 : ¬ (in_safe_set c = true) := by simp [h2]
    rw [in_safe_set_iff] at h3
    omega
  · have := (in_safe_set_iff c).mp h2
    have h3 : ¬ (needs_escaping c = false) := by simp [h1]
    rw [needs_escaping_false_iff] at h3
    omega

theorem hex_digit_upper_eq : ∀ n, n < 16 → hex_digit_upper n = upper_hex_ref n := by
  decide

theorem sprintf_percent_eq (c : Char) :
    sprintf_percent_02X (c.toNat % 256) = percent_encode_ref c := by
  unfold sprintf_percent_02X percent_encode_ref
  rw [hex_digit_upper_eq _ (Nat.mod_lt _ (by decide)),
    hex_digit_upper_eq _ (Nat.mod_lt _ (by decide))]
  congr 3
  omega

theorem escape_copy_eq (s : List Char) : escape_copy s = url_escape_ref s := by
  induction s with
  | nil => rfl
  | cons c s ih =>
    unfold url_escape_ref at ih ⊢
    rw [escape_copy, ih, List.flatMap_cons, needs_escaping_eq, sprintf_percent_eq]
    cases in_safe_set c <;> simp

theorem count_escapes_foldl (s : List Char) : ∀ (acc : Nat × Nat),
    (s.foldl (fun counts c => if needs_escaping c then (counts.1, counts.2 + 1)
        else (counts.1 + 1, counts.2)) acc).2
      = acc.2 + (s.filter needs_escaping).length := by
  induction s with
  | nil => intro acc; simp
  | cons c s ih =>
    intro acc
    rw [List.foldl_cons, ih]
    cases h : needs_escaping c <;> simp [h]
    omega

theorem count_escapes_zero (s : List Char) :
    (count_escapes s).2 = 0 ↔ ∀ c ∈ s, needs_escaping c = false := by
  unfold count_escapes
  rw [count_escapes_foldl]
  simp [List.filter_eq_nil_iff]

theorem escape_copy_safe (s : List Char) (h : ∀ c ∈ s, needs_escaping c = false) :
    escape_copy s = s := by
  induction s with
  | nil => rfl
  | cons c s ih =>
    rw [escape_copy, h c (by simp), ih (fun d hd => h d (by simp [hd]))]
    simp

theorem url_escape_eq_copy (s : List Char) : url_escape s = escape_copy s := by
  unfold url_escape
  split
  · rename_i h
    exact (escape_copy_safe s ((count_escapes_zero s).mp h)).symm
  · rfl

/-- Claim C7.  For every string `s`, `url_escape s` is `s` with every byte outside the set
`A–Z a–z 0–9 * + - . / _ ~ @` replaced by `%` followed by its two-digit upper-case
hexadecimal value and every byte inside the set copied unchanged; when no byte of `s`
lies outside the set the result is `s` itself. -/
theorem url_escape_spec (s : List Char) :
    url_escape s = url_escape_ref s
      ∧ ((∀ c ∈ s, in_safe_set c = true) → url_escape s = s) := by
  refine ⟨by rw [url_escape_eq_copy, escape_copy_eq], fun h => ?_⟩
  rw [url_escape_eq_copy]
  apply escape_copy_safe
  intro c hc
  rw [needs_escaping_eq, h c hc]
  rfl

/-- Witness for claim C7 on the file name `clip.mp4`, which needs no escaping. -/
theorem url_escape_spec_witness :
    (∀ c ∈ "clip.mp4".toList, in_safe_set c = true)
      ∧ url_escape "clip.mp4".toList = "clip.mp4".toList :=
  ⟨by decide, (url_escape_spec "clip.mp4".toList).2 (by decide)⟩

/-! ### In-place rewriting loops -/

theorem rewrite_by_fuel (rule : List Char → Char × Nat)
    (hrule : ∀ s, s ≠ [] → 1 ≤ (rule s).2) :
    ∀ (fuel : Nat) (s : List Char), s.length ≤ fuel →
      rewrite_by rule fuel s = rewrite_by rule s.length s := by
  intro fuel
  induction fuel using Nat.strong_induction_on with
  | _ fuel ih =>
    intro s hs
    cases s with
    | nil =>
      cases fuel with
      | zero => rfl
      | succ f => simp [rewrite_by]
    | cons c t =>
      cases fuel with
      | zero => simp at hs
      | succ f =>
        have h1 := hrule (c :: t) (by simp)
        have hl : ((c :: t).drop (rule (c :: t)).2).length ≤ t.length := by
          rw [List.length_drop]
          simp
          omega
        have hf : t.length ≤ f := by simpa using hs
        simp only [rewrite_by, List.length_cons, reduceCtorEq, if_false]
        rw [ih f (by omega) _ (by omega), ih t.length (by omega) _ hl]

theorem rewrite_by_cons (rule : List Char → Char × Nat)
    (hrule : ∀ s, s ≠ [] → 1 ≤ (rule s).2) (s : List Char) (hs : s ≠ []) :
    rewrite_by rule s.length s
      = (rule s).1 :: rewrite_by rule (s.drop (rule s).2).length (s.drop (rule s).2) := by
  obtain ⟨c, t, rfl⟩ := List.exists_cons_of_ne_nil hs
  have h1 := hrule (c :: t) (by simp)
  have hl : ((c :: t).drop (rule (c :: t)).2).length ≤ t.length := by
    rw [List.length_drop]
    simp
    omega
  simp only [rewrite_by, List.length_cons, reduceCtorEq, if_false]
  rw [rewrite_by_fuel rule hrule t.length _ hl]

theorem rewrite_in_place_spec (step : List Char → Nat → Char × Nat)
    (rule : List Char → Char × Nat)
    (hstep : ∀ pre suf, NUL ∉ suf → suf ≠ [] → step (pre ++ suf) pre.length = rule suf)
    (hrule : ∀ s, s ≠ [] → 1 ≤ (rule s).2)
    (hlen : ∀ s, NUL ∉ s → s ≠ [] → (rule s).2 ≤ s.length) :
    ∀ (fuel : Nat) (out junk suf : List Char), NUL ∉ suf → suf.length < fuel →
      ∃ junk', rewrite_in_place step fuel (out ++ (junk ++ suf)) (out.length + junk.length)
          out.length
        = some (out ++ (rewrite_by rule suf.length suf ++ junk'),
            out.length + (rewrite_by rule suf.length suf).length) := by
  intro fuel
  induction fuel with
  | zero =>
    intro out junk suf _ hf
    omega
  | succ f ih =>
    intro out junk suf hn hf
    have hrd : rd (out ++ (junk ++ suf)) (out.length + junk.length) = rd suf 0 := by
      have := rd_append_right (out ++ junk) suf 0
      simpa using this
    by_cases hs : suf = []
    · subst hs
      refine ⟨junk, ?_⟩
      rw [rd_nil] at hrd
      simp only [rewrite_in_place, hrd, if_true, rewrite_by, List.length_nil]
      simp
    · have hne : rd (out ++ (junk ++ suf)) (out.length + junk.length) ≠ NUL := by
        rw [hrd]
        exact fun h => hs ((rd_zero_of_not_mem suf hn).mp h)
      have hst : step (out ++ (junk ++ suf)) (out.length + junk.length) = rule suf := by
        have := hstep (out ++ junk) suf hn hs
        simpa using this
      have h1 := hrule suf hs
      have h2 := hlen suf hn hs
      have hX : (suf.take (rule suf).2) ≠ [] := by
        intro h
        have h3 := congrArg List.length h
        rw [List.length_take] at h3
        have h4 : 0 < suf.length := List.length_pos.mpr hs
        simp only [List.length_nil] at h3
        omega
      have hsplit : suf = suf.take (rule suf).2 ++ suf.drop (rule suf).2 :=
        (List.take_append_drop _ _).symm
      have hset := set_head out (junk ++ suf.take (rule suf).2) (suf.drop (rule suf).2)
        (rule suf).1 (by simp [hX])
      rw [List.append_assoc, ← hsplit] at hset
      have hnd : NUL ∉ suf.drop (rule suf).2 := fun h => hn (List.mem_of_mem_drop h)
      obtain ⟨junk', hj⟩ := ih (out ++ [(rule suf).1]) (junk ++ suf.take (rule suf).2).tail
        (suf.drop (rule suf).2) hnd (by rw [List.length_drop]; omega)
      refine ⟨junk', ?_⟩
      have hl2 : (out ++ [(rule suf).1]).length + (junk ++ suf.take (rule suf).2).tail.length
          = out.length + junk.length + (rule suf).2 := by
        simp only [List.length_append, List.length_singleton, List.length_tail,
          List.length_take]
        have : min (rule suf).2 suf.length = (rule suf).2 := by omega
        rw [this]
        omega
      rw [hl2] at hj
      simp only [List.length_append, List.length_singleton] at hj
      simp only [rewrite_in_place, if_neg hne, hst, hset]
      rw [hj, rewrite_by_cons rule hrule suf hs]
      simp
      omega

/-! ### url_unescape -/

theorem hex_value_table : ∀ c ∈ "0123456789ABCDEFabcdef".toList, hex_value c = hex_digit_ref c := by
  decide

theorem hex_value_eq (c : Char) : hex_value c = hex_digit_ref c := by
  by_cases h : c ∈ "0123456789ABCDEFabcdef".toList
  · exact hex_value_table c h
  · have e : ∀ (d : Char), (c = d) = (c.toNat = d.toNat) := fun d => propext (char_eq_iff c d)
    have hl : "0123456789ABCDEFabcdef".toList = ['0', '1', '2', '3', '4', '5', '6', '7', '8',
      '9', 'A', 'B', 'C', 'D', 'E', 'F', 'a', 'b', 'c', 'd', 'e', 'f'] := rfl
    have h' := h
    rw [hl] at h'
    simp only [List.mem_cons, List.mem_singleton, List.not_mem_nil, or_false, not_or] at h'
    have hr : hex_digit_ref c = none := by
      unfold hex_digit_ref
      rw [hl]
      simp only [List.zip_cons_cons, List.zip_nil_right, List.lookup_cons, List.lookup_nil]
      obtain ⟨h0, h1, h2, h3, h4, h5, h6, h7, h8, h9, h10, h11, h12, h13, h14, h15, h16, h17,
        h18, h19, h20, h21⟩ := h'
      have hb : ∀ d, ¬ c = d → (c == d) = false := fun d hd => by simpa using hd
      simp only [hb _ h0, hb _ h1, hb _ h2, hb _ h3, hb _ h4, hb _ h5, hb _ h6, hb _ h7,
        hb _ h8, hb _ h9, hb _ h10, hb _ h11, hb _ h12, hb _ h13, hb _ h14, hb _ h15,
        hb _ h16, hb _ h17, hb _ h18, hb _ h19, hb _ h20, hb _ h21]
    rw [hr]
    simp only [e] at h'
    have hn : '0'.toNat = 48 ∧ '1'.toNat = 49 ∧ '2'.toNat = 50 ∧ '3'.toNat = 51
        ∧ '4'.toNat = 52 ∧ '5'.toNat = 53 ∧ '6'.toNat = 54 ∧ '7'.toNat = 55 ∧ '8'.toNat = 56
        ∧ '9'.toNat = 57 ∧ 'A'.toNat = 65 ∧ 'B'.toNat = 66 ∧ 'C'.toNat = 67 ∧ 'D'.toNat = 68
        ∧ 'E'.toNat = 69 ∧ 'F'.toNat = 70 ∧ 'a'.toNat = 97 ∧ 'b'.toNat = 98 ∧ 'c'.toNat = 99
        ∧ 'd'.toNat = 100 ∧ 'e'.toNat = 101 ∧ 'f'.toNat = 102 := by
      decide
    obtain ⟨n0, n1, n2, n3, n4, n5, n6, n7, n8, n9, n10, n11, n12, n13, n14, n15, n16, n17,
      n18, n19, n20, n21⟩ := hn
    rw [n0, n1, n2, n3, n4, n5, n6, n7, n8, n9, n10, n11, n12, n13, n14, n15, n16, n17,
      n18, n19, n20, n21] at h'
    unfold hex_value
    rw [n0, n9, n10, n15, n16, n21]
    repeat' split
    all_goals first | rfl | omega

theorem hex_value_NUL : hex_value NUL = none := by decide

theorem hex_value_lt (c : Char) (v : Nat) (h : hex_value c = some v) : v < 16 := by
  unfold hex_value at h
  have hn : '0'.toNat = 48 ∧ '9'.toNat = 57 ∧ 'A'.toNat = 65 ∧ 'F'.toNat = 70
      ∧ 'a'.toNat = 97 ∧ 'f'.toNat = 102 := by
    decide
  obtain ⟨n0, n9, n10, n15, n16, n21⟩ := hn
  rw [n0, n9, n10, n15, n16, n21] at h
  repeat' split at h
  all_goals first | (cases h; omega) | cases h

theorem url_unescape_rule_cons (c : Char) (rest : List Char) :
    url_unescape_rule (c :: rest) =
      if c = '+' then (' ', 1)
      else if c = '%' then
        match rest with
        | a :: b :: _ =>
          match hex_pair_ref a b with
          | some v => (if v < 0x20 ∨ v = 0x7F then ' ' else Char.ofNat v, 3)
          | none => if a = '%' then ('%', 2) else ('%', 1)
        | [a] => if a = '%' then ('%', 2) else ('%', 1)
        | [] => ('%', 1)
      else (c, 1) := rfl

theorem url_unescape_rule_bounds (s : List Char) (hs : s ≠ []) :
    1 ≤ (url_unescape_rule s).2 ∧ (url_unescape_rule s).2 ≤ s.length := by
  obtain ⟨c, rest, rfl⟩ := List.exists_cons_of_ne_nil hs
  rw [url_unescape_rule_cons]
  by_cases hp : c = '+'
  · simp [hp]
  · rw [if_neg hp]
    by_cases hc : c = '%'
    · rw [if_pos hc]
      match rest with
      | [] => simp
      | [a] => by_cases ha : a = '%' <;> simp [ha]
      | a :: b :: t =>
        cases hv : hex_pair_ref a b with
        | none =>
          by_cases ha : a = '%'
          · subst ha
            simp [hv]
          · simp [ha, hv]
        | some v => simp [hv]
    · simp [hc]

theorem url_unescape_rule_pos (s : List Char) (hs : s ≠ []) : 1 ≤ (url_unescape_rule s).2 :=
  (url_unescape_rule_bounds s hs).1

theorem url_unescape_rule_le (s : List Char) (_ : NUL ∉ s) (hs : s ≠ []) :
    (url_unescape_rule s).2 ≤ s.length :=
  (url_unescape_rule_bounds s hs).2

theorem url_unescape_step_eq (pre suf : List Char) (hn : NUL ∉ suf) (hs : suf ≠ []) :
    url_unescape_step (pre ++ suf) pre.length = url_unescape_rule suf := by
  obtain ⟨c, rest, rfl⟩ := List.exists_cons_of_ne_nil hs
  have h0 : rd (pre ++ c :: rest) pre.length = c := by
    rw [rd_append_len, rd_cons_zero]
  have h1 : ∀ i, rd (pre ++ c :: rest) (pre.length + 1 + i) = rd rest i := by
    intro i
    rw [Nat.add_assoc, rd_append_right, Nat.add_comm 1 i, rd_cons_succ]
  have h10 := h1 0
  have h11 := h1 1
  rw [Nat.add_zero] at h10
  rw [url_unescape_rule_cons]
  unfold url_unescape_step convert_hex
  rw [h0, h10, h11]
  by_cases hp : c = '+'
  · simp [hp]
  · rw [if_neg hp, if_neg hp]
    by_cases hc : c = '%'
    · rw [if_pos hc, if_pos hc]
      match rest, hn with
      | [], _ =>
        have e : NUL ≠ '%' := by decide
        simp [rd_nil, hex_value_NUL, e]
      | [a], _ =>
        simp only [rd_cons_zero, rd_cons_succ, rd_nil, hex_value_NUL]
        cases hex_value a <;> simp
      | a :: b :: t, _ =>
        simp only [rd_cons_zero, rd_cons_succ, hex_pair_ref, ← hex_value_eq]
        cases ha : hex_value a with
        | none => simp
        | some x =>
          cases hb : hex_value b with
          | none => simp
          | some y =>
            have hx := hex_value_lt a x ha
            have hy := hex_value_lt b y hb
            have e1 : ((((0 * 16 + x) * 16 + y : Nat) : Int) > -1) := by omega
            have e2 : (0 * 16 + x) * 16 + y = 16 * x + y := by omega
            simp only [e1, if_true, e2, Int.toNat_ofNat]
            by_cases hv : 16 * x + y < 32 ∨ 16 * x + y = 127
            · have hv' : ((16 * x + y : Nat) : Int) < 32 ∨ ((16 * x + y : Nat) : Int) = 127 := by
                omega
              rw [if_pos hv', if_pos hv, if_pos (by omega)]
            · have hv' : ¬ (((16 * x + y : Nat) : Int) < 32
                  ∨ ((16 * x + y : Nat) : Int) = 127) := by
                omega
              rw [if_neg hv', if_neg hv, if_pos (by omega)]
    · rw [if_neg hc, if_neg hc]

theorem url_unescape_eq_ref (s : List Char) (hs : NUL ∉ s) :
    url_unescape s = some (url_unescape_ref s) := by
  obtain ⟨junk', hj⟩ := rewrite_in_place_spec url_unescape_step url_unescape_rule
    url_unescape_step_eq url_unescape_rule_pos url_unescape_rule_le (s.length + 1) [] [] s hs
    (by omega)
  simp only [List.nil_append, List.length_nil, Nat.add_zero, Nat.zero_add] at hj
  unfold url_unescape url_unescape_ref
  rw [hj]
  simp

/-- Claim C8.  For every string `s`, `url_unescape` rewrites `s` from left to right by the
rules: `+` becomes a space; `%` followed by two hexadecimal digits becomes the byte they
encode, or a space when that byte is below 0x20 or equals 0x7F; `%` followed by `%` (and
not by two hexadecimal digits) becomes a single `%`; any other `%` is kept literally;
every other byte is copied unchanged. -/
theorem url_unescape_rewrites_by_rules (s : List Char) (hs : NUL ∉ s) :
    url_unescape s = some (rewrite_by url_unescape_rule s.length s) :=
  url_unescape_eq_ref s hs

/-- Witness for claim C8 on a string that exercises every rule. -/
theorem url_unescape_rewrites_by_rules_witness :
    NUL ∉ "a%20b/c+d%25%zz%%4%1f".toList
      ∧ url_unescape "a%20b/c+d%25%zz%%4%1f".toList
        = some (rewrite_by url_unescape_rule "a%20b/c+d%25%zz%%4%1f".toList.length
            "a%20b/c+d%25%zz%%4%1f".toList)
      ∧ rewrite_by url_unescape_rule "a%20b/c+d%25%zz%%4%1f".toList.length
          "a%20b/c+d%25%zz%%4%1f".toList = "a b/c d%%zz%4 ".toList :=
  ⟨by decide, url_unescape_rewrites_by_rules "a%20b/c+d%25%zz%%4%1f".toList (by decide),
    by decide⟩

/-! ### Unescaping an escaped string -/

theorem hex_digit_roundtrip : ∀ n, n < 16 → hex_digit_ref (hex_digit_upper n) = some n := by
  decide

theorem hex_digit_upper_ne_NUL : ∀ n, n < 16 → hex_digit_upper n ≠ NUL := by
  decide

theorem hex_pair_roundtrip (v : Nat) (hv : v < 256) :
    hex_pair_ref (hex_digit_upper (v / 16 % 16)) (hex_digit_upper (v % 16)) = some v := by
  unfold hex_pair_ref
  rw [hex_digit_roundtrip _ (Nat.mod_lt _ (by decide)),
    hex_digit_roundtrip _ (Nat.mod_lt _ (by decide))]
  simp only [Option.some.injEq]
  omega

theorem escape_copy_not_NUL (s : List Char) (h : NUL ∉ s) : NUL ∉ escape_copy s := by
  induction s with
  | nil => simp [escape_copy]
  | cons c t ih =>
    have hc : NUL ≠ c := fun e => h (by simp [e])
    have ht : NUL ∉ t := fun e => h (by simp [e])
    rw [escape_copy]
    split
    · simp only [sprintf_percent_02X, List.cons_append, List.nil_append, List.mem_cons, not_or]
      exact ⟨by decide, (hex_digit_upper_ne_NUL _ (Nat.mod_lt _ (by decide))).symm,
        (hex_digit_upper_ne_NUL _ (Nat.mod_lt _ (by decide))).symm, ih ht⟩
    · simp only [List.mem_cons, not_or]
      exact ⟨hc, ih ht⟩

theorem rewrite_escape_copy (s : List Char)
    (h : ∀ c ∈ s, c.toNat < 128 ∧ 32 ≤ c.toNat ∧ c.toNat ≠ 127 ∧ c ≠ '+') :
    rewrite_by url_unescape_rule (escape_copy s).length (escape_copy s) = s := by
  induction s with
  | nil => rfl
  | cons c t ih =>
    have ht := ih (fun d hd => h d (by simp [hd]))
    obtain ⟨h1, h2, h3, h4⟩ := h c (by simp)
    cases hn : needs_escaping c with
    | false =>
      have hne : escape_copy (c :: t) = c :: escape_copy t := by
        rw [escape_copy, hn]
        simp
      have hp : c ≠ '%' := by
        intro e
        have h5 := (needs_escaping_false_iff c).mp hn
        rw [e] at h5
        have : '%'.toNat = 37 := by decide
        omega
      have hr : url_unescape_rule (c :: escape_copy t) = (c, 1) := by
        rw [url_unescape_rule_cons, if_neg h4, if_neg hp]
      rw [hne, rewrite_by_cons _ url_unescape_rule_pos _ (by simp), hr]
      simp only [List.drop_succ_cons, List.drop_zero]
      rw [ht]
    | true =>
      have hne : escape_copy (c :: t) = '%' :: hex_digit_upper (c.toNat % 256 / 16 % 16)
          :: hex_digit_upper (c.toNat % 256 % 16) :: escape_copy t := by
        rw [escape_copy, hn]
        rfl
      have hv : c.toNat % 256 = c.toNat := Nat.mod_eq_of_lt (by omega)
      have hr : url_unescape_rule ('%' :: hex_digit_upper (c.toNat % 256 / 16 % 16)
          :: hex_digit_upper (c.toNat % 256 % 16) :: escape_copy t) = (c, 3) := by
        rw [url_unescape_rule_cons, if_neg (by decide), if_pos rfl]
        simp only [hex_pair_roundtrip _ (Nat.mod_lt _ (by decide : 0 < 256))]
        rw [hv, if_neg (by omega), Char.ofNat_toNat]
      rw [hne, rewrite_by_cons _ url_unescape_rule_pos _ (by simp), hr]
      simp only [List.drop_succ_cons, List.drop_zero]
      rw [ht]

/-- Claim C6, as the code has it.  For every ASCII string `s` that contains no control
byte (none below 0x20, no 0x7F) and no `+`, unescaping the escaped string gives back
`s`. -/
theorem url_unescape_url_escape (s : List Char)
    (h : ∀ c ∈ s, c.toNat < 128 ∧ 32 ≤ c.toNat ∧ c.toNat ≠ 127 ∧ c ≠ '+') :
    url_unescape (url_escape s) = some s := by
  have hs : NUL ∉ s := by
    intro hm
    have := (h NUL hm).2.1
    have e : NUL.toNat = 0 := by decide
    omega
  rw [url_escape_eq_copy, url_unescape_eq_ref _ (escape_copy_not_NUL s hs)]
  unfold url_unescape_ref
  rw [rewrite_escape_copy s h]

/-- Witness for the amended claim C6 on a file name with a space and a percent sign. -/
theorem url_unescape_url_escape_witness :
    (∀ c ∈ "my 100% clip.mp4".toList, c.toNat < 128 ∧ 32 ≤ c.toNat ∧ c.toNat ≠ 127 ∧ c ≠ '+')
      ∧ url_unescape (url_escape "my 100% clip.mp4".toList) = some "my 100% clip.mp4".toList :=
  ⟨by decide, url_unescape_url_escape "my 100% clip.mp4".toList (by decide)⟩

/-- Counterexample to claim C6 as stated: `a+b` is an ASCII string without control bytes,
`url_escape` leaves its `+` alone and `url_unescape` turns that `+` into a space. -/
theorem url_roundtrip_fails_on_plus :
    (∀ c ∈ "a+b".toList, c.toNat < 128 ∧ 32 ≤ c.toNat ∧ c.toNat ≠ 127)
      ∧ url_escape "a+b".toList = "a+b".toList
      ∧ url_unescape (url_escape "a+b".toList) = some "a b".toList
      ∧ url_unescape (url_escape "a+b".toList) ≠ some "a+b".toList := by
  decide

/-! ### xml_escape_double and xml_unescape -/

theorem rewrite_all_nil (rule : List Char → Char × Nat) : rewrite_all rule [] = [] := rfl

theorem rewrite_all_cons (rule : List Char → Char × Nat)
    (hrule : ∀ s, s ≠ [] → 1 ≤ (rule s).2) (s : List Char) (hs : s ≠ []) :
    rewrite_all rule s = (rule s).1 :: rewrite_all rule (s.drop (rule s).2) :=
  rewrite_by_cons rule hrule s hs

theorem strncmp_eq_isPrefixOf (lit : List Char) : ∀ (X rest : List Char), NUL ∉ lit →
    strncmp_eq (X ++ rest) X.length lit = lit.isPrefixOf rest := by
  induction lit with
  | nil =>
    intro X rest _
    simp [strncmp_eq]
  | cons c l ih =>
    intro X rest hn
    have hc : NUL ≠ c := fun e => hn (by simp [e])
    have hl : NUL ∉ l := fun e => hn (by simp [e])
    cases rest with
    | nil =>
      have h0 : rd (X ++ []) X.length = NUL := by rw [rd_append_len, rd_nil]
      simp only [strncmp_eq, h0, List.isPrefixOf]
      simp [hc]
    | cons d rest' =>
      have h := ih (X ++ [d]) rest' hl
      simp only [List.append_assoc, List.singleton_append, List.length_append,
        List.length_singleton] at h
      simp only [strncmp_eq, rd_append_len, rd_cons_zero, h, List.isPrefixOf]
      by_cases hdc : d = c
      · simp [hdc]
      · have : ¬ c = d := fun e => hdc e.symm
        simp [hdc, this]

theorem xml_unescape_rule_cons (c : Char) (rest : List Char) :
    xml_unescape_rule (c :: rest) =
      if c = '&' then
        if "amp;".toList.isPrefixOf rest then ('&', 5)
        else if "lt;".toList.isPrefixOf rest then ('<', 4)
        else if "gt;".toList.isPrefixOf rest then ('>', 4)
        else if "quot;".toList.isPrefixOf rest then (QUOT, 6)
        else if "apos;".toList.isPrefixOf rest then (APOS, 6)
        else ('&', 1)
      else (c, 1) := rfl

theorem xml_unescape_step_eq (pre suf : List Char) (_ : NUL ∉ suf) (hs : suf ≠ []) :
    xml_unescape_step (pre ++ suf) pre.length = xml_unescape_rule suf := by
  obtain ⟨c, rest, rfl⟩ := List.exists_cons_of_ne_nil hs
  have h0 : rd (pre ++ c :: rest) pre.length = c := by
    rw [rd_append_len, rd_cons_zero]
  have h1 : ∀ lit, NUL ∉ lit →
      strncmp_eq (pre ++ c :: rest) (pre.length + 1) lit = lit.isPrefixOf rest := by
    intro lit hl
    have := strncmp_eq_isPrefixOf lit (pre ++ [c]) rest hl
    simpa using this
  rw [xml_unescape_rule_cons]
  unfold xml_unescape_step
  rw [h0, h1 _ (by decide), h1 _ (by decide), h1 _ (by decide), h1 _ (by decide),
    h1 _ (by decide)]

theorem isPrefixOf_length (lit rest : List Char) (h : lit.isPrefixOf rest = true) :
    lit.length ≤ rest.length :=
  (List.isPrefixOf_iff_prefix.mp h).length_le

theorem xml_unescape_rule_bounds (s : List Char) (hs : s ≠ []) :
    1 ≤ (xml_unescape_rule s).2 ∧ (xml_unescape_rule s).2 ≤ s.length := by
  obtain ⟨c, rest, rfl⟩ := List.exists_cons_of_ne_nil hs
  rw [xml_unescape_rule_cons]
  split
  · split
    · rename_i h
      have := isPrefixOf_length _ _ h
      simp at this ⊢
      omega
    · split
      · rename_i h
        have := isPrefixOf_length _ _ h
        simp at this ⊢
        omega
      · split
        · rename_i h
          have := isPrefixOf_length _ _ h
          simp at this ⊢
          omega
        · split
          · rename_i h
            have := isPrefixOf_length _ _ h
            simp at this ⊢
            omega
          · split
            · rename_i h
              have := isPrefixOf_length _ _ h
              simp at this ⊢
              omega
            · simp
  · simp

theorem xml_unescape_rule_pos (s : List Char) (hs : s ≠ []) : 1 ≤ (xml_unescape_rule s).2 :=
  (xml_unescape_rule_bounds s hs).1

theorem xml_unescape_eq (s : List Char) (hs : NUL ∉ s) :
    xml_unescape s = some (rewrite_all xml_unescape_rule s) := by
  obtain ⟨junk', hj⟩ := rewrite_in_place_spec xml_unescape_step xml_unescape_rule
    xml_unescape_step_eq xml_unescape_rule_pos
    (fun s _ h => (xml_unescape_rule_bounds s h).2) (s.length + 1) [] [] s hs (by omega)
  simp only [List.nil_append, List.length_nil, Nat.add_zero, Nat.zero_add] at hj
  unfold xml_unescape rewrite_all
  rw [hj]
  simp

theorem xml_rule_plain (c : Char) (e : List Char) (h : c ≠ '&') :
    xml_unescape_rule (c :: e) = (c, 1) := by
  rw [xml_unescape_rule_cons, if_neg h]

theorem xml_rewrite_plain (X : List Char) (e : List Char) (h : '&' ∉ X) :
    rewrite_all xml_unescape_rule (X ++ e) = X ++ rewrite_all xml_unescape_rule e := by
  induction X with
  | nil => rfl
  | cons c X ih =>
    have hc : c ≠ '&' := fun e => h (by simp [e])
    rw [List.cons_append, rewrite_all_cons _ xml_unescape_rule_pos _ (by simp),
      xml_rule_plain _ _ hc]
    simp only [List.drop_succ_cons, List.drop_zero]
    rw [ih (fun e => h (by simp [e]))]
    rfl

theorem xml_rewrite_entity (x : Char) (ent e : List Char)
    (hrule : xml_unescape_rule ('&' :: (ent ++ e)) = (x, ent.length + 1)) :
    rewrite_all xml_unescape_rule ('&' :: (ent ++ e)) = x :: rewrite_all xml_unescape_rule e := by
  rw [rewrite_all_cons _ xml_unescape_rule_pos _ (by simp), hrule]
  simp

theorem xml_rewrite_double (ent e : List Char) (hent : '&' ∉ ent)
    (hrule : xml_unescape_rule ('&' :: ("amp;".toList ++ (ent ++ e))) = ('&', 5)) :
    rewrite_all xml_unescape_rule ('&' :: ("amp;".toList ++ (ent ++ e)))
      = '&' :: (ent ++ rewrite_all xml_unescape_rule e) := by
  rw [xml_rewrite_entity '&' "amp;".toList (ent ++ e) hrule, xml_rewrite_plain ent e hent]

/-- Unescaping a doubly escaped string once leaves the singly escaped string. -/
theorem xml_rewrite_copy (n : List Char) :
    rewrite_all xml_unescape_rule (xml_escape_copy n) = xml_escape_once n := by
  induction n with
  | nil => rfl
  | cons c r ih =>
    by_cases h1 : c = '&'
    · subst h1
      have := xml_rewrite_double "amp;".toList (xml_escape_copy r) (by decide) rfl
      rw [ih] at this
      exact this
    · by_cases h2 : c = '<'
      · subst h2
        have := xml_rewrite_double "lt;".toList (xml_escape_copy r) (by decide) rfl
        rw [ih] at this
        exact this
      · by_cases h3 : c = '>'
        · subst h3
          have := xml_rewrite_double "gt;".toList (xml_escape_copy r) (by decide) rfl
          rw [ih] at this
          exact this
        · by_cases h4 : c = QUOT
          · subst h4
            have := xml_rewrite_double "quot;".toList (xml_escape_copy r) (by decide) rfl
            rw [ih] at this
            exact this
          · by_cases h5 : c = APOS
            · subst h5
              have := xml_rewrite_double "apos;".toList (xml_escape_copy r) (by decide) rfl
              rw [ih] at this
              exact this
            · have e1 : xml_escape_copy (c :: r) = [c] ++ xml_escape_copy r := by
                simp [xml_escape_copy, h1, h2, h3, h4, h5]
              have e2 : xml_escape_once (c :: r) = [c] ++ xml_escape_once r := by
                simp [xml_escape_once, h1, h2, h3, h4, h5]
              rw [e1, e2, xml_rewrite_plain [c] _ (by simpa using fun e => h1 e.symm), ih]

/-- Unescaping a singly escaped string leaves the original string. -/
theorem xml_rewrite_once (n : List Char) :
    rewrite_all xml_unescape_rule (xml_escape_once n) = n := by
  induction n with
  | nil => rfl
  | cons c r ih =>
    by_cases h1 : c = '&'
    · subst h1
      have := xml_rewrite_entity '&' "amp;".toList (xml_escape_once r) (by
        rw [xml_unescape_rule_cons]
        simp [List.isPrefixOf, String.toList])
      rw [ih] at this
      exact this
    · by_cases h2 : c = '<'
      · subst h2
        have := xml_rewrite_entity '<' "lt;".toList (xml_escape_once r) (by
        rw [xml_unescape_rule_cons]
        simp [List.isPrefixOf, String.toList])
        rw [ih] at this
        exact this
      · by_cases h3 : c = '>'
        · subst h3
          have := xml_rewrite_entity '>' "gt;".toList (xml_escape_once r) (by
        rw [xml_unescape_rule_cons]
        simp [List.isPrefixOf, String.toList])
          rw [ih] at this
          exact this
        · by_cases h4 : c = QUOT
          · subst h4
            have := xml_rewrite_entity QUOT "quot;".toList (xml_escape_once r) (by
        rw [xml_unescape_rule_cons]
        simp [List.isPrefixOf, String.toList])
            rw [ih] at this
            exact this
          · by_cases h5 : c = APOS
            · subst h5
              have := xml_rewrite_entity APOS "apos;".toList (xml_escape_once r) (by
        rw [xml_unescape_rule_cons]
        simp [List.isPrefixOf, String.toList])
              rw [ih] at this
              exact this
            · have e2 : xml_escape_once (c :: r) = [c] ++ xml_escape_once r := by
                simp [xml_escape_once, h1, h2, h3, h4, h5]
              rw [e2, xml_rewrite_plain [c] _ (by simpa using fun e => h1 e.symm), ih]
              rfl

theorem xml_escape_copy_not_NUL (n : List Char) (h : NUL ∉ n) : NUL ∉ xml_escape_copy n := by
  induction n with
  | nil => simp [xml_escape_copy]
  | cons c r ih =>
    have hc : NUL ≠ c := fun e => h (by simp [e])
    have hr := ih (fun e => h (by simp [e]))
    rw [xml_escape_copy, List.mem_append, not_or]
    refine ⟨?_, hr⟩
    repeat' split
    all_goals first | decide | simpa using hc

theorem xml_escape_once_not_NUL (n : List Char) (h : NUL ∉ n) : NUL ∉ xml_escape_once n := by
  induction n with
  | nil => simp [xml_escape_once]
  | cons c r ih =>
    have hc : NUL ≠ c := fun e => h (by simp [e])
    have hr := ih (fun e => h (by simp [e]))
    rw [xml_escape_once, List.mem_append, not_or]
    refine ⟨?_, hr⟩
    repeat' split
    all_goals first | decide | simpa using hc

theorem xml_escape_count_foldl (s : List Char) : ∀ (acc : Nat × Nat),
    (s.foldl (fun counts c =>
      if c = '&' then (counts.1, counts.2 + 9)
      else if c = '<' then (counts.1, counts.2 + 8)
      else if c = '>' then (counts.1, counts.2 + 8)
      else if c = QUOT then (counts.1, counts.2 + 10)
      else if c = APOS then (counts.1, counts.2 + 10)
      else (counts.1 + 1, counts.2)) acc).2 = 0 →
    acc.2 = 0 ∧ xml_escape_copy s = s := by
  induction s with
  | nil =>
    intro acc h
    exact ⟨h, rfl⟩
  | cons c r ih =>
    intro acc h
    rw [List.foldl_cons] at h
    have h2 := ih _ h
    obtain ⟨h3, h4⟩ := h2
    repeat' split at h3
    all_goals simp only at h3
    all_goals first | omega | skip
    rename_i n1 n2 n3 n4 n5
    refine ⟨h3, ?_⟩
    rw [xml_escape_copy, h4]
    simp [n1, n2, n3, n4, n5]

theorem xml_escape_double_eq_copy (n : List Char) : xml_escape_double n = xml_escape_copy n := by
  unfold xml_escape_double
  split
  · rename_i h
    exact ((xml_escape_count_foldl n (0, 0) h).2).symm
  · rfl

/-- Claim C9.  For every string `n`, applying `xml_unescape` twice to
`xml_escape_double n` yields `n` exactly. -/
theorem xml_unescape_twice_escape_double (n : List Char) (hn : NUL ∉ n) :
    (xml_unescape (xml_escape_double n)).bind xml_unescape = some n := by
  rw [xml_escape_double_eq_copy, xml_unescape_eq _ (xml_escape_copy_not_NUL n hn),
    Option.some_bind, xml_rewrite_copy, xml_unescape_eq _ (xml_escape_once_not_NUL n hn),
    xml_rewrite_once]

/-- Witness for claim C9 on a name that holds all five special characters and an entity
of its own. -/
theorem xml_unescape_twice_escape_double_witness :
    NUL ∉ [QUOT, 'T', 'o', 'm', APOS, 's', QUOT, ' ', '<', '&', 'a', 'm', 'p', ';', '>']
      ∧ (xml_unescape (xml_escape_double
          [QUOT, 'T', 'o', 'm', APOS, 's', QUOT, ' ', '<', '&', 'a', 'm', 'p', ';', '>'])).bind
          xml_unescape
        = some [QUOT, 'T', 'o', 'm', APOS, 's', QUOT, ' ', '<', '&', 'a', 'm', 'p', ';', '>'] :=
  ⟨by decide, xml_unescape_twice_escape_double _ (by decide)⟩

/-! ### Request flags -/

theorem flag_set_iff (x k : Nat) : x &&& 2 ^ k ≠ 0 ↔ x.testBit k = true := by
  constructor
  · intro h
    obtain ⟨i, hi⟩ := Nat.ne_zero_implies_bit_true h
    rw [Nat.testBit_and, Nat.testBit_two_pow] at hi
    simp only [Bool.and_eq_true, decide_eq_true_eq] at hi
    rw [hi.2]
    exact hi.1
  · intro h hz
    have := Nat.testBit_and x (2 ^ k) k
    rw [hz, Nat.zero_testBit, h, Nat.testBit_two_pow_self] at this
    simp at this

theorem host_flag_iff (x : Nat) : x &&& FLAG_HOST ≠ 0 ↔ x.testBit 3 = true :=
  flag_set_iff x 3

theorem or_flag_testBit (x F k : Nat) (h : F.testBit k = false) :
    (x ||| F).testBit k = x.testBit k := by
  rw [Nat.testBit_or, h, Bool.or_false]

/-! ### parse_http_header and the Host flag -/

theorem strcasecmp_excl (name a b : List Char) (h : a.map Char.toLower ≠ b.map Char.toLower)
    (ha : strcasecmp_eq name a = true) : strcasecmp_eq name b = false := by
  unfold strcasecmp_eq at *
  simp only [decide_eq_true_eq, decide_eq_false_iff_not] at *
  intro hb
  exact h (ha.symm.trans hb)

theorem strncasecmp_excl (name a b : List Char) (n : Nat)
    (h : ((a ++ [NUL]).take n).map Char.toLower ≠ ((b ++ [NUL]).take n).map Char.toLower)
    (hb : strcasecmp_eq name b = true) : strncasecmp_eq name a n = false := by
  unfold strcasecmp_eq at hb
  unfold strncasecmp_eq
  simp only [decide_eq_true_eq, decide_eq_false_iff_not] at *
  intro ha
  apply h
  rw [← ha, List.map_take, List.map_take, List.map_append, List.map_append, hb]

/-- What a branch of `parse_http_header` other than the `Host` branch does to the
fields on which the host check depends. -/
theorem set_reqflag_keeps (h : upnphttp) (F : Nat) (hF : F.testBit 3 = false) :
    (set_reqflag h F).iface = h.iface
      ∧ (set_reqflag h F).reqflags.testBit 3 = h.reqflags.testBit 3 :=
  ⟨rfl, or_flag_testBit h.reqflags F 3 hF⟩

theorem header_soap_action_keeps (h : upnphttp) (v : List Char) :
    (header_soap_action h v).iface = h.iface
      ∧ (header_soap_action h v).reqflags.testBit 3 = h.reqflags.testBit 3 := by
  unfold header_soap_action
  split_ifs <;> exact ⟨rfl, rfl⟩

theorem header_callback_keeps (h : upnphttp) (buf : List Char) (i : Nat) (len : Int) :
    (header_callback h buf i len).iface = h.iface
      ∧ (header_callback h buf i len).reqflags.testBit 3 = h.reqflags.testBit 3 := by
  unfold header_callback
  split_ifs <;> exact ⟨rfl, rfl⟩

theorem header_timeout_keeps (h : upnphttp) (v : List Char) :
    (header_timeout h v).iface = h.iface
      ∧ (header_timeout h v).reqflags.testBit 3 = h.reqflags.testBit 3 := by
  unfold header_timeout
  split_ifs <;> exact ⟨rfl, rfl⟩

theorem header_range_keeps (h : upnphttp) (v : List Char) :
    (header_range h v).iface = h.iface
      ∧ (header_range h v).reqflags.testBit 3 = h.reqflags.testBit 3 := by
  unfold header_range
  split_ifs
  · exact ⟨rfl, or_flag_testBit h.reqflags FLAG_RANGE 3 (by decide)⟩
  · exact ⟨rfl, rfl⟩

theorem header_transfer_mode_keeps (h : upnphttp) (v : List Char) :
    (header_transfer_mode h v).iface = h.iface
      ∧ (header_transfer_mode h v).reqflags.testBit 3 = h.reqflags.testBit 3 := by
  unfold header_transfer_mode
  split_ifs
  · exact set_reqflag_keeps h _ (by decide)
  · exact set_reqflag_keeps h _ (by decide)
  · exact set_reqflag_keeps h _ (by decide)
  · exact ⟨rfl, rfl⟩

theorem header_host_spec (cfg : Config) (h : upnphttp) (v : List Char) :
    (header_host cfg h v).iface = h.iface
      ∧ (header_host cfg h v).reqflags.testBit 3
        = (h.reqflags.testBit 3 || strncmp_eq_n (expected_host cfg h.iface) v 30) := by
  unfold header_host
  split_ifs with hs
  · refine ⟨rfl, ?_⟩
    rw [hs, Bool.or_true]
    show (h.reqflags ||| FLAG_HOST).testBit 3 = true
    rw [Nat.testBit_or]
    have : FLAG_HOST.testBit 3 = true := by decide
    rw [this, Bool.or_true]
  · refine ⟨rfl, ?_⟩
    have : strncmp_eq_n (expected_host cfg h.iface) v 30 = false := by simpa using hs
    rw [this, Bool.or_false]

theorem parse_http_header_host (cfg : Config) (h : upnphttp) (buf : List Char) (i : Nat)
    (len : Int) :
    (parse_http_header cfg h buf i len).iface = h.iface
    ∧ (parse_http_header cfg h buf i len).reqflags.testBit 3
      = (h.reqflags.testBit 3 || (strcasecmp_eq (cstr_at buf 0) "Host".toList
          && strncmp_eq_n (expected_host cfg h.iface) (cstr_at buf i) 30)) := by
  unfold parse_http_header
  by_cases c1 : strcasecmp_eq (cstr_at buf 0) "Content-Length".toList = true
  · rw [if_pos c1]
    have hH := strcasecmp_excl (cstr_at buf 0) "Content-Length".toList "Host".toList (by decide) c1
    rw [hH, Bool.false_and, Bool.or_false]
    exact ⟨rfl, rfl⟩
  · rw [if_neg c1]
    by_cases c2 : strcasecmp_eq (cstr_at buf 0) "SOAPAction".toList = true
    · rw [if_pos c2]
      have hH := strcasecmp_excl (cstr_at buf 0) "SOAPAction".toList "Host".toList (by decide) c2
      rw [hH, Bool.false_and, Bool.or_false]
      exact header_soap_action_keeps h _
    · rw [if_neg c2]
      by_cases c3 : strcasecmp_eq (cstr_at buf 0) "Callback".toList = true
      · rw [if_pos c3]
        have hH := strcasecmp_excl (cstr_at buf 0) "Callback".toList "Host".toList (by decide) c3
        rw [hH, Bool.false_and, Bool.or_false]
        exact header_callback_keeps h _ _ _
      · rw [if_neg c3]
        by_cases c4 : strcasecmp_eq (cstr_at buf 0) "SID".toList = true
        · rw [if_pos c4]
          have hH := strcasecmp_excl (cstr_at buf 0) "SID".toList "Host".toList (by decide) c4
          rw [hH, Bool.false_and, Bool.or_false]
          exact ⟨rfl, rfl⟩
        · rw [if_neg c4]
          by_cases c5 : strncasecmp_eq (cstr_at buf 0) "NT".toList 2 = true
          · rw [if_pos c5]
            have hH : strcasecmp_eq (cstr_at buf 0) "Host".toList = false := by
              cases hx : strcasecmp_eq (cstr_at buf 0) "Host".toList with
              | false => rfl
              | true =>
                have := strncasecmp_excl (cstr_at buf 0) "NT".toList "Host".toList 2 (by decide) hx
                rw [this] at c5
                exact absurd c5 (by decide)
            rw [hH, Bool.false_and, Bool.or_false]
            exact ⟨rfl, rfl⟩
          · rw [if_neg c5]
            by_cases c6 : strncasecmp_eq (cstr_at buf 0) "Timeout".toList 7 = true
            · rw [if_pos c6]
              have hH : strcasecmp_eq (cstr_at buf 0) "Host".toList = false := by
                cases hx : strcasecmp_eq (cstr_at buf 0) "Host".toList with
                | false => rfl
                | true =>
                  have := strncasecmp_excl (cstr_at buf 0) "Timeout".toList "Host".toList 7 (by decide) hx
                  rw [this] at c6
                  exact absurd c6 (by decide)
              rw [hH, Bool.false_and, Bool.or_false]
              exact header_timeout_keeps h _
            · rw [if_neg c6]
              by_cases c7 : strncasecmp_eq (cstr_at buf 0) "Range".toList 5 = true
              · rw [if_pos c7]
                have hH : strcasecmp_eq (cstr_at buf 0) "Host".toList = false := by
                  cases hx : strcasecmp_eq (cstr_at buf 0) "Host".toList with
                  | false => rfl
                  | true =>
                    have := strncasecmp_excl (cstr_at buf 0) "Range".toList "Host".toList 5 (by decide) hx
                    rw [this] at c7
                    exact absurd c7 (by decide)
                rw [hH, Bool.false_and, Bool.or_false]
                exact header_range_keeps h _
              · rw [if_neg c7]
                by_cases cH : strcasecmp_eq (cstr_at buf 0) "Host".toList = true
                · rw [if_pos cH, cH, Bool.true_and]
                  exact header_host_spec cfg h (cstr_at buf i)
                · rw [if_neg cH]
                  have hH : strcasecmp_eq (cstr_at buf 0) "Host".toList = false := by simpa using cH
                  rw [hH, Bool.false_and, Bool.or_false]
                  by_cases d1 : strcasecmp_eq (cstr_at buf 0) "Transfer-Encoding".toList = true
                  · rw [if_pos d1]
                    by_cases i1 : strcasecmp_eq (cstr_at buf i) "chunked".toList = true
                    · rw [if_pos i1]
                      exact set_reqflag_keeps h _ (by decide)
                    · rw [if_neg i1]
                      exact ⟨rfl, rfl⟩
                  · rw [if_neg d1]
                    by_cases d2 : strcasecmp_eq (cstr_at buf 0) "TimeSeekRange.dlna.org".toList = true
                    · rw [if_pos d2]
                      exact set_reqflag_keeps h _ (by decide)
                    · rw [if_neg d2]
                      by_cases d3 : strcasecmp_eq (cstr_at buf 0) "PlaySpeed.dlna.org".toList = true
                      · rw [if_pos d3]
                        exact set_reqflag_keeps h _ (by decide)
                      · rw [if_neg d3]
                        by_cases d4 : strcasecmp_eq (cstr_at buf 0) "realTimeInfo.dlna.org".toList = true
                        · rw [if_pos d4]
                          exact set_reqflag_keeps h _ (by decide)
                        · rw [if_neg d4]
                          by_cases d5 : strcasecmp_eq (cstr_at buf 0) "getcontentFeatures.dlna.org".toList = true
                          · rw [if_pos d5]
                            by_cases i5 : ¬ strcasecmp_eq (cstr_at buf i) "1".toList = true
                            · rw [if_pos i5]
                              exact set_reqflag_keeps h _ (by decide)
                            · rw [if_neg i5]
                              exact ⟨rfl, rfl⟩
                          · rw [if_neg d5]
                            by_cases d6 : strcasecmp_eq (cstr_at buf 0) "getAvailableSeekRange.dlna.org".toList = true
                            · rw [if_pos d6]
                              by_cases i6 : ¬ strcasecmp_eq (cstr_at buf i) "1".toList = true
                              · rw [if_pos i6]
                                exact set_reqflag_keeps h _ (by decide)
                              · rw [if_neg i6]
                                exact ⟨rfl, rfl⟩
                            · rw [if_neg d6]
                              by_cases d7 : strcasecmp_eq (cstr_at buf 0) "transferMode.dlna.org".toList = true
                              · rw [if_pos d7]
                                exact header_transfer_mode_keeps h _
                              · rw [if_neg d7]
                                by_cases d8 : strcasecmp_eq (cstr_at buf 0) "getCaptionInfo.sec".toList = true
                                · rw [if_pos d8]
                                  exact set_reqflag_keeps h _ (by decide)
                                · rw [if_neg d8]
                                  exact ⟨rfl, rfl⟩

/-! ### The header loop terminates -/

theorem readline_rest_le (limit : Nat) : ∀ (input acc : List Char),
    (readline limit input acc).2.2.length ≤ input.length := by
  intro input
  induction input with
  | nil => intro acc; simp [readline]
  | cons c rest ih =>
    intro acc
    unfold readline
    split_ifs with h1 h2
    · cases rest with
      | nil => simp
      | cons next rest' =>
        simp only
        split_ifs <;> simp <;> omega
    · have := ih (acc ++ [c])
      simp only [List.length_cons]
      omega
    · simp

theorem readline_consumes (limit : Nat) : ∀ (input acc : List Char),
    0 ≤ (readline limit input acc).1 → (readline limit input acc).2.2.length < input.length := by
  intro input
  induction input with
  | nil => intro acc h; simp [readline] at h
  | cons c rest ih =>
    intro acc
    unfold readline
    split_ifs with h1 h2
    · cases rest with
      | nil => simp
      | cons next rest' =>
        simp only
        split_ifs <;> simp
        omega
    · intro h
      have := ih (acc ++ [c]) h
      simp only [List.length_cons]
      omega
    · simp

theorem rd_set_ne (buf : List Char) (i j : Nat) (c : Char) (h : i ≠ j) :
    rd (buf.set i c) j = rd buf j := by
  simp [rd, List.getD_eq_getElem?_getD, List.getElem?_set_ne h]

theorem trim_end_total : ∀ (l : Nat) (buf : List Char), 0 < l → rd buf 0 ≠ ' ' →
    ∃ r, trim_end buf l = some r := by
  intro l
  induction l with
  | zero => intro buf h; omega
  | succ l ih =>
    intro buf _ h0
    unfold trim_end
    split_ifs with h1
    · have hl : 0 < l := by
        rcases Nat.eq_zero_or_pos l with e | e
        · rw [e] at h1
          exact absurd h1 h0
        · exact e
      exact ih (buf.set l NUL) hl (by rw [rd_set_ne _ _ _ _ (by omega)]; exact h0)
    · exact ⟨_, rfl⟩

theorem skip_token_total : ∀ (fuel : Nat) (buf : List Char) (i l : Nat), l < fuel + i →
    0 < fuel → ∃ j, skip_token fuel buf i l = some j := by
  intro fuel
  induction fuel with
  | zero =>
    intro buf i l _ h
    omega
  | succ f ih =>
    intro buf i l h _
    unfold skip_token
    split_ifs with h1
    · exact ih buf (i + 1) l (by omega) (by omega)
    · exact ⟨_, rfl⟩

theorem rd_lt_of_ne_NUL (buf : List Char) (i : Nat) (h : rd buf i ≠ NUL) : i < buf.length := by
  by_contra hc
  apply h
  simp [rd, List.getD_eq_getElem?_getD, List.getElem?_eq_none (by omega : buf.length ≤ i)]

theorem zero_spaces_total : ∀ (fuel : Nat) (buf : List Char) (i : Nat),
    buf.length + 1 ≤ fuel + i → 0 < fuel → ∃ r, zero_spaces fuel buf i = some r := by
  intro fuel
  induction fuel with
  | zero => intro buf i _ h; omega
  | succ f ih =>
    intro buf i h _
    unfold zero_spaces
    split_ifs with h1
    · have hi : i < buf.length := rd_lt_of_ne_NUL buf i (by rw [h1]; decide)
      exact ih (buf.set i NUL) (i + 1) (by simp; omega) (by omega)
    · exact ⟨_, rfl⟩

theorem zero_spaces_length : ∀ (fuel : Nat) (buf : List Char) (i : Nat) (r : List Char × Nat),
    zero_spaces fuel buf i = some r → r.1.length = buf.length := by
  intro fuel
  induction fuel with
  | zero => intro buf i r h; simp [zero_spaces] at h
  | succ f ih =>
    intro buf i r h
    unfold zero_spaces at h
    split_ifs at h with h1
    · have := ih _ _ _ h
      simpa using this
    · simp only [Option.some.injEq] at h
      rw [← h]

theorem split_header_line_total (buf : List Char) (len : Nat) (hlen : 0 < len) :
    ∃ r, split_header_line buf len = some r := by
  unfold split_header_line
  split_ifs with h0
  · exact ⟨_, rfl⟩
  · have h0' : rd buf 0 ≠ ' ' := fun e => h0 (Or.inl e)
    obtain ⟨⟨b1, l⟩, e1⟩ := trim_end_total len buf hlen h0'
    obtain ⟨j, e2⟩ := skip_token_total (l + 1) b1 0 l (by omega) (by omega)
    obtain ⟨⟨b2, i2⟩, e3⟩ := zero_spaces_total (b1.length + 1) b1 j (by omega) (by omega)
    simp only [e1, e2, e3]
    obtain ⟨⟨b3, i3⟩, e4⟩ := zero_spaces_total (b2.length + 1) (b2.set i2 NUL) (i2 + 1)
      (by simp) (by omega)
    simp only [e4]
    split_ifs with h4 <;> exact ⟨_, rfl⟩

theorem read_headers_total (cfg : Config) : ∀ (fuel header_no : Nat) (h : upnphttp)
    (input : List Char) (len : Int), input.length < fuel →
    ∃ r, read_headers cfg fuel header_no h input len = some r := by
  intro fuel
  induction fuel with
  | zero => intro _ _ input _ h; omega
  | succ f ih =>
    intro header_no h input len hf
    unfold read_headers
    split_ifs with h1 h2
    · have hc := readline_consumes 1024 input [] (by omega)
      obtain ⟨r, hr⟩ := split_header_line_total (readline 1024 input []).2.1
        (readline 1024 input []).1.toNat (by omega)
      rw [hr]
      cases r with
      | skip => exact ih _ _ _ _ (by omega)
      | field buf i l => exact ih _ _ _ _ (by omega)
    · exact ⟨_, rfl⟩
    · exact ⟨_, rfl⟩

/-! ### The expected host string -/

theorem digitChar_not_NUL : ∀ n, n < 10 → Nat.digitChar n ≠ NUL := by
  decide

theorem toDigitsCore_not_NUL : ∀ (fuel n : Nat) (ds : List Char), NUL ∉ ds →
    NUL ∉ Nat.toDigitsCore 10 fuel n ds := by
  intro fuel
  induction fuel with
  | zero => intro n ds h; exact h
  | succ f ih =>
    intro n ds h
    have hd : NUL ∉ Nat.digitChar (n % 10) :: ds := by
      simp only [List.mem_cons, not_or]
      exact ⟨(digitChar_not_NUL _ (Nat.mod_lt _ (by decide))).symm, h⟩
    unfold Nat.toDigitsCore
    simp only
    split_ifs
    · exact hd
    · exact ih _ _ hd

theorem toDigitsCore_length : ∀ (fuel n k : Nat) (ds : List Char), n < 10 ^ k → 1 ≤ k →
    (Nat.toDigitsCore 10 fuel n ds).length ≤ ds.length + k := by
  intro fuel
  induction fuel with
  | zero =>
    intro n k ds _ _
    simp [Nat.toDigitsCore]
  | succ f ih =>
    intro n k ds hn hk
    unfold Nat.toDigitsCore
    simp only
    split_ifs with h0
    · simp
      omega
    · obtain ⟨k', rfl⟩ := Nat.exists_eq_add_of_le hk
      have hk' : 1 ≤ k' := by
        rcases Nat.eq_zero_or_pos k' with e | e
        · subst e
          simp at hn
          omega
        · exact e
      have hdiv : n / 10 < 10 ^ k' := by
        rw [Nat.div_lt_iff_lt_mul (by decide)]
        have : 10 ^ (1 + k') = 10 ^ k' * 10 := by rw [Nat.add_comm, Nat.pow_succ]
        omega
      have := ih (n / 10) k' (Nat.digitChar (n % 10) :: ds) hdiv hk'
      simp only [List.length_cons] at this
      omega

theorem sprintf_d_port (port : Int) (h1 : 1 ≤ port) (h2 : port ≤ 65535) :
    sprintf_d port = (Nat.repr port.toNat).toList ∧ (sprintf_d port).length ≤ 5
      ∧ NUL ∉ sprintf_d port := by
  have e : port.natAbs = port.toNat := by omega
  have hs : sprintf_d port = Nat.toDigits 10 port.toNat := by
    unfold sprintf_d
    rw [if_neg (by omega), e]
  refine ⟨by rw [hs]; rfl, ?_, ?_⟩
  · rw [hs]
    have := toDigitsCore_length (port.toNat + 1) port.toNat 5 [] (by
      have : (10 : Nat) ^ 5 = 100000 := by decide
      omega) (by decide)
    simpa [Nat.toDigits] using this
  · rw [hs]
    exact toDigitsCore_not_NUL _ _ [] (by simp)

theorem get_interface_ip_str_ok (cfg : Config) (iface : Int)
    (hip : ∀ i, (cfg.lan_addr_str i).length ≤ 15 ∧ NUL ∉ cfg.lan_addr_str i) :
    (get_interface_ip_str cfg iface).length ≤ 15 ∧ NUL ∉ get_interface_ip_str cfg iface := by
  unfold get_interface_ip_str
  split_ifs
  · decide
  · exact hip _

theorem expected_host_eq (cfg : Config) (iface : Int)
    (hport : 1 ≤ cfg.listening_port ∧ cfg.listening_port ≤ 65535)
    (hip : ∀ i, (cfg.lan_addr_str i).length ≤ 15 ∧ NUL ∉ cfg.lan_addr_str i) :
    expected_host cfg iface = host_text cfg iface ∧ (expected_host cfg iface).length < 30
      ∧ NUL ∉ expected_host cfg iface := by
  obtain ⟨h1, h2⟩ := get_interface_ip_str_ok cfg iface hip
  obtain ⟨h3, h4, h5⟩ := sprintf_d_port cfg.listening_port hport.1 hport.2
  unfold expected_host host_text
  split_ifs with hp
  · have e : strxcpy (get_interface_ip_str cfg iface) 30 = get_interface_ip_str cfg iface := by
      unfold strxcpy
      exact List.take_of_length_le (by omega)
    rw [e]
    exact ⟨rfl, by omega, h2⟩
  · have e : snprintf_buf 30 (get_interface_ip_str cfg iface ++ ':' :: sprintf_d cfg.listening_port)
        = get_interface_ip_str cfg iface ++ ':' :: sprintf_d cfg.listening_port := by
      unfold snprintf_buf
      exact List.take_of_length_le (by simp; omega)
    rw [e]
    refine ⟨by rw [h3]; simp, by simp; omega, ?_⟩
    simp only [List.mem_append, List.mem_cons, not_or]
    exact ⟨h2, by decide, h5⟩

theorem strncmp_eq_n_exact (E v : List Char) (n : Nat) (hE : E.length < n)
    (hnv : NUL ∉ v) : strncmp_eq_n E v n = true ↔ v = E := by
  unfold strncmp_eq_n
  simp only [decide_eq_true_eq]
  have e1 : (E ++ [NUL]).take n = E ++ [NUL] := List.take_of_length_le (by simp; omega)
  rw [e1]
  constructor
  · intro h
    by_cases hv : v.length < n
    · have e2 : (v ++ [NUL]).take n = v ++ [NUL] := List.take_of_length_le (by simp; omega)
      rw [e2] at h
      exact (List.append_left_inj [NUL]).mp h.symm
    · exfalso
      have e2 : (v ++ [NUL]).take n = v.take n := by
        rw [List.take_append_of_le_length (by omega)]
      rw [e2] at h
      have hm : NUL ∈ v.take n := by
        rw [← h]
        simp
      exact hnv (List.mem_of_mem_take hm)
  · intro h
    rw [h, e1]

theorem cstr_at_not_NUL (buf : List Char) (i : Nat) : NUL ∉ cstr_at buf i := by
  unfold cstr_at
  intro h
  have := List.mem_takeWhile_imp h
  simp at this

/-! ### The Host gate -/

theorem read_headers_host (cfg : Config) : ∀ (fuel header_no : Nat) (h : upnphttp)
    (input : List Char) (len : Int) (r : Int × upnphttp × List Char),
    read_headers cfg fuel header_no h input len = some r →
    r.2.1.iface = h.iface
    ∧ r.2.1.reqflags.testBit 3 = (h.reqflags.testBit 3
        || (parsed_headers fuel header_no input).any (fun nv =>
          strcasecmp_eq nv.1 "Host".toList && strncmp_eq_n (expected_host cfg h.iface) nv.2 30)) := by
  intro fuel
  induction fuel with
  | zero =>
    intro _ _ _ _ r h
    simp [read_headers] at h
  | succ f ih =>
    intro header_no h input len r hr
    unfold read_headers at hr
    unfold parsed_headers
    split_ifs at hr ⊢ with h1 h2
    · cases hs : split_header_line (readline 1024 input []).2.1 (readline 1024 input []).1.toNat with
      | none =>
        rw [hs] at hr
        simp at hr
      | some hl =>
        rw [hs] at hr
        cases hl with
        | skip => exact ih _ _ _ _ _ hr
        | field buf i l =>
          simp only at hr ⊢
          obtain ⟨e1, e2⟩ := ih _ _ _ _ _ hr
          obtain ⟨p1, p2⟩ := parse_http_header_host cfg h buf i l
          rw [p1] at e1 e2
          refine ⟨e1, ?_⟩
          rw [e2, p2, List.any_cons, Bool.or_assoc]
    · simp only [Option.some.injEq] at hr
      rw [← hr]
      simp
    · simp only [Option.some.injEq] at hr
      rw [← hr]
      simp

theorem parsed_headers_not_NUL : ∀ (fuel header_no : Nat) (input : List Char),
    ∀ nv ∈ parsed_headers fuel header_no input, NUL ∉ nv.2 := by
  intro fuel
  induction fuel with
  | zero =>
    intro _ _ nv h
    simp [parsed_headers] at h
  | succ f ih =>
    intro header_no input nv h
    unfold parsed_headers at h
    split_ifs at h with h1 h2
    · cases hs : split_header_line (readline 1024 input []).2.1 (readline 1024 input []).1.toNat with
      | none =>
        rw [hs] at h
        simp at h
      | some hl =>
        rw [hs] at h
        cases hl with
        | skip => exact ih _ _ nv h
        | field buf i l =>
          simp only [List.mem_cons] at h
          rcases h with e | e
          · rw [e]
            exact cstr_at_not_NUL buf i
          · exact ih _ _ nv e
    · simp at h
    · simp at h

theorem process_name_value_pair_reqflags (h : upnphttp) (name value : List Char) :
    (process_name_value_pair h name value).reqflags = h.reqflags := by
  unfold process_name_value_pair
  simp only
  split_ifs <;> rfl

theorem process_post_content_pairs_reqflags (pairs : List (List Char × List Char)) :
    ∀ h : upnphttp, (process_post_content_pairs h pairs).reqflags = h.reqflags := by
  induction pairs with
  | nil => intro h; rfl
  | cons nv t ih =>
    intro h
    unfold process_post_content_pairs at ih ⊢
    rw [List.foldl_cons, ih, process_name_value_pair_reqflags]

/-- Claim C3.  Once the request line has been accepted, the Host gate lets a request
through to the dispatch only if one of the headers that the header loop has parsed is a
`Host` header whose value is exactly `<ip of the accepting interface>:<listening port>`
(just the ip when the port is 80); a request without such a header is answered
400 Bad Request and is never dispatched.  The header loop always terminates. -/
theorem host_gate (cfg : Config) (h : upnphttp) (input : List Char) (len : Int)
    (pairs : List (List Char × List Char))
    (hport : 1 ≤ cfg.listening_port ∧ cfg.listening_port ≤ 65535)
    (hip : ∀ i, (cfg.lan_addr_str i).length ≤ 15 ∧ NUL ∉ cfg.lan_addr_str i)
    (hflag : h.reqflags &&& FLAG_HOST = 0) :
    ∃ out, process_headers_and_gate cfg h input len pairs = some out
      ∧ (out.dispatched ≠ none →
          ∃ nv ∈ parsed_headers (input.length + 1) 0 input,
            strcasecmp_eq nv.1 "Host".toList = true ∧ nv.2 = host_text cfg h.iface)
      ∧ ((¬ ∃ nv ∈ parsed_headers (input.length + 1) 0 input,
            strcasecmp_eq nv.1 "Host".toList = true ∧ nv.2 = host_text cfg h.iface) →
          out = Outcome.respond HttpResponseCode.HTTP_BAD_REQUEST_400) := by
  obtain ⟨⟨len', h', rest⟩, hr⟩ := read_headers_total cfg (input.length + 1) 0 h input len
    (by omega)
  obtain ⟨e1, e2⟩ := read_headers_host cfg _ _ _ _ _ _ hr
  simp only at e1 e2
  have hbit0 : h.reqflags.testBit 3 = false := by
    cases hb : h.reqflags.testBit 3 with
    | false => rfl
    | true => exact absurd hflag ((host_flag_iff _).mpr hb)
  rw [hbit0, Bool.false_or] at e2
  obtain ⟨x1, x2, _⟩ := expected_host_eq cfg h.iface hport hip
  -- a set Host flag comes from a matching header
  have hmatch : h'.reqflags.testBit 3 = true →
      ∃ nv ∈ parsed_headers (input.length + 1) 0 input,
        strcasecmp_eq nv.1 "Host".toList = true ∧ nv.2 = host_text cfg h.iface := by
    intro hb
    rw [e2, List.any_eq_true] at hb
    obtain ⟨nv, hm, hc⟩ := hb
    simp only [Bool.and_eq_true] at hc
    refine ⟨nv, hm, hc.1, ?_⟩
    rw [← x1]
    exact (strncmp_eq_n_exact _ _ 30 x2 (parsed_headers_not_NUL _ _ _ nv hm)).mp hc.2
  unfold process_headers_and_gate
  rw [hr]
  simp only
  split_ifs with c1 c2 c3 c4 c5 c6 c7 c8 c9
  all_goals first
    | exact ⟨_, rfl, by simp [Outcome.dispatched], fun _ => rfl⟩
    | skip
  all_goals refine ⟨_, rfl, fun _ => ?_, fun hno => ?_⟩
  all_goals first
    | (apply hmatch
       first
        | (rw [← process_post_content_pairs_reqflags pairs h']
           exact (host_flag_iff _).mp (by assumption))
        | exact (host_flag_iff _).mp (by assumption))
    | (exfalso
       apply hno
       apply hmatch
       first
        | (rw [← process_post_content_pairs_reqflags pairs h']
           exact (host_flag_iff _).mp (by assumption))
        | exact (host_flag_iff _).mp (by assumption))

/-- Witness for claim C3: a GET of `/rootDesc.xml` with `Host: evil.example.com` is
answered 400. -/
theorem host_gate_witness :
    (1 ≤ sample_config.listening_port ∧ sample_config.listening_port ≤ 65535)
    ∧ (∀ i, (sample_config.lan_addr_str i).length ≤ 15 ∧ NUL ∉ sample_config.lan_addr_str i)
    ∧ sample_get.reqflags &&& FLAG_HOST = 0
    ∧ process_headers_and_gate sample_config sample_get
        (header_block ["Host: evil.example.com".toList]) 26 []
      = some (Outcome.respond HttpResponseCode.HTTP_BAD_REQUEST_400)
    ∧ ∃ out, process_headers_and_gate sample_config sample_get
          (header_block ["Host: evil.example.com".toList]) 26 [] = some out
        ∧ (out.dispatched ≠ none →
            ∃ nv ∈ parsed_headers ((header_block ["Host: evil.example.com".toList]).length + 1) 0
                (header_block ["Host: evil.example.com".toList]),
              strcasecmp_eq nv.1 "Host".toList = true ∧ nv.2 = host_text sample_config sample_get.iface)
        ∧ ((¬ ∃ nv ∈ parsed_headers ((header_block ["Host: evil.example.com".toList]).length + 1) 0
                (header_block ["Host: evil.example.com".toList]),
              strcasecmp_eq nv.1 "Host".toList = true ∧ nv.2 = host_text sample_config sample_get.iface) →
            out = Outcome.respond HttpResponseCode.HTTP_BAD_REQUEST_400) :=
  ⟨by decide,
    fun _ => (by decide : "192.168.1.5".toList.length ≤ 15 ∧ NUL ∉ "192.168.1.5".toList),
    by decide, by decide,
    host_gate sample_config sample_get (header_block ["Host: evil.example.com".toList]) 26 []
      (by decide)
      (fun _ => (by decide : "192.168.1.5".toList.length ≤ 15 ∧ NUL ∉ "192.168.1.5".toList))
      (by decide)⟩

/-! ### The range check of serve_file -/

theorem serve_file_reaches_range (h : upnphttp) (fs : List Char → FileEnv) (path : List Char)
    (mime : ext_info) (hc : passes_file_checks h fs path mime) :
    serve_file h fs
      = some (serve_file_range h (fs path).size mime (fs path).setpriority_ok) := by
  obtain ⟨⟨u, hu, hs⟩, h1, h2, h3, h4, h5, h6⟩ := hc
  unfold serve_file
  rw [hu]
  simp only [hs, h1, h2, h3, h4, not_true_eq_false, if_false]
  by_cases c1 : h.reqflags &&& FLAG_XFERSTREAMING ≠ 0
  · rw [if_pos c1, if_neg (h5 c1)]
  · rw [if_neg c1]
    have c1' : h.reqflags &&& FLAG_XFERSTREAMING = 0 := by simpa using c1
    by_cases c2 : h.reqflags &&& FLAG_XFERINTERACTIVE ≠ 0
    · obtain ⟨h7, h8⟩ := h6 c1' c2
      rw [if_pos c2, if_neg (by simpa using h7), if_neg h8]
    · rw [if_neg c2]

theorem serve_file_range_spec (h : upnphttp) (size : Int) (mime : ext_info) (sp : Bool)
    (hr : h.reqflags &&& FLAG_RANGE ≠ 0) :
    ((h.req_range_start > (if h.req_range_end = 0 then size - 1 else h.req_range_end)
        ∨ h.req_range_start < 0) →
      serve_file_range h size mime sp = ServeResult.error HttpResponseCode.HTTP_BAD_REQUEST_400)
    ∧ (¬ (h.req_range_start > (if h.req_range_end = 0 then size - 1 else h.req_range_end)
        ∨ h.req_range_start < 0) →
      (if h.req_range_end = 0 then size - 1 else h.req_range_end) ≥ size →
      serve_file_range h size mime sp
        = ServeResult.error HttpResponseCode.HTTP_INVALID_RANGE_416)
    ∧ (¬ (h.req_range_start > (if h.req_range_end = 0 then size - 1 else h.req_range_end)
        ∨ h.req_range_start < 0) →
      (if h.req_range_end = 0 then size - 1 else h.req_range_end) < size →
      (serve_file_range h size mime sp).status = 206
      ∧ (serve_file_range h size mime sp).content_length
        = some ((if h.req_range_end = 0 then size - 1 else h.req_range_end)
            - h.req_range_start + 1)
      ∧ (serve_file_range h size mime sp).content_range
        = some (h.req_range_start,
            (if h.req_range_end = 0 then size - 1 else h.req_range_end), size)) := by
  refine ⟨fun c => ?_, fun c d => ?_, fun c d => ?_⟩
  · unfold serve_file_range
    dsimp only
    rw [if_pos hr, if_pos c]
  · unfold serve_file_range
    dsimp only
    rw [if_pos hr, if_neg c, if_pos d]
  · unfold serve_file_range
    dsimp only
    rw [if_pos hr, if_neg c, if_neg (by omega)]
    exact ⟨rfl, rfl, rfl⟩

theorem header_range_bytes (h0 : upnphttp) (value : List Char)
    (hv : strncasecmp_eq value "bytes=".toList 6 = true) :
    (header_range h0 value).reqflags &&& FLAG_RANGE ≠ 0
    ∧ (header_range h0 value).req_range_start = range_start value
    ∧ (header_range h0 value).req_range_end = range_end_of (strtoll (value.drop 6)).2 := by
  unfold header_range
  rw [if_pos hv]
  refine ⟨?_, rfl, rfl⟩
  apply (flag_set_iff _ 2).mpr
  show (h0.reqflags ||| FLAG_RANGE).testBit 2 = true
  rw [Nat.testBit_or]
  have : FLAG_RANGE.testBit 2 = true := by decide
  rw [this, Bool.or_true]

/-- Claim C4.  For every file size and every request whose `Range` header gives a start
and an end (an end of 0 or an absent end being replaced by size - 1), the media streamer
answers 400 when start > end or start < 0, otherwise 416 when end ≥ size, and otherwise
206 with `Content-Length` end - start + 1 and `Content-Range: bytes start-end/size`. -/
theorem range_answer (h0 : upnphttp) (value : List Char) (fs : List Char → FileEnv)
    (path : List Char) (mime : ext_info)
    (hv : strncasecmp_eq value "bytes=".toList 6 = true)
    (hc : passes_file_checks (header_range h0 value) fs path mime) :
    ∃ res, serve_file (header_range h0 value) fs = some res
      ∧ ((range_start value > range_end value (fs path).size ∨ range_start value < 0) →
          res.status = 400)
      ∧ (¬ (range_start value > range_end value (fs path).size ∨ range_start value < 0) →
          range_end value (fs path).size ≥ (fs path).size → res.status = 416)
      ∧ (¬ (range_start value > range_end value (fs path).size ∨ range_start value < 0) →
          range_end value (fs path).size < (fs path).size →
          res.status = 206
          ∧ res.content_length
            = some (range_end value (fs path).size - range_start value + 1)
          ∧ res.content_range
            = some (range_start value, range_end value (fs path).size, (fs path).size)) := by
  obtain ⟨hr, e1, e2⟩ := header_range_bytes h0 value hv
  obtain ⟨s1, s2, s3⟩ := serve_file_range_spec (header_range h0 value) (fs path).size mime
    (fs path).setpriority_ok hr
  rw [e1, e2] at s1 s2 s3
  refine ⟨_, serve_file_reaches_range _ fs path mime hc, fun c => ?_, fun c d => ?_,
    fun c d => ?_⟩
  · rw [s1 c]
    rfl
  · rw [s2 c d]
    rfl
  · exact s3 c d

/-- Witness for claim C4: `Range: bytes=1024-2047` on a file of 1,048,576 bytes gives 206
with `Content-Length: 1024` and `Content-Range: bytes 1024-2047/1048576`. -/
theorem range_answer_witness :
    strncasecmp_eq "bytes=1024-2047".toList "bytes=".toList 6 = true
    ∧ passes_file_checks (sample_range_get "bytes=1024-2047".toList) (sample_fs 1048576)
        "clip.mp4".toList
        { ext := "mp4".toList, type := MimeType.M_VIDEO, sub_type := "mp4".toList }
    ∧ (serve_file (sample_range_get "bytes=1024-2047".toList) (sample_fs 1048576)).map
        (fun r => (r.status, r.content_length, r.content_range))
      = some (206, some 1024, some (1024, 2047, 1048576))
    ∧ ∃ res, serve_file (sample_range_get "bytes=1024-2047".toList) (sample_fs 1048576) = some res
      ∧ ((range_start "bytes=1024-2047".toList > range_end "bytes=1024-2047".toList 1048576
            ∨ range_start "bytes=1024-2047".toList < 0) → res.status = 400)
      ∧ (¬ (range_start "bytes=1024-2047".toList > range_end "bytes=1024-2047".toList 1048576
            ∨ range_start "bytes=1024-2047".toList < 0) →
          range_end "bytes=1024-2047".toList 1048576 ≥ 1048576 → res.status = 416)
      ∧ (¬ (range_start "bytes=1024-2047".toList > range_end "bytes=1024-2047".toList 1048576
            ∨ range_start "bytes=1024-2047".toList < 0) →
          range_end "bytes=1024-2047".toList 1048576 < 1048576 →
          res.status = 206
          ∧ res.content_length
            = some (range_end "bytes=1024-2047".toList 1048576
                - range_start "bytes=1024-2047".toList + 1)
          ∧ res.content_range
            = some (range_start "bytes=1024-2047".toList,
                range_end "bytes=1024-2047".toList 1048576, 1048576)) :=
  have hc : passes_file_checks (sample_range_get "bytes=1024-2047".toList) (sample_fs 1048576)
      "clip.mp4".toList
      { ext := "mp4".toList, type := MimeType.M_VIDEO, sub_type := "mp4".toList } :=
    ⟨⟨"/clip.mp4".toList, by decide, by decide⟩, rfl, rfl, rfl, rfl, by decide, by decide⟩
  ⟨by decide, hc, by decide,
    range_answer { sample_get with path := "/clip.mp4".toList } "bytes=1024-2047".toList
      (sample_fs 1048576) "clip.mp4".toList
      { ext := "mp4".toList, type := MimeType.M_VIDEO, sub_type := "mp4".toList }
      (by decide) hc⟩

/-! ### Open-ended ranges -/

theorem scan_digits_append (ds : List Char) : ∀ (acc : Nat) (rest : List Char),
    (∀ c ∈ ds, c.isDigit = true) → (∀ c r, rest = c :: r → c.isDigit = false) →
    scan_digits (ds ++ rest) acc
      = (ds.foldl (fun a c => a * 10 + (c.toNat - '0'.toNat)) acc, rest) := by
  induction ds with
  | nil =>
    intro acc rest _ hr
    cases rest with
    | nil => rfl
    | cons c r =>
      simp only [List.nil_append, scan_digits, hr c r rfl, Bool.false_eq_true, if_false,
        List.foldl_nil]
  | cons d ds ih =>
    intro acc rest hd hr
    rw [List.cons_append, scan_digits, if_pos (hd d (by simp)), List.foldl_cons]
    exact ih _ rest (fun c hc => hd c (by simp [hc])) hr

theorem strtoll_digits (ds : List Char) (hne : ds ≠ []) (hd : ∀ c ∈ ds, c.isDigit = true) :
    strtoll (ds ++ ['-']) = (max LLONG_MIN (min LLONG_MAX (dec_value ds : Int)), ['-']) := by
  obtain ⟨c, t, rfl⟩ := List.exists_cons_of_ne_nil hne
  have hc := hd c (by simp)
  have hn : 48 ≤ c.toNat ∧ c.toNat ≤ 57 := by
    rw [isDigit_iff] at hc
    simpa using hc
  have hsp : isspace c = false := by
    unfold isspace
    have e : (c = ' ') = (c.toNat = ' '.toNat) := propext (char_eq_iff c ' ')
    have e2 : ' '.toNat = 32 := by decide
    simp only [e, e2, decide_eq_false_iff_not]
    omega
  have hm : c ≠ '-' := by
    intro e
    rw [e] at hn
    have : '-'.toNat = 45 := by decide
    omega
  have hp : c ≠ '+' := by
    intro e
    rw [e] at hn
    have : '+'.toNat = 43 := by decide
    omega
  have hdw : (c :: t ++ ['-']).dropWhile isspace = c :: (t ++ ['-']) := by
    simp [List.dropWhile, hsp]
  have hsc := scan_digits_append (c :: t) 0 ['-'] hd (by
    intro x r e
    simp only [List.cons.injEq] at e
    rw [← e.1]
    decide)
  unfold strtoll
  rw [hdw]
  have hsig : (match c :: (t ++ ['-']) with
      | '-' :: u => (true, u)
      | '+' :: u => (false, u)
      | _ => (false, c :: (t ++ ['-']))) = (false, c :: (t ++ ['-'])) := by
    split
    · rename_i e
      simp only [List.cons.injEq] at e
      exact absurd e.1 hm
    · rename_i e
      simp only [List.cons.injEq] at e
      exact absurd e.1 hp
    · rfl
  simp only [hsig]
  rw [if_pos hc]
  have e3 : c :: (t ++ ['-']) = c :: t ++ ['-'] := rfl
  rw [e3, hsc]
  simp [dec_value]

theorem header_range_open_ended (h0 : upnphttp) (ds : List Char) (hne : ds ≠ [])
    (hd : ∀ c ∈ ds, c.isDigit = true) :
    (header_range h0 ("bytes=".toList ++ ds ++ "-".toList)).reqflags &&& FLAG_RANGE ≠ 0
    ∧ (header_range h0 ("bytes=".toList ++ ds ++ "-".toList)).req_range_start
      = max LLONG_MIN (min LLONG_MAX (dec_value ds : Int))
    ∧ (header_range h0 ("bytes=".toList ++ ds ++ "-".toList)).req_range_end = 0 := by
  have hv : strncasecmp_eq ("bytes=".toList ++ ds ++ "-".toList) "bytes=".toList 6 = true := by
    unfold strncasecmp_eq
    have e : (("bytes=".toList ++ ds ++ "-".toList) ++ [NUL]).take 6 = "bytes=".toList := rfl
    rw [e]
    decide
  obtain ⟨h1, h2, h3⟩ := header_range_bytes h0 _ hv
  have hdrop : ("bytes=".toList ++ ds ++ "-".toList).drop 6 = ds ++ ['-'] := rfl
  refine ⟨h1, ?_, ?_⟩
  · rw [h2, range_start, hdrop, strtoll_digits ds hne hd]
  · rw [h3, hdrop, strtoll_digits ds hne hd]
    show range_end_of ['-'] = 0
    decide

/-- Claim C5, as the code has it.  For every file of size `n` and every open-ended range
request `Range: bytes=s-` with `s ≥ n`, the media streamer answers 400: the missing end is
replaced by `n - 1`, and the check start > end comes before the check end ≥ size. -/
theorem open_ended_range_beyond_size (h0 : upnphttp) (ds : List Char)
    (fs : List Char → FileEnv) (path : List Char) (mime : ext_info)
    (hne : ds ≠ []) (hd : ∀ c ∈ ds, c.isDigit = true)
    (hc : passes_file_checks (header_range h0 ("bytes=".toList ++ ds ++ "-".toList)) fs path mime)
    (hmax : (fs path).size ≤ LLONG_MAX)
    (hs : (fs path).size ≤ (dec_value ds : Int)) :
    serve_file (header_range h0 ("bytes=".toList ++ ds ++ "-".toList)) fs
      = some (ServeResult.error HttpResponseCode.HTTP_BAD_REQUEST_400) := by
  obtain ⟨h1, h2, h3⟩ := header_range_open_ended h0 ds hne hd
  rw [serve_file_reaches_range _ fs path mime hc]
  have hmin : LLONG_MIN ≤ 0 := by decide
  have hval : (0 : Int) ≤ (dec_value ds : Int) := Int.ofNat_nonneg _
  rw [(serve_file_range_spec _ (fs path).size mime (fs path).setpriority_ok h1).1]
  left
  rw [h2, h3, if_pos rfl]
  omega

/-- Witness for the amended claim C5: `Range: bytes=2000000-` on a file of 1,048,576
bytes is answered 400. -/
theorem open_ended_range_beyond_size_witness :
    "2000000".toList ≠ [] ∧ (∀ c ∈ "2000000".toList, c.isDigit = true)
    ∧ (sample_fs 1048576 "clip.mp4".toList).size ≤ LLONG_MAX
    ∧ (sample_fs 1048576 "clip.mp4".toList).size ≤ (dec_value "2000000".toList : Int)
    ∧ serve_file (header_range { sample_get with path := "/clip.mp4".toList }
          ("bytes=".toList ++ "2000000".toList ++ "-".toList)) (sample_fs 1048576)
        = some (ServeResult.error HttpResponseCode.HTTP_BAD_REQUEST_400) :=
  ⟨by decide, by decide, by decide, by decide,
    open_ended_range_beyond_size { sample_get with path := "/clip.mp4".toList }
      "2000000".toList (sample_fs 1048576) "clip.mp4".toList
      { ext := "mp4".toList, type := MimeType.M_VIDEO, sub_type := "mp4".toList }
      (by decide) (by decide)
      ⟨⟨"/clip.mp4".toList, by decide, by decide⟩, rfl, rfl, rfl, rfl, by decide, by decide⟩
      (by decide) (by decide)⟩

/-- Counterexample to claim C5 as stated: `Range: bytes=2000000-` on a file of 1,048,576
bytes is answered 400, not 416. -/
theorem open_ended_range_not_416 :
    (serve_file (sample_range_get "bytes=2000000-".toList) (sample_fs 1048576)).map
        ServeResult.status = some 400
    ∧ (serve_file (sample_range_get "bytes=2000000-".toList) (sample_fs 1048576)).map
        ServeResult.status ≠ some 416 := by
  decide

/-! ### The URLs of a Browse of the root directory -/

theorem get_directory_listing_root (h : upnphttp) (md : MediaDir) :
    (∃ code, get_directory_listing h [] md = some (ListingResult.error code))
    ∨ ∃ h1 entries total,
        get_directory_listing h [] md = some (ListingResult.listing h1 entries total)
        ∧ h1.remote_dirpath = some [] := by
  have hs : sanitise_path [] = some (true, []) := by decide
  unfold get_directory_listing
  rw [hs]
  dsimp only
  by_cases hc : md.chdir_ok = false
  · rw [if_pos hc]
    exact Or.inl ⟨_, rfl⟩
  · rw [if_neg hc]
    cases ho : md.opendir (if rd [] 0 = NUL then ".".toList else []) with
    | none => exact Or.inl ⟨_, rfl⟩
    | some des => exact Or.inr ⟨_, _, _, rfl, rfl⟩

theorem print_entry_root_file (cfg : Config) (h1 : upnphttp) (e : content_entry)
    (he : e.type = filetype.T_FILE) :
    print_entry cfg h1 [] e
      = print_item_head [] (xml_escape_double e.name) e
        ++ ("http://".toList ++ get_interface_ip_str cfg h1.iface
            ++ listening_port_str cfg ++ "/MediaItems//".toList ++ url_escape e.name)
        ++ "&lt;/res&gt;&lt;/item&gt;".toList := by
  have hx : xml_escape_double [] = [] := by decide
  have hu : url_escape [] = [] := by decide
  have hm : "/MediaItems/".toList ++ ([] : List Char) ++ "/".toList
      = "/MediaItems//".toList := by decide
  unfold print_entry res_url
  rw [he]
  dsimp only
  rw [hx, hu, ← hm]
  simp only [List.append_assoc]

/-- Claim C10, as the code has it.  A Browse of the root directory (ObjectID `0`) returns,
and for every file it lists the res URL printed in the DIDL-Lite result is `http://`, the
host, the port part, then the path `/MediaItems//<url-escaped file name>`: the path of
the directory, which is empty for the root, stands between `/MediaItems/` and the `/`
that precedes the name. -/
theorem browse_root_res_url (cfg : Config) (h : upnphttp) (md : MediaDir) :
    ∃ out, browse_content_directory cfg { h with remote_dirpath := some "0".toList } md
        = some out
      ∧ ∀ h1 entries total body, out = BrowseResult.listing h1 entries total body →
          h1.remote_dirpath = some []
          ∧ body = print_xml_directory_listing cfg h1 [] entries h1.requested_count total
          ∧ ∀ e ∈ entries, e.type = filetype.T_FILE →
              print_entry cfg h1 [] e
                = print_item_head [] (xml_escape_double e.name) e
                  ++ ("http://".toList ++ get_interface_ip_str cfg h1.iface
                      ++ listening_port_str cfg ++ "/MediaItems//".toList
                      ++ url_escape e.name)
                  ++ "&lt;/res&gt;&lt;/item&gt;".toList := by
  have hu : url_unescape [] = some [] := by decide
  have hx : xml_unescape [] = some [] := by decide
  have key : ∀ h0 : upnphttp, h0.remote_dirpath = some "0".toList →
      ∃ out, (match h0.remote_dirpath with
        | none => some (BrowseResult.soap_error 402)
        | some dirpath =>
          match url_unescape (if dirpath = "0".toList then [] else dirpath) with
          | none => none
          | some dirpath =>
            match xml_unescape dirpath with
            | none => none
            | some dirpath =>
              match get_directory_listing h0 dirpath md with
              | none => none
              | some (ListingResult.error code) => some (BrowseResult.error code)
              | some (ListingResult.listing h entries total_file_count) =>
                some (BrowseResult.listing h entries total_file_count
                  (print_xml_directory_listing cfg h (h.remote_dirpath.getD []) entries
                    h.requested_count total_file_count))) = some out
        ∧ ∀ h1 entries total body, out = BrowseResult.listing h1 entries total body →
          h1.remote_dirpath = some []
          ∧ body = print_xml_directory_listing cfg h1 [] entries h1.requested_count total
          ∧ ∀ e ∈ entries, e.type = filetype.T_FILE →
              print_entry cfg h1 [] e
                = print_item_head [] (xml_escape_double e.name) e
                  ++ ("http://".toList ++ get_interface_ip_str cfg h1.iface
                      ++ listening_port_str cfg ++ "/MediaItems//".toList
                      ++ url_escape e.name)
                  ++ "&lt;/res&gt;&lt;/item&gt;".toList := by
    intro h0 h0d
    rw [h0d]
    dsimp only
    rw [if_pos rfl, hu]
    dsimp only
    rw [hx]
    dsimp only
    rcases get_directory_listing_root h0 md with ⟨code, hg⟩ | ⟨h1, entries, total, hg, hd⟩
    · rw [hg]
      refine ⟨_, rfl, ?_⟩
      intro h1 entries total body e
      cases e
    · rw [hg]
      refine ⟨_, rfl, ?_⟩
      intro h2 entries2 total2 body2 e
      simp only [BrowseResult.listing.injEq] at e
      obtain ⟨e1, e2, e3, e4⟩ := e
      subst e1 e2 e3
      refine ⟨hd, ?_, fun e _ he => print_entry_root_file cfg h1 e he⟩
      rw [← e4, hd]
      rfl
  unfold browse_content_directory
  dsimp only
  by_cases hr : h.requested_count < 1
  · rw [if_pos hr]
    exact key { { h with remote_dirpath := some "0".toList } with requested_count := -1 } rfl
  · rw [if_neg hr]
    exact key { h with remote_dirpath := some "0".toList } rfl

/-- Counterexample to claim C10 as stated: in the Browse of a root directory that holds
`clip.mp4`, the res URL of that file has the path `/MediaItems//clip.mp4`, which is not
`/MediaItems/clip.mp4`. -/
theorem browse_root_res_url_double_slash :
    (browse_content_directory sample_config sample_browse sample_media_dir).map
        (fun o => (o.res_urls sample_config).map url_path)
      = some ["/MediaItems//clip.mp4".toList]
    ∧ "/MediaItems//clip.mp4".toList ≠ "/MediaItems/".toList ++ url_escape "clip.mp4".toList := by
  decide

/-! ### The port in the URLs of a listing -/

/-- Claim C11 at the listening port 12345: the res URL of `clip.mp4` in a Browse of the
root carries `:1234`, the first four digits of the port, since `listening_port_str` is
written by `snprintf` with the size 6; with the port 2800 the URL carries `:2800`. -/
theorem browse_res_url_port_cut :
    (browse_content_directory (sample_config_port 12345) sample_browse sample_media_dir).map
        (BrowseResult.res_urls (sample_config_port 12345))
      = some ["http://192.168.1.5:1234/MediaItems//clip.mp4".toList]
    ∧ listening_port_str (sample_config_port 12345) = ":1234".toList
    ∧ listening_port_str (sample_config_port 12345)
        ≠ ':' :: sprintf_d (sample_config_port 12345).listening_port
    ∧ (browse_content_directory (sample_config_port 2800) sample_browse sample_media_dir).map
        (BrowseResult.res_urls (sample_config_port 2800))
      = some ["http://192.168.1.5:2800/MediaItems//clip.mp4".toList] := by
  decide

/-! ### The transfer-mode check of serve_file -/

/-- Claim C17 at its failing inputs: a request with transferMode Interactive for a video
file passes the transfer-mode check and is served with 200, while the same request for an
image file is answered 406; transferMode Streaming for an image is answered 406 and
transferMode Interactive with realTimeInfo is answered 400. -/
theorem interactive_video_is_served :
    (serve_file (sample_transfer_get "Interactive".toList) (sample_fs 1048576)).map
        ServeResult.status = some 200
    ∧ (serve_file (sample_transfer_get "Interactive".toList) (sample_image_fs 1048576)).map
        ServeResult.status = some 406
    ∧ (serve_file (sample_transfer_get "Streaming".toList) (sample_image_fs 1048576)).map
        ServeResult.status = some 406
    ∧ (serve_file (set_reqflag (sample_transfer_get "Interactive".toList) FLAG_REALTIMEINFO)
          (sample_fs 1048576)).map ServeResult.status = some 400 := by
  decide

/-! ### The window of get_directory_listing -/

theorem qsort_entries_length (l : List content_entry) : (qsort_entries l).length = l.length := by
  unfold qsort_entries
  exact List.length_insertionSort _ l

theorem to_int32_small (v : Int) (h0 : 0 ≤ v) (h1 : v < 2 ^ 31) : to_int32 v = v := by
  unfold to_int32
  omega

/-- Claim C12.  In `get_directory_listing`, with `total` the number of kept entries, `s`
the starting index and `r` the requested count (-1 meaning all): if `s ≥ total` no entry
is returned and `s` and `r` are reset to 0; otherwise if `r = -1` or `s + r > total` the
`total - s` entries from position `s` to the end of the sorted list are returned;
otherwise exactly the `r` entries at the positions `s .. s+r-1` are returned; in every
case the reported total is `total`. -/
theorem get_directory_listing_window (h : upnphttp) (dirpath p : List Char) (md : MediaDir)
    (des : List dirent)
    (hp : sanitise_path dirpath = some (true, p))
    (hc : md.chdir_ok = true)
    (ho : md.opendir (if rd p 0 = NUL then ".".toList else p) = some des)
    (hs : h.starting_index < 2 ^ 31)
    (hr : -1 ≤ h.requested_count ∧ h.requested_count < 2 ^ 31)
    (ht : (des.filterMap keep_entry).length < 2 ^ 31) :
    ∃ h1 entries,
      get_directory_listing h dirpath md
        = some (ListingResult.listing h1 entries (des.filterMap keep_entry).length)
      ∧ ((des.filterMap keep_entry).length ≤ h.starting_index →
          entries = [] ∧ h1.starting_index = 0 ∧ h1.requested_count = 0)
      ∧ (h.starting_index < (des.filterMap keep_entry).length →
          (h.requested_count = -1
            ∨ (h.starting_index : Int) + h.requested_count
                > ((des.filterMap keep_entry).length : Int)) →
          entries = (qsort_entries (des.filterMap keep_entry)).drop h.starting_index
          ∧ entries.length = (des.filterMap keep_entry).length - h.starting_index
          ∧ h1.starting_index = h.starting_index
          ∧ h1.requested_count
              = ((des.filterMap keep_entry).length : Int) - (h.starting_index : Int))
      ∧ (h.starting_index < (des.filterMap keep_entry).length →
          ¬ (h.requested_count = -1
            ∨ (h.starting_index : Int) + h.requested_count
                > ((des.filterMap keep_entry).length : Int)) →
          entries = ((qsort_entries (des.filterMap keep_entry)).drop h.starting_index).take
              h.requested_count.toNat
          ∧ (entries.length : Int) = h.requested_count
          ∧ h1.starting_index = h.starting_index
          ∧ h1.requested_count = h.requested_count) := by
  have hlen := qsort_entries_length (des.filterMap keep_entry)
  generalize hk : des.filterMap keep_entry = kept at ht hlen ⊢
  have hc2 : ¬ md.chdir_ok = false := by simp [hc]
  unfold get_directory_listing
  rw [hp]
  dsimp only
  rw [if_neg hc2, ho]
  dsimp only
  rw [hk, hlen]
  refine ⟨_, _, rfl, ?_, ?_, ?_⟩
  · intro hge
    dsimp only
    have hge2 : h.starting_index ≥ kept.length := hge
    rw [if_pos hge2, if_pos hge2]
    have hn : ¬ ((0 : Int) = -1 ∨ (((0 : Nat) : Int) + 0) % 2 ^ 32 > (kept.length : Int)) := by
      omega
    rw [if_neg hn]
    exact ⟨by simp, rfl, rfl⟩
  · intro hlt hor
    dsimp only
    have hlt2 : ¬ h.starting_index ≥ kept.length := by omega
    rw [if_neg hlt2, if_neg hlt2]
    have hcond : h.requested_count = -1
        ∨ ((h.starting_index : Int) + h.requested_count) % 2 ^ 32 > (kept.length : Int) := by
      rcases hor with e | e
      · exact Or.inl e
      · right
        omega
    rw [if_pos hcond]
    have hv : to_int32 ((kept.length : Int) - (h.starting_index : Int))
        = (kept.length : Int) - (h.starting_index : Int) :=
      to_int32_small _ (by omega) (by omega)
    rw [hv]
    have htn : ((kept.length : Int) - (h.starting_index : Int)).toNat
        = kept.length - h.starting_index := by omega
    rw [htn]
    have hdl : ((qsort_entries kept).drop h.starting_index).length
        = kept.length - h.starting_index := by
      rw [List.length_drop, hlen]
    refine ⟨?_, ?_, rfl, rfl⟩
    · apply List.take_of_length_le
      omega
    · rw [List.length_take, hdl]
      omega
  · intro hlt hnor
    dsimp only
    have hlt2 : ¬ h.starting_index ≥ kept.length := by omega
    rw [if_neg hlt2, if_neg hlt2]
    have hcond : ¬ (h.requested_count = -1
        ∨ ((h.starting_index : Int) + h.requested_count) % 2 ^ 32 > (kept.length : Int)) := by
      omega
    rw [if_neg hcond]
    refine ⟨rfl, ?_, rfl, rfl⟩
    rw [List.length_take, List.length_drop, hlen]
    omega

/-- Witness for claim C12: a Browse of the sample root with starting index 0 and
requested count 5 returns both kept entries, `Music` before `clip.mp4`, and reports 2. -/
theorem get_directory_listing_window_witness :
    sanitise_path [] = some (true, [])
    ∧ (get_directory_listing sample_browse [] sample_media_dir).map
        (fun r => match r with
          | ListingResult.listing h1 entries total =>
            (entries.map (fun e => e.name), h1.starting_index, h1.requested_count, total)
          | ListingResult.error _ => ([], 0, 0, 0))
      = some (["Music".toList, "clip.mp4".toList], 0, 2, 2)
    ∧ ∃ h1 entries,
      get_directory_listing sample_browse [] sample_media_dir
        = some (ListingResult.listing h1 entries 2) :=
  ⟨by decide, by decide,
    (get_directory_listing_window sample_browse [] [] sample_media_dir _
      (by decide) rfl rfl (by decide) (by decide) (by decide)).imp
      (fun _ hx => hx.imp (fun _ hy => hy.1))⟩

/-! ### The extension table and its binary search -/

set_option maxRecDepth 1000000 in
theorem types_all_found :
    types.all (fun e => decide (get_mime_type_from_ext e.ext = some (some e))) = true := by
  decide

set_option maxRecDepth 1000000 in
theorem types_shape :
    types.all (fun e => decide (e.ext.length ≤ 5)
      && e.ext.all (fun c => c.isLower || c.isDigit)) = true := by
  decide

set_option maxRecDepth 1000000 in
theorem types_strictly_sorted : strictly_sorted types = true := by
  decide

set_option maxRecDepth 100000 in
theorem lower_table : ∀ n, n < 128 →
    ((Char.ofNat n).isLower || (Char.ofNat n).isDigit) = true →
    lowercase [Char.ofNat n] = [Char.ofNat n]
    ∧ lowercase [(Char.ofNat n).toUpper] = [Char.ofNat n]
    ∧ Char.ofNat n ≠ '.' ∧ Char.ofNat n ≠ NUL
    ∧ (Char.ofNat n).toUpper ≠ '.' ∧ (Char.ofNat n).toUpper ≠ NUL := by
  decide

theorem lower_variant_char (c d : Char) (hd : (d.isLower || d.isDigit) = true)
    (hc : c = d ∨ c = d.toUpper) : lowercase [c] = [d] ∧ c ≠ '.' ∧ c ≠ NUL := by
  have hn : d.toNat < 128 := by
    rw [isLower_iff, isDigit_iff] at hd
    simp only [Bool.or_eq_true, decide_eq_true_eq] at hd
    omega
  have hof : Char.ofNat d.toNat = d := Char.ofNat_toNat d
  have h := lower_table d.toNat hn (by rw [hof]; exact hd)
  rw [hof] at h
  rcases hc with e | e
  · rw [e]
    exact ⟨h.1, h.2.2.1, h.2.2.2.1⟩
  · rw [e]
    exact ⟨h.2.1, h.2.2.2.2.1, h.2.2.2.2.2⟩

theorem lowercase_cons (c : Char) (x : List Char) :
    lowercase (c :: x) = lowercase [c] ++ lowercase x := rfl

theorem lowercase_case_variant : ∀ (x ext : List Char), case_variant x ext = true →
    ext.all (fun c => c.isLower || c.isDigit) = true →
    lowercase x = ext ∧ x.length = ext.length ∧ (∀ c ∈ x, c ≠ '.') ∧ NUL ∉ x
  | [], [], _, _ => ⟨rfl, rfl, by simp, by simp⟩
  | [], _ :: _, h, _ => by simp [case_variant] at h
  | _ :: _, [], h, _ => by simp [case_variant] at h
  | c :: x, d :: ext, h, ha => by
    simp only [case_variant, Bool.and_eq_true, decide_eq_true_eq] at h
    simp only [List.all_cons, Bool.and_eq_true] at ha
    obtain ⟨h1, h2, h3, h4⟩ := lowercase_case_variant x ext h.2 ha.2
    obtain ⟨g1, g2, g3⟩ := lower_variant_char c d ha.1 h.1
    refine ⟨?_, by simp [h2], ?_, ?_⟩
    · rw [lowercase_cons, g1, h1]
      rfl
    · intro a hmem
      rcases List.mem_cons.mp hmem with e | e
      · rw [e]
        exact g2
      · exact h3 a e
    · intro hmem
      rcases List.mem_cons.mp hmem with e | e
      · exact g3 e.symm
      · exact h4 e

theorem case_variant_refl : ∀ ext : List Char, case_variant ext ext = true
  | [] => rfl
  | c :: ext => by simp [case_variant, case_variant_refl ext]

theorem get_mime_type_loop_ext (b x2 : List Char) (len : Int) :
    ∀ (x1 : List Char) (fuel : Nat), (∀ c ∈ x1, c ≠ '.') → x1.length < fuel →
      ((b.length : Int) > len - 7) →
      get_mime_type_loop (b ++ '.' :: (x1 ++ x2)) len fuel ((b.length : Int) + x1.length)
        = get_mime_type_from_ext (x1 ++ x2) := by
  intro x1
  induction x1 using List.reverseRecOn generalizing x2 with
  | nil =>
    intro fuel _ hf hb
    obtain ⟨f, rfl⟩ : ∃ f, fuel = f + 1 := ⟨fuel - 1, by simp at hf; omega⟩
    have hi : ((b.length : Int) + (([] : List Char).length : Nat)) = (b.length : Int) := by simp
    rw [hi, get_mime_type_loop, if_pos hb, if_neg (by omega)]
    have hr : rd (b ++ '.' :: ([] ++ x2)) (b.length : Int).toNat = '.' := by
      rw [Int.toNat_ofNat, rd_append_len]
      rfl
    rw [if_pos hr, Int.toNat_ofNat]
    congr 1
    simp
  | append_singleton x1 c ih =>
    intro fuel hx hf hb
    obtain ⟨f, rfl⟩ : ∃ f, fuel = f + 1 := ⟨fuel - 1, by omega⟩
    have hlen : (x1 ++ [c]).length = x1.length + 1 := by simp
    have hi : ((b.length : Int) + ((x1 ++ [c]).length : Nat))
        = ((b.length + 1 + x1.length : Nat) : Int) := by
      rw [hlen]
      push_cast
      omega
    rw [hi, get_mime_type_loop, if_pos (by omega), if_neg (by omega), Int.toNat_ofNat]
    have hr : rd (b ++ '.' :: (x1 ++ [c] ++ x2)) (b.length + 1 + x1.length) = c := by
      have e : b ++ '.' :: (x1 ++ [c] ++ x2) = (b ++ '.' :: x1) ++ (c :: x2) := by simp
      have e2 : b.length + 1 + x1.length = (b ++ '.' :: x1).length := by simp; omega
      rw [e, e2, rd_append_len]
      rfl
    have hc : c ≠ '.' := hx c (by simp)
    rw [hr, if_neg hc]
    have e3 : ((b.length + 1 + x1.length : Nat) : Int) - 1 = (b.length : Int) + x1.length := by
      push_cast
      omega
    have e4 : x1 ++ [c] ++ x2 = x1 ++ (c :: x2) := by simp
    rw [e3, e4]
    exact ih (c :: x2) f (fun a ha => hx a (by simp [ha])) (by rw [hlen] at hf; omega) hb

/-- Claim C13.  For every entry of the table `types`, every base name `b` and every
upper/lower-case variant `e` of the extension of the entry, `get_mime_type` applied to
`b ++ "." ++ e` returns that entry; and the table is strictly sorted by `strcmp`. -/
theorem get_mime_type_finds_entry (entry : ext_info) (b e : List Char)
    (hentry : entry ∈ types) (he : case_variant e entry.ext = true) :
    get_mime_type (b ++ '.' :: e) = some (some entry) ∧ strictly_sorted types = true := by
  have hfound := List.all_eq_true.mp types_all_found entry hentry
  have hshape := List.all_eq_true.mp types_shape entry hentry
  simp only [decide_eq_true_eq] at hfound
  simp only [Bool.and_eq_true, decide_eq_true_eq] at hshape
  obtain ⟨h1, h2, h3, _⟩ := lowercase_case_variant e entry.ext he hshape.2
  refine ⟨?_, types_strictly_sorted⟩
  unfold get_mime_type
  have hlen : (((b ++ '.' :: e).length : Nat) : Int) - 1 = (b.length : Int) + e.length := by
    simp only [List.length_append, List.length_cons]
    push_cast
    omega
  rw [hlen]
  have key := get_mime_type_loop_ext b [] ((b ++ '.' :: e).length : Int) e 7 h3
    (by omega) (by
      simp only [List.length_append, List.length_cons]
      push_cast
      omega)
  rw [List.append_nil] at key
  rw [key]
  unfold get_mime_type_from_ext at hfound ⊢
  rw [if_neg (by omega)] at hfound ⊢
  rw [h1]
  rw [(lowercase_case_variant entry.ext entry.ext (case_variant_refl _) hshape.2).1] at hfound
  exact hfound

set_option maxRecDepth 100000 in
/-- Witness for claim C13: `Holiday.MP4` is found as the entry `mp4`. -/
theorem get_mime_type_finds_entry_witness :
    (⟨"mp4".toList, MimeType.M_VIDEO, "mp4".toList⟩ : ext_info) ∈ types
    ∧ case_variant "MP4".toList "mp4".toList = true
    ∧ get_mime_type "Holiday.MP4".toList
        = some (some ⟨"mp4".toList, MimeType.M_VIDEO, "mp4".toList⟩) :=
  ⟨by decide, by decide,
    (get_mime_type_finds_entry ⟨"mp4".toList, MimeType.M_VIDEO, "mp4".toList⟩
      "Holiday".toList "MP4".toList (by decide) (by decide)).1⟩

/-! ### The chunked writer -/

theorem run_calls_eval_mixed :
    (run_calls sample_stream
      [StreamCall.print "<a>".toList, StreamCall.flush, StreamCall.flush,
       StreamCall.print_len "hello world".toList 5, StreamCall.print [],
       StreamCall.print "!".toList]).fh
      = ['3', CR, LF, '<', 'a', '>', CR, LF, '6', CR, LF, 'h', 'e', 'l', 'l', 'o', '!', CR, LF,
         '0', CR, LF, CR, LF]
    ∧ decode_chunked 25 (run_calls sample_stream
      [StreamCall.print "<a>".toList, StreamCall.flush, StreamCall.flush,
       StreamCall.print_len "hello world".toList 5, StreamCall.print [],
       StreamCall.print "!".toList]).fh
      = some ["<a>".toList, "hello!".toList] := by
  decide

theorem chunk_frames_append (a b : List (List Char)) :
    chunk_frames (a ++ b) = chunk_frames a ++ chunk_frames b := by
  simp [chunk_frames]

theorem chunk_frames_single (p : List Char) : chunk_frames [p] = chunk_frame p := by
  simp [chunk_frames]

theorem stream_clear_rep (s : stream) (chunks : List (List Char)) (pend : List Char)
    (h : StreamRep s chunks pend) :
    StreamRep (stream_clear s) (chunks ++ (if pend = [] then [] else [pend])) [] := by
  obtain ⟨h1, h2, h3, h4, h5, h6⟩ := h
  by_cases hp : pend = []
  · have hpos : s.pos ≤ 0 := by rw [h3, hp]; simp
    rw [if_pos hp, List.append_nil]
    unfold stream_clear
    rw [if_pos hpos]
    refine ⟨h1, h2, ?_, by simp, by simp, h6⟩
    rw [h3, hp]
  · have hl : 0 < pend.length := List.length_pos.mpr hp
    have hpos : ¬ s.pos ≤ 0 := by rw [h3]; omega
    rw [if_neg hp]
    unfold stream_clear
    rw [if_neg hpos]
    refine ⟨?_, h2, rfl, by simp, by simp, ?_⟩
    · show s.fh ++ (sprintf_X s.pos ++ [CR, LF]) ++ s.buf.take s.pos.toNat ++ [CR, LF]
        = chunk_frames (chunks ++ [pend])
      rw [chunk_frames_append, chunk_frames_single, h1, h3, Int.toNat_ofNat, h5]
      unfold chunk_frame
      simp only [List.append_assoc]
    · intro p hp2
      rcases List.mem_append.mp hp2 with e | e
      · exact h6 p e
      · rw [List.mem_singleton] at e
        rw [e]
        exact ⟨hp, h4⟩

theorem take_set_succ (buf : List Char) (n : Nat) (c : Char) (h : n < buf.length) :
    (buf.set n c).take (n + 1) = buf.take n ++ [c] := by
  induction buf generalizing n with
  | nil => simp at h
  | cons b buf ih =>
    cases n with
    | zero => simp
    | succ n =>
      simp only [List.length_cons] at h
      simp only [List.set_cons_succ, List.take_succ_cons, List.cons_append]
      rw [ih n (by omega)]

theorem store_char_rep (s : stream) (chunks : List (List Char)) (pend : List Char) (c : Char)
    (h : StreamRep s chunks pend) (hl : pend.length < BUFFER_SIZE) :
    StreamRep { s with buf := s.buf.set s.pos.toNat c, pos := s.pos + 1 } chunks
      (pend ++ [c]) := by
  obtain ⟨h1, h2, h3, h4, h5, h6⟩ := h
  refine ⟨h1, ?_, ?_, ?_, ?_, h6⟩
  · show (s.buf.set s.pos.toNat c).length = BUFFER_SIZE
    rw [List.length_set]
    exact h2
  · show s.pos + 1 = ((pend ++ [c]).length : Int)
    rw [h3]
    simp
  · simp only [List.length_append, List.length_singleton]
    omega
  · show (s.buf.set s.pos.toNat c).take (pend ++ [c]).length = pend ++ [c]
    rw [h3, Int.toNat_ofNat]
    have e : (pend ++ [c]).length = pend.length + 1 := by simp
    rw [e, take_set_succ _ _ _ (by omega), h5]

theorem chunk_print_char_rep (s : stream) (chunks : List (List Char)) (pend : List Char)
    (c : Char) (h : StreamRep s chunks pend) :
    ∃ chunks1 pend1, StreamRep (chunk_print_char s c) chunks1 pend1
      ∧ chunks1.flatten ++ pend1 = chunks.flatten ++ pend ++ [c] := by
  unfold chunk_print_char
  by_cases hfull : s.pos = (BUFFER_SIZE : Int)
  · have hlen : pend.length = BUFFER_SIZE := by
      have := h.2.2.1
      omega
    have hne : pend ≠ [] := by
      intro e
      rw [e] at hlen
      simp [BUFFER_SIZE] at hlen
    have hc := stream_clear_rep s chunks pend h
    rw [if_neg hne] at hc
    simp only [if_pos hfull]
    refine ⟨chunks ++ [pend], [] ++ [c], store_char_rep _ _ _ c hc (by simp [BUFFER_SIZE]), ?_⟩
    simp
  · have hlen : pend.length < BUFFER_SIZE := by
      have h3 := h.2.2.1
      have h4 := h.2.2.2.1
      omega
    simp only [if_neg hfull]
    exact ⟨chunks, pend ++ [c], store_char_rep _ _ _ c h hlen, by simp⟩

theorem chunk_print_rep (text : List Char) : ∀ (s : stream) (chunks : List (List Char))
    (pend : List Char), StreamRep s chunks pend →
    ∃ chunks1 pend1, StreamRep (chunk_print s text) chunks1 pend1
      ∧ chunks1.flatten ++ pend1 = chunks.flatten ++ pend ++ text := by
  induction text with
  | nil =>
    intro s chunks pend h
    exact ⟨chunks, pend, h, by simp⟩
  | cons c text ih =>
    intro s chunks pend h
    obtain ⟨c1, p1, h1, e1⟩ := chunk_print_char_rep s chunks pend c h
    obtain ⟨c2, p2, h2, e2⟩ := ih _ c1 p1 h1
    refine ⟨c2, p2, h2, ?_⟩
    rw [e2, e1]
    simp

theorem chunk_print_len_rep (text : List Char) : ∀ (len : Int) (s : stream)
    (chunks : List (List Char)) (pend : List Char), StreamRep s chunks pend →
    ∃ chunks1 pend1, StreamRep (chunk_print_len s text len) chunks1 pend1
      ∧ chunks1.flatten ++ pend1 = chunks.flatten ++ pend ++ text.take len.toNat := by
  induction text with
  | nil =>
    intro len s chunks pend h
    exact ⟨chunks, pend, h, by simp [chunk_print_len]⟩
  | cons c text ih =>
    intro len s chunks pend h
    by_cases hl : len > 0
    · obtain ⟨c1, p1, h1, e1⟩ := chunk_print_char_rep s chunks pend c h
      obtain ⟨c2, p2, h2, e2⟩ := ih (len - 1) _ c1 p1 h1
      rw [chunk_print_len, if_pos hl]
      refine ⟨c2, p2, h2, ?_⟩
      have e : len.toNat = (len - 1).toNat + 1 := by omega
      rw [e2, e1, e, List.take_succ_cons]
      simp
    · rw [chunk_print_len, if_neg hl]
      have e : len.toNat = 0 := by omega
      exact ⟨chunks, pend, h, by simp [e]⟩

theorem run_call_rep (call : StreamCall) (s : stream) (chunks : List (List Char))
    (pend : List Char) (h : StreamRep s chunks pend) :
    ∃ chunks1 pend1, StreamRep (call.run s) chunks1 pend1
      ∧ chunks1.flatten ++ pend1 = chunks.flatten ++ pend ++ call.appended := by
  cases call with
  | print text => exact chunk_print_rep text s chunks pend h
  | print_len text len => exact chunk_print_len_rep text len s chunks pend h
  | flush =>
    refine ⟨_, _, stream_clear_rep s chunks pend h, ?_⟩
    by_cases hp : pend = []
    · simp [hp, StreamCall.appended]
    · simp [hp, StreamCall.appended]

theorem foldl_run_rep (calls : List StreamCall) : ∀ (s : stream) (chunks : List (List Char))
    (pend : List Char), StreamRep s chunks pend →
    ∃ chunks1 pend1, StreamRep (calls.foldl StreamCall.run s) chunks1 pend1
      ∧ chunks1.flatten ++ pend1
        = chunks.flatten ++ pend ++ (calls.map StreamCall.appended).flatten := by
  induction calls with
  | nil =>
    intro s chunks pend h
    exact ⟨chunks, pend, h, by simp⟩
  | cons call calls ih =>
    intro s chunks pend h
    obtain ⟨c1, p1, h1, e1⟩ := run_call_rep call s chunks pend h
    obtain ⟨c2, p2, h2, e2⟩ := ih _ c1 p1 h1
    refine ⟨c2, p2, h2, ?_⟩
    rw [e2, e1]
    simp

set_option maxRecDepth 100000 in
theorem sprintf_X_table : ∀ n : Nat, n ≤ 1024 →
    (hex_value ((sprintf_X (n : Int)).headD NUL)).isSome = true
    ∧ (sprintf_X (n : Int)).all (fun c => (hex_value c).isSome) = true
    ∧ (sprintf_X (n : Int)).foldl (fun a c => a * 16 + (hex_value c).getD 0) 0 = n := by
  decide

theorem read_hex_length_digits (t : List Char) : ∀ (ds : List Char) (acc : Nat),
    ds.all (fun c => (hex_value c).isSome) = true →
    read_hex_length (ds ++ CR :: t) acc
      = (ds.foldl (fun a c => a * 16 + (hex_value c).getD 0) acc, CR :: t) := by
  intro ds
  induction ds with
  | nil =>
    intro acc _
    have e : hex_value CR = none := by decide
    simp [read_hex_length, e]
  | cons d ds ih =>
    intro acc h
    simp only [List.all_cons, Bool.and_eq_true] at h
    obtain ⟨v, hv⟩ := Option.isSome_iff_exists.mp h.1
    simp only [List.cons_append, read_hex_length, hv, List.foldl_cons, Option.getD_some]
    exact ih _ h.2

theorem read_hex_length_frame (n : Nat) (hn : n ≤ 1024) (t : List Char) :
    read_hex_length (sprintf_X (n : Int) ++ CR :: t) 0 = (n, CR :: t)
    ∧ (hex_value ((sprintf_X (n : Int) ++ CR :: t).headD NUL)).isSome = true := by
  obtain ⟨h1, h2, h3⟩ := sprintf_X_table n hn
  constructor
  · rw [read_hex_length_digits t _ 0 h2, h3]
  · cases hs : sprintf_X (n : Int) with
    | nil =>
      rw [hs] at h1
      exact absurd h1 (by decide)
    | cons d ds =>
      rw [hs] at h1
      exact h1

theorem decode_chunked_end (fuel : Nat) :
    decode_chunked (fuel + 1) ['0', CR, LF, CR, LF] = some [] := by
  rfl

theorem decode_chunked_frame (fuel : Nat) (p t : List Char) (hp : p ≠ [])
    (hl : p.length ≤ BUFFER_SIZE) :
    decode_chunked (fuel + 1) (chunk_frame p ++ t)
      = (decode_chunked fuel t).map (fun chunks => p :: chunks) := by
  have e : chunk_frame p ++ t
      = sprintf_X (p.length : Int) ++ CR :: (LF :: (p ++ (CR :: LF :: t))) := by
    simp [chunk_frame]
  obtain ⟨h1, h2⟩ := read_hex_length_frame p.length hl (LF :: (p ++ (CR :: LF :: t)))
  have hpos : 0 < p.length := List.length_pos.mpr hp
  rw [e, decode_chunked, h1]
  dsimp only
  rw [if_pos ⟨h2, by simp⟩, if_neg (by omega)]
  have d2 : (CR :: LF :: (p ++ CR :: LF :: t)).drop 2 = p ++ CR :: LF :: t := rfl
  rw [d2]
  have d3 : (p ++ CR :: LF :: t).drop p.length = CR :: LF :: t := by simp
  have d4 : (p ++ CR :: LF :: t).drop (p.length + 2) = t := by
    rw [← List.drop_drop, d3]
    rfl
  have d5 : (p ++ CR :: LF :: t).take p.length = p := by simp
  rw [if_pos ⟨by simp, by rw [d3]; rfl⟩, d4, d5]

theorem decode_chunked_frames : ∀ (chunks : List (List Char)) (fuel : Nat),
    (∀ p ∈ chunks, p ≠ [] ∧ p.length ≤ BUFFER_SIZE) → chunks.length < fuel →
    decode_chunked fuel (chunk_frames chunks ++ ['0', CR, LF, CR, LF]) = some chunks
  | [], fuel, _, hf => by
    obtain ⟨f, rfl⟩ : ∃ f, fuel = f + 1 := ⟨fuel - 1, by simp at hf; omega⟩
    exact decode_chunked_end f
  | p :: chunks, fuel, h, hf => by
    obtain ⟨f, rfl⟩ : ∃ f, fuel = f + 1 := ⟨fuel - 1, by simp at hf; omega⟩
    have e : chunk_frames (p :: chunks) ++ ['0', CR, LF, CR, LF]
        = chunk_frame p ++ (chunk_frames chunks ++ ['0', CR, LF, CR, LF]) := by
      simp [chunk_frames]
    rw [e, decode_chunked_frame f p _ (h p (by simp)).1 (h p (by simp)).2,
      decode_chunked_frames chunks f (fun q hq => h q (by simp [hq]))
        (by simp at hf; omega)]
    rfl

theorem chunk_frame_length (p : List Char) : 0 < (chunk_frame p).length := by
  simp [chunk_frame]

theorem chunk_frames_length : ∀ chunks : List (List Char),
    chunks.length ≤ (chunk_frames chunks).length
  | [] => by simp
  | p :: chunks => by
    have h1 := chunk_frame_length p
    have h2 := chunk_frames_length chunks
    have e : chunk_frames (p :: chunks) = chunk_frame p ++ chunk_frames chunks := by
      simp [chunk_frames]
    rw [e, List.length_append, List.length_cons]
    omega

/-- Claim C16.  For every sequence of `chunk_print` and `chunk_print_len` appends (with
any interleaved `stream_flush`) followed by one `chunk_print_end`, on a stream that
`sdopen` has just opened, the bytes written are a sequence of chunks followed by the
terminating chunk `0 CR LF CR LF`: no chunk has length 0, each chunk carries the
hexadecimal length of its payload, a decoder of chunked bodies reads exactly these
payloads up to the terminating chunk, which ends the output, and the payloads joined are
the appended texts joined. -/
theorem chunked_writer_valid (s : stream) (calls : List StreamCall)
    (hfh : s.fh = []) (hpos : s.pos = 0) (hbuf : s.buf.length = BUFFER_SIZE) :
    ∃ chunks : List (List Char),
      (run_calls s calls).fh = chunk_frames chunks ++ ['0', CR, LF, CR, LF]
      ∧ (∀ p ∈ chunks, p ≠ [])
      ∧ decode_chunked ((run_calls s calls).fh.length + 1) (run_calls s calls).fh
          = some chunks
      ∧ chunks.flatten = (calls.map StreamCall.appended).flatten := by
  have h0 : StreamRep s [] [] := by
    refine ⟨?_, hbuf, ?_, by simp, by simp, by simp⟩
    · rw [hfh]
      rfl
    · rw [hpos]
      rfl
  obtain ⟨c1, p1, h1, e1⟩ := foldl_run_rep calls s [] [] h0
  have h2 := stream_clear_rep _ c1 p1 h1
  have hfh2 : (run_calls s calls).fh
      = chunk_frames (c1 ++ (if p1 = [] then [] else [p1])) ++ ['0', CR, LF, CR, LF] := by
    unfold run_calls chunk_print_end
    rw [h2.1]
  refine ⟨c1 ++ (if p1 = [] then [] else [p1]), hfh2, fun p hp => (h2.2.2.2.2.2 p hp).1, ?_, ?_⟩
  · rw [hfh2]
    apply decode_chunked_frames _ _ h2.2.2.2.2.2
    have hl := chunk_frames_length (c1 ++ (if p1 = [] then [] else [p1]))
    have hl2 : (chunk_frames (c1 ++ (if p1 = [] then [] else [p1]))
        ++ ['0', CR, LF, CR, LF]).length
        = (chunk_frames (c1 ++ (if p1 = [] then [] else [p1]))).length + 5 := by
      simp
    omega
  · simp only [List.flatten_nil, List.nil_append] at e1
    rw [← e1]
    by_cases hp : p1 = []
    · simp [hp]
    · simp [hp]

set_option maxRecDepth 100000 in
/-- Witness for claim C16: two appends, the second through `chunk_print_len`, with a
`stream_flush` between them. -/
theorem chunked_writer_valid_witness :
    sample_stream.fh = [] ∧ sample_stream.pos = 0 ∧ sample_stream.buf.length = BUFFER_SIZE
    ∧ (run_calls sample_stream
        [StreamCall.print "<a>".toList, StreamCall.flush,
         StreamCall.print_len "hello world".toList 5]).fh
      = ['3', CR, LF, '<', 'a', '>', CR, LF, '5', CR, LF, 'h', 'e', 'l', 'l', 'o', CR, LF,
         '0', CR, LF, CR, LF]
    ∧ ∃ chunks : List (List Char),
      (run_calls sample_stream
        [StreamCall.print "<a>".toList, StreamCall.flush,
         StreamCall.print_len "hello world".toList 5]).fh
        = chunk_frames chunks ++ ['0', CR, LF, CR, LF]
      ∧ chunks.flatten = "<a>hello".toList :=
  ⟨rfl, rfl, by decide, by decide,
    (chunked_writer_valid sample_stream
      [StreamCall.print "<a>".toList, StreamCall.flush,
       StreamCall.print_len "hello world".toList 5] rfl rfl (by decide)).imp
      (fun _ hx => ⟨hx.1, hx.2.2.2⟩)⟩

/-! ### SUBSCRIBE requests -/

theorem subscribe_eval_created :
    ((process_http_subscribe_upnphttp sample_event_env
        (sample_subscribe "/evt/ContentDir".toList (some "http://192.168.1.9:4000/cb".toList)
          (some "upnp:event".toList) none (some "Second-1800".toList)) []).response,
      (process_http_subscribe_upnphttp sample_event_env
        (sample_subscribe "/evt/ContentDir".toList (some "http://192.168.1.9:4000/cb".toList)
          (some "upnp:event".toList) none (some "Second-1800".toList)) []).subscriberlist.map
        (fun s => (s.timeout, s.uuid)))
      = (some HttpResponseCode.HTTP_OK_200,
          [(1001800, "uuid:4d696e69-444c-164e-9d41-554e4b4ebeef".toList)]) := by
  decide

theorem check_event_invalid (h : upnphttp) (code : HttpResponseCode)
    (hc : (check_event h).1 = EventType.E_INVALID ∧ (check_event h).2.2 = some code)
    (env : EventEnv) (subs : List subscriber) :
    (process_http_subscribe_upnphttp env h subs).response = some code
    ∧ (process_http_subscribe_upnphttp env h subs).subscriberlist = subs := by
  unfold process_http_subscribe_upnphttp
  rcases hx : check_event h with ⟨t, h1, r⟩
  rw [hx] at hc
  obtain ⟨h1c, h2c⟩ := hc
  simp only at h1c h2c
  subst h1c
  subst h2c
  exact ⟨rfl, rfl⟩

/-- Claim C18, as the code has it.  A SUBSCRIBE request with Callback missing and no SID,
or with Callback and NT present, no SID and an NT different from `upnp:event`, is answered
412 Precondition Failed; a request with Callback but without NT, or with SID present
together with Callback, is answered 400 Bad Request.  None of them changes the subscriber
list. -/
theorem subscribe_precondition_answers (env : EventEnv) (h : upnphttp)
    (subs : List subscriber) :
    (h.req_callback = none → h.req_sid = none →
      (process_http_subscribe_upnphttp env h subs).response
          = some HttpResponseCode.HTTP_PRECONDITION_FAILED_412
        ∧ (process_http_subscribe_upnphttp env h subs).subscriberlist = subs)
    ∧ (∀ nt, h.req_callback ≠ none → h.req_sid = none → h.req_nt = some nt →
        nt ≠ "upnp:event".toList →
      (process_http_subscribe_upnphttp env h subs).response
          = some HttpResponseCode.HTTP_PRECONDITION_FAILED_412
        ∧ (process_http_subscribe_upnphttp env h subs).subscriberlist = subs)
    ∧ (h.req_callback ≠ none → (h.req_sid ≠ none ∨ h.req_nt = none) →
      (process_http_subscribe_upnphttp env h subs).response
          = some HttpResponseCode.HTTP_BAD_REQUEST_400
        ∧ (process_http_subscribe_upnphttp env h subs).subscriberlist = subs) := by
  refine ⟨fun hcb hsid => ?_, fun nt hcb hsid hnt hne => ?_, fun hcb hor => ?_⟩
  · apply check_event_invalid
    unfold check_event
    rw [hcb]
    dsimp only
    rw [if_neg (by simp [hsid])]
    exact ⟨rfl, rfl⟩
  · apply check_event_invalid
    unfold check_event
    obtain ⟨cb, hcb2⟩ := Option.ne_none_iff_exists'.mp hcb
    rw [hcb2]
    dsimp only
    have hne2 : h.req_nt ≠ some "upnp:event".toList := by
      rw [hnt]
      intro e
      exact hne (Option.some.inj e)
    rw [if_neg (by simp [hsid, hnt]), if_pos (Or.inr hne2)]
    exact ⟨rfl, rfl⟩
  · apply check_event_invalid
    unfold check_event
    obtain ⟨cb, hcb2⟩ := Option.ne_none_iff_exists'.mp hcb
    rw [hcb2]
    dsimp only
    rw [if_pos hor]
    exact ⟨rfl, rfl⟩

/-- Counterexample to claim C18 as stated: a SUBSCRIBE with SID present together with
Callback, and a SUBSCRIBE with Callback but without NT, are answered 400, not 412. -/
theorem subscribe_sid_with_callback_is_400 :
    (process_http_subscribe_upnphttp sample_event_env
        (sample_subscribe "/evt/ContentDir".toList (some "http://192.168.1.9:4000/cb".toList)
          (some "upnp:event".toList)
          (some "uuid:4d696e69-444c-164e-9d41-554e4b4ebeef".toList) none) []).response
      = some HttpResponseCode.HTTP_BAD_REQUEST_400
    ∧ (process_http_subscribe_upnphttp sample_event_env
        (sample_subscribe "/evt/ContentDir".toList (some "http://192.168.1.9:4000/cb".toList)
          none none none) []).response
      = some HttpResponseCode.HTTP_BAD_REQUEST_400
    ∧ some HttpResponseCode.HTTP_BAD_REQUEST_400
      ≠ some HttpResponseCode.HTTP_PRECONDITION_FAILED_412 := by
  decide

/-- Claim C19 at a path that is no event URL: a SUBSCRIBE for `/evt/Unknown` with valid
Callback and NT headers creates no subscriber and is answered 200 OK, while a renewal
with an unknown SID is answered 412. -/
theorem subscribe_unknown_path_is_200 :
    (process_http_subscribe_upnphttp sample_event_env
        (sample_subscribe "/evt/Unknown".toList (some "http://192.168.1.9:4000/cb".toList)
          (some "upnp:event".toList) none none) []).response
      = some HttpResponseCode.HTTP_OK_200
    ∧ (process_http_subscribe_upnphttp sample_event_env
        (sample_subscribe "/evt/Unknown".toList (some "http://192.168.1.9:4000/cb".toList)
          (some "upnp:event".toList) none none) []).subscriberlist = []
    ∧ (process_http_subscribe_upnphttp sample_event_env
        (sample_subscribe "/evt/ContentDir".toList none none
          (some "uuid:4d696e69-444c-164e-9d41-554e4b4ebeef".toList) none) []).response
      = some HttpResponseCode.HTTP_PRECONDITION_FAILED_412 := by
  decide

theorem check_event_keeps (h : upnphttp) :
    (check_event h).1 ≠ EventType.E_INVALID → (check_event h).2.1 = h := by
  unfold check_event
  cases h.req_callback with
  | none =>
    dsimp only
    split
    · split
      · intro c
        exact absurd rfl c
      · intro _
        rfl
    · intro c
      exact absurd rfl c
  | some cb =>
    dsimp only
    split
    · intro c
      exact absurd rfl c
    · split
      · intro c
        exact absurd rfl c
      · intro _
        rfl

theorem renew_expiry (now : Int) (sid : List Char) (timeout : Int) (ht : 0 ≤ timeout) :
    ∀ subs : List subscriber, ∀ s ∈ (renew_upnpevent_subscriber now sid timeout subs).2,
      s ∈ subs ∨ s.timeout = 0 ∨ now ≤ s.timeout := by
  intro subs
  induction subs with
  | nil =>
    intro s hs
    simp [renew_upnpevent_subscriber] at hs
  | cons sub rest ih =>
    intro s hs
    unfold renew_upnpevent_subscriber at hs
    by_cases hm : memcmp_eq sid sub.uuid 41 = true
    · rw [if_pos hm] at hs
      rcases List.mem_cons.mp hs with e | e
      · right
        rw [e]
        dsimp only
        by_cases h0 : timeout ≠ 0
        · rw [if_pos h0]
          right
          omega
        · rw [if_neg h0]
          exact Or.inl rfl
      · exact Or.inl (List.mem_cons_of_mem _ e)
    · rw [if_neg hm] at hs
      rcases List.mem_cons.mp hs with e | e
      · left
        rw [e]
        exact List.mem_cons_self _ _
      · rcases ih s e with g | g
        · exact Or.inl (List.mem_cons_of_mem _ g)
        · exact Or.inr g

theorem add_expiry (env : EventEnv) (subs : List subscriber)
    (eventurl callback : Option (List Char)) (timeout : Int) (ht : 0 ≤ timeout) :
    ∀ s ∈ (add_upnpevent_subscriber env subs eventurl callback timeout).2,
      s ∈ subs ∨ s.timeout = 0 ∨ env.now ≤ s.timeout := by
  intro s hs
  unfold add_upnpevent_subscriber at hs
  split at hs
  · dsimp only at hs
    split at hs
    · exact Or.inl hs
    · rcases List.mem_cons.mp hs with e | e
      · right
        rw [e]
        dsimp only
        by_cases h0 : timeout ≠ 0
        · rw [if_pos h0]
          right
          omega
        · rw [if_neg h0]
          exact Or.inl rfl
      · exact Or.inl e
  · exact Or.inl hs

/-- Claim C20, as the code has it.  When the timeout that `parse_http_header` has stored
for the request (the number that `atoi` reads after `Second-`, or 0 without such a
header) is not negative, every subscriber that a SUBSCRIBE creates or a renewal updates
has a stored expiry that is either 0 or not earlier than the time of the request. -/
theorem subscriber_expiry_not_before_request (env : EventEnv) (h : upnphttp)
    (subs : List subscriber) (ht : 0 ≤ h.req_timeout) :
    ∀ s ∈ (process_http_subscribe_upnphttp env h subs).subscriberlist,
      s ∈ subs ∨ s.timeout = 0 ∨ env.now ≤ s.timeout := by
  intro s hs
  unfold process_http_subscribe_upnphttp at hs
  have hk := check_event_keeps h
  rcases hx : check_event h with ⟨t, h1, r⟩
  rw [hx] at hs hk
  cases t with
  | E_INVALID => exact Or.inl hs
  | E_SUBSCRIBE =>
    have e : h1 = h := hk (by simp)
    subst e
    exact add_expiry env subs _ _ _ ht s hs
  | E_RENEW =>
    have e : h1 = h := hk (by simp)
    subst e
    dsimp only at hs
    split at hs
    · exact renew_expiry env.now _ _ ht subs s hs
    · exact renew_expiry env.now _ _ ht subs s hs

/-- Witness for the amended claim C20: a SUBSCRIBE with `Timeout: Second-1800` at the
time 1000000 creates a subscriber that expires at 1001800. -/
theorem subscriber_expiry_not_before_request_witness :
    0 ≤ (sample_subscribe "/evt/ContentDir".toList (some "http://192.168.1.9:4000/cb".toList)
          (some "upnp:event".toList) none (some "Second-1800".toList)).req_timeout
    ∧ (process_http_subscribe_upnphttp sample_event_env
        (sample_subscribe "/evt/ContentDir".toList (some "http://192.168.1.9:4000/cb".toList)
          (some "upnp:event".toList) none (some "Second-1800".toList)) []).subscriberlist.map
        (fun s => s.timeout) = [1001800]
    ∧ ∀ s ∈ (process_http_subscribe_upnphttp sample_event_env
        (sample_subscribe "/evt/ContentDir".toList (some "http://192.168.1.9:4000/cb".toList)
          (some "upnp:event".toList) none (some "Second-1800".toList)) []).subscriberlist,
      s ∈ ([] : List subscriber) ∨ s.timeout = 0 ∨ sample_event_env.now ≤ s.timeout :=
  ⟨by decide, by decide,
    subscriber_expiry_not_before_request sample_event_env
      (sample_subscribe "/evt/ContentDir".toList (some "http://192.168.1.9:4000/cb".toList)
        (some "upnp:event".toList) none (some "Second-1800".toList)) [] (by decide)⟩

/-- Counterexample to claim C20 as stated: a SUBSCRIBE with `Timeout: Second--5` at the
time 1000000 creates a subscriber whose stored expiry is 999995, which is not 0 and is
earlier than the time of the request; a renewal with the same header stores the same
expiry. -/
theorem negative_timeout_expires_in_the_past :
    (process_http_subscribe_upnphttp sample_event_env
        (sample_subscribe "/evt/ContentDir".toList (some "http://192.168.1.9:4000/cb".toList)
          (some "upnp:event".toList) none (some "Second--5".toList)) []).subscriberlist.map
        (fun s => s.timeout) = [999995]
    ∧ (process_http_subscribe_upnphttp sample_event_env
        (sample_subscribe "/evt/ContentDir".toList none none
          (some "uuid:4d696e69-444c-164e-9d41-554e4b4ebeef".toList)
          (some "Second--5".toList))
        (process_http_subscribe_upnphttp sample_event_env
          (sample_subscribe "/evt/ContentDir".toList
            (some "http://192.168.1.9:4000/cb".toList)
            (some "upnp:event".toList) none (some "Second-1800".toList))
          []).subscriberlist).subscriberlist.map
        (fun s => s.timeout) = [999995]
    ∧ (999995 : Int) ≠ 0 ∧ (999995 : Int) < sample_event_env.now := by
  decide

set_option maxRecDepth 1000000 in
/-- Evaluation of the scanner on an envelope with an XML declaration, an attribute on the
action element, white space between elements and around a value. -/
theorem process_post_content_eval_envelope :
    (process_post_content { sample_browse with remote_dirpath := none, data_len := 221, requested_count := -1 }
      ("<?xml version=".toList ++ [QUOT] ++ "1.0".toList ++ [QUOT] ++ "?><s:Envelope><s:Body><u:Browse xmlns:u=".toList ++ [QUOT] ++ "x".toList ++ [QUOT] ++ "><ObjectID>Music/A b</ObjectID> <BrowseFlag>X</BrowseFlag><StartingIndex>3</StartingIndex><RequestedCount> 5 </RequestedCount></u:Browse></s:Body></s:Envelope>".toList)).map
      (fun h => (h.remote_dirpath, h.starting_index, h.requested_count)) = some (some "Music/A b".toList, 3, 5) := by
  decide

/-! ### The inner loops of process_post_content -/

theorem delivers_head : ∀ (s : List Char) (c : Char) (xml : cursor),
    Delivers s c xml → c = s.headD NUL
  | [], _, _, h => h
  | _ :: _, _, _, h => h.1

theorem delivers_not_NUL : ∀ (s : List Char) (c : Char) (xml : cursor),
    Delivers s c xml → ∀ d ∈ s, d ≠ NUL
  | [], _, _, _ => by simp
  | d :: s, _, xml, h => by
    intro e he
    rcases List.mem_cons.mp he with g | g
    · rw [g]
      exact h.2.1
    · exact delivers_not_NUL s _ _ h.2.2 e g

theorem delivers_tail (s : List Char) (c : Char) (xml : cursor) (h : Delivers s c xml)
    (hs : s ≠ []) : Delivers s.tail (read_char xml).1 (read_char xml).2 := by
  cases s with
  | nil => exact absurd rfl hs
  | cons d s => exact h.2.2

theorem delivers_nil_iff (s : List Char) (c : Char) (xml : cursor) (h : Delivers s c xml) :
    c = NUL ↔ s = [] := by
  cases s with
  | nil => exact ⟨fun _ => rfl, fun _ => h⟩
  | cons d s =>
    constructor
    · intro e
      exact absurd (h.1.symm.trans e) h.2.1
    · intro e
      exact absurd e (by simp)

theorem skip_until_spec (stop : Char) :
    ∀ (s : List Char) (fuel : Nat) (c : Char) (xml : cursor),
      Delivers s c xml → s.length < fuel →
      ∃ c1 xml1, skip_until stop fuel c xml = some (c1, xml1)
        ∧ Delivers (s.dropWhile (fun c => decide (c ≠ stop))) c1 xml1 := by
  intro s
  induction s with
  | nil =>
    intro fuel c xml h hf
    obtain ⟨f, rfl⟩ : ∃ f, fuel = f + 1 := ⟨fuel - 1, by simp at hf; omega⟩
    have hc : c = NUL := h
    refine ⟨c, xml, ?_, h⟩
    rw [skip_until, if_neg (by simp [hc])]
  | cons d s ih =>
    intro fuel c xml h hf
    obtain ⟨f, rfl⟩ : ∃ f, fuel = f + 1 := ⟨fuel - 1, by simp at hf; omega⟩
    obtain ⟨h1, h2, h3⟩ := h
    by_cases hd : d = stop
    · refine ⟨c, xml, ?_, ?_⟩
      · rw [skip_until, if_neg (by simp [h1, hd])]
      · rw [List.dropWhile_cons_of_neg (by simp [hd])]
        exact ⟨h1, h2, h3⟩
    · rw [skip_until, if_pos ⟨by rw [h1]; exact hd, by rw [h1]; exact h2⟩,
        List.dropWhile_cons_of_pos (by simp [hd])]
      exact ih f _ _ h3 (by simp at hf; omega)

theorem is_white_space_NUL : is_white_space NUL = false := by decide

theorem is_letter_NUL : is_letter NUL = false := by decide

theorem skip_white_space_spec :
    ∀ (s : List Char) (fuel : Nat) (c : Char) (xml : cursor),
      Delivers s c xml → s.length < fuel →
      ∃ c1 xml1, skip_white_space fuel c xml = some (c1, xml1)
        ∧ Delivers (s.dropWhile is_white_space) c1 xml1 := by
  intro s
  induction s with
  | nil =>
    intro fuel c xml h hf
    obtain ⟨f, rfl⟩ : ∃ f, fuel = f + 1 := ⟨fuel - 1, by simp at hf; omega⟩
    have hc : c = NUL := h
    refine ⟨c, xml, ?_, h⟩
    rw [skip_white_space, if_neg (by rw [hc, is_white_space_NUL]; simp)]
  | cons d s ih =>
    intro fuel c xml h hf
    obtain ⟨f, rfl⟩ : ∃ f, fuel = f + 1 := ⟨fuel - 1, by simp at hf; omega⟩
    obtain ⟨h1, h2, h3⟩ := h
    by_cases hd : is_white_space d = true
    · rw [skip_white_space, if_pos (by rw [h1]; exact hd), List.dropWhile_cons_of_pos hd]
      exact ih f _ _ h3 (by simp at hf; omega)
    · refine ⟨c, xml, ?_, ?_⟩
      · rw [skip_white_space, if_neg (by rw [h1]; exact hd)]
      · rw [List.dropWhile_cons_of_neg hd]
        exact ⟨h1, h2, h3⟩

theorem read_name_spec :
    ∀ (s : List Char) (fuel : Nat) (acc : List Char) (c : Char) (xml : cursor),
      Delivers s c xml → s.length < fuel →
      ∃ c1 xml1,
        read_name fuel acc c xml
          = some (acc ++ (s.takeWhile is_letter).take (20 - acc.length), c1, xml1)
        ∧ Delivers (s.drop ((s.takeWhile is_letter).take (20 - acc.length)).length) c1 xml1 := by
  intro s
  induction s with
  | nil =>
    intro fuel acc c xml h hf
    obtain ⟨f, rfl⟩ : ∃ f, fuel = f + 1 := ⟨fuel - 1, by simp at hf; omega⟩
    have hc : c = NUL := h
    refine ⟨c, xml, ?_, by simpa using h⟩
    rw [read_name, if_neg (by rw [hc, is_letter_NUL]; simp)]
    simp
  | cons d s ih =>
    intro fuel acc c xml h hf
    obtain ⟨f, rfl⟩ : ∃ f, fuel = f + 1 := ⟨fuel - 1, by simp at hf; omega⟩
    obtain ⟨h1, h2, h3⟩ := h
    by_cases hd : acc.length < 20 ∧ is_letter d = true
    · rw [read_name, if_pos (by rw [h1]; exact hd)]
      obtain ⟨c1, xml1, e1, e2⟩ := ih f (acc ++ [c]) _ _ h3 (by simp at hf; omega)
      have hl : 20 - acc.length = (20 - (acc ++ [c]).length) + 1 := by
        simp only [List.length_append, List.length_singleton]
        omega
      refine ⟨c1, xml1, ?_, ?_⟩
      · rw [e1, List.takeWhile_cons_of_pos hd.2, hl, List.take_succ_cons, h1]
        simp
      · rw [List.takeWhile_cons_of_pos hd.2, hl, List.take_succ_cons, List.length_cons,
          List.drop_succ_cons]
        exact e2
    · rw [read_name, if_neg (by rw [h1]; exact hd)]
      have e : ((d :: s).takeWhile is_letter).take (20 - acc.length) = [] := by
        by_cases hl : acc.length < 20
        · have hn : ¬ is_letter d = true := fun g => hd ⟨hl, g⟩
          rw [List.takeWhile_cons_of_neg hn]
          simp
        · have e0 : 20 - acc.length = 0 := by omega
          rw [e0]
          rfl
      rw [e]
      exact ⟨c, xml, by simp, ⟨h1, h2, h3⟩⟩

theorem read_value_spec :
    ∀ (s : List Char) (fuel : Nat) (acc : List Char) (c : Char) (xml : cursor),
      Delivers s c xml → s.length < fuel →
      ∃ c1 xml1,
        read_value fuel acc c xml
          = some (acc ++ (s.takeWhile (fun c => decide (c ≠ '<'))).take
              (BUF_SIZE - acc.length), c1, xml1)
        ∧ Delivers (s.drop ((s.takeWhile (fun c => decide (c ≠ '<'))).take
              (BUF_SIZE - acc.length)).length) c1 xml1 := by
  intro s
  induction s with
  | nil =>
    intro fuel acc c xml h hf
    obtain ⟨f, rfl⟩ : ∃ f, fuel = f + 1 := ⟨fuel - 1, by simp at hf; omega⟩
    have hc : c = NUL := h
    refine ⟨c, xml, ?_, by simpa using h⟩
    rw [read_value, if_neg (by simp [hc])]
    simp
  | cons d s ih =>
    intro fuel acc c xml h hf
    obtain ⟨f, rfl⟩ : ∃ f, fuel = f + 1 := ⟨fuel - 1, by simp at hf; omega⟩
    obtain ⟨h1, h2, h3⟩ := h
    by_cases hd : acc.length < BUF_SIZE ∧ d ≠ '<'
    · rw [read_value, if_pos (by rw [h1]; exact ⟨hd.1, hd.2, h2⟩)]
      obtain ⟨c1, xml1, e1, e2⟩ := ih f (acc ++ [c]) _ _ h3 (by simp at hf; omega)
      have hl : BUF_SIZE - acc.length = (BUF_SIZE - (acc ++ [c]).length) + 1 := by
        simp only [List.length_append, List.length_singleton]
        omega
      have hp : (d :: s).takeWhile (fun c => decide (c ≠ '<'))
          = d :: s.takeWhile (fun c => decide (c ≠ '<')) := by
        simp [List.takeWhile_cons, hd.2]
      refine ⟨c1, xml1, ?_, ?_⟩
      · rw [e1, hp, hl, List.take_succ_cons, h1]
        simp
      · rw [hp, hl, List.take_succ_cons, List.length_cons, List.drop_succ_cons]
        exact e2
    · rw [read_value, if_neg (by rw [h1]; exact fun g => hd ⟨g.1, g.2.1⟩)]
      have e : ((d :: s).takeWhile (fun c => decide (c ≠ '<'))).take (BUF_SIZE - acc.length)
          = [] := by
        by_cases hl : acc.length < BUF_SIZE
        · have hn : d = '<' := by
            by_contra g
            exact hd ⟨hl, g⟩
          simp [List.takeWhile_cons, hn]
        · have e0 : BUF_SIZE - acc.length = 0 := by omega
          rw [e0]
          rfl
      rw [e]
      exact ⟨c, xml, by simp, ⟨h1, h2, h3⟩⟩

theorem match_name_spec : ∀ (p s : List Char) (c : Char) (xml : cursor),
    Delivers s c xml → (∀ d ∈ p, d ≠ NUL) →
    ∃ c1 xml1, match_name p c xml = ((text_match p s).1, c1, xml1)
      ∧ Delivers (text_match p s).2 c1 xml1
  | [], s, c, xml, h, _ => ⟨c, xml, rfl, h⟩
  | d :: p, [], c, xml, h, hp => by
    have hc : c = NUL := h
    have hd : d ≠ NUL := hp d (by simp)
    refine ⟨c, xml, ?_, h⟩
    rw [match_name, if_neg (by rw [hc]; exact fun g => hd g.symm)]
    rfl
  | d :: p, e :: s, c, xml, h, hp => by
    obtain ⟨h1, h2, h3⟩ := h
    by_cases hd : e = d
    · rw [match_name, if_pos (by rw [h1]; exact hd), text_match, if_pos hd]
      exact match_name_spec p s _ _ h3 (fun x hx => hp x (by simp [hx]))
    · rw [match_name, if_neg (by rw [h1]; exact hd), text_match, if_neg hd]
      exact ⟨c, xml, rfl, ⟨h1, h2, h3⟩⟩

/-! ### A round of the outer loop on the cursor and on the text -/

theorem length_dropWhile_le (p : Char → Bool) (s : List Char) :
    (s.dropWhile p).length ≤ s.length := by
  induction s with
  | nil => simp
  | cons d s ih =>
    by_cases h : p d = true
    · rw [List.dropWhile_cons_of_pos h]
      simp only [List.length_cons]
      omega
    · rw [List.dropWhile_cons_of_neg h]

theorem text_name_letters (s : List Char) : ∀ d ∈ text_name s, d ≠ NUL := by
  intro d hd
  have h1 : d ∈ s.takeWhile is_letter := List.mem_of_mem_take hd
  have h2 := List.mem_takeWhile_imp h1
  intro e
  rw [e, is_letter_NUL] at h2
  exact absurd h2 (by simp)

theorem scan_element_spec (inner : Nat) (h : upnphttp) (ele_name s : List Char) (c : Char)
    (xml : cursor) (hd : Delivers s c xml) (hi : s.length < inner)
    (hn : ∀ d ∈ ele_name, d ≠ NUL) :
    ∃ r, scan_element inner h ele_name c xml = some r ∧ StepRel r (text_element h ele_name s) := by
  unfold scan_element text_element
  obtain ⟨c1, xml1, e1, d1⟩ := skip_until_spec '>' s inner c xml hd hi
  have l1 := length_dropWhile_le (fun c => decide (c ≠ '>')) s
  rw [e1]
  dsimp only
  by_cases h1 : s.dropWhile (fun c => decide (c ≠ '>')) = []
  · rw [if_pos ((delivers_nil_iff _ _ _ d1).mpr h1), if_pos h1]
    exact ⟨_, rfl, rfl⟩
  · rw [if_neg (fun g => h1 ((delivers_nil_iff _ _ _ d1).mp g)), if_neg h1]
    have d2 := delivers_tail _ _ _ d1 h1
    have l2 : (s.dropWhile (fun c => decide (c ≠ '>'))).tail.length ≤ s.length := by
      rw [List.length_tail]
      omega
    obtain ⟨c3, xml3, e3, d3⟩ := skip_white_space_spec _ inner _ _ d2 (by omega)
    have l3 := length_dropWhile_le is_white_space
      (s.dropWhile (fun c => decide (c ≠ '>'))).tail
    rw [e3]
    dsimp only
    generalize hs5 : (s.dropWhile (fun c => decide (c ≠ '>'))).tail.dropWhile is_white_space
      = s5 at d3 l3
    obtain ⟨c4, xml4, e4, d4⟩ := read_value_spec s5 inner [] _ _ d3 (by omega)
    simp only [List.nil_append, List.length_nil, Nat.sub_zero] at e4 d4
    rw [e4]
    dsimp only
    have ev : (s5.takeWhile (fun c => decide (c ≠ '<'))).take BUF_SIZE = text_value s5 := rfl
    rw [ev] at d4 ⊢
    by_cases h4 : (text_value s5).length = BUF_SIZE ∨ s5.drop (text_value s5).length = []
    · have h4c : (text_value s5).length = BUF_SIZE ∨ c4 = NUL := by
        rcases h4 with g | g
        · exact Or.inl g
        · exact Or.inr ((delivers_nil_iff _ _ _ d4).mpr g)
      rw [if_pos h4c, if_pos h4]
      exact ⟨_, rfl, rfl⟩
    · have h4c : ¬ ((text_value s5).length = BUF_SIZE ∨ c4 = NUL) := by
        intro g
        rcases g with g | g
        · exact h4 (Or.inl g)
        · exact h4 (Or.inr ((delivers_nil_iff _ _ _ d4).mp g))
      rw [if_neg h4c, if_neg h4]
      have hne : s5.drop (text_value s5).length ≠ [] := fun g => h4 (Or.inr g)
      have d5 := delivers_tail _ _ _ d4 hne
      have hh := delivers_head _ _ _ d5
      by_cases h5 : (s5.drop (text_value s5).length).tail.headD NUL ≠ '/'
      · rw [if_pos (by rw [hh]; exact h5), if_pos h5]
        exact ⟨_, rfl, rfl, rfl, d5⟩
      · rw [if_neg (by rw [hh]; exact h5), if_neg h5]
        have hne2 : (s5.drop (text_value s5).length).tail ≠ [] := by
          intro g
          rw [g] at h5
          exact h5 (by decide)
        have d6 := delivers_tail _ _ _ d5 hne2
        obtain ⟨c7, xml7, e7, d7⟩ := match_name_spec ele_name _ _ _ d6 hn
        rw [e7]
        dsimp only
        have hh7 := delivers_head _ _ _ d7
        rw [hh7]
        exact ⟨_, rfl, rfl, rfl, by rw [← hh7]; exact d7⟩

theorem scan_tag_spec (inner : Nat) (h : upnphttp) (s : List Char) (c : Char)
    (xml : cursor) (hd : Delivers s c xml) (hi : s.length < inner) :
    ∃ r, scan_tag inner h c xml = some r ∧ StepRel r (text_tag h s) := by
  unfold scan_tag text_tag
  obtain ⟨c1, xml1, e1, d1⟩ := read_name_spec s inner [] c xml hd hi
  simp only [List.nil_append, List.length_nil, Nat.sub_zero] at e1 d1
  have en : (s.takeWhile is_letter).take 20 = text_name s := rfl
  rw [en] at e1 d1
  rw [e1]
  dsimp only
  have hh := delivers_head _ _ _ d1
  rw [hh]
  split
  · exact ⟨_, rfl, rfl, rfl, by rw [← hh]; exact d1⟩
  · have l1 : (s.drop (text_name s).length).length ≤ s.length := by
      rw [List.length_drop]
      omega
    have key := scan_element_spec inner h (text_name s) _ c1 xml1 d1 (by omega)
      (text_name_letters s)
    rw [hh] at key
    exact key

theorem scan_round_spec (inner : Nat) (flag : Bool) (h : upnphttp) (s : List Char) (c : Char)
    (xml : cursor) (hd : Delivers s c xml) (hi : s.length < inner) :
    ∃ r, scan_round inner flag h c xml = some r ∧ StepRel r (text_step flag h s) := by
  unfold scan_round text_step
  cases flag with
  | true =>
    simp only [if_true]
    exact scan_tag_spec inner h s c xml hd hi
  | false =>
    simp only [Bool.false_eq_true, if_false]
    by_cases h0 : s = []
    · rw [if_pos ((delivers_nil_iff _ _ _ hd).mpr h0), if_pos h0]
      exact ⟨_, rfl, rfl⟩
    · rw [if_neg (fun g => h0 ((delivers_nil_iff _ _ _ hd).mp g)), if_neg h0]
      obtain ⟨c1, xml1, e1, d1⟩ := skip_until_spec '<' s inner c xml hd hi
      have l1 := length_dropWhile_le (fun c => decide (c ≠ '<')) s
      rw [e1]
      dsimp only
      by_cases h1 : s.dropWhile (fun c => decide (c ≠ '<')) = []
      · rw [if_pos ((delivers_nil_iff _ _ _ d1).mpr h1), if_pos h1]
        exact ⟨_, rfl, rfl⟩
      · rw [if_neg (fun g => h1 ((delivers_nil_iff _ _ _ d1).mp g)), if_neg h1]
        have d2 := delivers_tail _ _ _ d1 h1
        exact scan_tag_spec inner h _ _ _ d2 (by rw [List.length_tail]; omega)

theorem text_match_length : ∀ (p s : List Char), (text_match p s).2.length ≤ s.length
  | [], s => by simp [text_match]
  | _ :: _, [] => by simp [text_match]
  | d :: p, c :: s => by
    rw [text_match]
    split
    · have := text_match_length p s
      simp only [List.length_cons]
      omega
    · exact Nat.le_refl _

theorem text_element_measure (h : upnphttp) (ele_name s : List Char) (f : Bool)
    (h1 : upnphttp) (s1 : List Char)
    (e : text_element h ele_name s = TextStep.next f h1 s1) :
    2 * s1.length + (if f then 1 else 0) ≤ 2 * s.length := by
  unfold text_element at e
  split at e
  · cases e
  · rename_i h4
    dsimp only at e
    have l4 := length_dropWhile_le (fun c => decide (c ≠ '>')) s
    have p4 : 0 < (s.dropWhile (fun c => decide (c ≠ '>'))).length := List.length_pos.mpr h4
    have l5 := length_dropWhile_le is_white_space (s.dropWhile (fun c => decide (c ≠ '>'))).tail
    rw [List.length_tail] at l5
    generalize (s.dropWhile (fun c => decide (c ≠ '>'))).tail.dropWhile is_white_space
      = s5 at e l5
    split at e
    · cases e
    · rename_i h6
      have h6b : s5.drop (text_value s5).length ≠ [] := fun g => h6 (Or.inr g)
      have p6 : 0 < (s5.drop (text_value s5).length).length := List.length_pos.mpr h6b
      have l6 : (s5.drop (text_value s5).length).length ≤ s5.length := by
        rw [List.length_drop]
        omega
      split at e
      · simp only [TextStep.next.injEq] at e
        obtain ⟨e1, _, e3⟩ := e
        rw [← e1, ← e3, List.length_tail]
        simp only [if_true]
        omega
      · simp only [TextStep.next.injEq] at e
        obtain ⟨e1, _, e3⟩ := e
        have l7 := text_match_length ele_name (s5.drop (text_value s5).length).tail.tail
        rw [List.length_tail, List.length_tail] at l7
        rw [← e1, ← e3]
        simp only [Bool.false_eq_true, if_false]
        omega

theorem text_tag_measure (h : upnphttp) (s : List Char) (f : Bool) (h1 : upnphttp)
    (s1 : List Char) (e : text_tag h s = TextStep.next f h1 s1) :
    2 * s1.length + (if f then 1 else 0) ≤ 2 * s.length := by
  unfold text_tag at e
  have l1 : (s.drop (text_name s).length).length ≤ s.length := by
    rw [List.length_drop]
    omega
  split at e
  · simp only [TextStep.next.injEq] at e
    obtain ⟨e1, _, e3⟩ := e
    rw [← e1, ← e3]
    simp only [Bool.false_eq_true, if_false]
    omega
  · have := text_element_measure h _ _ f h1 s1 e
    omega

theorem text_step_measure (flag : Bool) (h : upnphttp) (s : List Char) (f : Bool)
    (h1 : upnphttp) (s1 : List Char) (e : text_step flag h s = TextStep.next f h1 s1) :
    2 * s1.length + (if f then 1 else 0) < 2 * s.length + (if flag then 1 else 0) := by
  unfold text_step at e
  cases flag with
  | true =>
    simp only [if_true] at e ⊢
    have := text_tag_measure h s f h1 s1 e
    omega
  | false =>
    simp only [Bool.false_eq_true, if_false] at e ⊢
    split at e
    · cases e
    · split at e
      · cases e
      · rename_i h2
        have l1 := length_dropWhile_le (fun c => decide (c ≠ '<')) s
        have p1 : 0 < (s.dropWhile (fun c => decide (c ≠ '<'))).length := List.length_pos.mpr h2
        have := text_tag_measure h _ f h1 s1 e
        rw [List.length_tail] at this
        omega

theorem scan_elements_eq_scan_text (inner : Nat) : ∀ (fuel : Nat) (flag : Bool)
    (h : upnphttp) (s : List Char) (c : Char) (xml : cursor),
    Delivers s c xml → s.length < inner →
    scan_elements inner fuel flag h c xml = scan_text fuel flag h s := by
  intro fuel
  induction fuel with
  | zero =>
    intro flag h s c xml _ _
    rfl
  | succ fuel ih =>
    intro flag h s c xml hd hi
    obtain ⟨r, e1, e2⟩ := scan_round_spec inner flag h s c xml hd hi
    rw [scan_elements, scan_text, e1]
    cases r with
    | done h1 =>
      cases ht : text_step flag h s with
      | done h2 =>
        rw [ht] at e2
        have e3 : h1 = h2 := e2
        rw [e3]
      | next f2 h2 s2 =>
        rw [ht] at e2
        exact absurd e2 (by simp [StepRel])
    | next f1 h1 c1 xml1 =>
      cases ht : text_step flag h s with
      | done h2 =>
        rw [ht] at e2
        exact absurd e2 (by simp [StepRel])
      | next f2 h2 s2 =>
        rw [ht] at e2
        obtain ⟨g1, g2, g3⟩ := e2
        have hm := text_step_measure flag h s f2 h2 s2 ht
        subst g1
        subst g2
        dsimp only
        apply ih
        · exact g3
        · have : s2.length ≤ s.length := by
            cases f1 <;> cases flag <;> simp at hm <;> omega
          omega

theorem scan_text_succ : ∀ (fuel : Nat) (flag : Bool) (h : upnphttp) (s : List Char),
    2 * s.length + (if flag then 1 else 0) < fuel →
    scan_text (fuel + 1) flag h s = scan_text fuel flag h s ∧ (scan_text fuel flag h s).isSome := by
  intro fuel
  induction fuel with
  | zero =>
    intro flag h s hm
    omega
  | succ fuel ih =>
    intro flag h s hm
    rw [scan_text, scan_text]
    cases ht : text_step flag h s with
    | done h2 => exact ⟨rfl, rfl⟩
    | next f2 h2 s2 =>
      have hm2 := text_step_measure flag h s f2 h2 s2 ht
      dsimp only
      exact ih f2 h2 s2 (by omega)

theorem scan_text_stable (flag : Bool) (h : upnphttp) (s : List Char) :
    ∀ (k fuel : Nat), 2 * s.length + (if flag then 1 else 0) < fuel →
    scan_text (fuel + k) flag h s = scan_text fuel flag h s
  | 0, _, _ => rfl
  | k + 1, fuel, hm => by
    have e : fuel + (k + 1) = (fuel + k) + 1 := by omega
    rw [e, (scan_text_succ (fuel + k) flag h s (by omega)).1]
    exact scan_text_stable flag h s k fuel hm

theorem scan_text_fuel (flag : Bool) (h : upnphttp) (s : List Char) (fuel1 fuel2 : Nat)
    (h1 : 2 * s.length + (if flag then 1 else 0) < fuel1)
    (h2 : 2 * s.length + (if flag then 1 else 0) < fuel2) :
    scan_text fuel1 flag h s = scan_text fuel2 flag h s := by
  by_cases hle : fuel1 ≤ fuel2
  · have e : fuel2 = fuel1 + (fuel2 - fuel1) := by omega
    rw [e, scan_text_stable flag h s _ fuel1 h1]
  · have e : fuel1 = fuel2 + (fuel1 - fuel2) := by omega
    rw [e, scan_text_stable flag h s _ fuel2 h2]

/-! ### What the cursor delivers without chunks -/

theorem plain_delivers : ∀ (B rest : List Char),
    Delivers (B.takeWhile (fun c => decide (c ≠ NUL)))
      (read_char { fd := B ++ rest, bytes_left := B.length, chunked := ChunkMode.NO_CHUNK }).1
      (read_char { fd := B ++ rest, bytes_left := B.length, chunked := ChunkMode.NO_CHUNK }).2
  | [], rest => by
    simp [read_char, Delivers]
  | b :: B, rest => by
    have hb : ¬ (((b :: B).length : Nat) : Int) = 0 := by simp; omega
    have e : read_char ⟨(b :: B) ++ rest, ((b :: B).length : Int), ChunkMode.NO_CHUNK⟩
        = (b, ⟨B ++ rest, (B.length : Int), ChunkMode.NO_CHUNK⟩) := by
      unfold read_char
      rw [if_neg hb]
      simp [read_payload_byte]
    rw [e]
    by_cases h0 : b = NUL
    · simp [h0, Delivers]
    · have hp : (b :: B).takeWhile (fun c => decide (c ≠ NUL))
          = b :: B.takeWhile (fun c => decide (c ≠ NUL)) := by
        simp [List.takeWhile_cons, h0]
      rw [hp]
      exact ⟨rfl, h0, plain_delivers B rest⟩

theorem takeWhile_length_le (p : Char → Bool) (s : List Char) :
    (s.takeWhile p).length ≤ s.length := by
  induction s with
  | nil => simp
  | cons d s ih =>
    by_cases h : p d = true
    · rw [List.takeWhile_cons_of_pos h]
      simp only [List.length_cons]
      omega
    · rw [List.takeWhile_cons_of_neg h]
      simp

theorem process_post_content_plain (h : upnphttp) (B rest : List Char)
    (hc : h.reqflags &&& FLAG_CHUNKED = 0) (hl : h.data_len = (B.length : Int)) :
    process_post_content h (B ++ rest)
      = scan_text (2 * (B ++ rest).length + 2) false h
          (B.takeWhile (fun c => decide (c ≠ NUL))) := by
  unfold process_post_content
  have hc2 : ¬ (h.reqflags &&& FLAG_CHUNKED ≠ 0) := by simp [hc]
  simp only [if_neg hc2, hl]
  have l := takeWhile_length_le (fun c => decide (c ≠ NUL)) B
  apply scan_elements_eq_scan_text _ _ _ _ _ _ _ (plain_delivers B rest)
  rw [List.length_append]
  omega

/-! ### What the cursor delivers from a chunked body -/

theorem scan_hex_digits_spec (t : List Char) : ∀ (ds : List Char) (acc : Nat),
    (∀ c ∈ ds, (hex_value c).isSome = true) →
    scan_hex_digits (ds ++ CR :: t) acc
      = (ds.foldl (fun a c => a * 16 + (hex_value c).getD 0) acc, CR :: t) := by
  intro ds
  induction ds with
  | nil =>
    intro acc _
    have e : hex_value CR = none := by decide
    simp [scan_hex_digits, e]
  | cons d ds ih =>
    intro acc h
    obtain ⟨v, hv⟩ := Option.isSome_iff_exists.mp (h d (by simp))
    simp only [List.cons_append, scan_hex_digits, hv, List.foldl_cons, Option.getD_some]
    exact ih _ (fun c hc => h c (by simp [hc]))

theorem hex_digit_facts (c : Char) (h : (hex_value c).isSome = true) :
    isspace c = false ∧ c ≠ '-' ∧ c ≠ '+' ∧ c ≠ 'x' ∧ c ≠ 'X' ∧ c ≠ CR := by
  have hn : (65 ≤ c.toNat ∧ c.toNat ≤ 70) ∨ (97 ≤ c.toNat ∧ c.toNat ≤ 102)
      ∨ (48 ≤ c.toNat ∧ c.toNat ≤ 57) := by
    unfold hex_value at h
    have a1 : 'A'.toNat = 65 ∧ 'F'.toNat = 70 ∧ 'a'.toNat = 97 ∧ 'f'.toNat = 102
        ∧ '0'.toNat = 48 ∧ '9'.toNat = 57 := by decide
    obtain ⟨b1, b2, b3, b4, b5, b6⟩ := a1
    rw [b1, b2, b3, b4, b5, b6] at h
    by_cases g1 : 65 ≤ c.toNat ∧ c.toNat ≤ 70
    · exact Or.inl g1
    · by_cases g2 : 97 ≤ c.toNat ∧ c.toNat ≤ 102
      · exact Or.inr (Or.inl g2)
      · by_cases g3 : 48 ≤ c.toNat ∧ c.toNat ≤ 57
        · exact Or.inr (Or.inr g3)
        · rw [if_neg g1, if_neg g2, if_neg g3] at h
          exact absurd h (by simp)
  have ne : ∀ d : Char, c.toNat ≠ d.toNat → c ≠ d := fun d g e => g (by rw [e])
  have a2 : ' '.toNat = 32 ∧ '-'.toNat = 45 ∧ '+'.toNat = 43 ∧ 'x'.toNat = 120
      ∧ 'X'.toNat = 88 ∧ CR.toNat = 13 := by decide
  obtain ⟨b1, b2, b3, b4, b5, b6⟩ := a2
  refine ⟨?_, ne _ (by omega), ne _ (by omega), ne _ (by omega), ne _ (by omega),
    ne _ (by omega)⟩
  unfold isspace
  have e : (c = ' ') = (c.toNat = ' '.toNat) := propext (char_eq_iff c ' ')
  simp only [e, b1, decide_eq_false_iff_not]
  omega

theorem hex_number_lt (hdr : List Char) (hh : ∀ c ∈ hdr, (hex_value c).isSome = true) :
    hex_number hdr < 16 ^ hdr.length := by
  unfold hex_number
  have key : ∀ (ds : List Char) (acc : Nat), (∀ c ∈ ds, (hex_value c).isSome = true) →
      ds.foldl (fun a c => a * 16 + (hex_value c).getD 0) acc + 1
        ≤ (acc + 1) * 16 ^ ds.length := by
    intro ds
    induction ds with
    | nil =>
      intro acc _
      simp
    | cons d ds ih =>
      intro acc h
      obtain ⟨v, hv⟩ := Option.isSome_iff_exists.mp (h d (by simp))
      have hlt := hex_value_lt d v hv
      have h1 := ih (acc * 16 + v) (fun c hc => h c (by simp [hc]))
      simp only [List.foldl_cons, hv, Option.getD_some, List.length_cons]
      have h2 : (acc * 16 + v + 1) * 16 ^ ds.length ≤ (acc + 1) * 16 ^ (ds.length + 1) := by
        rw [pow_succ]
        have : acc * 16 + v + 1 ≤ (acc + 1) * 16 := by omega
        calc (acc * 16 + v + 1) * 16 ^ ds.length
            ≤ ((acc + 1) * 16) * 16 ^ ds.length := Nat.mul_le_mul_right _ this
          _ = (acc + 1) * (16 ^ ds.length * 16) := by ring
      omega
  have := key hdr 0 hh
  simp only [Nat.zero_add, Nat.one_mul] at this
  omega

theorem skip_hex_prefix_id (s : List Char)
    (h : ∀ x d u, s = '0' :: x :: d :: u → x ≠ 'x' ∧ x ≠ 'X') : skip_hex_prefix s = s := by
  unfold skip_hex_prefix
  split
  · rename_i x d u
    obtain ⟨h1, h2⟩ := h x d u rfl
    rw [if_neg (by
      intro g
      rcases g.1 with e | e
      · exact h1 e
      · exact h2 e)]
  · rfl

theorem strtoll_sign_id (c : Char) (t : List Char) (h1 : c ≠ '-') (h2 : c ≠ '+') :
    strtoll_sign (c :: t) = (false, c :: t) := by
  unfold strtoll_sign
  split
  · rename_i e
    simp only [List.cons.injEq] at e
    exact absurd e.1 h1
  · rename_i e
    simp only [List.cons.injEq] at e
    exact absurd e.1 h2
  · rfl

theorem strtoll_hex_header (hdr : List Char) (hne : hdr ≠ [])
    (hh : ∀ c ∈ hdr, (hex_value c).isSome = true) (hl : hdr.length ≤ 3) :
    strtoll_hex (hdr ++ [CR]) = ((hex_number hdr : Int), [CR]) := by
  obtain ⟨c, t, rfl⟩ := List.exists_cons_of_ne_nil hne
  obtain ⟨f1, f2, f3, f4, f5, f6⟩ := hex_digit_facts c (hh c (by simp))
  have hlt := hex_number_lt (c :: t) hh
  have hpow : 16 ^ (c :: t).length ≤ 16 ^ 3 := Nat.pow_le_pow_right (by omega) hl
  have hdw : (c :: t ++ [CR]).dropWhile isspace = c :: (t ++ [CR]) := by
    simp [List.dropWhile, f1]
  have hpre : skip_hex_prefix (c :: (t ++ [CR])) = c :: (t ++ [CR]) := by
    apply skip_hex_prefix_id
    intro x d u e
    simp only [List.cons.injEq] at e
    obtain ⟨_, e2⟩ := e
    cases t with
    | nil =>
      simp only [List.nil_append, List.cons.injEq] at e2
      exact absurd e2.2 (by simp)
    | cons y t =>
      simp only [List.cons_append, List.cons.injEq] at e2
      obtain ⟨g1, g2, g3, g4, g5, g6⟩ := hex_digit_facts y (hh y (by simp))
      rw [← e2.1]
      exact ⟨g4, g5⟩
  unfold strtoll_hex
  rw [hdw, strtoll_sign_id c _ f2 f3]
  dsimp only
  rw [hpre]
  have hhd : (hex_value ((c :: (t ++ [CR])).headD NUL)).isSome = true := hh c (by simp)
  rw [if_pos hhd]
  have e3 : c :: (t ++ [CR]) = (c :: t) ++ CR :: [] := rfl
  rw [e3, scan_hex_digits_spec [] (c :: t) 0 hh]
  have e4 : (c :: t).foldl (fun a c => a * 16 + (hex_value c).getD 0) 0 = hex_number (c :: t) :=
    rfl
  simp only [Bool.false_eq_true, if_false, e4]
  have h5 : ((hex_number (c :: t) : Nat) : Int) < 4096 := by
    have : (16 : Nat) ^ 3 = 4096 := by norm_num
    omega
  have h6 : LLONG_MAX = 9223372036854775807 := by decide
  have h7 : LLONG_MIN = -9223372036854775808 := by decide
  rw [h6, h7]
  congr 1
  omega

theorem read_chunk_header_spec (X : List Char) : ∀ (hdr buf : List Char) (n : Nat),
    (∀ c ∈ hdr, c ≠ CR) → hdr.length < n →
    read_chunk_header n (hdr ++ CR :: X) buf = (some (buf ++ hdr), X) := by
  intro hdr
  induction hdr with
  | nil =>
    intro buf n _ hn
    obtain ⟨m, rfl⟩ : ∃ m, n = m + 1 := ⟨n - 1, by simp at hn; omega⟩
    simp [read_chunk_header]
  | cons d hdr ih =>
    intro buf n h hn
    obtain ⟨m, rfl⟩ : ∃ m, n = m + 1 := ⟨n - 1, by simp at hn; omega⟩
    have hd : d ≠ CR := h d (by simp)
    rw [List.cons_append, read_chunk_header, if_neg hd,
      ih (buf ++ [d]) m (fun c hc => h c (by simp [hc])) (by simp at hn; omega)]
    simp

theorem read_chunk_start_end (bl : Int) :
    (read_chunk_start ⟨['0', CR, LF, CR, LF], bl, ChunkMode.MIDDLE_CHUNK⟩).1 = NUL := by
  have e1 : read_chunk_header 4 ['0', CR, LF, CR, LF] [] = (some ['0'], [LF, CR, LF]) := by
    decide
  have e2 : strtoll_hex (['0'] ++ [CR]) = (0, [CR]) := by decide
  unfold read_chunk_start
  simp only [e1, e2]
  rw [if_neg (by decide), if_pos (by decide)]

theorem read_chunk_start_chunk (hdr q T : List Char) (bl : Int)
    (hv : valid_chunk (hdr, q)) :
    read_chunk_start ⟨hdr ++ [CR, LF] ++ q ++ T, bl, ChunkMode.MIDDLE_CHUNK⟩
      = read_char ⟨q ++ T, (q.length : Int), ChunkMode.MIDDLE_CHUNK⟩ := by
  obtain ⟨v1, v2, v3, v4, v5, v6⟩ := hv
  dsimp only at v1 v2 v3 v4 v5 v6
  have hne : hdr ≠ [] := by
    intro e
    rw [e] at v1
    simp at v1
  have hcr : ∀ c ∈ hdr, c ≠ CR := fun c hc => (hex_digit_facts c (v3 c hc)).2.2.2.2.2
  have e0 : hdr ++ [CR, LF] ++ q ++ T = hdr ++ CR :: (LF :: (q ++ T)) := by simp
  have e1 := read_chunk_header_spec (LF :: (q ++ T)) hdr [] 4 hcr (by omega)
  have e2 := strtoll_hex_header hdr hne v3 v2
  unfold read_chunk_start
  simp only [e0, e1, List.nil_append, e2]
  have hi : to_int32 (hex_number hdr : Int) = (q.length : Int) := by
    rw [v4]
    exact to_int32_small _ (by omega) (by omega)
  rw [if_neg (by
    intro g
    rcases g with g | g
    · have := congrArg List.length g
      simp only [List.length_append, List.length_singleton, List.length_cons,
        List.length_nil] at this
      omega
    · exact g rfl)]
  rw [hi, if_neg (by
    intro g
    rcases g with g | g | g
    · exact g rfl
    · omega
    · omega)]
  unfold read_char
  rw [if_neg (by dsimp only; omega)]

theorem payload_delivers (T Brest : List Char)
    (hT : ∀ bl, Delivers (Brest.takeWhile (fun c => decide (c ≠ NUL)))
      (read_chunk_start ⟨T, bl, ChunkMode.MIDDLE_CHUNK⟩).1
      (read_chunk_start ⟨T, bl, ChunkMode.MIDDLE_CHUNK⟩).2) :
    ∀ p : List Char,
      Delivers ((p ++ Brest).takeWhile (fun c => decide (c ≠ NUL)))
        (read_char ⟨p ++ [CR, LF] ++ T, (p.length : Int), ChunkMode.MIDDLE_CHUNK⟩).1
        (read_char ⟨p ++ [CR, LF] ++ T, (p.length : Int), ChunkMode.MIDDLE_CHUNK⟩).2 := by
  intro p
  induction p with
  | nil =>
    have e : read_char ⟨[] ++ [CR, LF] ++ T, (([] : List Char).length : Int),
        ChunkMode.MIDDLE_CHUNK⟩
        = read_chunk_start ⟨T, 0, ChunkMode.MIDDLE_CHUNK⟩ := by
      unfold read_char
      simp
    rw [e]
    exact hT 0
  | cons b p ih =>
    have hb : ¬ (((b :: p).length : Nat) : Int) = 0 := by simp; omega
    have e : read_char ⟨(b :: p) ++ [CR, LF] ++ T, ((b :: p).length : Int),
        ChunkMode.MIDDLE_CHUNK⟩
        = (b, ⟨p ++ [CR, LF] ++ T, (p.length : Int), ChunkMode.MIDDLE_CHUNK⟩) := by
      unfold read_char
      rw [if_neg hb]
      simp [read_payload_byte]
    rw [e]
    by_cases h0 : b = NUL
    · simp [h0, Delivers]
    · have hp : ((b :: p) ++ Brest).takeWhile (fun c => decide (c ≠ NUL))
          = b :: (p ++ Brest).takeWhile (fun c => decide (c ≠ NUL)) := by
        simp [List.takeWhile_cons, h0]
      rw [hp]
      exact ⟨rfl, h0, ih⟩

theorem chunk_start_delivers : ∀ (chunks : List (List Char × List Char)),
    (∀ chunk ∈ chunks, valid_chunk chunk) → ∀ bl : Int,
    Delivers ((chunks_body chunks).takeWhile (fun c => decide (c ≠ NUL)))
      (read_chunk_start ⟨framed_body chunks, bl, ChunkMode.MIDDLE_CHUNK⟩).1
      (read_chunk_start ⟨framed_body chunks, bl, ChunkMode.MIDDLE_CHUNK⟩).2
  | [], _, bl => by
    have e : framed_body [] = ['0', CR, LF, CR, LF] := rfl
    rw [e]
    exact read_chunk_start_end bl
  | (hdr, q) :: chunks, hv, bl => by
    have e1 : framed_body ((hdr, q) :: chunks)
        = hdr ++ [CR, LF] ++ q ++ ([CR, LF] ++ framed_body chunks) := by
      simp [framed_body, framed_chunk]
    have e2 : chunks_body ((hdr, q) :: chunks) = q ++ chunks_body chunks := by
      simp [chunks_body]
    have e3 : q ++ ([CR, LF] ++ framed_body chunks) = q ++ [CR, LF] ++ framed_body chunks := by
      simp
    rw [e1, e2, read_chunk_start_chunk hdr q _ bl (hv _ (by simp)), e3]
    exact payload_delivers (framed_body chunks) (chunks_body chunks)
      (chunk_start_delivers chunks (fun c hc => hv c (by simp [hc]))) q

theorem chunked_delivers (chunks : List (List Char × List Char))
    (hv : ∀ chunk ∈ chunks, valid_chunk chunk) :
    Delivers ((chunks_body chunks).takeWhile (fun c => decide (c ≠ NUL)))
      (read_char ⟨framed_body chunks, 0, ChunkMode.FIRST_CHUNK⟩).1
      (read_char ⟨framed_body chunks, 0, ChunkMode.FIRST_CHUNK⟩).2 := by
  have e : read_char ⟨framed_body chunks, 0, ChunkMode.FIRST_CHUNK⟩
      = read_chunk_start ⟨framed_body chunks, 0, ChunkMode.MIDDLE_CHUNK⟩ := by
    unfold read_char
    simp
  rw [e]
  exact chunk_start_delivers chunks hv 0

/-! ### The chunked body and the plain body give the same fields -/

theorem process_name_value_pair_args (h h1 : upnphttp) (name value : List Char)
    (e : browse_args h = browse_args h1) :
    browse_args (process_name_value_pair h name value)
      = browse_args (process_name_value_pair h1 name value) := by
  unfold browse_args at e ⊢
  simp only [Prod.mk.injEq] at e
  obtain ⟨e1, e2, e3⟩ := e
  unfold process_name_value_pair
  dsimp only
  split_ifs <;> simp [e1, e2, e3]

theorem text_element_args (h h1 : upnphttp) (ele_name s : List Char)
    (e : browse_args h = browse_args h1) :
    (text_element h ele_name s).args = (text_element h1 ele_name s).args := by
  unfold text_element
  dsimp only
  split_ifs <;> simp [TextStep.args, e, process_name_value_pair_args _ _ _ _ e]

theorem text_tag_args (h h1 : upnphttp) (s : List Char)
    (e : browse_args h = browse_args h1) :
    (text_tag h s).args = (text_tag h1 s).args := by
  unfold text_tag
  split_ifs
  · simp [TextStep.args, e]
  · exact text_element_args h h1 _ _ e

theorem text_step_args (flag : Bool) (h h1 : upnphttp) (s : List Char)
    (e : browse_args h = browse_args h1) :
    (text_step flag h s).args = (text_step flag h1 s).args := by
  unfold text_step
  split_ifs
  · exact text_tag_args h h1 _ e
  · simp [TextStep.args, e]
  · simp [TextStep.args, e]
  · exact text_tag_args h h1 _ e

theorem scan_text_args : ∀ (fuel : Nat) (flag : Bool) (h h1 : upnphttp) (s : List Char),
    browse_args h = browse_args h1 →
    (scan_text fuel flag h s).map browse_args = (scan_text fuel flag h1 s).map browse_args := by
  intro fuel
  induction fuel with
  | zero =>
    intro flag h h1 s _
    rfl
  | succ fuel ih =>
    intro flag h h1 s e
    have ha := text_step_args flag h h1 s e
    rw [scan_text, scan_text]
    cases h2 : text_step flag h s with
    | done a =>
      cases h3 : text_step flag h1 s with
      | done b =>
        rw [h2, h3] at ha
        simp only [TextStep.args, Prod.mk.injEq, true_and] at ha
        simp [ha]
      | next f b s1 =>
        rw [h2, h3] at ha
        simp [TextStep.args] at ha
    | next f a s1 =>
      cases h3 : text_step flag h1 s with
      | done b =>
        rw [h2, h3] at ha
        simp [TextStep.args] at ha
      | next f1 b s2 =>
        rw [h2, h3] at ha
        simp only [TextStep.args, Prod.mk.injEq, Option.some.injEq] at ha
        obtain ⟨⟨g1, g2⟩, g3⟩ := ha
        subst g1
        subst g2
        exact ih f a b s1 g3

theorem chunks_body_length_le : ∀ chunks : List (List Char × List Char),
    (chunks_body chunks).length ≤ (framed_body chunks).length
  | [] => by simp [chunks_body]
  | chunk :: chunks => by
    have ih := chunks_body_length_le chunks
    have e1 : chunks_body (chunk :: chunks) = chunk.2 ++ chunks_body chunks := by
      simp [chunks_body]
    have e2 : framed_body (chunk :: chunks) = framed_chunk chunk ++ framed_body chunks := by
      simp [framed_body]
    rw [e1, e2, List.length_append, List.length_append]
    have : chunk.2.length ≤ (framed_chunk chunk).length := by
      simp [framed_chunk]
      omega
    omega

/-- Claim C15.  For every body `B` and every split of `B` into chunks of 1 to 2048 bytes,
each framed as hexadecimal length (at most three digits), CR LF, payload, CR LF, and
followed by the terminating zero-length chunk, `process_post_content` in chunked mode
returns and extracts the same `remote_dirpath`, `starting_index` and `requested_count` as
it extracts from the unframed `B` read with `Content-Length` equal to the length of
`B`. -/
theorem chunked_body_same_fields (hc hp : upnphttp) (chunks : List (List Char × List Char))
    (hv : ∀ chunk ∈ chunks, valid_chunk chunk)
    (hfc : hc.reqflags &&& FLAG_CHUNKED ≠ 0)
    (hfp : hp.reqflags &&& FLAG_CHUNKED = 0)
    (hlen : hp.data_len = ((chunks_body chunks).length : Int))
    (hargs : browse_args hc = browse_args hp) :
    ∃ rc rp, process_post_content hc (framed_body chunks) = some rc
      ∧ process_post_content hp (chunks_body chunks) = some rp
      ∧ rc.remote_dirpath = rp.remote_dirpath
      ∧ rc.starting_index = rp.starting_index
      ∧ rc.requested_count = rp.requested_count := by
  have hplain := process_post_content_plain hp (chunks_body chunks) [] hfp hlen
  rw [List.append_nil] at hplain
  have lt := takeWhile_length_le (fun c => decide (c ≠ NUL)) (chunks_body chunks)
  have hlenB := chunks_body_length_le chunks
  have hchunk : process_post_content hc (framed_body chunks)
      = scan_text (2 * (framed_body chunks).length + 2) false hc
          ((chunks_body chunks).takeWhile (fun c => decide (c ≠ NUL))) := by
    unfold process_post_content
    simp only [if_pos hfc]
    exact scan_elements_eq_scan_text _ _ _ _ _ _ _ (chunked_delivers chunks hv) (by omega)
  have hfuel := scan_text_fuel false hc
    ((chunks_body chunks).takeWhile (fun c => decide (c ≠ NUL)))
    (2 * (framed_body chunks).length + 2) (2 * (chunks_body chunks).length + 2)
    (by simp only [Bool.false_eq_true, if_false]; omega)
    (by simp only [Bool.false_eq_true, if_false]; omega)
  have hsome := (scan_text_succ (2 * (chunks_body chunks).length + 2) false hc
    ((chunks_body chunks).takeWhile (fun c => decide (c ≠ NUL)))
    (by simp only [Bool.false_eq_true, if_false]; omega)).2
  obtain ⟨rc, hrc⟩ := Option.isSome_iff_exists.mp hsome
  have hmap := scan_text_args (2 * (chunks_body chunks).length + 2) false hc hp
    ((chunks_body chunks).takeWhile (fun c => decide (c ≠ NUL))) hargs
  rw [hrc] at hmap
  cases hrp : scan_text (2 * (chunks_body chunks).length + 2) false hp
      ((chunks_body chunks).takeWhile (fun c => decide (c ≠ NUL))) with
  | none =>
    rw [hrp] at hmap
    simp at hmap
  | some rp =>
    rw [hrp] at hmap
    simp only [Option.map_some', Option.some.injEq, browse_args, Prod.mk.injEq] at hmap
    refine ⟨rc, rp, ?_, ?_, hmap.1, hmap.2.1, hmap.2.2⟩
    · rw [hchunk, hfuel, hrc]
    · rw [hplain, hrp]

/-! ### The scanner on the segments of a request -/

theorem dropWhile_ne_append (x : Char) (Y : List Char) : ∀ t : List Char,
    (∀ c ∈ t, c ≠ x) →
    (t ++ x :: Y).dropWhile (fun c => decide (c ≠ x)) = x :: Y
  | [], _ => by simp [List.dropWhile]
  | d :: t, h => by
    have hd : d ≠ x := h d (by simp)
    have e : (d :: t ++ x :: Y).dropWhile (fun c => decide (c ≠ x))
        = (t ++ x :: Y).dropWhile (fun c => decide (c ≠ x)) := by
      simp [List.dropWhile, hd]
    rw [e]
    exact dropWhile_ne_append x Y t (fun c hc => h c (by simp [hc]))

theorem takeWhile_ne_append (x : Char) (Y : List Char) : ∀ t : List Char,
    (∀ c ∈ t, c ≠ x) →
    (t ++ x :: Y).takeWhile (fun c => decide (c ≠ x)) = t
  | [], _ => by simp [List.takeWhile]
  | d :: t, h => by
    have hd : d ≠ x := h d (by simp)
    have e : (d :: t ++ x :: Y).takeWhile (fun c => decide (c ≠ x))
        = d :: (t ++ x :: Y).takeWhile (fun c => decide (c ≠ x)) := by
      simp [List.takeWhile, hd]
    rw [e, takeWhile_ne_append x Y t (fun c hc => h c (by simp [hc]))]

theorem takeWhile_letters (d : Char) (Y : List Char) (hd : is_letter d = false) :
    ∀ p : List Char, (∀ c ∈ p, is_letter c = true) →
    (p ++ d :: Y).takeWhile is_letter = p
  | [], _ => by simp [List.takeWhile, hd]
  | c :: p, h => by
    have hc : is_letter c = true := h c (by simp)
    rw [List.cons_append, List.takeWhile_cons_of_pos hc,
      takeWhile_letters d Y hd p (fun x hx => h x (by simp [hx]))]

theorem text_name_append (p : List Char) (d : Char) (Y : List Char)
    (hp : ∀ c ∈ p, is_letter c = true) (hl : p.length ≤ 20) (hd : is_letter d = false) :
    text_name (p ++ d :: Y) = p := by
  unfold text_name
  rw [takeWhile_letters d Y hd p hp]
  exact List.take_of_length_le hl

theorem dropWhile_white_space_append (Y : List Char) : ∀ value : List Char,
    (value ++ '<' :: Y).dropWhile is_white_space = value.dropWhile is_white_space ++ '<' :: Y
  | [] => by
    have e : is_white_space '<' = false := by decide
    simp [List.dropWhile, e]
  | c :: value => by
    by_cases hc : is_white_space c = true
    · rw [List.cons_append, List.dropWhile_cons_of_pos hc, List.dropWhile_cons_of_pos hc]
      exact dropWhile_white_space_append Y value
    · rw [List.cons_append, List.dropWhile_cons_of_neg hc, List.dropWhile_cons_of_neg hc]
      rfl

theorem text_match_self (Y : List Char) : ∀ name : List Char,
    text_match name (name ++ Y) = ([], Y)
  | [] => by simp [text_match]
  | c :: name => by
    rw [List.cons_append, text_match, if_pos rfl]
    exact text_match_self Y name

theorem mem_dropWhile (p : Char → Bool) (c : Char) : ∀ s : List Char,
    c ∈ s.dropWhile p → c ∈ s
  | [], h => by simp at h
  | d :: s, h => by
    by_cases hd : p d = true
    · rw [List.dropWhile_cons_of_pos hd] at h
      exact List.mem_cons_of_mem _ (mem_dropWhile p c s h)
    · rw [List.dropWhile_cons_of_neg hd] at h
      exact h

theorem text_step_segment (h : upnphttp) (t0 R : List Char) (seg : Segment)
    (ht : ∀ c ∈ t0, c ≠ '<') (hs : seg.valid) :
    text_step false h (t0 ++ (seg.text ++ R))
      = TextStep.next false (seg.apply h) (seg.left ++ R) := by
  have hgt : is_letter '>' = false := by decide
  have hgw : is_greater_than_sign_or_white_space '>' = true := by decide
  cases seg with
  | skipped p d t =>
    obtain ⟨v1, v2, v3, v4, v5, v6⟩ := hs
    have e0 : t0 ++ ((Segment.skipped p d t).text ++ R) = t0 ++ '<' :: (p ++ d :: (t ++ R)) := by
      simp [Segment.text]
    have e1 := dropWhile_ne_append '<' (p ++ d :: (t ++ R)) t0 ht
    have e2 := text_name_append p d (t ++ R) v1 (by omega) v3
    have e3 : (p ++ d :: (t ++ R)).drop p.length = d :: (t ++ R) := by simp
    unfold text_step
    simp only [Bool.false_eq_true, if_false]
    rw [e0, if_neg (by simp), e1, if_neg (by simp), List.tail_cons]
    unfold text_tag
    rw [e2, e3, if_pos (by
      rcases v5 with g | g
      · left
        rw [g]
        rfl
      · right
        right
        exact g)]
    rfl
  | leaf name value gap =>
    obtain ⟨v1, v2, v3, v4, v5, v6⟩ := hs
    have e0 : t0 ++ ((Segment.leaf name value gap).text ++ R)
        = t0 ++ '<' :: (name ++ '>' :: (value ++ '<' :: ('/' :: (name ++ '>' :: (gap ++ R))))) := by
      simp [Segment.text]
    have e1 := dropWhile_ne_append '<'
      (name ++ '>' :: (value ++ '<' :: ('/' :: (name ++ '>' :: (gap ++ R))))) t0 ht
    have e2 := text_name_append name '>'
      (value ++ '<' :: ('/' :: (name ++ '>' :: (gap ++ R)))) v1 (by omega) hgt
    have e3 : (name ++ '>' :: (value ++ '<' :: ('/' :: (name ++ '>' :: (gap ++ R))))).drop
        name.length = '>' :: (value ++ '<' :: ('/' :: (name ++ '>' :: (gap ++ R)))) := by simp
    unfold text_step
    simp only [Bool.false_eq_true, if_false]
    rw [e0, if_neg (by simp), e1, if_neg (by simp), List.tail_cons]
    unfold text_tag
    rw [e2, e3, if_neg (by
      intro g
      rcases g with g | g | g
      · omega
      · omega
      · rw [List.headD_cons, hgw] at g
        exact absurd g (by simp))]
    unfold text_element
    have e4 : ('>' :: (value ++ '<' :: ('/' :: (name ++ '>' :: (gap ++ R))))).dropWhile
        (fun c => decide (c ≠ '>'))
        = '>' :: (value ++ '<' :: ('/' :: (name ++ '>' :: (gap ++ R)))) := by
      simp [List.dropWhile]
    rw [e4, if_neg (by simp), List.tail_cons, dropWhile_white_space_append]
    have hv : ∀ c ∈ value.dropWhile is_white_space, c ≠ '<' :=
      fun c hc => v4 c (mem_dropWhile _ c value hc)
    have e5 : text_value (value.dropWhile is_white_space
        ++ '<' :: ('/' :: (name ++ '>' :: (gap ++ R)))) = value.dropWhile is_white_space := by
      unfold text_value
      rw [takeWhile_ne_append '<' _ _ hv]
      exact List.take_of_length_le (by omega)
    dsimp only
    rw [e5]
    have e6 : (value.dropWhile is_white_space
        ++ '<' :: ('/' :: (name ++ '>' :: (gap ++ R)))).drop
          (value.dropWhile is_white_space).length
        = '<' :: ('/' :: (name ++ '>' :: (gap ++ R))) := by simp
    rw [e6, if_neg (by
      intro g
      rcases g with g | g
      · omega
      · exact absurd g (by simp)), List.tail_cons, List.headD_cons, if_neg (by simp),
      List.tail_cons, text_match_self, List.headD_cons, if_pos ⟨rfl, hgw⟩]
    rfl

theorem segment_left_no_lt (seg : Segment) (hs : seg.valid) : ∀ c ∈ seg.left, c ≠ '<' := by
  cases seg with
  | skipped p d t =>
    obtain ⟨_, _, _, v4, _, v6⟩ := hs
    intro c hc
    rcases List.mem_cons.mp hc with e | e
    · rw [e]
      exact v4
    · exact v6 c e
  | leaf name value gap =>
    obtain ⟨_, _, _, _, _, v6⟩ := hs
    intro c hc
    rcases List.mem_cons.mp hc with e | e
    · rw [e]
      decide
    · exact v6 c e

theorem scan_text_tail (fuel : Nat) (h : upnphttp) (t0 : List Char)
    (ht : ∀ c ∈ t0, c ≠ '<') : scan_text (fuel + 1) false h t0 = some h := by
  rw [scan_text]
  have e : text_step false h t0 = TextStep.done h := by
    unfold text_step
    simp only [Bool.false_eq_true, if_false]
    by_cases h0 : t0 = []
    · rw [if_pos h0]
    · rw [if_neg h0, if_pos]
      rw [List.dropWhile_eq_nil_iff]
      intro c hc
      simp [ht c hc]
  rw [e]

theorem scan_text_segments : ∀ (segs : List Segment) (fuel : Nat) (h : upnphttp)
    (t0 : List Char), (∀ c ∈ t0, c ≠ '<') → (∀ seg ∈ segs, seg.valid) → segs.length < fuel →
    scan_text fuel false h (t0 ++ (segs.map Segment.text).flatten)
      = some (segs.foldl Segment.apply h)
  | [], fuel, h, t0, ht, _, hf => by
    obtain ⟨f, rfl⟩ : ∃ f, fuel = f + 1 := ⟨fuel - 1, by simp at hf; omega⟩
    simp only [List.map_nil, List.flatten_nil, List.append_nil, List.foldl_nil]
    exact scan_text_tail f h t0 ht
  | seg :: segs, fuel, h, t0, ht, hv, hf => by
    obtain ⟨f, rfl⟩ : ∃ f, fuel = f + 1 := ⟨fuel - 1, by simp at hf; omega⟩
    have e : t0 ++ ((seg :: segs).map Segment.text).flatten
        = t0 ++ (seg.text ++ (segs.map Segment.text).flatten) := by simp
    rw [e, scan_text, text_step_segment h t0 _ seg ht (hv seg (by simp))]
    dsimp only
    rw [List.foldl_cons]
    exact scan_text_segments segs f _ seg.left (segment_left_no_lt seg (hv seg (by simp)))
      (fun s hs => hv s (by simp [hs])) (by simp at hf; omega)

/-! ### Decimal numbers read by atoi -/

theorem digitChar_digit : ∀ k, k < 10 →
    (Nat.digitChar k).isDigit = true ∧ (Nat.digitChar k).toNat - '0'.toNat = k := by
  decide

theorem toDigitsCore_spec : ∀ (fuel n : Nat) (acc : List Char), n < fuel →
    ∃ ds, Nat.toDigitsCore 10 fuel n acc = ds ++ acc ∧ ds ≠ []
      ∧ (∀ c ∈ ds, c.isDigit = true)
      ∧ ∀ a, ds.foldl (fun a c => a * 10 + (c.toNat - '0'.toNat)) a = a * 10 ^ ds.length + n := by
  intro fuel
  induction fuel with
  | zero =>
    intro n acc h
    omega
  | succ fuel ih =>
    intro n acc h
    obtain ⟨d1, d2⟩ := digitChar_digit (n % 10) (Nat.mod_lt _ (by decide))
    unfold Nat.toDigitsCore
    simp only
    split_ifs with h0
    · refine ⟨[Nat.digitChar (n % 10)], rfl, by simp, ?_, ?_⟩
      · intro c hc
        rw [List.mem_singleton] at hc
        rw [hc]
        exact d1
      · intro a
        simp only [List.foldl_cons, List.foldl_nil, List.length_singleton, pow_one, d2]
        omega
    · have hlt : n / 10 < fuel := by omega
      obtain ⟨ds, e1, e2, e3, e4⟩ := ih (n / 10) (Nat.digitChar (n % 10) :: acc) hlt
      refine ⟨ds ++ [Nat.digitChar (n % 10)], ?_, by simp, ?_, ?_⟩
      · rw [e1]
        simp
      · intro c hc
        rcases List.mem_append.mp hc with g | g
        · exact e3 c g
        · rw [List.mem_singleton] at g
          rw [g]
          exact d1
      · intro a
        rw [List.foldl_append, e4 a]
        simp only [List.foldl_cons, List.foldl_nil, List.length_append, List.length_singleton,
          d2, pow_succ]
        have : (a * 10 ^ ds.length + n / 10) * 10 = a * (10 ^ ds.length * 10) + (n / 10) * 10 := by
          ring
        omega

theorem toDigits_spec (n : Nat) :
    Nat.toDigits 10 n ≠ [] ∧ (∀ c ∈ Nat.toDigits 10 n, c.isDigit = true)
    ∧ dec_value (Nat.toDigits 10 n) = n := by
  obtain ⟨ds, e1, e2, e3, e4⟩ := toDigitsCore_spec (n + 1) n [] (by omega)
  rw [List.append_nil] at e1
  unfold Nat.toDigits dec_value
  rw [e1]
  refine ⟨e2, e3, ?_⟩
  rw [e4 0]
  omega

theorem digit_facts (c : Char) (hc : c.isDigit = true) :
    isspace c = false ∧ c ≠ '-' ∧ c ≠ '+' ∧ is_white_space c = false ∧ c ≠ '<' ∧ c ≠ NUL := by
  have hn : 48 ≤ c.toNat ∧ c.toNat ≤ 57 := by
    rw [isDigit_iff] at hc
    simpa using hc
  have ne : ∀ d : Char, c.toNat ≠ d.toNat → c ≠ d := fun d g e => g (by rw [e])
  have a2 : ' '.toNat = 32 ∧ '-'.toNat = 45 ∧ '+'.toNat = 43 ∧ TAB.toNat = 9
      ∧ CR.toNat = 13 ∧ LF.toNat = 10 ∧ '<'.toNat = 60 ∧ NUL.toNat = 0 := by decide
  obtain ⟨b1, b2, b3, b4, b5, b6, b7, b8⟩ := a2
  refine ⟨?_, ne _ (by omega), ne _ (by omega), ?_, ne _ (by omega), ne _ (by omega)⟩
  · unfold isspace
    have e : (c = ' ') = (c.toNat = ' '.toNat) := propext (char_eq_iff c ' ')
    simp only [e, b1, decide_eq_false_iff_not]
    omega
  · unfold is_white_space
    have e : ∀ d : Char, (c = d) = (c.toNat = d.toNat) := fun d => propext (char_eq_iff c d)
    simp only [e, b1, b4, b5, b6, decide_eq_false_iff_not]
    omega

theorem strtoll_plain_digits (ds : List Char) (hne : ds ≠ [])
    (hd : ∀ c ∈ ds, c.isDigit = true) :
    strtoll ds = (max LLONG_MIN (min LLONG_MAX (dec_value ds : Int)), []) := by
  obtain ⟨c, t, rfl⟩ := List.exists_cons_of_ne_nil hne
  have hc := hd c (by simp)
  obtain ⟨hsp, hm, hp, _, _, _⟩ := digit_facts c hc
  have hdw : (c :: t).dropWhile isspace = c :: t := by
    simp [List.dropWhile, hsp]
  have hsc := scan_digits_append (c :: t) 0 [] hd (by
    intro x r e
    exact absurd e (by simp))
  rw [List.append_nil] at hsc
  unfold strtoll
  rw [hdw]
  dsimp only
  split
  · rename_i e
    split at e
    · rename_i e2
      simp only [List.cons.injEq] at e2
      exact absurd e2.1 hm
    · rename_i e2
      simp only [List.cons.injEq] at e2
      exact absurd e2.1 hp
    · simp at e
  · rename_i c1 tail e
    have hsig : ∀ (x : Bool × List Char), x = (false, c :: t) → x.2 = c1 :: tail →
        (if c1.isDigit = true then
          (LLONG_MIN ⊔ LLONG_MAX ⊓ if x.1 = true then -((scan_digits x.2 0).1 : Int)
            else ((scan_digits x.2 0).1 : Int), (scan_digits x.2 0).2)
         else (0, c :: t))
          = (LLONG_MIN ⊔ LLONG_MAX ⊓ ((dec_value (c :: t) : Nat) : Int), []) := by
      intro x hx hx2
      rw [hx] at hx2 ⊢
      simp only [List.cons.injEq] at hx2
      rw [← hx2.1, if_pos hc]
      dsimp only
      rw [hsc]
      simp [dec_value]
    apply hsig _ _ e
    split
    · rename_i e2
      simp only [List.cons.injEq] at e2
      exact absurd e2.1 hm
    · rename_i e2
      simp only [List.cons.injEq] at e2
      exact absurd e2.1 hp
    · rfl

theorem strtoll_minus_digits (ds : List Char) (hne : ds ≠ [])
    (hd : ∀ c ∈ ds, c.isDigit = true) :
    strtoll ('-' :: ds) = (max LLONG_MIN (min LLONG_MAX (-(dec_value ds : Int))), []) := by
  obtain ⟨c, t, rfl⟩ := List.exists_cons_of_ne_nil hne
  have hc := hd c (by simp)
  have hsp : isspace '-' = false := by decide
  have hdw : ('-' :: c :: t).dropWhile isspace = '-' :: c :: t := by
    simp [List.dropWhile, hsp]
  have hsc := scan_digits_append (c :: t) 0 [] hd (by
    intro x r e
    exact absurd e (by simp))
  rw [List.append_nil] at hsc
  unfold strtoll
  rw [hdw]
  dsimp only
  split
  · rename_i e
    split at e
    · rename_i e2
      simp only [List.cons.injEq, true_and] at e2
      rw [← e2] at e
      simp at e
    · rename_i e2
      simp only [List.cons.injEq] at e2
      exact absurd e2.1 (by decide)
    · rename_i e1 e2
      exact absurd rfl (e1 (c :: t))
  · rename_i c1 tail e
    have hsig : ∀ (x : Bool × List Char), x = (true, c :: t) → x.2 = c1 :: tail →
        (if c1.isDigit = true then
          (LLONG_MIN ⊔ LLONG_MAX ⊓ if x.1 = true then -((scan_digits x.2 0).1 : Int)
            else ((scan_digits x.2 0).1 : Int), (scan_digits x.2 0).2)
         else (0, '-' :: c :: t))
          = (LLONG_MIN ⊔ LLONG_MAX ⊓ -((dec_value (c :: t) : Nat) : Int), []) := by
      intro x hx hx2
      rw [hx] at hx2 ⊢
      simp only [List.cons.injEq] at hx2
      rw [← hx2.1, if_pos hc]
      dsimp only
      rw [hsc]
      simp [dec_value]
    apply hsig _ _ e
    split
    · rename_i e2
      simp only [List.cons.injEq, true_and] at e2
      rw [e2]
    · rename_i e2
      simp only [List.cons.injEq] at e2
      exact absurd e2.1 (by decide)
    · rename_i e1 e2
      exact absurd rfl (e1 (c :: t))

theorem atoi_sprintf_d (m : Int) (h1 : -2 ^ 31 ≤ m) (h2 : m < 2 ^ 31) :
    atoi (sprintf_d m) = m := by
  obtain ⟨d1, d2, d3⟩ := toDigits_spec m.natAbs
  have h6 : LLONG_MAX = 9223372036854775807 := by decide
  have h7 : LLONG_MIN = -9223372036854775808 := by decide
  unfold atoi sprintf_d
  by_cases hneg : m < 0
  · rw [if_pos hneg, strtoll_minus_digits _ d1 d2, d3, h6, h7]
    dsimp only
    omega
  · rw [if_neg hneg, strtoll_plain_digits _ d1 d2, d3, h6, h7]
    dsimp only
    omega

theorem sprintf_d_chars (m : Int) :
    ∀ c ∈ sprintf_d m, is_white_space c = false ∧ c ≠ '<' ∧ c ≠ NUL := by
  obtain ⟨_, d2, _⟩ := toDigits_spec m.natAbs
  have hminus : is_white_space '-' = false ∧ '-' ≠ '<' ∧ '-' ≠ NUL := by decide
  intro c hc
  unfold sprintf_d at hc
  split_ifs at hc
  · rcases List.mem_cons.mp hc with e | e
    · rw [e]
      exact hminus
    · have := digit_facts c (d2 c e)
      exact ⟨this.2.2.2.1, this.2.2.2.2.1, this.2.2.2.2.2⟩
  · have := digit_facts c (d2 c hc)
    exact ⟨this.2.2.2.1, this.2.2.2.2.1, this.2.2.2.2.2⟩

theorem sprintf_d_length (m : Int) (h1 : -2 ^ 31 ≤ m) (h2 : m < 2 ^ 31) :
    (sprintf_d m).length ≤ 11 := by
  have := toDigitsCore_length (m.natAbs + 1) m.natAbs 10 [] (by
    have : (10 : Nat) ^ 10 = 10000000000 := by norm_num
    omega) (by decide)
  have e : (Nat.toDigits 10 m.natAbs).length ≤ 10 := by simpa [Nat.toDigits] using this
  unfold sprintf_d
  split_ifs
  · simp only [List.length_cons]
    omega
  · omega

/-! ### The SOAP envelope of a Browse request -/

theorem leaf_segment_text (e : List Char × List Char) :
    (leaf_segment e).text = leaf_text e := by
  simp [leaf_segment, Segment.text, leaf_text]

theorem leaves_segments_text (es : List (List Char × List Char)) :
    ((es.map leaf_segment).map Segment.text).flatten = leaves_text es := by
  unfold leaves_text
  rw [List.map_map]
  congr 1
  apply List.map_congr_left
  intro e _
  exact leaf_segment_text e

set_option maxRecDepth 100000 in
theorem browse_envelope_segments (v : List Char) (n : Nat) (m : Int)
    (e0 e1 e2 e3 : List (List Char × List Char)) :
    browse_envelope v n m e0 e1 e2 e3
      = ((browse_segments v n m e0 e1 e2 e3).map Segment.text).flatten := by
  have ho : envelope_open = (envelope_open_segments.map Segment.text).flatten := by decide
  have hc : envelope_close = (envelope_close_segments.map Segment.text).flatten := by decide
  unfold browse_envelope browse_segments
  simp only [List.map_append, List.flatten_append, leaves_segments_text, List.map_cons,
    List.map_nil, List.flatten_cons, List.flatten_nil, List.append_nil, leaf_segment_text,
    ← ho, ← hc]

theorem is_letter_facts (c : Char) (h : is_letter c = true) : c ≠ NUL ∧ c ≠ '<' := by
  constructor
  · intro e
    rw [e, is_letter_NUL] at h
    exact absurd h (by simp)
  · intro e
    rw [e] at h
    exact absurd h (by decide)

theorem other_leaf_valid (e : List Char × List Char) (h : other_leaf e) :
    (leaf_segment e).valid ∧ (∀ c ∈ leaf_text e, c ≠ NUL)
    ∧ ∀ h0 : upnphttp, (leaf_segment e).apply h0 = h0 := by
  obtain ⟨h1, h2, h3, h4, h5, h6, h7, h8, h9⟩ := h
  have hl := length_dropWhile_le is_white_space e.2
  refine ⟨⟨h1, h2, h3, fun c hc => (h8 c hc).1, by omega, by simp⟩, ?_, ?_⟩
  · intro c hc
    have a1 : '<' ≠ NUL ∧ '>' ≠ NUL ∧ '/' ≠ NUL := by decide
    have hc2 : c = '<' ∨ c = '>' ∨ c = '/' ∨ c ∈ e.1 ∨ c ∈ e.2 := by
      unfold leaf_text at hc
      simp only [List.cons_append, List.mem_cons, List.mem_append, List.mem_singleton,
        List.not_mem_nil, or_false] at hc
      tauto
    rcases hc2 with g | g | g | g | g
    · rw [g]; exact a1.1
    · rw [g]; exact a1.2.1
    · rw [g]; exact a1.2.2
    · exact (is_letter_facts c (h1 c g)).1
    · exact (h8 c g).2
  · intro h0
    unfold leaf_segment Segment.apply process_name_value_pair
    dsimp only
    have hor : ¬ (e.1 = "ObjectID".toList ∨ e.1 = "ContainerID".toList) := by
      intro g
      rcases g with g | g
      · exact h4 g
      · exact h5 g
    rw [if_neg hor, if_neg h6, if_neg h7]

theorem other_leaves_valid : ∀ (es : List (List Char × List Char)),
    (∀ e ∈ es, other_leaf e) →
    (∀ seg ∈ es.map leaf_segment, seg.valid) ∧ (∀ c ∈ leaves_text es, c ≠ NUL)
    ∧ ∀ h0 : upnphttp, (es.map leaf_segment).foldl Segment.apply h0 = h0
  | [], _ => by simp [leaves_text]
  | e :: es, h => by
    obtain ⟨a1, a2, a3⟩ := other_leaf_valid e (h e (by simp))
    obtain ⟨b1, b2, b3⟩ := other_leaves_valid es (fun x hx => h x (by simp [hx]))
    refine ⟨?_, ?_, ?_⟩
    · intro seg hs
      rw [List.map_cons] at hs
      rcases List.mem_cons.mp hs with g | g
      · rw [g]
        exact a1
      · exact b1 seg g
    · intro c hc
      have e1 : leaves_text (e :: es) = leaf_text e ++ leaves_text es := by
        simp [leaves_text]
      rw [e1] at hc
      rcases List.mem_append.mp hc with g | g
      · exact a2 c g
      · exact b2 c g
    · intro h0
      rw [List.map_cons, List.foldl_cons, a3, b3]

theorem dropWhile_id (p : Char → Bool) (s : List Char)
    (h : ∀ c, s.head? = some c → p c = false) : s.dropWhile p = s := by
  cases s with
  | nil => rfl
  | cons d s =>
    have hd : ¬ p d = true := by
      rw [h d rfl]
      simp
    rw [List.dropWhile_cons_of_neg hd]

theorem right_trim_id (s : List Char)
    (h : ∀ c, s.getLast? = some c → is_white_space c = false) : right_trim s = s := by
  unfold right_trim
  rw [dropWhile_id is_white_space s.reverse (by
    intro c hc
    rw [List.head?_reverse] at hc
    exact h c hc), List.reverse_reverse]

theorem trim_id_of_all (s : List Char) (h : ∀ c ∈ s, is_white_space c = false) :
    right_trim (s.dropWhile is_white_space) = s := by
  rw [dropWhile_id is_white_space s (fun c hc => h c (List.mem_of_mem_head? hc)),
    right_trim_id s (fun c hc => h c (List.mem_of_mem_getLast? hc))]

theorem segments_length_le : ∀ segs : List Segment,
    segs.length ≤ ((segs.map Segment.text).flatten).length
  | [] => by simp
  | seg :: segs => by
    have ih := segments_length_le segs
    have h1 : 0 < seg.text.length := by
      cases seg <;> simp [Segment.text]
    simp only [List.map_cons, List.flatten_cons, List.length_append, List.length_cons]
    omega

theorem takeWhile_id (s : List Char) (h : ∀ c ∈ s, c ≠ NUL) :
    s.takeWhile (fun c => decide (c ≠ NUL)) = s := by
  rw [List.takeWhile_eq_self_iff]
  intro c hc
  simp [h c hc]

theorem leaf_valid (e : List Char × List Char) (h1 : ∀ c ∈ e.1, is_letter c = true)
    (h2 : 0 < e.1.length) (h3 : e.1.length < 20) (h8 : ∀ c ∈ e.2, c ≠ '<' ∧ c ≠ NUL)
    (h9 : e.2.length < BUF_SIZE) :
    (leaf_segment e).valid ∧ ∀ c ∈ leaf_text e, c ≠ NUL := by
  have hl := length_dropWhile_le is_white_space e.2
  refine ⟨⟨h1, h2, h3, fun c hc => (h8 c hc).1, by omega, by simp⟩, ?_⟩
  intro c hc
  have a1 : '<' ≠ NUL ∧ '>' ≠ NUL ∧ '/' ≠ NUL := by decide
  have hc2 : c = '<' ∨ c = '>' ∨ c = '/' ∨ c ∈ e.1 ∨ c ∈ e.2 := by
    unfold leaf_text at hc
    simp only [List.cons_append, List.mem_cons, List.mem_append, List.mem_singleton,
      List.not_mem_nil, or_false] at hc
    tauto
  rcases hc2 with g | g | g | g | g
  · rw [g]; exact a1.1
  · rw [g]; exact a1.2.1
  · rw [g]; exact a1.2.2
  · exact (is_letter_facts c (h1 c g)).1
  · exact (h8 c g).2

theorem number_leaf_valid (name : List Char) (m : Int) (h1 : ∀ c ∈ name, is_letter c = true)
    (h2 : 0 < name.length) (h3 : name.length < 20) (hm : -2 ^ 31 ≤ m ∧ m < 2 ^ 31) :
    (leaf_segment (name, sprintf_d m)).valid ∧ (∀ c ∈ leaf_text (name, sprintf_d m), c ≠ NUL)
    ∧ ∀ h0 : upnphttp, (leaf_segment (name, sprintf_d m)).apply h0
        = process_name_value_pair h0 name (sprintf_d m) := by
  have hch := sprintf_d_chars m
  have hlen := sprintf_d_length m hm.1 hm.2
  obtain ⟨a, b⟩ := leaf_valid (name, sprintf_d m) h1 h2 h3
    (fun c hc => ⟨(hch c hc).2.1, (hch c hc).2.2⟩) (by
      show (sprintf_d m).length < BUF_SIZE
      unfold BUF_SIZE
      omega)
  refine ⟨a, b, ?_⟩
  intro h0
  unfold leaf_segment Segment.apply
  dsimp only
  rw [trim_id_of_all _ (fun c hc => (hch c hc).1)]

theorem pnvp_ObjectID (h : upnphttp) (value : List Char) :
    process_name_value_pair h "ObjectID".toList value = { h with remote_dirpath := some value } := by
  have n1 : ¬ ("ObjectID".toList = "RequestedCount".toList) := by decide
  have p1 : "ObjectID".toList = "ObjectID".toList ∨ "ObjectID".toList = "ContainerID".toList :=
    Or.inl rfl
  unfold process_name_value_pair
  dsimp only
  rw [if_neg n1, if_pos p1]

theorem pnvp_StartingIndex (h : upnphttp) (value : List Char) :
    process_name_value_pair h "StartingIndex".toList value
      = if atoi value > 0 then { h with starting_index := (atoi value).toNat } else h := by
  have n1 : ¬ ("StartingIndex".toList = "RequestedCount".toList) := by decide
  have n2 : ¬ ("StartingIndex".toList = "ObjectID".toList
      ∨ "StartingIndex".toList = "ContainerID".toList) := by decide
  have p1 : "StartingIndex".toList = "StartingIndex".toList := rfl
  unfold process_name_value_pair
  dsimp only
  rw [if_neg n1, if_neg n2, if_pos p1]

theorem pnvp_RequestedCount (h : upnphttp) (value : List Char) :
    process_name_value_pair h "RequestedCount".toList value
      = { h with requested_count := atoi value } := by
  have n2 : ¬ ("RequestedCount".toList = "ObjectID".toList
      ∨ "RequestedCount".toList = "ContainerID".toList) := by decide
  have n3 : ¬ ("RequestedCount".toList = "StartingIndex".toList) := by decide
  have p1 : "RequestedCount".toList = "RequestedCount".toList := rfl
  unfold process_name_value_pair
  dsimp only
  rw [if_pos p1, if_neg n2, if_neg n3]

set_option maxRecDepth 100000 in
/-- Claim C14.  For every ObjectID value `v` (possibly empty, shorter than 1024 bytes,
without `<` and NUL, without leading or trailing white space), every integer `n ≥ 0`
and every integer `m` (both in the range of `int`), `process_post_content` run on a SOAP
envelope whose wrapper tags are namespace-prefixed (`s:Envelope`, `s:Body`, `u:Browse`)
around the leaf elements ObjectID `v`, StartingIndex `n` and RequestedCount `m`, with
other leaf elements before, between and after them, returns and sets `remote_dirpath` to
`v`, `requested_count` to `m`, and `starting_index` to `n` when `n > 0` (leaving it as it
is otherwise). -/
theorem process_post_content_browse (h : upnphttp) (v : List Char) (n : Nat) (m : Int)
    (e0 e1 e2 e3 : List (List Char × List Char))
    (hv1 : v.length < BUF_SIZE) (hv2 : ∀ c ∈ v, c ≠ '<' ∧ c ≠ NUL)
    (hv3 : ∀ c, v.head? = some c → is_white_space c = false)
    (hv4 : ∀ c, v.getLast? = some c → is_white_space c = false)
    (hn : (n : Int) < 2 ^ 31) (hm : -2 ^ 31 ≤ m ∧ m < 2 ^ 31)
    (he : ∀ e ∈ e0 ++ e1 ++ e2 ++ e3, other_leaf e)
    (hc : h.reqflags &&& FLAG_CHUNKED = 0)
    (hl : h.data_len = ((browse_envelope v n m e0 e1 e2 e3).length : Int)) :
    ∃ r, process_post_content h (browse_envelope v n m e0 e1 e2 e3) = some r
      ∧ r.remote_dirpath = some v ∧ r.requested_count = m
      ∧ r.starting_index = if n > 0 then n else h.starting_index := by
  obtain ⟨a0, b0, c0⟩ := other_leaves_valid e0 (fun e hx => he e (by simp [hx]))
  obtain ⟨a1, b1, c1⟩ := other_leaves_valid e1 (fun e hx => he e (by simp [hx]))
  obtain ⟨a2, b2, c2⟩ := other_leaves_valid e2 (fun e hx => he e (by simp [hx]))
  obtain ⟨a3, b3, c3⟩ := other_leaves_valid e3 (fun e hx => he e (by simp [hx]))
  obtain ⟨av, bv⟩ := leaf_valid ("ObjectID".toList, v)
    (by decide : ∀ c ∈ "ObjectID".toList, is_letter c = true)
    (by decide : 0 < "ObjectID".toList.length) (by decide : "ObjectID".toList.length < 20)
    hv2 hv1
  obtain ⟨an, bn, cn⟩ := number_leaf_valid "StartingIndex".toList (n : Int) (by decide)
    (by decide) (by decide) ⟨by omega, hn⟩
  obtain ⟨am, bm, cm⟩ := number_leaf_valid "RequestedCount".toList m (by decide)
    (by decide) (by decide) hm
  have ho : ∀ seg ∈ envelope_open_segments, seg.valid := by decide
  have hcl : ∀ seg ∈ envelope_close_segments, seg.valid := by decide
  have hon : ∀ c ∈ envelope_open, c ≠ NUL := by decide
  have hcn : ∀ c ∈ envelope_close, c ≠ NUL := by decide
  have hval : ∀ seg ∈ browse_segments v n m e0 e1 e2 e3, seg.valid := by
    intro seg hs
    unfold browse_segments at hs
    simp only [List.mem_append, List.mem_singleton] at hs
    rcases hs with (((((((g | g) | g) | g) | g) | g) | g) | g) | g
    · exact ho seg g
    · exact a0 seg g
    · rw [g]; exact av
    · exact a1 seg g
    · rw [g]; exact an
    · exact a2 seg g
    · rw [g]; exact am
    · exact a3 seg g
    · exact hcl seg g
  have hnul : ∀ c ∈ browse_envelope v n m e0 e1 e2 e3, c ≠ NUL := by
    intro c hs
    unfold browse_envelope at hs
    simp only [List.mem_append] at hs
    rcases hs with (((((((g | g) | g) | g) | g) | g) | g) | g) | g
    · exact hon c g
    · exact b0 c g
    · exact bv c g
    · exact b1 c g
    · exact bn c g
    · exact b2 c g
    · exact bm c g
    · exact b3 c g
    · exact hcn c g
  have hplain := process_post_content_plain h (browse_envelope v n m e0 e1 e2 e3) [] hc hl
  rw [List.append_nil, takeWhile_id _ hnul] at hplain
  have hseg := browse_envelope_segments v n m e0 e1 e2 e3
  have hlen := segments_length_le (browse_segments v n m e0 e1 e2 e3)
  rw [← hseg] at hlen
  have hscan := scan_text_segments (browse_segments v n m e0 e1 e2 e3)
    (2 * (browse_envelope v n m e0 e1 e2 e3).length + 2) h [] (by simp) hval (by omega)
  rw [List.nil_append, ← hseg] at hscan
  rw [hscan] at hplain
  have hopen : ∀ h0 : upnphttp, envelope_open_segments.foldl Segment.apply h0 = h0 :=
    fun _ => rfl
  have hclose : ∀ h0 : upnphttp, envelope_close_segments.foldl Segment.apply h0 = h0 :=
    fun _ => rfl
  have hobj : (leaf_segment ("ObjectID".toList, v)).apply h
      = process_name_value_pair h "ObjectID".toList v := by
    unfold leaf_segment Segment.apply
    dsimp only
    rw [dropWhile_id is_white_space v hv3, right_trim_id v hv4]
  have hfold : (browse_segments v n m e0 e1 e2 e3).foldl Segment.apply h
      = process_name_value_pair
          (process_name_value_pair (process_name_value_pair h "ObjectID".toList v)
            "StartingIndex".toList (sprintf_d (n : Int)))
          "RequestedCount".toList (sprintf_d m) := by
    unfold browse_segments
    simp only [List.foldl_append, List.foldl_cons, List.foldl_nil, hopen, hclose, c0, c1, c2,
      c3, hobj, cn, cm]
  rw [hfold, pnvp_ObjectID, pnvp_StartingIndex, pnvp_RequestedCount,
    atoi_sprintf_d m hm.1 hm.2, atoi_sprintf_d (n : Int) (by omega) hn] at hplain
  refine ⟨_, hplain, ?_, rfl, ?_⟩
  · split_ifs <;> rfl
  · by_cases h0 : n > 0
    · rw [if_pos h0, if_pos (by omega)]
      simp
    · rw [if_neg h0, if_neg (by omega)]

set_option maxRecDepth 1000000 in
/-- Witness for claim C14: the request for `Music/A b`, starting index 3 and requested
count 5, with the leaf elements BrowseFlag, Filter and SortCriteria. -/
theorem process_post_content_browse_witness :
    (process_post_content sample_soap_request sample_envelope).map browse_args
      = some (some "Music/A b".toList, 3, 5)
    ∧ ∃ r, process_post_content sample_soap_request sample_envelope = some r
      ∧ r.remote_dirpath = some "Music/A b".toList ∧ r.requested_count = 5
      ∧ r.starting_index = if 3 > 0 then 3 else sample_soap_request.starting_index :=
  ⟨by decide,
    process_post_content_browse sample_soap_request "Music/A b".toList 3 5 []
      [("BrowseFlag".toList, "BrowseDirectChildren".toList), ("Filter".toList, "*".toList)] []
      [("SortCriteria".toList, [])]
      (by decide) (by decide) (by decide) (by decide) (by decide) (by decide) (by decide)
      (by decide) rfl⟩

set_option maxRecDepth 1000000 in
/-- Witness for claim C15: a body sent in two chunks of 16 and 40 bytes gives the fields
that the same body gives with a `Content-Length` of 56. -/
theorem chunked_body_same_fields_witness :
    (∀ chunk ∈ sample_chunks, valid_chunk chunk)
    ∧ (process_post_content (set_reqflag (init_upnphttp_struct 0) FLAG_CHUNKED)
        (framed_body sample_chunks)).map browse_args = some (some "0".toList, 0, 5)
    ∧ ∃ rc rp,
      process_post_content (set_reqflag (init_upnphttp_struct 0) FLAG_CHUNKED)
          (framed_body sample_chunks) = some rc
      ∧ process_post_content { init_upnphttp_struct 0 with data_len := 56 }
          (chunks_body sample_chunks) = some rp
      ∧ rc.remote_dirpath = rp.remote_dirpath
      ∧ rc.starting_index = rp.starting_index
      ∧ rc.requested_count = rp.requested_count :=
  ⟨by decide, by decide,
    chunked_body_same_fields (set_reqflag (init_upnphttp_struct 0) FLAG_CHUNKED)
      { init_upnphttp_struct 0 with data_len := 56 } sample_chunks
      (by decide) (by decide) (by decide) (by decide) (by decide)⟩

/-! ### The search target of an M-SEARCH request -/

set_option maxRecDepth 100000 in
/-- Evaluation of `ssdp_responses` on search targets that are answered once, on
`ssdp:all` and on targets that are not answered. -/
theorem ssdp_responses_eval :
    ssdp_responses sample_uuidvalue "upnp:rootdevice".toList = some [1]
    ∧ ssdp_responses sample_uuidvalue sample_uuidvalue = some [0]
    ∧ ssdp_responses sample_uuidvalue "urn:schemas-upnp-org:device:MediaServer:1".toList
      = some [2]
    ∧ ssdp_responses sample_uuidvalue
        ("urn:schemas-upnp-org:service:ContentDirectory:1 ".toList ++ [TAB]) = some [3]
    ∧ ssdp_responses sample_uuidvalue "urn:schemas-upnp-org:service:ConnectionManager:".toList
      = some [4]
    ∧ ssdp_responses sample_uuidvalue "ssdp:all".toList = some [0, 1, 2, 3, 4, 5]
    ∧ ssdp_responses sample_uuidvalue "urn:schemas-upnp-org:device:MediaServer:2".toList
      = some []
    ∧ ssdp_responses sample_uuidvalue "urn:schemas-upnp-org:device:MediaServer:11".toList
      = some []
    ∧ ssdp_responses sample_uuidvalue "urn:schemas-upnp-org:device:MediaRenderer:1".toList
      = some [] := by
  decide

set_option maxRecDepth 100000 in
/-- Counterexample for claim C21.  The search target `upnp:rootdeviceX` begins with the
entry `upnp:rootdevice` and is not answered, and so is the device UUID followed by `0`;
the search target `urn:schemas-upnp-org:device:MediaServer:` followed by a blank is
longer than the entry, does not continue with `1`, and is answered. -/
theorem ssdp_prefix_is_not_enough :
    "upnp:rootdevice".toList <+: "upnp:rootdeviceX".toList
    ∧ ssdp_responses sample_uuidvalue "upnp:rootdeviceX".toList = some []
    ∧ sample_uuidvalue <+: sample_uuidvalue ++ ['0']
    ∧ ssdp_responses sample_uuidvalue (sample_uuidvalue ++ ['0']) = some []
    ∧ ssdp_responses sample_uuidvalue "urn:schemas-upnp-org:device:MediaServer: ".toList
      = some [2] := by
  decide

theorem isdigit_not_isspace (c : Char) (h : isdigit c = true) : isspace c = false := by
  unfold isdigit at h
  unfold isspace
  simp only [Bool.decide_and, Bool.and_eq_true, decide_eq_true_eq] at h
  have h1 : (48 : Nat) ≤ c.toNat := h.1
  have h2 : c.toNat ≤ 57 := h.2
  have h3 : c ≠ ' ' := by
    intro e
    rw [e] at h1
    exact absurd h1 (by decide)
  simp only [Bool.decide_or, Bool.decide_and, Bool.or_eq_false_iff, decide_eq_false_iff_not,
    Bool.and_eq_false_iff]
  exact ⟨h3, Or.inr (by omega)⟩

theorem skip_extra_data_spec : ∀ (rest : List Char) (l : Nat),
    skip_extra_data rest l ≤ l + rest.length
    ∧ (skip_extra_data rest l = l + rest.length ↔ rest.all isspace = true)
  | [], l => ⟨Nat.le_refl _, by simp [skip_extra_data]⟩
  | c :: rest, l => by
    rw [skip_extra_data]
    by_cases hd : isdigit c = true
    · rw [if_pos hd]
      have := isdigit_not_isspace c hd
      refine ⟨by simp, ?_⟩
      simp only [List.length_cons, List.all_cons, this, Bool.false_and]
      constructor
      · intro g
        omega
      · intro g
        cases g
    · rw [if_neg hd]
      by_cases hs : isspace c = true
      · rw [if_pos hs]
        obtain ⟨a, b⟩ := skip_extra_data_spec rest (l + 1)
        refine ⟨by simp only [List.length_cons]; omega, ?_⟩
        simp only [List.length_cons, List.all_cons, hs, Bool.true_and]
        rw [← b]
        constructor <;> (intro g; omega)
      · rw [if_neg hs]
        refine ⟨by simp, ?_⟩
        have hs2 : isspace c = false := by simpa using hs
        simp only [List.length_cons, List.all_cons, hs2, Bool.false_and]
        constructor
        · intro g
          omega
        · intro g
          cases g

theorem rd_last_of_concat (init : List Char) (last : Char) (Y : List Char) :
    rd ((init ++ [last]) ++ Y) ((init ++ [last]).length - 1) = last := by
  have e : (init ++ [last]).length - 1 = init.length + 0 := by simp
  rw [e, List.append_assoc, rd_append_right]
  rfl

theorem match_service_type_spec (st e : List Char) (he : e ≠ []) :
    match_service_type st e
      = some (if e <+: st then (if st_matches e st = true then StStep.respond else StStep.stop)
          else StStep.next) := by
  unfold match_service_type
  by_cases c1 : st.length < e.length
  · rw [if_pos c1, if_neg]
    intro hp
    have := hp.length_le
    omega
  · rw [if_neg c1]
    by_cases c2 : st.take e.length ≠ e
    · rw [if_pos c2, if_neg]
      intro hp
      exact c2 (List.prefix_iff_eq_take.1 hp).symm
    · rw [if_neg c2]
      have c2' : st.take e.length = e := by simpa using c2
      obtain ⟨rest, hrest⟩ : ∃ rest, st = e ++ rest :=
        ⟨st.drop e.length, by
          conv_lhs => rw [← List.take_append_drop e.length st]
          rw [c2']⟩
      subst hrest
      have hp : e <+: e ++ rest := List.prefix_append e rest
      rw [if_pos hp]
      have hpre : e.isPrefixOf (e ++ rest) = true := by
        rw [List.isPrefixOf_iff_prefix]
        exact hp
      have hm : st_matches e (e ++ rest)
          = (if e.getLast? = some ':' ∧ rest.head? = some '1' then rest.tail
              else rest).all isspace := by
        unfold st_matches
        rw [hpre, List.drop_left, Bool.true_and]
      rw [hm]
      obtain ⟨init, last, hl⟩ : ∃ init last, e = init ++ [last] := by
        rcases List.eq_nil_or_concat e with h | ⟨init, last, h⟩
        · exact absurd h he
        · exact ⟨init, last, by rw [h, List.concat_eq_append]⟩
      cases rest with
      | nil =>
        rw [if_neg (by simp)]
        simp
      | cons c r =>
        rw [if_pos (by simp), if_neg (by rw [hl]; simp)]
        have r1 : rd (e ++ c :: r) (e.length - 1) = last := by
          rw [hl]
          exact rd_last_of_concat init last (c :: r)
        have r2 : rd (e ++ c :: r) e.length = c := by
          rw [rd_append_len]
          rfl
        have g1 : e.getLast? = some last := by
          rw [hl]
          simp
        rw [r1, r2, g1]
        simp only [List.head?_cons, Option.some.injEq, List.tail_cons]
        by_cases cc : last = ':' ∧ c = '1'
        · rw [if_pos cc, if_pos cc]
          have d : (e ++ c :: r).drop (e.length + 1) = r := by
            have : e ++ c :: r = (e ++ [c]) ++ r := by simp
            rw [this]
            have l2 : e.length + 1 = (e ++ [c]).length := by simp
            rw [l2, List.drop_left]
          rw [d]
          obtain ⟨a, b⟩ := skip_extra_data_spec r (e.length + 1)
          have len : (e ++ c :: r).length = e.length + 1 + r.length := by
            simp
            omega
          rw [len]
          by_cases ha : r.all isspace = true
          · rw [if_neg (by rw [not_not]; exact b.2 ha), if_pos ha]
          · rw [if_pos (fun g => ha (b.1 g)), if_neg ha]
        · rw [if_neg cc, if_neg cc]
          rw [List.drop_left]
          obtain ⟨a, b⟩ := skip_extra_data_spec (c :: r) e.length
          have len : (e ++ c :: r).length = e.length + (c :: r).length := by simp
          rw [len]
          by_cases ha : (c :: r).all isspace = true
          · rw [if_neg (by rw [not_not]; exact b.2 ha), if_pos ha]
          · rw [if_pos (fun g => ha (b.1 g)), if_neg ha]

theorem prefix_rd (e st : List Char) (hp : e <+: st) (k : Nat) (hk : k < e.length) :
    rd st k = rd e k := by
  obtain ⟨t, rfl⟩ := hp
  exact rd_append_left e t k hk

theorem st_matches_prefix (e st : List Char) (h : ¬ e <+: st) : st_matches e st = false := by
  unfold st_matches
  have : e.isPrefixOf st = false := by
    rw [← Bool.not_eq_true, List.isPrefixOf_iff_prefix]
    exact h
  rw [this, Bool.false_and]

/-- Claim C21, as the code has it.  With a `uuidvalue` that begins with `uuid:`, the
loop of `process_ssdp_request` answers the search target `st` for the entry `i` of
`known_service_types` exactly when `st` begins with the entry and what follows the
entry, after one `1` that directly follows an entry ending with a colon, is white space
only; at most one entry is answered, and `ssdp:all` is answered for all six entries. -/
theorem ssdp_responses_match (uuidvalue st : List Char) (hu : "uuid:".toList <+: uuidvalue) :
    ssdp_responses uuidvalue st
      = some (if st = "ssdp:all".toList then List.range 6
          else (List.range 6).filter
            (fun i => st_matches ((known_service_types uuidvalue).getD i []) st))
    ∧ ((List.range 6).filter
        (fun i => st_matches ((known_service_types uuidvalue).getD i []) st)).length ≤ 1 := by
  have range6 : List.range 6 = [0, 1, 2, 3, 4, 5] := by decide
  have hu0 : uuidvalue ≠ [] := by
    intro e
    rw [e] at hu
    exact absurd hu (by decide)
  have hul : 1 < uuidvalue.length := by
    have := hu.length_le
    simp at this
    omega
  have hu1 : rd uuidvalue 1 = 'u' := by
    rw [prefix_rd _ _ hu 1 (by decide)]
    rfl
  have A0 := match_service_type_spec st (uuidvalue) hu0
  have G0 : (known_service_types uuidvalue).getD 0 [] = uuidvalue := rfl
  have A1 := match_service_type_spec st ("upnp:rootdevice".toList) (by decide)
  have G1 : (known_service_types uuidvalue).getD 1 [] = "upnp:rootdevice".toList := rfl
  have A2 := match_service_type_spec st ("urn:schemas-upnp-org:device:MediaServer:".toList) (by decide)
  have G2 : (known_service_types uuidvalue).getD 2 [] = "urn:schemas-upnp-org:device:MediaServer:".toList := rfl
  have A3 := match_service_type_spec st ("urn:schemas-upnp-org:service:ContentDirectory:".toList) (by decide)
  have G3 : (known_service_types uuidvalue).getD 3 [] = "urn:schemas-upnp-org:service:ContentDirectory:".toList := rfl
  have A4 := match_service_type_spec st ("urn:schemas-upnp-org:service:ConnectionManager:".toList) (by decide)
  have G4 : (known_service_types uuidvalue).getD 4 [] = "urn:schemas-upnp-org:service:ConnectionManager:".toList := rfl
  have A5 := match_service_type_spec st ("urn:microsoft.com:service:X_MS_MediaReceiverRegistrar:".toList) (by decide)
  have G5 : (known_service_types uuidvalue).getD 5 [] = "urn:microsoft.com:service:X_MS_MediaReceiverRegistrar:".toList := rfl
  have S0_1 : uuidvalue <+: st → rd st 1 = 'u' := by
    intro hp
    rw [prefix_rd _ _ hp 1 hul, hu1]
  have S1_1 : "upnp:rootdevice".toList <+: st → rd st 1 = 'p' := by
    intro hp
    rw [prefix_rd _ _ hp 1 (by decide)]
    rfl
  have S2_1 : "urn:schemas-upnp-org:device:MediaServer:".toList <+: st → rd st 1 = 'r' := by
    intro hp
    rw [prefix_rd _ _ hp 1 (by decide)]
    rfl
  have S2_4 : "urn:schemas-upnp-org:device:MediaServer:".toList <+: st → rd st 4 = 's' := by
    intro hp
    rw [prefix_rd _ _ hp 4 (by decide)]
    rfl
  have S2_21 : "urn:schemas-upnp-org:device:MediaServer:".toList <+: st → rd st 21 = 'd' := by
    intro hp
    rw [prefix_rd _ _ hp 21 (by decide)]
    rfl
  have S3_1 : "urn:schemas-upnp-org:service:ContentDirectory:".toList <+: st → rd st 1 = 'r' := by
    intro hp
    rw [prefix_rd _ _ hp 1 (by decide)]
    rfl
  have S3_4 : "urn:schemas-upnp-org:service:ContentDirectory:".toList <+: st → rd st 4 = 's' := by
    intro hp
    rw [prefix_rd _ _ hp 4 (by decide)]
    rfl
  have S3_21 : "urn:schemas-upnp-org:service:ContentDirectory:".toList <+: st → rd st 21 = 's' := by
    intro hp
    rw [prefix_rd _ _ hp 21 (by decide)]
    rfl
  have S3_32 : "urn:schemas-upnp-org:service:ContentDirectory:".toList <+: st → rd st 32 = 't' := by
    intro hp
    rw [prefix_rd _ _ hp 32 (by decide)]
    rfl
  have S4_1 : "urn:schemas-upnp-org:service:ConnectionManager:".toList <+: st → rd st 1 = 'r' := by
    intro hp
    rw [prefix_rd _ _ hp 1 (by decide)]
    rfl
  have S4_4 : "urn:schemas-upnp-org:service:ConnectionManager:".toList <+: st → rd st 4 = 's' := by
    intro hp
    rw [prefix_rd _ _ hp 4 (by decide)]
    rfl
  have S4_21 : "urn:schemas-upnp-org:service:ConnectionManager:".toList <+: st → rd st 21 = 's' := by
    intro hp
    rw [prefix_rd _ _ hp 21 (by decide)]
    rfl
  have S4_32 : "urn:schemas-upnp-org:service:ConnectionManager:".toList <+: st → rd st 32 = 'n' := by
    intro hp
    rw [prefix_rd _ _ hp 32 (by decide)]
    rfl
  have S5_1 : "urn:microsoft.com:service:X_MS_MediaReceiverRegistrar:".toList <+: st → rd st 1 = 'r' := by
    intro hp
    rw [prefix_rd _ _ hp 1 (by decide)]
    rfl
  have S5_4 : "urn:microsoft.com:service:X_MS_MediaReceiverRegistrar:".toList <+: st → rd st 4 = 'm' := by
    intro hp
    rw [prefix_rd _ _ hp 4 (by decide)]
    rfl
  have Sall : st = "ssdp:all".toList → rd st 1 = 's' := by
    intro e
    rw [e]
    rfl
  by_cases p0 : uuidvalue <+: st
  · have p1 : ¬ "upnp:rootdevice".toList <+: st := by
      intro hp
      have h1 := S0_1 p0
      have h2 := S1_1 hp
      rw [h1] at h2
      exact absurd h2 (by decide)
    have p2 : ¬ "urn:schemas-upnp-org:device:MediaServer:".toList <+: st := by
      intro hp
      have h1 := S0_1 p0
      have h2 := S2_1 hp
      rw [h1] at h2
      exact absurd h2 (by decide)
    have p3 : ¬ "urn:schemas-upnp-org:service:ContentDirectory:".toList <+: st := by
      intro hp
      have h1 := S0_1 p0
      have h2 := S3_1 hp
      rw [h1] at h2
      exact absurd h2 (by decide)
    have p4 : ¬ "urn:schemas-upnp-org:service:ConnectionManager:".toList <+: st := by
      intro hp
      have h1 := S0_1 p0
      have h2 := S4_1 hp
      rw [h1] at h2
      exact absurd h2 (by decide)
    have p5 : ¬ "urn:microsoft.com:service:X_MS_MediaReceiverRegistrar:".toList <+: st := by
      intro hp
      have h1 := S0_1 p0
      have h2 := S5_1 hp
      rw [h1] at h2
      exact absurd h2 (by decide)
    have hall : st ≠ "ssdp:all".toList := by
      intro e
      have h1 := S0_1 p0
      rw [Sall e] at h1
      exact absurd h1 (by decide)
    rw [if_neg p1] at A1
    have M1 := st_matches_prefix _ _ p1
    rw [if_neg p2] at A2
    have M2 := st_matches_prefix _ _ p2
    rw [if_neg p3] at A3
    have M3 := st_matches_prefix _ _ p3
    rw [if_neg p4] at A4
    have M4 := st_matches_prefix _ _ p4
    rw [if_neg p5] at A5
    have M5 := st_matches_prefix _ _ p5
    rw [if_pos p0] at A0
    rw [if_neg hall]
    by_cases m : st_matches (uuidvalue) st = true
    · rw [if_pos m] at A0
      have F : (List.range 6).filter
          (fun i => st_matches ((known_service_types uuidvalue).getD i []) st) = [0] := by
        rw [range6]
        simp only [List.filter_cons, List.filter_nil, G0, G1, G2, G3, G4, G5, M1, M2, M3, M4, M5, m, Bool.false_eq_true,
          if_true, if_false]
      rw [F]
      refine ⟨?_, by decide⟩
      simp only [ssdp_responses, known_service_types, match_service_types, A0, A1, A2, A3, A4, A5]
    · rw [if_neg m] at A0
      have m2 : st_matches (uuidvalue) st = false := by simpa using m
      have F : (List.range 6).filter
          (fun i => st_matches ((known_service_types uuidvalue).getD i []) st) = [] := by
        rw [range6]
        simp only [List.filter_cons, List.filter_nil, G0, G1, G2, G3, G4, G5, M1, M2, M3, M4, M5, m2, Bool.false_eq_true,
          if_true, if_false]
      rw [F]
      refine ⟨?_, by decide⟩
      simp only [ssdp_responses, known_service_types, match_service_types, A0, A1, A2, A3, A4, A5,
        if_neg hall]
  · by_cases p1 : "upnp:rootdevice".toList <+: st
    · have p2 : ¬ "urn:schemas-upnp-org:device:MediaServer:".toList <+: st := by
        intro hp
        have h1 := S1_1 p1
        have h2 := S2_1 hp
        rw [h1] at h2
        exact absurd h2 (by decide)
      have p3 : ¬ "urn:schemas-upnp-org:service:ContentDirectory:".toList <+: st := by
        intro hp
        have h1 := S1_1 p1
        have h2 := S3_1 hp
        rw [h1] at h2
        exact absurd h2 (by decide)
      have p4 : ¬ "urn:schemas-upnp-org:service:ConnectionManager:".toList <+: st := by
        intro hp
        have h1 := S1_1 p1
        have h2 := S4_1 hp
        rw [h1] at h2
        exact absurd h2 (by decide)
      have p5 : ¬ "urn:microsoft.com:service:X_MS_MediaReceiverRegistrar:".toList <+: st := by
        intro hp
        have h1 := S1_1 p1
        have h2 := S5_1 hp
        rw [h1] at h2
        exact absurd h2 (by decide)
      have hall : st ≠ "ssdp:all".toList := by
        intro e
        have h1 := S1_1 p1
        rw [Sall e] at h1
        exact absurd h1 (by decide)
      rw [if_neg p0] at A0
      have M0 := st_matches_prefix _ _ p0
      rw [if_neg p2] at A2
      have M2 := st_matches_prefix _ _ p2
      rw [if_neg p3] at A3
      have M3 := st_matches_prefix _ _ p3
      rw [if_neg p4] at A4
      have M4 := st_matches_prefix _ _ p4
      rw [if_neg p5] at A5
      have M5 := st_matches_prefix _ _ p5
      rw [if_pos p1] at A1
      rw [if_neg hall]
      by_cases m : st_matches ("upnp:rootdevice".toList) st = true
      · rw [if_pos m] at A1
        have F : (List.range 6).filter
            (fun i => st_matches ((known_service_types uuidvalue).getD i []) st) = [1] := by
          rw [range6]
          simp only [List.filter_cons, List.filter_nil, G0, G1, G2, G3, G4, G5, M0, M2, M3, M4, M5, m, Bool.false_eq_true,
          if_true, if_false]
        rw [F]
        refine ⟨?_, by decide⟩
        simp only [ssdp_responses, known_service_types, match_service_types, A0, A1, A2, A3, A4, A5]
      · rw [if_neg m] at A1
        have m2 : st_matches ("upnp:rootdevice".toList) st = false := by simpa using m
        have F : (List.range 6).filter
            (fun i => st_matches ((known_service_types uuidvalue).getD i []) st) = [] := by
          rw [range6]
          simp only [List.filter_cons, List.filter_nil, G0, G1, G2, G3, G4, G5, M0, M2, M3, M4, M5, m2, Bool.false_eq_true,
          if_true, if_false]
        rw [F]
        refine ⟨?_, by decide⟩
        simp only [ssdp_responses, known_service_types, match_service_types, A0, A1, A2, A3, A4, A5,
          if_neg hall]
    · by_cases p2 : "urn:schemas-upnp-org:device:MediaServer:".toList <+: st
      · have p3 : ¬ "urn:schemas-upnp-org:service:ContentDirectory:".toList <+: st := by
          intro hp
          have h1 := S2_21 p2
          have h2 := S3_21 hp
          rw [h1] at h2
          exact absurd h2 (by decide)
        have p4 : ¬ "urn:schemas-upnp-org:service:ConnectionManager:".toList <+: st := by
          intro hp
          have h1 := S2_21 p2
          have h2 := S4_21 hp
          rw [h1] at h2
          exact absurd h2 (by decide)
        have p5 : ¬ "urn:microsoft.com:service:X_MS_MediaReceiverRegistrar:".toList <+: st := by
          intro hp
          have h1 := S2_4 p2
          have h2 := S5_4 hp
          rw [h1] at h2
          exact absurd h2 (by decide)
        have hall : st ≠ "ssdp:all".toList := by
          intro e
          have h1 := S2_1 p2
          rw [Sall e] at h1
          exact absurd h1 (by decide)
        rw [if_neg p0] at A0
        have M0 := st_matches_prefix _ _ p0
        rw [if_neg p1] at A1
        have M1 := st_matches_prefix _ _ p1
        rw [if_neg p3] at A3
        have M3 := st_matches_prefix _ _ p3
        rw [if_neg p4] at A4
        have M4 := st_matches_prefix _ _ p4
        rw [if_neg p5] at A5
        have M5 := st_matches_prefix _ _ p5
        rw [if_pos p2] at A2
        rw [if_neg hall]
        by_cases m : st_matches ("urn:schemas-upnp-org:device:MediaServer:".toList) st = true
        · rw [if_pos m] at A2
          have F : (List.range 6).filter
              (fun i => st_matches ((known_service_types uuidvalue).getD i []) st) = [2] := by
            rw [range6]
            simp only [List.filter_cons, List.filter_nil, G0, G1, G2, G3, G4, G5, M0, M1, M3, M4, M5, m, Bool.false_eq_true,
          if_true, if_false]
          rw [F]
          refine ⟨?_, by decide⟩
          simp only [ssdp_responses, known_service_types, match_service_types, A0, A1, A2, A3, A4, A5]
        · rw [if_neg m] at A2
          have m2 : st_matches ("urn:schemas-upnp-org:device:MediaServer:".toList) st = false := by simpa using m
          have F : (List.range 6).filter
              (fun i => st_matches ((known_service_types uuidvalue).getD i []) st) = [] := by
            rw [range6]
            simp only [List.filter_cons, List.filter_nil, G0, G1, G2, G3, G4, G5, M0, M1, M3, M4, M5, m2, Bool.false_eq_true,
          if_true, if_false]
          rw [F]
          refine ⟨?_, by decide⟩
          simp only [ssdp_responses, known_service_types, match_service_types, A0, A1, A2, A3, A4, A5,
            if_neg hall]
      · by_cases p3 : "urn:schemas-upnp-org:service:ContentDirectory:".toList <+: st
        · have p4 : ¬ "urn:schemas-upnp-org:service:ConnectionManager:".toList <+: st := by
            intro hp
            have h1 := S3_32 p3
            have h2 := S4_32 hp
            rw [h1] at h2
            exact absurd h2 (by decide)
          have p5 : ¬ "urn:microsoft.com:service:X_MS_MediaReceiverRegistrar:".toList <+: st := by
            intro hp
            have h1 := S3_4 p3
            have h2 := S5_4 hp
            rw [h1] at h2
            exact absurd h2 (by decide)
          have hall : st ≠ "ssdp:all".toList := by
            intro e
            have h1 := S3_1 p3
            rw [Sall e] at h1
            exact absurd h1 (by decide)
          rw [if_neg p0] at A0
          have M0 := st_matches_prefix _ _ p0
          rw [if_neg p1] at A1
          have M1 := st_matches_prefix _ _ p1
          rw [if_neg p2] at A2
          have M2 := st_matches_prefix _ _ p2
          rw [if_neg p4] at A4
          have M4 := st_matches_prefix _ _ p4
          rw [if_neg p5] at A5
          have M5 := st_matches_prefix _ _ p5
          rw [if_pos p3] at A3
          rw [if_neg hall]
          by_cases m : st_matches ("urn:schemas-upnp-org:service:ContentDirectory:".toList) st = true
          · rw [if_pos m] at A3
            have F : (List.range 6).filter
                (fun i => st_matches ((known_service_types uuidvalue).getD i []) st) = [3] := by
              rw [range6]
              simp only [List.filter_cons, List.filter_nil, G0, G1, G2, G3, G4, G5, M0, M1, M2, M4, M5, m, Bool.false_eq_true,
          if_true, if_false]
            rw [F]
            refine ⟨?_, by decide⟩
            simp only [ssdp_responses, known_service_types, match_service_types, A0, A1, A2, A3, A4, A5]
          · rw [if_neg m] at A3
            have m2 : st_matches ("urn:schemas-upnp-org:service:ContentDirectory:".toList) st = false := by simpa using m
            have F : (List.range 6).filter
                (fun i => st_matches ((known_service_types uuidvalue).getD i []) st) = [] := by
              rw [range6]
              simp only [List.filter_cons, List.filter_nil, G0, G1, G2, G3, G4, G5, M0, M1, M2, M4, M5, m2, Bool.false_eq_true,
          if_true, if_false]
            rw [F]
            refine ⟨?_, by decide⟩
            simp only [ssdp_responses, known_service_types, match_service_types, A0, A1, A2, A3, A4, A5,
              if_neg hall]
        · by_cases p4 : "urn:schemas-upnp-org:service:ConnectionManager:".toList <+: st
          · have p5 : ¬ "urn:microsoft.com:service:X_MS_MediaReceiverRegistrar:".toList <+: st := by
              intro hp
              have h1 := S4_4 p4
              have h2 := S5_4 hp
              rw [h1] at h2
              exact absurd h2 (by decide)
            have hall : st ≠ "ssdp:all".toList := by
              intro e
              have h1 := S4_1 p4
              rw [Sall e] at h1
              exact absurd h1 (by decide)
            rw [if_neg p0] at A0
            have M0 := st_matches_prefix _ _ p0
            rw [if_neg p1] at A1
            have M1 := st_matches_prefix _ _ p1
            rw [if_neg p2] at A2
            have M2 := st_matches_prefix _ _ p2
            rw [if_neg p3] at A3
            have M3 := st_matches_prefix _ _ p3
            rw [if_neg p5] at A5
            have M5 := st_matches_prefix _ _ p5
            rw [if_pos p4] at A4
            rw [if_neg hall]
            by_cases m : st_matches ("urn:schemas-upnp-org:service:ConnectionManager:".toList) st = true
            · rw [if_pos m] at A4
              have F : (List.range 6).filter
                  (fun i => st_matches ((known_service_types uuidvalue).getD i []) st) = [4] := by
                rw [range6]
                simp only [List.filter_cons, List.filter_nil, G0, G1, G2, G3, G4, G5, M0, M1, M2, M3, M5, m, Bool.false_eq_true,
          if_true, if_false]
              rw [F]
              refine ⟨?_, by decide⟩
              simp only [ssdp_responses, known_service_types, match_service_types, A0, A1, A2, A3, A4, A5]
            · rw [if_neg m] at A4
              have m2 : st_matches ("urn:schemas-upnp-org:service:ConnectionManager:".toList) st = false := by simpa using m
              have F : (List.range 6).filter
                  (fun i => st_matches ((known_service_types uuidvalue).getD i []) st) = [] := by
                rw [range6]
                simp only [List.filter_cons, List.filter_nil, G0, G1, G2, G3, G4, G5, M0, M1, M2, M3, M5, m2, Bool.false_eq_true,
          if_true, if_false]
              rw [F]
              refine ⟨?_, by decide⟩
              simp only [ssdp_responses, known_service_types, match_service_types, A0, A1, A2, A3, A4, A5,
                if_neg hall]
          · by_cases p5 : "urn:microsoft.com:service:X_MS_MediaReceiverRegistrar:".toList <+: st
            · have hall : st ≠ "ssdp:all".toList := by
                intro e
                have h1 := S5_1 p5
                rw [Sall e] at h1
                exact absurd h1 (by decide)
              rw [if_neg p0] at A0
              have M0 := st_matches_prefix _ _ p0
              rw [if_neg p1] at A1
              have M1 := st_matches_prefix _ _ p1
              rw [if_neg p2] at A2
              have M2 := st_matches_prefix _ _ p2
              rw [if_neg p3] at A3
              have M3 := st_matches_prefix _ _ p3
              rw [if_neg p4] at A4
              have M4 := st_matches_prefix _ _ p4
              rw [if_pos p5] at A5
              rw [if_neg hall]
              by_cases m : st_matches ("urn:microsoft.com:service:X_MS_MediaReceiverRegistrar:".toList) st = true
              · rw [if_pos m] at A5
                have F : (List.range 6).filter
                    (fun i => st_matches ((known_service_types uuidvalue).getD i []) st) = [5] := by
                  rw [range6]
                  simp only [List.filter_cons, List.filter_nil, G0, G1, G2, G3, G4, G5, M0, M1, M2, M3, M4, m, Bool.false_eq_true,
          if_true, if_false]
                rw [F]
                refine ⟨?_, by decide⟩
                simp only [ssdp_responses, known_service_types, match_service_types, A0, A1, A2, A3, A4, A5]
              · rw [if_neg m] at A5
                have m2 : st_matches ("urn:microsoft.com:service:X_MS_MediaReceiverRegistrar:".toList) st = false := by simpa using m
                have F : (List.range 6).filter
                    (fun i => st_matches ((known_service_types uuidvalue).getD i []) st) = [] := by
                  rw [range6]
                  simp only [List.filter_cons, List.filter_nil, G0, G1, G2, G3, G4, G5, M0, M1, M2, M3, M4, m2, Bool.false_eq_true,
          if_true, if_false]
                rw [F]
                refine ⟨?_, by decide⟩
                simp only [ssdp_responses, known_service_types, match_service_types, A0, A1, A2, A3, A4, A5,
                  if_neg hall]
            · rw [if_neg p0] at A0
              have M0 := st_matches_prefix _ _ p0
              rw [if_neg p1] at A1
              have M1 := st_matches_prefix _ _ p1
              rw [if_neg p2] at A2
              have M2 := st_matches_prefix _ _ p2
              rw [if_neg p3] at A3
              have M3 := st_matches_prefix _ _ p3
              rw [if_neg p4] at A4
              have M4 := st_matches_prefix _ _ p4
              rw [if_neg p5] at A5
              have M5 := st_matches_prefix _ _ p5
              have F : (List.range 6).filter
                  (fun i => st_matches ((known_service_types uuidvalue).getD i []) st) = [] := by
                rw [range6]
                simp only [List.filter_cons, List.filter_nil, G0, G1, G2, G3, G4, G5, M0, M1, M2, M3, M4, M5, Bool.false_eq_true,
          if_true, if_false]
              rw [F]
              refine ⟨?_, by decide⟩
              simp only [ssdp_responses, known_service_types, match_service_types, A0, A1, A2, A3, A4, A5]
              split_ifs <;> rfl

set_option maxRecDepth 100000 in
/-- Witness for claim C21: the search target
`urn:schemas-upnp-org:service:ContentDirectory:1` followed by a blank is answered for the
entry 3 and for no other. -/
theorem ssdp_responses_match_witness :
    "uuid:".toList <+: sample_uuidvalue
    ∧ ssdp_responses sample_uuidvalue "urn:schemas-upnp-org:service:ContentDirectory:1 ".toList
      = some [3]
    ∧ ssdp_responses sample_uuidvalue "urn:schemas-upnp-org:service:ContentDirectory:1 ".toList
      = some (if "urn:schemas-upnp-org:service:ContentDirectory:1 ".toList = "ssdp:all".toList
          then List.range 6
          else (List.range 6).filter
            (fun i => st_matches ((known_service_types sample_uuidvalue).getD i [])
              "urn:schemas-upnp-org:service:ContentDirectory:1 ".toList))
    ∧ ((List.range 6).filter
        (fun i => st_matches ((known_service_types sample_uuidvalue).getD i [])
          "urn:schemas-upnp-org:service:ContentDirectory:1 ".toList)).length ≤ 1 :=
  ⟨by decide, by decide,
    ssdp_responses_match sample_uuidvalue
      "urn:schemas-upnp-org:service:ContentDirectory:1 ".toList (by decide)⟩

/-! ### The counter of worker threads -/

/-- Evaluation of the counter on a run with `max_connections = 2`: two workers are
started, a third call is refused, a worker exits, a call fails in `pthread_create` and
the next one starts a worker. -/
theorem run_thread_events_eval :
    run_thread_events 2 [ThreadEvent.create 0, ThreadEvent.create 0, ThreadEvent.create 0,
      ThreadEvent.worker_exit, ThreadEvent.create 11, ThreadEvent.create 0] (0, 0) = (2, 2)
    ∧ (create_thread 2 2 0).1 = -1 ∧ (create_thread 2 1 11).1 = -1
    ∧ (create_thread 2 1 0) = (0, 2) := by
  decide

/-- The counter equals the number of running workers and stays within
`0 .. max_connections`, whatever the events. -/
theorem run_thread_events_inv (max_connections : Int) :
    ∀ (events : List ThreadEvent) (active_threads : Int) (running : Nat),
      active_threads = running → active_threads ≤ max_connections →
      exits_of_started_workers max_connections events (active_threads, running) = true →
      (run_thread_events max_connections events (active_threads, running)).1
          = (run_thread_events max_connections events (active_threads, running)).2
        ∧ (run_thread_events max_connections events (active_threads, running)).1
          ≤ max_connections
  | [], a, n, h1, h2, _ => ⟨h1, h2⟩
  | ThreadEvent.create r :: events, a, n, h1, h2, hv => by
    rw [run_thread_events]
    rw [exits_of_started_workers, run_thread_events, run_thread_events] at hv
    refine run_thread_events_inv max_connections events _ _ ?_ ?_ hv
    · by_cases c1 : a ≥ max_connections
      · simp only [create_thread, if_pos c1]
        rw [if_neg (by decide)]
        exact h1
      · by_cases c2 : r = 0
        · simp only [create_thread, if_neg c1, if_pos c2, if_true]
          omega
        · simp only [create_thread, if_neg c1, if_neg c2]
          rw [if_neg (by decide)]
          exact h1
    · by_cases c1 : a ≥ max_connections
      · simp only [create_thread, if_pos c1]
        exact h2
      · by_cases c2 : r = 0
        · simp only [create_thread, if_neg c1, if_pos c2]
          omega
        · simp only [create_thread, if_neg c1, if_neg c2]
          exact h2
  | ThreadEvent.worker_exit :: events, a, n, h1, h2, hv => by
    rw [run_thread_events]
    rw [exits_of_started_workers, run_thread_events, run_thread_events] at hv
    simp only [Bool.and_eq_true, decide_eq_true_eq] at hv
    refine run_thread_events_inv max_connections events _ _ ?_ ?_ hv.2
    · unfold decrement_thread_count
      have := hv.1
      simp only at this
      omega
    · unfold decrement_thread_count
      omega

/-- Claim C22.  For every sequence of `create_thread` calls and worker exits
(`decrement_thread_count`, called once per started worker), starting from the counter 0
with `max_connections ≥ 0`, the active worker count stays between 0 and
`max_connections`, and the next `create_thread` refuses, so that `send_resp_dlnafile`
answers 500, exactly when the count already equals `max_connections` or the thread
cannot be created. -/
theorem active_threads_bounded (max_connections : Int) (events : List ThreadEvent)
    (hmax : 0 ≤ max_connections)
    (hv : exits_of_started_workers max_connections events (0, 0) = true) :
    0 ≤ (run_thread_events max_connections events (0, 0)).1
    ∧ (run_thread_events max_connections events (0, 0)).1 ≤ max_connections
    ∧ ∀ r : Int,
      ((create_thread max_connections (run_thread_events max_connections events (0, 0)).1 r).1
          ≠ 0
        ↔ ((run_thread_events max_connections events (0, 0)).1 = max_connections ∨ r ≠ 0))
      ∧ ((send_resp_dlnafile true max_connections
            (run_thread_events max_connections events (0, 0)).1 r).1
          = some HttpResponseCode.HTTP_INTERNAL_ERROR_500
        ↔ ((run_thread_events max_connections events (0, 0)).1 = max_connections ∨ r ≠ 0)) := by
  obtain ⟨h1, h2⟩ := run_thread_events_inv max_connections events 0 0 rfl hmax hv
  have h0 : 0 ≤ (run_thread_events max_connections events (0, 0)).1 := by
    rw [h1]
    exact Int.ofNat_nonneg _
  refine ⟨h0, h2, fun r => ?_⟩
  generalize (run_thread_events max_connections events (0, 0)).1 = a at h0 h2
  have key : (create_thread max_connections a r).1 ≠ 0 ↔ (a = max_connections ∨ r ≠ 0) := by
    unfold create_thread
    by_cases c1 : a ≥ max_connections
    · rw [if_pos c1]
      simp only [ne_eq, Int.reduceNeg, neg_eq_zero, one_ne_zero, not_false_eq_true, true_iff]
      left
      omega
    · rw [if_neg c1]
      by_cases c2 : r = 0
      · rw [if_pos c2]
        simp only [ne_eq, not_true_eq_false, false_iff, not_or, not_not]
        exact ⟨by omega, c2⟩
      · rw [if_neg c2]
        simp only [ne_eq, Int.reduceNeg, neg_eq_zero, one_ne_zero, not_false_eq_true, true_iff]
        right
        exact c2
  refine ⟨key, ?_⟩
  unfold send_resp_dlnafile
  simp only [Bool.not_eq_true, Bool.true_eq_false, if_false]
  by_cases c : (create_thread max_connections a r).1 ≠ 0
  · rw [if_pos c]
    exact ⟨fun _ => key.1 c, fun _ => rfl⟩
  · rw [if_neg c]
    exact ⟨fun g => by simp at g, fun g => absurd (key.2 g) c⟩

/-- Witness for claim C22: with `max_connections = 2`, after two workers were started, a
third call was refused, a worker exited and a call failed in `pthread_create`, the
counter is 1; after one more worker it is 2 and the next call is refused. -/
theorem active_threads_bounded_witness :
    (0 : Int) ≤ 2
    ∧ exits_of_started_workers 2 [ThreadEvent.create 0, ThreadEvent.create 0,
        ThreadEvent.create 0, ThreadEvent.worker_exit, ThreadEvent.create 11,
        ThreadEvent.create 0] (0, 0) = true
    ∧ 0 ≤ (run_thread_events 2 [ThreadEvent.create 0, ThreadEvent.create 0,
        ThreadEvent.create 0, ThreadEvent.worker_exit, ThreadEvent.create 11,
        ThreadEvent.create 0] (0, 0)).1
    ∧ (run_thread_events 2 [ThreadEvent.create 0, ThreadEvent.create 0,
        ThreadEvent.create 0, ThreadEvent.worker_exit, ThreadEvent.create 11,
        ThreadEvent.create 0] (0, 0)).1 ≤ 2
    ∧ (send_resp_dlnafile true 2 (run_thread_events 2 [ThreadEvent.create 0,
        ThreadEvent.create 0, ThreadEvent.create 0, ThreadEvent.worker_exit,
        ThreadEvent.create 11, ThreadEvent.create 0] (0, 0)).1 0).1
      = some HttpResponseCode.HTTP_INTERNAL_ERROR_500 :=
  ⟨by decide, by decide,
    (active_threads_bounded 2 _ (by decide) (by decide)).1,
    (active_threads_bounded 2 _ (by decide) (by decide)).2.1,
    by decide⟩

/-! ### The interface of a client -/

/-- The loop of `get_interface` returns the smallest index whose subnet holds the
client, or -1 when there is none. -/
theorem get_interface_loop_spec (client : Nat) :
    ∀ (lan_addr : List lan_addr_s) (i : Nat),
      (get_interface_loop client lan_addr i = -1
        ∧ ∀ a ∈ lan_addr, client &&& a.mask ≠ a.addr &&& a.mask)
      ∨ ∃ k, ∃ hk : k < lan_addr.length,
          get_interface_loop client lan_addr i = ((i + k : Nat) : Int)
          ∧ client &&& lan_addr[k].mask = lan_addr[k].addr &&& lan_addr[k].mask
          ∧ ∀ j, ∀ hj : j < lan_addr.length, j < k →
              client &&& lan_addr[j].mask ≠ lan_addr[j].addr &&& lan_addr[j].mask
  | [], i => Or.inl ⟨rfl, by simp⟩
  | a :: lan_addr, i => by
    rw [get_interface_loop]
    by_cases c : client &&& a.mask = a.addr &&& a.mask
    · rw [if_pos c]
      right
      refine ⟨0, by simp, rfl, c, ?_⟩
      intro j _ hj
      omega
    · rw [if_neg c]
      rcases get_interface_loop_spec client lan_addr (i + 1) with ⟨e, hall⟩ | ⟨k, hk, e, hm, hmin⟩
      · left
        refine ⟨e, ?_⟩
        intro b hb
        rcases List.mem_cons.1 hb with rfl | hb
        · exact c
        · exact hall b hb
      · right
        refine ⟨k + 1, by simp; omega, ?_, ?_, ?_⟩
        · rw [e]
          congr 1
          omega
        · simpa using hm
        · intro j hj hjk
          cases j with
          | zero => simpa using c
          | succ j =>
            have := hmin j (by simp at hj; omega) (by omega)
            simpa using this

/-- The function `get_interface` returns the smallest index `i` with
`(client & mask_i) = (addr_i & mask_i)`, or -1 when there is none. -/
theorem get_interface_spec (lan_addr : List lan_addr_s) (client : Nat) :
    (get_interface lan_addr client = -1
      ∧ ∀ a ∈ lan_addr, client &&& a.mask ≠ a.addr &&& a.mask)
    ∨ ∃ k, ∃ hk : k < lan_addr.length,
        get_interface lan_addr client = (k : Int)
        ∧ client &&& lan_addr[k].mask = lan_addr[k].addr &&& lan_addr[k].mask
        ∧ ∀ j, ∀ hj : j < lan_addr.length, j < k →
            client &&& lan_addr[j].mask ≠ lan_addr[j].addr &&& lan_addr[j].mask := by
  unfold get_interface
  rcases get_interface_loop_spec client lan_addr 0 with h | ⟨k, hk, e, hm, hmin⟩
  · exact Or.inl h
  · exact Or.inr ⟨k, hk, by rw [e, Nat.zero_add], hm, hmin⟩

/-- Claim C23 at its failing input.  On a little-endian host with the single interface
192.168.1.5/24, a connection from 127.0.0.1 arrives with `s_addr = 0x0100007f`, which
differs from `INADDR_LOOPBACK = 0x7f000001`: it is looked up with `get_interface`,
matches no subnet and is rejected, while a connection from 1.0.0.127 is taken for the
loopback and accepted with the interface -1.  On a big-endian host the connection from
127.0.0.1 is accepted with the interface -1. -/
theorem loopback_client_is_rejected :
    s_addr_of true 127 0 0 1 = 0x0100007f
    ∧ get_interface (sample_lan_addr true) (s_addr_of true 127 0 0 1) = -1
    ∧ accept_http (sample_lan_addr true) (s_addr_of true 127 0 0 1) = none
    ∧ accept_http (sample_lan_addr true) (s_addr_of true 1 0 0 127) = some (-1)
    ∧ accept_http (sample_lan_addr true) (s_addr_of true 192 168 1 77) = some 0
    ∧ accept_http (sample_lan_addr true) (s_addr_of true 10 0 0 7) = none
    ∧ accept_http (sample_lan_addr false) (s_addr_of false 127 0 0 1) = some (-1) := by
  decide

/-! ### The pointers between the subscriber list and the notify list -/

theorem ListsInv_symm (S J : List (Nat × Option Nat)) (h : ListsInv S J) : ListsInv J S :=
  ⟨h.2.1, h.1, h.2.2.2, h.2.2.1⟩

theorem ListsInv_nil : ListsInv [] [] :=
  ⟨List.nodup_nil, List.nodup_nil, fun _ _ h => by simp at h, fun _ _ h => by simp at h⟩

theorem nodup_fst_unique : ∀ (L : List (Nat × Option Nat)), (L.map Prod.fst).Nodup →
    ∀ (y : Nat) (m m1 : Option Nat), (y, m) ∈ L → (y, m1) ∈ L → m = m1
  | [], _, _, _, _, h, _ => by simp at h
  | e :: L, hn, y, m, m1, h1, h2 => by
    rw [List.map_cons, List.nodup_cons] at hn
    rcases List.mem_cons.1 h1 with g1 | g1 <;> rcases List.mem_cons.1 h2 with g2 | g2
    · rw [← g2] at g1
      injection g1 with _ g
    · exfalso
      rw [← g1] at hn
      have t := List.mem_map_of_mem Prod.fst g2
      exact hn.1 t
    · exfalso
      rw [← g2] at hn
      have t := List.mem_map_of_mem Prod.fst g1
      exact hn.1 t
    · exact nodup_fst_unique L hn.2 y m m1 g1 g2

theorem link_set_fst (x : Nat) (v : Option Nat) (L : List (Nat × Option Nat)) :
    (link_set x v L).map Prod.fst = L.map Prod.fst := by
  unfold link_set
  rw [List.map_map]
  apply List.map_congr_left
  intro e _
  simp only [Function.comp]
  split_ifs <;> rfl

theorem link_set_not_mem (x : Nat) (v : Option Nat) :
    ∀ L : List (Nat × Option Nat), x ∉ L.map Prod.fst → link_set x v L = L
  | [], _ => rfl
  | e :: L, h => by
    rw [List.map_cons, List.mem_cons, not_or] at h
    unfold link_set
    rw [List.map_cons, if_neg (fun g => h.1 g.symm)]
    congr 1
    exact link_set_not_mem x v L h.2

theorem mem_link_set_some (a0 a x : Nat) (J : List (Nat × Option Nat)) :
    (a, some x) ∈ link_set a0 none J ↔ ((a, some x) ∈ J ∧ a ≠ a0) := by
  unfold link_set
  rw [List.mem_map]
  constructor
  · rintro ⟨e, he, g⟩
    by_cases c : e.1 = a0
    · rw [if_pos c] at g
      injection g with _ g2
      cases g2
    · rw [if_neg c] at g
      rw [g] at he c
      exact ⟨he, c⟩
  · rintro ⟨he, c⟩
    exact ⟨(a, some x), he, by rw [if_neg c]⟩

theorem inv_add (S J : List (Nat × Option Nat)) (x a : Nat) (h : ListsInv S J)
    (hx : x ∉ S.map Prod.fst) (ha : a ∉ J.map Prod.fst) :
    ListsInv ((x, some a) :: S) ((a, some x) :: J) := by
  obtain ⟨n1, n2, p1, p2⟩ := h
  refine ⟨?_, ?_, ?_, ?_⟩
  · rw [List.map_cons, List.nodup_cons]
    exact ⟨hx, n1⟩
  · rw [List.map_cons, List.nodup_cons]
    exact ⟨ha, n2⟩
  · intro a1 x1 g
    rcases List.mem_cons.1 g with g | g
    · injection g with g1 g2
      injection g2 with g2
      rw [g1, g2]
      exact List.mem_cons_self _ _
    · exact List.mem_cons_of_mem _ (p1 a1 x1 g)
  · intro x1 a1 g
    rcases List.mem_cons.1 g with g | g
    · injection g with g1 g2
      injection g2 with g2
      rw [g1, g2]
      exact List.mem_cons_self _ _
    · exact List.mem_cons_of_mem _ (p2 x1 a1 g)

theorem inv_add_none (S J : List (Nat × Option Nat)) (x : Nat) (h : ListsInv S J)
    (hx : x ∉ S.map Prod.fst) : ListsInv ((x, none) :: S) J := by
  obtain ⟨n1, n2, p1, p2⟩ := h
  refine ⟨?_, n2, ?_, ?_⟩
  · rw [List.map_cons, List.nodup_cons]
    exact ⟨hx, n1⟩
  · intro a1 x1 g
    exact List.mem_cons_of_mem _ (p1 a1 x1 g)
  · intro x1 a1 g
    rcases List.mem_cons.1 g with g | g
    · injection g with _ g2
      cases g2
    · exact p2 x1 a1 g

theorem inv_remove (S1 S2 J : List (Nat × Option Nat)) (x : Nat) (n : Option Nat)
    (h : ListsInv (S1 ++ (x, n) :: S2) J) : ListsInv (S1 ++ S2) (link_clear n J) := by
  obtain ⟨n1, n2, p1, p2⟩ := h
  have hsub : (S1 ++ S2).Sublist (S1 ++ (x, n) :: S2) :=
    List.Sublist.append_left (List.sublist_cons_self _ _) _
  have hmem : ∀ e, e ∈ S1 ++ S2 → e ∈ S1 ++ (x, n) :: S2 := fun e he => hsub.subset he
  have hback : ∀ e, e ∈ S1 ++ (x, n) :: S2 → e = (x, n) ∨ e ∈ S1 ++ S2 := by
    intro e he
    rw [List.mem_append, List.mem_cons] at he
    rw [List.mem_append]
    tauto
  have hx : ∀ m, (x, m) ∉ S1 ++ S2 := by
    intro m hm
    have e : (S1 ++ (x, n) :: S2).map Prod.fst
        = S1.map Prod.fst ++ x :: S2.map Prod.fst := by simp
    rw [e] at n1
    have := List.nodup_middle.1 n1
    rw [List.nodup_cons] at this
    apply this.1
    have := List.mem_map_of_mem Prod.fst hm
    simpa using this
  have hself : (x, n) ∈ S1 ++ (x, n) :: S2 := by simp
  cases n with
  | none =>
    refine ⟨(hsub.map Prod.fst).nodup n1, n2, ?_, ?_⟩
    · intro a x1 g
      rcases hback _ (p1 a x1 g) with g1 | g1
      · injection g1 with _ g2
        cases g2
      · exact g1
    · intro x1 a g
      exact p2 x1 a (hmem _ g)
  | some a0 =>
    refine ⟨(hsub.map Prod.fst).nodup n1, ?_, ?_, ?_⟩
    · show ((link_set a0 none J).map Prod.fst).Nodup
      rw [link_set_fst]
      exact n2
    · intro a x1 g
      have g' := (mem_link_set_some a0 a x1 J).1 g
      rcases hback _ (p1 a x1 g'.1) with g1 | g1
      · injection g1 with _ g2
        injection g2 with g2
        exact absurd g2 g'.2
      · exact g1
    · intro x1 a g
      apply (mem_link_set_some a0 a x1 J).2
      refine ⟨p2 x1 a (hmem _ g), ?_⟩
      intro c
      rw [c] at g
      have j1 := p2 x1 a0 (hmem _ g)
      have j2 := p2 x a0 hself
      have := nodup_fst_unique J n2 a0 _ _ j1 j2
      injection this with this
      rw [this] at g
      exact hx _ g

theorem sub_links_fst (subs : List (Nat × subscriber)) :
    (sub_links subs).map Prod.fst = subs.map Prod.fst := by
  unfold sub_links
  rw [List.map_map]
  rfl

theorem notify_links_fst (objs : List (Nat × upnp_event_notify)) :
    (notify_links objs).map Prod.fst = objs.map Prod.fst := by
  unfold notify_links
  rw [List.map_map]
  rfl

theorem sub_links_set_notify (x : Nat) (v : Option Nat) (subs : List (Nat × subscriber)) :
    sub_links (set_notify x v subs) = link_set x v (sub_links subs) := by
  unfold sub_links set_notify link_set
  rw [List.map_map, List.map_map]
  apply List.map_congr_left
  intro e _
  simp only [Function.comp]
  split_ifs <;> rfl

theorem notify_links_clear_sub (j : Nat) (objs : List (Nat × upnp_event_notify)) :
    notify_links (clear_sub j objs) = link_set j none (notify_links objs) := by
  unfold notify_links clear_sub link_set
  rw [List.map_map, List.map_map]
  apply List.map_congr_left
  intro e _
  simp only [Function.comp]
  split_ifs <;> rfl

theorem sub_links_bump_seq (x : Nat) (subs : List (Nat × subscriber)) :
    sub_links (bump_seq x subs) = sub_links subs := by
  unfold sub_links bump_seq
  rw [List.map_map]
  apply List.map_congr_left
  intro e _
  simp only [Function.comp]
  split_ifs <;> rfl

theorem sub_links_renew (now : Int) (sid : List Char) (timeout : Int) :
    ∀ subs : List (Nat × subscriber),
      sub_links (renew_subscriber_loop now sid timeout subs).2 = sub_links subs
  | [] => rfl
  | e :: rest => by
    rw [renew_subscriber_loop]
    by_cases c : memcmp_eq sid e.2.uuid 41 = true
    · rw [if_pos c]
      rfl
    · rw [if_neg c]
      show (e.1, e.2.notify) :: sub_links (renew_subscriber_loop now sid timeout rest).2 = _
      rw [sub_links_renew now sid timeout rest]
      rfl

theorem remove_subscriber_loop_spec (sid : List Char) :
    ∀ subs : List (Nat × subscriber),
      ((remove_subscriber_loop sid subs).1 = none ∧ (remove_subscriber_loop sid subs).2 = subs)
      ∨ ∃ e S1 S2, (remove_subscriber_loop sid subs).1 = some e
          ∧ (remove_subscriber_loop sid subs).2 = S1 ++ S2 ∧ subs = S1 ++ e :: S2
  | [] => Or.inl ⟨rfl, rfl⟩
  | e :: rest => by
    rw [remove_subscriber_loop]
    split_ifs
    · exact Or.inr ⟨e, [], rest, rfl, rfl, rfl⟩
    · rcases remove_subscriber_loop_spec sid rest with ⟨h1, h2⟩ | ⟨e1, S1, S2, h1, h2, h3⟩
      · left
        exact ⟨h1, by rw [h2]⟩
      · right
        refine ⟨e1, e :: S1, S2, h1, ?_, ?_⟩
        · show e :: (remove_subscriber_loop sid rest).2 = _
          rw [h2]
          rfl
        · rw [h3]
          rfl

theorem notify_links_selectfds (connect_ok : Nat → Bool) (objs : List (Nat × upnp_event_notify)) :
    notify_links (objs.map (fun o => (o.1, (selectfds_step (connect_ok o.1) o.2).1)))
      = notify_links objs := by
  unfold notify_links
  rw [List.map_map]
  apply List.map_congr_left
  intro o _
  simp only [Function.comp]
  congr 1
  unfold selectfds_step upnp_event_notify_connect
  split_ifs <;> (try rfl) <;> (split <;> rfl)

theorem process_notify_links (outcome : PrepareOutcome) (n : Int) (obj : upnp_event_notify)
    (subs : List (Nat × subscriber)) :
    (upnp_event_process_notify outcome n obj subs).1.sub = obj.sub
    ∧ sub_links (upnp_event_process_notify outcome n obj subs).2 = sub_links subs := by
  unfold upnp_event_process_notify
  split
  · refine ⟨?_, rfl⟩
    unfold upnp_event_prepare
    split_ifs
    · rfl
    · cases outcome <;> rfl
  · unfold upnp_event_recv
    split_ifs
    · exact ⟨rfl, rfl⟩
    · refine ⟨rfl, ?_⟩
      cases obj.sub with
      | none => rfl
      | some x => exact sub_links_bump_seq x subs
  · exact ⟨rfl, rfl⟩
  · exact ⟨rfl, rfl⟩

theorem process_notifylist_links (readset writeset : List Int) (outcome : Nat → PrepareOutcome)
    (n : Nat → Int) :
    ∀ (objs : List (Nat × upnp_event_notify)) (subs : List (Nat × subscriber)),
      notify_links (process_notifylist readset writeset outcome n objs subs).1
          = notify_links objs
      ∧ sub_links (process_notifylist readset writeset outcome n objs subs).2
          = sub_links subs
  | [], _ => ⟨rfl, rfl⟩
  | o :: rest, subs => by
    rw [process_notifylist]
    obtain ⟨q1, q2⟩ := process_notify_links (outcome o.1) (n o.1) o.2 subs
    split_ifs
    · obtain ⟨r1, r2⟩ := process_notifylist_links readset writeset outcome n rest
        (upnp_event_process_notify (outcome o.1) (n o.1) o.2 subs).2
      refine ⟨?_, ?_⟩
      · show (o.1, (upnp_event_process_notify (outcome o.1) (n o.1) o.2 subs).1.sub)
            :: notify_links _ = (o.1, o.2.sub) :: notify_links rest
        rw [r1, q1]
      · rw [r2, q2]
    · obtain ⟨r1, r2⟩ := process_notifylist_links readset writeset outcome n rest subs
      refine ⟨?_, r2⟩
      show (o.1, o.2.sub) :: notify_links _ = (o.1, o.2.sub) :: notify_links rest
      rw [r1]

theorem sweep_notifylist_inv :
    ∀ (rest kept : List (Nat × upnp_event_notify)) (subs : List (Nat × subscriber)),
      ListsInv (sub_links subs) (notify_links (kept ++ rest)) →
      ListsInv (sub_links (sweep_notifylist rest subs).2)
        (notify_links (kept ++ (sweep_notifylist rest subs).1))
  | [], kept, subs, h => h
  | o :: rest, kept, subs, h => by
    rw [sweep_notifylist]
    split_ifs
    · apply sweep_notifylist_inv rest kept
      have e : notify_links (kept ++ o :: rest)
          = notify_links kept ++ (o.1, o.2.sub) :: notify_links rest := by
        simp [notify_links]
      rw [e] at h
      have := ListsInv_symm _ _ (inv_remove _ _ _ _ _ (ListsInv_symm _ _ h))
      have e2 : notify_links (kept ++ rest) = notify_links kept ++ notify_links rest := by
        simp [notify_links]
      rw [e2]
      cases hs : o.2.sub with
      | none =>
        rw [hs] at this
        exact this
      | some x =>
        rw [hs] at this
        show ListsInv (sub_links (set_notify x none subs)) _
        rw [sub_links_set_notify]
        exact this
    · have e : kept ++ o :: (sweep_notifylist rest subs).1
          = (kept ++ [o]) ++ (sweep_notifylist rest subs).1 := by simp
      show ListsInv (sub_links (sweep_notifylist rest subs).2)
        (notify_links (kept ++ o :: (sweep_notifylist rest subs).1))
      rw [e]
      apply sweep_notifylist_inv rest (kept ++ [o]) subs
      simpa using h

theorem filter_subs_inv (q : Nat × subscriber → Bool) (subs : List (Nat × subscriber))
    (J : List (Nat × Option Nat)) (hq : ∀ e ∈ subs, q e = false → e.2.notify = none)
    (h : ListsInv (sub_links subs) J) : ListsInv (sub_links (subs.filter q)) J := by
  obtain ⟨n1, n2, p1, p2⟩ := h
  refine ⟨?_, n2, ?_, ?_⟩
  · rw [sub_links_fst] at n1 ⊢
    exact ((List.filter_sublist subs).map Prod.fst).nodup n1
  · intro a x g
    have := p1 a x g
    unfold sub_links at this ⊢
    rw [List.mem_map] at this ⊢
    obtain ⟨e, he, ge⟩ := this
    refine ⟨e, ?_, ge⟩
    rw [List.mem_filter]
    refine ⟨he, ?_⟩
    by_contra c
    have c2 : q e = false := by simpa using c
    have := hq e he c2
    injection ge with _ g2
    rw [this] at g2
    cases g2
  · intro x a g
    apply p2 x a
    unfold sub_links at g ⊢
    rw [List.mem_map] at g ⊢
    obtain ⟨e, he, ge⟩ := g
    exact ⟨e, (List.mem_filter.1 he).1, ge⟩

theorem add_subscriber_notify_none (env : EventEnv) (eventurl callback : Option (List Char))
    (timeout : Int) (uuid : List Char) (sub : subscriber) (t : List subscriber)
    (e : MicroDLNA.add_upnpevent_subscriber { env with notify := none } [] eventurl callback
      timeout = (some uuid, sub :: t)) : sub.notify = none := by
  unfold MicroDLNA.add_upnpevent_subscriber at e
  split at e
  · dsimp only at e
    split at e
    · cases e
    · injection e with _ e2
      injection e2 with e3 _
      rw [← e3]
  · cases e

theorem create_notify_inv (obj ns : Nat) (socket : Int) (fcntl_ok : Bool) (sub : subscriber)
    (l : EventLists) (hn : sub.notify = none)
    (h : ListsInv (sub_links l.subscriberlist) (notify_links l.notifylist))
    (f1 : ns ∉ l.subscriberlist.map Prod.fst) (f2 : obj ∉ l.notifylist.map Prod.fst) :
    ListsInv
      (sub_links (upnp_event_create_notify obj socket fcntl_ok (some ns)
        { l with subscriberlist := (ns, sub) :: l.subscriberlist }).subscriberlist)
      (notify_links (upnp_event_create_notify obj socket fcntl_ok (some ns)
        { l with subscriberlist := (ns, sub) :: l.subscriberlist }).notifylist) := by
  have f1' : ns ∉ (sub_links l.subscriberlist).map Prod.fst := by
    rw [sub_links_fst]
    exact f1
  have f2' : obj ∉ (notify_links l.notifylist).map Prod.fst := by
    rw [notify_links_fst]
    exact f2
  unfold upnp_event_create_notify
  split_ifs
  · show ListsInv ((ns, sub.notify) :: sub_links l.subscriberlist) _
    rw [hn]
    exact inv_add_none _ _ ns h f1'
  · show ListsInv (sub_links (set_notify ns (some obj) ((ns, sub) :: l.subscriberlist)))
      ((obj, some ns) :: notify_links l.notifylist)
    rw [sub_links_set_notify]
    have e : link_set ns (some obj) (sub_links ((ns, sub) :: l.subscriberlist))
        = (ns, some obj) :: sub_links l.subscriberlist := by
      show link_set ns (some obj) ((ns, sub.notify) :: sub_links l.subscriberlist) = _
      unfold link_set
      rw [List.map_cons, if_pos rfl]
      congr 1
      exact link_set_not_mem ns (some obj) _ f1'
    rw [e]
    exact inv_add _ _ ns obj h f1' f2'

theorem remove_subscriber_inv (sid : Option (List Char)) (l : EventLists)
    (h : ListsInv (sub_links l.subscriberlist) (notify_links l.notifylist)) :
    ListsInv (sub_links (l.remove_upnpevent_subscriber sid).2.subscriberlist)
      (notify_links (l.remove_upnpevent_subscriber sid).2.notifylist) := by
  unfold EventLists.remove_upnpevent_subscriber
  cases sid with
  | none => exact h
  | some sid =>
    dsimp only
    rcases remove_subscriber_loop_spec sid l.subscriberlist with ⟨h1, h2⟩ | ⟨e, S1, S2, h1, h2, h3⟩
    · have e0 : remove_subscriber_loop sid l.subscriberlist
          = (none, (remove_subscriber_loop sid l.subscriberlist).2) := by
        rw [← h1]
      rw [e0]
      exact h
    · have e0 : remove_subscriber_loop sid l.subscriberlist = (some e, S1 ++ S2) := by
        rw [← h1, ← h2]
      rw [e0]
      dsimp only
      rw [h3] at h
      have e1 : sub_links (S1 ++ e :: S2) = sub_links S1 ++ (e.1, e.2.notify) :: sub_links S2 := by
        simp [sub_links]
      have e2 : sub_links (S1 ++ S2) = sub_links S1 ++ sub_links S2 := by
        simp [sub_links]
      rw [e1] at h
      rw [e2]
      have := inv_remove _ _ _ _ _ h
      cases hn : e.2.notify with
      | none =>
        rw [hn] at this
        exact this
      | some j =>
        rw [hn] at this
        show ListsInv _ (notify_links (clear_sub j l.notifylist))
        rw [notify_links_clear_sub]
        exact this

/-- Every operation of the event engine keeps the invariant of the two lists. -/
theorem event_op_inv (op : EventOp) (l : EventLists) (hf : op.fresh l = true)
    (h : ListsInv (sub_links l.subscriberlist) (notify_links l.notifylist)) :
    ListsInv (sub_links (op.run l).subscriberlist) (notify_links (op.run l).notifylist) := by
  cases op with
  | subscribe env ns obj socket fcntl_ok hh =>
    simp only [EventOp.fresh, Bool.and_eq_true, decide_eq_true_eq] at hf
    show ListsInv
      (sub_links (l.process_http_subscribe_upnphttp env ns obj socket fcntl_ok hh).2.subscriberlist)
      (notify_links (l.process_http_subscribe_upnphttp env ns obj socket fcntl_ok hh).2.notifylist)
    unfold EventLists.process_http_subscribe_upnphttp
    split
    · dsimp only
      unfold EventLists.add_upnpevent_subscriber
      split
      · rename_i uuid sub t e
        exact create_notify_inv obj ns socket fcntl_ok sub l
          (add_subscriber_notify_none env _ _ _ uuid sub t e) h hf.1 hf.2
      · exact h
    · split_ifs
      · exact h
      · show ListsInv (sub_links (renew_subscriber_loop _ _ _ l.subscriberlist).2) _
        rw [sub_links_renew]
        exact h
    · exact h
  | unsubscribe hh =>
    show ListsInv (sub_links (l.process_http_un_subscribe_upnphttp hh).2.subscriberlist)
      (notify_links (l.process_http_un_subscribe_upnphttp hh).2.notifylist)
    unfold EventLists.process_http_un_subscribe_upnphttp
    split
    · exact h
    · split_ifs <;> exact remove_subscriber_inv _ l h
  | selectfds connect_ok =>
    show ListsInv (sub_links l.subscriberlist)
      (notify_links (l.notifylist.map (fun o => (o.1, (selectfds_step (connect_ok o.1) o.2).1))))
    rw [notify_links_selectfds]
    exact h
  | processfds readset writeset outcome n =>
    show ListsInv
      (sub_links (sweep_notifylist
        (process_notifylist readset writeset outcome n l.notifylist l.subscriberlist).1
        (process_notifylist readset writeset outcome n l.notifylist l.subscriberlist).2).2)
      (notify_links (sweep_notifylist
        (process_notifylist readset writeset outcome n l.notifylist l.subscriberlist).1
        (process_notifylist readset writeset outcome n l.notifylist l.subscriberlist).2).1)
    obtain ⟨r1, r2⟩ := process_notifylist_links readset writeset outcome n l.notifylist
      l.subscriberlist
    have := sweep_notifylist_inv
      (process_notifylist readset writeset outcome n l.notifylist l.subscriberlist).1 []
      (process_notifylist readset writeset outcome n l.notifylist l.subscriberlist).2
      (by rw [List.nil_append, r1, r2]; exact h)
    rw [List.nil_append] at this
    exact this
  | removed_timedout_subs curtime =>
    show ListsInv (sub_links (l.subscriberlist.filter _)) _
    apply filter_subs_inv _ _ _ _ h
    intro e _ hq
    simp only [decide_eq_false_iff_not, not_not] at hq
    exact hq.2.2

/-- The invariant holds after every sequence of operations that starts from lists with
the invariant. -/
theorem run_event_ops_inv : ∀ (ops : List EventOp) (l : EventLists),
    fresh_event_ops ops l = true →
    ListsInv (sub_links l.subscriberlist) (notify_links l.notifylist) →
    ListsInv (sub_links (run_event_ops ops l).subscriberlist)
      (notify_links (run_event_ops ops l).notifylist)
  | [], _, _, h => h
  | op :: ops, l, hf, h => by
    rw [fresh_event_ops, Bool.and_eq_true] at hf
    exact run_event_ops_inv ops (op.run l) hf.2 (event_op_inv op l hf.1 h)

/-- The pointers of a notify object under the invariant. -/
theorem notify_sub_of_inv (l : EventLists)
    (h : ListsInv (sub_links l.subscriberlist) (notify_links l.notifylist)) :
    ∀ j ∈ l.notifylist, j.2.sub = none
      ∨ ∃ e ∈ l.subscriberlist, j.2.sub = some e.1 ∧ e.2.notify = some j.1 := by
  intro j hj
  cases hs : j.2.sub with
  | none => exact Or.inl rfl
  | some x =>
    right
    have m : (j.1, some x) ∈ notify_links l.notifylist := by
      unfold notify_links
      rw [List.mem_map]
      exact ⟨j, hj, by rw [hs]⟩
    have := h.2.2.1 _ _ m
    unfold sub_links at this
    rw [List.mem_map] at this
    obtain ⟨e, he, ge⟩ := this
    injection ge with g1 g2
    exact ⟨e, he, by rw [g1], g2⟩

/-- Claim C24.  After every operation of the event engine (a SUBSCRIBE that creates or
renews a subscriber, UNSUBSCRIBE, `upnpevents_selectfds`, `upnpevents_processfds`, the
expiry sweep), run in any order from the empty lists with `safe_malloc` returning
addresses that are not in use, every job `j` in the notify list has `j.sub = null` or
`j.sub` is a subscriber still in the subscriber list with `j.sub.notify = j`. -/
theorem notify_jobs_point_to_their_subscribers (ops : List EventOp)
    (hf : fresh_event_ops ops empty_event_lists = true) :
    ∀ j ∈ (run_event_ops ops empty_event_lists).notifylist,
      j.2.sub = none
      ∨ ∃ e ∈ (run_event_ops ops empty_event_lists).subscriberlist,
          j.2.sub = some e.1 ∧ e.2.notify = some j.1 :=
  notify_sub_of_inv _ (run_event_ops_inv ops empty_event_lists hf ListsInv_nil)

set_option maxRecDepth 1000000 in
/-- Evaluation of the event engine on `sample_event_ops`: the addresses and pointers of
the two lists after the first three, the first five and all operations. -/
theorem run_event_ops_eval :
    (sub_links (run_event_ops (sample_event_ops.take 3) empty_event_lists).subscriberlist,
      notify_links (run_event_ops (sample_event_ops.take 3) empty_event_lists).notifylist)
      = ([(101, some 201), (100, some 200)], [(201, some 101), (200, some 100)])
    ∧ (sub_links (run_event_ops (sample_event_ops.take 5) empty_event_lists).subscriberlist,
      notify_links (run_event_ops (sample_event_ops.take 5) empty_event_lists).notifylist)
      = ([(100, some 200)], [(201, none), (200, some 100)])
    ∧ (sub_links (run_event_ops sample_event_ops empty_event_lists).subscriberlist,
      notify_links (run_event_ops sample_event_ops empty_event_lists).notifylist)
      = ([(100, none)], [(201, none)]) := by
  decide

set_option maxRecDepth 1000000 in
/-- Witness for claim C24: the run `sample_event_ops`. -/
theorem notify_jobs_point_to_their_subscribers_witness :
    fresh_event_ops sample_event_ops empty_event_lists = true
    ∧ ∀ j ∈ (run_event_ops sample_event_ops empty_event_lists).notifylist,
      j.2.sub = none
      ∨ ∃ e ∈ (run_event_ops sample_event_ops empty_event_lists).subscriberlist,
          j.2.sub = some e.1 ∧ e.2.notify = some j.1 :=
  ⟨by decide, notify_jobs_point_to_their_subscribers sample_event_ops (by decide)⟩

/-! ### The byte positions handed to send_file -/

set_option maxRecDepth 100000 in
/-- Evaluation of `serve_file` on a file of 1000 bytes: the whole file and the range
100-199 are handed to `send_file` with the positions of the headers. -/
theorem serve_file_eval_send_file_args :
    (serve_file sample_file_get (sample_fs 1000)).map
        (fun r => (r.content_length, r.send_file_args)) = some (some 1000, some (0, 999))
    ∧ (serve_file (sample_range_get "bytes=100-199".toList) (sample_fs 1000)).map
        (fun r => (r.content_length, r.content_range, r.send_file_args))
      = some (some 100, some (100, 199, 1000), some (100, 199)) := by
  decide

set_option maxRecDepth 100000 in
/-- Claim C25 at its failing input.  For a file of 2147483649 bytes (2 GiB + 1) a GET without
a range is answered with `Content-Length: 2147483649`, the positions 0 to 2147483648, but
`int end = h->req_range_end` cuts the end to -2147483648 and `send_file` receives the
`size_t` 18446744071562067968 as `end_offset`.  With the range 2147483648-2147483648 the
headers name one byte and `send_file` receives the offset -2147483648.  For an empty file
the headers give the length 0, `send_file` receives the end 18446744073709551615 and
enters its loop with a `send_size` of 0. -/
theorem large_file_positions_are_cut :
    (serve_file sample_file_get (sample_fs 2147483649)).map
        (fun r => (r.content_length, r.send_file_args))
      = some (some 2147483649, some (0, 18446744071562067968))
    ∧ (serve_file (sample_range_get "bytes=2147483648-2147483648".toList)
          (sample_fs 2147483649)).map
        (fun r => (r.content_length, r.content_range, r.send_file_args))
      = some (some 1, some (2147483648, 2147483648, 2147483649),
          some (-2147483648, 18446744071562067968))
    ∧ (serve_file sample_file_get (sample_fs 0)).map
        (fun r => (r.content_length, r.send_file_args))
      = some (some 0, some (0, 18446744073709551615))
    ∧ send_file_first_round 0 18446744073709551615 = some (0, 0) := by
  decide

/-- For a file of 1 to 2147483648 bytes and a GET without a range, `send_file` receives
the positions 0 and `size - 1` of the `Content-Length` header. -/
theorem serve_file_range_small_file (h : upnphttp) (size : Int) (mime : ext_info) (ok : Bool)
    (hr : h.reqflags &&& FLAG_RANGE = 0) (hs : 1 ≤ size ∧ size ≤ 2 ^ 31)
    (h0 : h.req_range_start = 0) (hc : h.req_command ≠ HttpCommands.EHead) :
    (serve_file_range h size mime ok).content_length = some size
    ∧ (serve_file_range h size mime ok).send_file_args = some (0, size - 1) := by
  unfold serve_file_range
  have hr2 : ¬ (h.reqflags &&& FLAG_RANGE ≠ 0) := by simp [hr]
  simp only [if_neg hr2, if_pos hc, ServeResult.content_length, ServeResult.send_file_args,
    h0]
  have e1 : to_int32 0 = 0 := by decide
  have e2 : to_size_t (to_int32 (size - 1)) = size - 1 := by
    unfold to_size_t to_int32
    omega
  rw [e1, e2]
  simp

/-! ### The lifetime of a subscription and the Timeout header -/

set_option maxRecDepth 1000000 in
/-- Claim C26 at its failing input.  A SUBSCRIBE without a `Timeout` header is answered 200
and its subscriber gets the expiry 0, not the request time plus 300: the expiry sweep
keeps it at every later time (here one hour later, with no notify object left).  A
renewal with `Timeout: Second-1800` stores the lifetime 1800 while the handler sets
`req_timeout` to 300 for the header.  In both answers `send_http_response` has reset
`respflags` to `FLAG_HTML` before the headers are printed, so that no `Timeout` line is
sent at all. -/
theorem subscribe_without_timeout_never_expires :
    (process_http_subscribe_upnphttp sample_event_env sample_subscribe_no_timeout []).response
      = some HttpResponseCode.HTTP_OK_200
    ∧ (process_http_subscribe_upnphttp sample_event_env sample_subscribe_no_timeout
        []).subscriberlist.map (fun s => s.timeout) = [0]
    ∧ send_http_headers_timeout
        (process_http_subscribe_upnphttp sample_event_env sample_subscribe_no_timeout []).h
      = none
    ∧ ((run_event_ops
          [EventOp.subscribe sample_event_env 100 200 (-1) true sample_subscribe_no_timeout,
            EventOp.removed_timedout_subs (sample_event_env.now + 3600)]
          empty_event_lists).subscriberlist.map (fun e => (e.1, e.2.notify, e.2.timeout)))
      = [(100, none, 0)]
    ∧ (process_http_subscribe_upnphttp sample_event_env sample_renewal
        (process_http_subscribe_upnphttp sample_event_env sample_subscribe_no_timeout
          []).subscriberlist).response = some HttpResponseCode.HTTP_OK_200
    ∧ (process_http_subscribe_upnphttp sample_event_env sample_renewal
        (process_http_subscribe_upnphttp sample_event_env sample_subscribe_no_timeout
          []).subscriberlist).subscriberlist.map (fun s => s.timeout - sample_event_env.now)
      = [1800]
    ∧ (process_http_subscribe_upnphttp sample_event_env sample_renewal
        (process_http_subscribe_upnphttp sample_event_env sample_subscribe_no_timeout
          []).subscriberlist).h.req_timeout = 300
    ∧ send_http_headers_timeout
        (process_http_subscribe_upnphttp sample_event_env sample_renewal
          (process_http_subscribe_upnphttp sample_event_env sample_subscribe_no_timeout
            []).subscriberlist).h = none := by
  decide

theorem check_event_respflags (h : upnphttp) (hr : (check_event h).2.2 ≠ none) :
    (check_event h).2.1.respflags = FLAG_HTML := by
  unfold check_event at hr ⊢
  cases hcb : h.req_callback with
  | some cb =>
    rw [hcb] at hr
    dsimp only at hr ⊢
    by_cases c2 : h.req_sid ≠ none ∨ h.req_nt = none
    · rw [if_pos c2]
      rfl
    · rw [if_neg c2] at hr ⊢
      by_cases c3 : strncmp_eq_n cb "http://".toList 7 = false
          ∨ h.req_nt ≠ some "upnp:event".toList
      · rw [if_pos c3]
        rfl
      · rw [if_neg c3] at hr
        exact absurd rfl hr
  | none =>
    rw [hcb] at hr
    dsimp only at hr ⊢
    by_cases c2 : h.req_sid ≠ none
    · rw [if_pos c2] at hr ⊢
      by_cases c3 : h.req_nt ≠ none
      · rw [if_pos c3]
        rfl
      · rw [if_neg c3] at hr
        exact absurd rfl hr
    · rw [if_neg c2]
      rfl

/-- No answer of `process_http_subscribe_upnphttp` carries a `Timeout` line: whenever a
response is sent, `respflags` is `FLAG_HTML` when the headers are printed. -/
theorem subscribe_answer_has_no_timeout_line (env : EventEnv) (h : upnphttp)
    (subscriberlist : List subscriber)
    (hr : (process_http_subscribe_upnphttp env h subscriberlist).response ≠ none) :
    send_http_headers_timeout (process_http_subscribe_upnphttp env h subscriberlist).h = none := by
  have key0 : ∀ g : upnphttp, g.respflags = FLAG_HTML → send_http_headers_timeout g = none := by
    intro g e
    unfold send_http_headers_timeout
    rw [e, if_neg]
    simp only [ne_eq, not_not]
    decide
  have hx := check_event_respflags h
  unfold process_http_subscribe_upnphttp at hr ⊢
  rcases hce : check_event h with ⟨t, h1, r⟩
  rw [hce] at hr hx
  cases t with
  | E_SUBSCRIBE =>
    dsimp only
    exact key0 _ rfl
  | E_RENEW =>
    dsimp only
    split_ifs <;> exact key0 _ rfl
  | E_INVALID =>
    dsimp only at hr hx ⊢
    exact key0 _ (hx hr)

/-! ### Elements that process_post_content does not capture -/

theorem text_match_append (S : List Char) (hS : is_letter (S.headD NUL) = false) :
    ∀ (name closer : List Char), (∀ c ∈ name, is_letter c = true) →
      text_match name (closer ++ S)
        = ((text_match name closer).1, (text_match name closer).2 ++ S)
  | [], closer, _ => by simp [text_match]
  | d :: p, [], hn => by
    cases S with
    | nil => simp [text_match]
    | cons c S1 =>
      have hd : is_letter d = true := hn d (by simp)
      have hc : is_letter c = false := by simpa using hS
      have hne : c ≠ d := by
        intro e
        rw [e, hd] at hc
        cases hc
      simp [text_match, hne]
  | d :: p, c :: cl, hn => by
    rw [List.cons_append, text_match, text_match]
    by_cases e : c = d
    · rw [if_pos e, if_pos e]
      exact text_match_append S hS p cl (fun x hx => hn x (by simp [hx]))
    · rw [if_neg e, if_neg e]
      rfl

theorem text_match_mem : ∀ (name closer : List Char) (c : Char),
    c ∈ (text_match name closer).2 → c ∈ closer
  | [], closer, c, h => by simpa [text_match] using h
  | d :: p, [], c, h => by simp [text_match] at h
  | d :: p, x :: cl, c, h => by
    rw [text_match] at h
    by_cases e : x = d
    · rw [if_pos e] at h
      exact List.mem_cons_of_mem _ (text_match_mem p cl c h)
    · rw [if_neg e] at h
      exact h

theorem text_match_nil : ∀ (name closer : List Char),
    (text_match name closer).1 = [] → closer = name ++ (text_match name closer).2
  | [], closer, _ => by simp [text_match]
  | d :: p, [], h => by simp [text_match] at h
  | d :: p, x :: cl, h => by
    rw [text_match] at h ⊢
    by_cases e : x = d
    · rw [if_pos e] at h ⊢
      rw [e, List.cons_append]
      congr 1
      exact text_match_nil p cl h
    · rw [if_neg e] at h
      simp at h

theorem text_step_to_element (h : upnphttp) (t0 name Y : List Char)
    (ht : ∀ c ∈ t0, c ≠ '<') (hn1 : ∀ c ∈ name, is_letter c = true)
    (hn2 : 0 < name.length) (hn3 : name.length < 20) :
    text_step false h (t0 ++ '<' :: (name ++ '>' :: Y))
      = text_element h name ('>' :: Y) := by
  have hgt : is_letter '>' = false := by decide
  have hgw : is_greater_than_sign_or_white_space '>' = true := by decide
  have e1 := dropWhile_ne_append '<' (name ++ '>' :: Y) t0 ht
  have e2 := text_name_append name '>' Y hn1 (by omega) hgt
  have e3 : (name ++ '>' :: Y).drop name.length = '>' :: Y := by simp
  unfold text_step
  simp only [Bool.false_eq_true, if_false]
  rw [if_neg (by simp), e1, if_neg (by simp), List.tail_cons]
  unfold text_tag
  rw [e2, e3, if_neg (by
    intro g
    rcases g with g | g | g
    · omega
    · omega
    · rw [List.headD_cons, hgw] at g
      exact absurd g (by simp))]

theorem text_element_overflow (h : upnphttp) (name value X : List Char)
    (hv : ∀ c ∈ value, c ≠ '<') (hb : BUF_SIZE ≤ (value.dropWhile is_white_space).length) :
    text_element h name ('>' :: (value ++ '<' :: X)) = TextStep.done h := by
  unfold text_element
  have e4 : ('>' :: (value ++ '<' :: X)).dropWhile (fun c => decide (c ≠ '>'))
      = '>' :: (value ++ '<' :: X) := by
    simp [List.dropWhile]
  rw [e4, if_neg (by simp), List.tail_cons, dropWhile_white_space_append]
  have hv2 : ∀ c ∈ value.dropWhile is_white_space, c ≠ '<' :=
    fun c hc => hv c (mem_dropWhile _ c value hc)
  have e5 : (text_value (value.dropWhile is_white_space ++ '<' :: X)).length = BUF_SIZE := by
    unfold text_value
    rw [takeWhile_ne_append '<' _ _ hv2, List.length_take]
    omega
  dsimp only
  rw [if_pos (Or.inl e5)]

theorem text_element_closer (h : upnphttp) (name value X : List Char)
    (hv : ∀ c ∈ value, c ≠ '<') (hb : (value.dropWhile is_white_space).length < BUF_SIZE) :
    text_element h name ('>' :: (value ++ '<' :: X))
      = if X.headD NUL ≠ '/' then TextStep.next true h X
        else
          TextStep.next false
            (if (text_match name X.tail).1 = []
                ∧ is_greater_than_sign_or_white_space ((text_match name X.tail).2.headD NUL) then
              process_name_value_pair h name (right_trim (value.dropWhile is_white_space))
            else h)
            (text_match name X.tail).2 := by
  unfold text_element
  have e4 : ('>' :: (value ++ '<' :: X)).dropWhile (fun c => decide (c ≠ '>'))
      = '>' :: (value ++ '<' :: X) := by
    simp [List.dropWhile]
  rw [e4, if_neg (by simp), List.tail_cons, dropWhile_white_space_append]
  have hv2 : ∀ c ∈ value.dropWhile is_white_space, c ≠ '<' :=
    fun c hc => hv c (mem_dropWhile _ c value hc)
  have e5 : text_value (value.dropWhile is_white_space ++ '<' :: X)
      = value.dropWhile is_white_space := by
    unfold text_value
    rw [takeWhile_ne_append '<' _ _ hv2]
    exact List.take_of_length_le (by omega)
  dsimp only
  rw [e5]
  have e6 : (value.dropWhile is_white_space ++ '<' :: X).drop
      (value.dropWhile is_white_space).length = '<' :: X := by simp
  rw [e6, if_neg (by
    intro g
    rcases g with g | g
    · omega
    · exact absurd g (by simp)), List.tail_cons]

theorem text_match_malformed (name closer S : List Char)
    (hn : ∀ c ∈ name, is_letter c = true)
    (hS : S = [] ∨ S.head? = some '<')
    (hbad : ¬ (name <+: closer
      ∧ is_greater_than_sign_or_white_space ((closer.drop name.length).headD NUL) = true)) :
    ¬ ((text_match name (closer ++ S)).1 = []
      ∧ is_greater_than_sign_or_white_space ((text_match name (closer ++ S)).2.headD NUL)
          = true) := by
  have hS2 : is_letter (S.headD NUL) = false := by
    rcases hS with e | e
    · rw [e]
      decide
    · cases S with
      | nil => simp at e
      | cons c S1 =>
        simp only [List.head?_cons, Option.some.injEq] at e
        rw [List.headD_cons, e]
        decide
  have hS3 : is_greater_than_sign_or_white_space (S.headD NUL) = false := by
    rcases hS with e | e
    · rw [e]
      decide
    · cases S with
      | nil => simp at e
      | cons c S1 =>
        simp only [List.head?_cons, Option.some.injEq] at e
        rw [List.headD_cons, e]
        decide
  rw [text_match_append S hS2 name closer hn]
  rintro ⟨g1, g2⟩
  dsimp only at g1 g2
  have hc := text_match_nil name closer g1
  cases hr : (text_match name closer).2 with
  | nil =>
    rw [hr, List.nil_append, hS3] at g2
    cases g2
  | cons c r =>
    rw [hr, List.cons_append, List.headD_cons] at g2
    apply hbad
    rw [hr] at hc
    refine ⟨⟨c :: r, hc.symm⟩, ?_⟩
    rw [hc, List.drop_left, List.headD_cons]
    exact g2

/-- A round of the scanner on the segments that precede the rest `R` of a text. -/
theorem scan_text_segments_then : ∀ (segs : List Segment) (fuel : Nat) (h : upnphttp)
    (t0 R : List Char), (∀ c ∈ t0, c ≠ '<') → (∀ seg ∈ segs, seg.valid) →
    ∃ t1 : List Char, (∀ c ∈ t1, c ≠ '<')
      ∧ scan_text (fuel + segs.length) false h (t0 ++ ((segs.map Segment.text).flatten ++ R))
        = scan_text fuel false (segs.foldl Segment.apply h) (t1 ++ R)
  | [], fuel, h, t0, R, ht, _ => ⟨t0, ht, by simp⟩
  | seg :: segs, fuel, h, t0, R, ht, hv => by
    obtain ⟨t1, h1, h2⟩ := scan_text_segments_then segs fuel (seg.apply h) seg.left R
      (segment_left_no_lt seg (hv seg (by simp))) (fun s hs => hv s (by simp [hs]))
    refine ⟨t1, h1, ?_⟩
    have e : t0 ++ (((seg :: segs).map Segment.text).flatten ++ R)
        = t0 ++ (seg.text ++ ((segs.map Segment.text).flatten ++ R)) := by simp
    have e2 : fuel + (seg :: segs).length = (fuel + segs.length) + 1 := by simp; omega
    rw [e, e2, scan_text, text_step_segment h t0 _ seg ht (hv seg (by simp))]
    dsimp only
    rw [List.foldl_cons]
    exact h2

theorem segments_text_head (segs : List Segment) :
    segments_text segs = [] ∨ (segments_text segs).head? = some '<' := by
  cases segs with
  | nil => exact Or.inl rfl
  | cons seg segs =>
    right
    cases seg <;> simp [segments_text, Segment.text]

theorem body_with_element_length (pre : List Segment) (name value closer rest : List Char) :
    (segments_text pre).length + rest.length + value.length
      ≤ (body_with_element pre name value closer rest).length := by
  unfold body_with_element
  simp only [List.length_append, List.length_cons]
  omega

/-- The scanner on a body whose element has a malformed closing tag: the segments before
and after the element are applied, the element is not. -/
theorem process_post_content_malformed (g : upnphttp) (pre post : List Segment)
    (name value closer : List Char)
    (hpre : ∀ seg ∈ pre, seg.valid) (hpost : ∀ seg ∈ post, seg.valid)
    (hn1 : ∀ c ∈ name, is_letter c = true) (hn2 : 0 < name.length) (hn3 : name.length < 20)
    (hv : ∀ c ∈ value, c ≠ '<') (hvl : (value.dropWhile is_white_space).length < BUF_SIZE)
    (hcl : ∀ c ∈ closer, c ≠ '<')
    (hbad : ¬ (name <+: closer
      ∧ is_greater_than_sign_or_white_space ((closer.drop name.length).headD NUL) = true))
    (hnul : ∀ c ∈ body_with_element pre name value closer (segments_text post), c ≠ NUL)
    (hc : g.reqflags &&& FLAG_CHUNKED = 0)
    (hl : g.data_len
      = ((body_with_element pre name value closer (segments_text post)).length : Int)) :
    process_post_content g (body_with_element pre name value closer (segments_text post))
      = some (post.foldl Segment.apply (pre.foldl Segment.apply g)) := by
  have hplain := process_post_content_plain g
    (body_with_element pre name value closer (segments_text post)) [] hc hl
  rw [List.append_nil, takeWhile_id _ hnul] at hplain
  rw [hplain]
  have hlen := body_with_element_length pre name value closer (segments_text post)
  have hp := segments_length_le post
  have hq := segments_length_le pre
  rw [← scan_text_stable false g _ pre.length _ (by simp)]
  obtain ⟨t1, h1, h2⟩ := scan_text_segments_then pre
    (2 * (body_with_element pre name value closer (segments_text post)).length + 2) g []
    ('<' :: (name ++ '>' :: (value ++ '<' :: '/' :: (closer ++ segments_text post))))
    (by simp) hpre
  rw [List.nil_append] at h2
  unfold body_with_element segments_text at h2 ⊢
  rw [h2, scan_text, text_step_to_element _ t1 name _ h1 hn1 hn2 hn3,
    text_element_closer _ name value _ hv hvl]
  have hbad2 := text_match_malformed name closer (post.map Segment.text).flatten hn1
    (segments_text_head post) hbad
  rw [if_neg (by simp), List.tail_cons, if_neg hbad2]
  dsimp only
  have hS2 : is_letter (((post.map Segment.text).flatten).headD NUL) = false := by
    rcases segments_text_head post with e | e
    · unfold segments_text at e
      rw [e]
      decide
    · unfold segments_text at e
      cases hs : (post.map Segment.text).flatten with
      | nil => decide
      | cons c S1 =>
        rw [hs] at e
        simp only [List.head?_cons, Option.some.injEq] at e
        rw [List.headD_cons, e]
        decide
  have e3 := text_match_append (post.map Segment.text).flatten hS2 name closer hn1
  rw [e3]
  dsimp only
  apply scan_text_segments post _ _ _
    (fun c hc => hcl c (text_match_mem name closer c hc)) hpost
  unfold body_with_element segments_text at hlen
  simp only [List.length_append, List.length_cons] at hlen ⊢
  omega

/-- The scanner on a body whose element has a value that reaches `BUF_SIZE` bytes: the
segments before the element are applied and the scanning ends, whatever follows. -/
theorem process_post_content_overflow (g : upnphttp) (pre : List Segment)
    (name big closer rest : List Char)
    (hpre : ∀ seg ∈ pre, seg.valid)
    (hn1 : ∀ c ∈ name, is_letter c = true) (hn2 : 0 < name.length) (hn3 : name.length < 20)
    (hv : ∀ c ∈ big, c ≠ '<') (hvl : BUF_SIZE ≤ (big.dropWhile is_white_space).length)
    (hnul : ∀ c ∈ body_with_element pre name big closer rest, c ≠ NUL)
    (hc : g.reqflags &&& FLAG_CHUNKED = 0)
    (hl : g.data_len = ((body_with_element pre name big closer rest).length : Int)) :
    process_post_content g (body_with_element pre name big closer rest)
      = some (pre.foldl Segment.apply g) := by
  have hplain := process_post_content_plain g
    (body_with_element pre name big closer rest) [] hc hl
  rw [List.append_nil, takeWhile_id _ hnul] at hplain
  rw [hplain]
  rw [← scan_text_stable false g _ pre.length _ (by simp)]
  obtain ⟨t1, h1, h2⟩ := scan_text_segments_then pre
    (2 * (body_with_element pre name big closer rest).length + 2) g []
    ('<' :: (name ++ '>' :: (big ++ '<' :: '/' :: (closer ++ rest))))
    (by simp) hpre
  rw [List.nil_append] at h2
  unfold body_with_element segments_text at h2 ⊢
  rw [h2, scan_text, text_step_to_element _ t1 name _ h1 hn1 hn2 hn3,
    text_element_overflow _ name big _ hv hvl]

theorem replicate_x_chars : ∀ c ∈ List.replicate 1024 'x', c ≠ '<' ∧ c ≠ NUL := by
  intro c hc
  rw [List.eq_of_mem_replicate hc]
  decide

theorem replicate_x_length :
    BUF_SIZE ≤ ((List.replicate 1024 'x').dropWhile is_white_space).length := by
  rw [dropWhile_id is_white_space _ (by
    intro c hc
    rw [List.head?_replicate] at hc
    simp only [OfNat.ofNat_ne_zero, if_false, Option.some.injEq] at hc
    rw [← hc]
    decide)]
  rw [List.length_replicate]
  decide

set_option maxRecDepth 100000 in
theorem body_with_element_no_NUL (pre : List Segment) (name value closer rest : List Char)
    (h1 : ∀ c ∈ segments_text pre, c ≠ NUL) (h2 : ∀ c ∈ name, c ≠ NUL)
    (h3 : ∀ c ∈ value, c ≠ NUL) (h4 : ∀ c ∈ closer, c ≠ NUL) (h5 : ∀ c ∈ rest, c ≠ NUL) :
    ∀ c ∈ body_with_element pre name value closer rest, c ≠ NUL := by
  intro c hc
  unfold body_with_element at hc
  simp only [List.mem_append, List.mem_cons] at hc
  rcases hc with g | g | g | g | g | g | g | g | g
  · exact h1 c g
  · rw [g]; decide
  · exact h2 c g
  · rw [g]; decide
  · exact h3 c g
  · rw [g]; decide
  · rw [g]; decide
  · exact h4 c g
  · exact h5 c g

set_option maxRecDepth 100000 in
theorem sample_overflow_body_no_NUL : ∀ c ∈ sample_overflow_body, c ≠ NUL :=
  body_with_element_no_NUL _ _ _ _ _ (by decide) (by decide)
    (fun c hc => (replicate_x_chars c hc).2) (by decide) (by decide)

set_option maxRecDepth 100000 in
/-- Counterexample for claim C27.  In `sample_overflow_body` the well-formed elements
`StartingIndex` 7 and `RequestedCount` 5 follow an element `Filter` whose value has 1024
bytes: the scanner leaves its loop at that element, and the starting index and the
requested count stay 0 and -1.  With the value `*` in its place they are 7 and 5. -/
theorem overflow_ends_the_scan :
    (process_post_content (sample_post_request sample_overflow_body)
        sample_overflow_body).map browse_args = some (some "0".toList, 0, -1)
    ∧ (process_post_content
        (sample_post_request (body_with_element sample_pre_segments "Filter".toList
          "*".toList "Filter>".toList (segments_text sample_post_segments)))
        (body_with_element sample_pre_segments "Filter".toList "*".toList "Filter>".toList
          (segments_text sample_post_segments))).map browse_args
      = some (some "0".toList, 7, 5) := by
  refine ⟨?_, by decide⟩
  have h := process_post_content_overflow (sample_post_request sample_overflow_body)
    sample_pre_segments "Filter".toList (List.replicate 1024 'x') "Filter>".toList
    (segments_text sample_post_segments) (by decide) (by decide) (by decide) (by decide)
    (fun c hc => (replicate_x_chars c hc).1) replicate_x_length sample_overflow_body_no_NUL
    rfl rfl
  have e : sample_overflow_body = body_with_element sample_pre_segments "Filter".toList
      (List.replicate 1024 'x') "Filter>".toList (segments_text sample_post_segments) := rfl
  rw [← e] at h
  rw [h]
  rfl

/-- Claim C27, as the code has it.  When `process_post_content` meets an element
`<name>value</closer` whose closing tag is malformed (`closer` does not begin with the
name followed by `>` or white space), it resumes scanning at the next `<`: the
well-formed elements that follow are captured as if the element were absent.  When it
meets an element whose value reaches the limit of 1024 bytes, it leaves its loop: the
fields are those that the elements before it have set, whatever follows. -/
theorem malformed_closer_resumes_overflow_ends (g1 g2 : upnphttp) (pre post : List Segment)
    (name value closer big bigcloser rest : List Char)
    (hpre : ∀ seg ∈ pre, seg.valid) (hpost : ∀ seg ∈ post, seg.valid)
    (hn1 : ∀ c ∈ name, is_letter c = true) (hn2 : 0 < name.length) (hn3 : name.length < 20)
    (hv : ∀ c ∈ value, c ≠ '<') (hvl : (value.dropWhile is_white_space).length < BUF_SIZE)
    (hcl : ∀ c ∈ closer, c ≠ '<')
    (hbad : ¬ (name <+: closer
      ∧ is_greater_than_sign_or_white_space ((closer.drop name.length).headD NUL) = true))
    (hb : ∀ c ∈ big, c ≠ '<') (hbl : BUF_SIZE ≤ (big.dropWhile is_white_space).length)
    (hnul1 : ∀ c ∈ body_with_element pre name value closer (segments_text post), c ≠ NUL)
    (hnul2 : ∀ c ∈ body_with_element pre name big bigcloser rest, c ≠ NUL)
    (hc1 : g1.reqflags &&& FLAG_CHUNKED = 0)
    (hl1 : g1.data_len
      = ((body_with_element pre name value closer (segments_text post)).length : Int))
    (hc2 : g2.reqflags &&& FLAG_CHUNKED = 0)
    (hl2 : g2.data_len = ((body_with_element pre name big bigcloser rest).length : Int)) :
    process_post_content g1 (body_with_element pre name value closer (segments_text post))
      = some (post.foldl Segment.apply (pre.foldl Segment.apply g1))
    ∧ process_post_content g2 (body_with_element pre name big bigcloser rest)
      = some (pre.foldl Segment.apply g2) :=
  ⟨process_post_content_malformed g1 pre post name value closer hpre hpost hn1 hn2 hn3 hv hvl
      hcl hbad hnul1 hc1 hl1,
    process_post_content_overflow g2 pre name big bigcloser rest hpre hn1 hn2 hn3 hb hbl hnul2
      hc2 hl2⟩

set_option maxRecDepth 1000000 in
/-- Witness for claim C27: a Browse request whose element `Filter` is closed by
`</Filtre>` gives the starting index 7 and the requested count 5 of the elements that
follow, and the request whose `Filter` has a value of 1024 bytes gives the fields that
the ObjectID before it has set. -/
theorem malformed_closer_resumes_overflow_ends_witness :
    (process_post_content (sample_post_request sample_malformed_body)
        sample_malformed_body).map browse_args = some (some "0".toList, 7, 5)
    ∧ process_post_content (sample_post_request sample_malformed_body) sample_malformed_body
      = some (sample_post_segments.foldl Segment.apply
          (sample_pre_segments.foldl Segment.apply (sample_post_request sample_malformed_body)))
    ∧ process_post_content (sample_post_request sample_overflow_body) sample_overflow_body
      = some (sample_pre_segments.foldl Segment.apply
          (sample_post_request sample_overflow_body)) :=
  ⟨by decide,
    malformed_closer_resumes_overflow_ends (sample_post_request sample_malformed_body)
      (sample_post_request sample_overflow_body) sample_pre_segments sample_post_segments
      "Filter".toList "*".toList "Filtre>".toList (List.replicate 1024 'x') "Filter>".toList
      (segments_text sample_post_segments) (by decide) (by decide) (by decide) (by decide)
      (by decide) (by decide) (by decide) (by decide) (by decide)
      (fun c hc => (replicate_x_chars c hc).1) replicate_x_length (by decide)
      sample_overflow_body_no_NUL rfl rfl rfl rfl⟩

/-! ### validate_uuid -/

/-- Evaluation of `validate_uuid` on a canonical uuid and on strings that it rejects
without reading past their end. -/
theorem validate_uuid_eval_canonical :
    validate_uuid ("4d696e69-444c-164e-9d41-554e4b4e4f57".toList ++ [NUL]) = some 1
    ∧ validate_uuid ("4d696e69-444c-164e-9d41-554e4b4e4f5g".toList ++ [NUL]) = some 0
    ∧ validate_uuid ("4d696e69-444c-164e-9d41-554e4b4e4f570".toList ++ [NUL]) = some 0
    ∧ validate_uuid ("4d696e69".toList ++ [NUL]) = some 0
    ∧ validate_uuid ("4d696e6".toList ++ [NUL]) = none := by
  decide

/-- Claim C28 at its failing input.  The string `1234567` has 7 characters and is followed in
memory by the next argument `-1234-1234-1234-123456789012`: `validate_uuid` lets the
terminating NUL pass as a byte of the first group, reads on past the end of the string and
returns 1. -/
theorem validate_uuid_accepts_short_string :
    string_at sample_argv_memory = "1234567".toList
    ∧ canonical_uuid (string_at sample_argv_memory) = false
    ∧ validate_uuid sample_argv_memory = some 1 := by
  decide

/-! ### The bounds of the reads of get_mime_type -/

set_option maxRecDepth 100000 in
/-- Evaluation of `get_mime_type` on names that it reads within their bounds: a name with
an extension of the table, a name of six bytes without a dot and a name whose dot is the
first byte. -/
theorem get_mime_type_eval_in_bounds :
    (get_mime_type "a.MP3".toList).map (fun r => r.map (fun e => e.sub_type))
      = some (some "mpeg".toList)
    ∧ get_mime_type "README".toList = some none
    ∧ get_mime_type ".mkv".toList = (some (bsearch "mkv".toList types))
    ∧ get_mime_type "x.jpeg1".toList = some none := by
  decide

/-- The loop of `get_mime_type` reads `filename[-1]` for every name of fewer than six
bytes that holds no dot. -/
theorem get_mime_type_short_name (filename : List Char) (hl : filename.length < 6)
    (hd : ∀ c ∈ filename, c ≠ '.') : get_mime_type filename = none := by
  have key : ∀ (fuel : Nat) (i : Int), -1 ≤ i → i < filename.length → i + 1 < fuel →
      get_mime_type_loop filename filename.length fuel i = none := by
    intro fuel
    induction fuel with
    | zero => intro i _ _ hf; omega
    | succ fuel ih =>
      intro i h1 h2 hf
      rw [get_mime_type_loop]
      have hi : i > (filename.length : Int) - 7 := by omega
      rw [if_pos hi]
      by_cases hneg : i < 0
      · rw [if_pos hneg]
      · rw [if_neg hneg]
        have hlt : i.toNat < filename.length := by omega
        have hne : rd filename i.toNat ≠ '.' := by
          unfold rd
          rw [List.getD_eq_getElem _ _ hlt]
          exact hd _ (List.getElem_mem _)
        rw [if_neg hne]
        exact ih (i - 1) (by omega) (by omega) (by omega)
  unfold get_mime_type
  exact key 7 _ (by omega) (by omega) (by omega)

/-- Claim C29 at its failing input.  For `Make`, a name of four bytes without a dot, the loop
of `get_mime_type` reads `filename[3]` down to `filename[0]` and then `filename[-1]`, the
byte before the start of the name. -/
theorem get_mime_type_reads_before_name :
    ("Make".toList.length < 6 ∧ ∀ c ∈ "Make".toList, c ≠ '.')
    ∧ get_mime_type "Make".toList = none := by
  decide

/-! ### The protocol check of the request line -/

set_option maxRecDepth 100000 in
/-- Evaluation of `process_request_line` on request lines of nine bytes and more. -/
theorem process_request_line_eval_long :
    process_request_line (request_bytes "GET /rootDesc.xml HTTP/1.1".toList)
      = RequestLine.parsed HttpCommands.EGet "/rootDesc.xml".toList
    ∧ process_request_line (request_bytes "HEAD http://192.168.1.5:2800/icons/sm.png HTTP/1.1".toList)
      = RequestLine.parsed HttpCommands.EHead "/icons/sm.png".toList
    ∧ process_request_line (request_bytes "GET /rootDesc.xml HTTP/1.0".toList)
      = RequestLine.answered HttpResponseCode.HTTP_NOT_IMPLEMENTED_501
    ∧ process_request_line (request_bytes "GET HTTP/1.1".toList)
      = RequestLine.answered HttpResponseCode.HTTP_NOT_IMPLEMENTED_501
    ∧ process_request_line (request_bytes "BREW /pot HTTP/1.1".toList)
      = RequestLine.answered HttpResponseCode.HTTP_NOT_IMPLEMENTED_501
    ∧ process_request_line (request_bytes "GET/rootDesc.xml".toList) = RequestLine.closed := by
  decide

/-- The protocol check is never made at a negative index for a line of nine bytes or
more, and it is made at a negative index for every shorter line that has a supported
method before its first blank. -/
theorem protocol_check_index (input : List Char) (index : Int) :
    process_request_line input = RequestLine.out_of_bounds index →
      index = (readline 1024 input []).1 - 9 ∧ 1 ≤ (readline 1024 input []).1
        ∧ (readline 1024 input []).1 < 9 := by
  intro e
  unfold process_request_line at e
  dsimp only at e
  split at e
  · cases e
  · split at e
    · cases e
    · split at e
      · cases e
      · split at e
        · rename_i h1 _ _ _ _ h3
          injection e with e
          exact ⟨e.symm, by omega, by omega⟩
        · split at e
          · cases e
          · split at e <;> cases e

set_option maxRecDepth 100000 in
/-- Claim C30 at its failing input.  The request lines `GET /`, `HEAD /` and `POST /a` hold a
blank and start with a supported method; they have 5, 6 and 7 bytes, and the protocol
check `strcmp(&buf[len - 9], " HTTP/1.1")` starts at the indices -4, -3 and -2 of
`buf`. -/
theorem short_request_line_reads_before_buf :
    process_request_line (request_bytes "GET /".toList) = RequestLine.out_of_bounds (-4)
    ∧ process_request_line (request_bytes "HEAD /".toList) = RequestLine.out_of_bounds (-3)
    ∧ process_request_line (request_bytes "POST /a".toList) = RequestLine.out_of_bounds (-2) := by
  decide

/-! ### Elements without a closing tag -/

theorem scan_text_at_new_tag (fuel : Nat) (h : upnphttp) (X : List Char) :
    scan_text fuel true h X = scan_text fuel false h ('<' :: X) := by
  cases fuel with
  | zero => rfl
  | succ f =>
    rw [scan_text, scan_text]
    have e : text_step true h X = text_step false h ('<' :: X) := by
      unfold text_step
      simp only [if_true, Bool.false_eq_true, if_false]
      rw [if_neg (by simp)]
      have d : ('<' :: X).dropWhile (fun c => decide (c ≠ '<')) = '<' :: X := by
        simp [List.dropWhile]
      rw [d, if_neg (by simp), List.tail_cons]
    rw [e]

/-- The scanner on a body whose element has no closing tag: when the value is followed
by the opening tag of the next element, the scan goes on at that tag (`goto new_tag`),
and the segments before and after the element are applied. -/
theorem process_post_content_unclosed (g : upnphttp) (pre post : List Segment)
    (name value : List Char)
    (hpre : ∀ seg ∈ pre, seg.valid) (hpost : ∀ seg ∈ post, seg.valid)
    (hne : post ≠ []) (hopen : (segments_text post).tail.headD NUL ≠ '/')
    (hn1 : ∀ c ∈ name, is_letter c = true) (hn2 : 0 < name.length) (hn3 : name.length < 20)
    (hv : ∀ c ∈ value, c ≠ '<') (hvl : (value.dropWhile is_white_space).length < BUF_SIZE)
    (hnul : ∀ c ∈ segments_text pre ++ '<' :: (name ++ '>' :: (value ++ segments_text post)),
      c ≠ NUL)
    (hc : g.reqflags &&& FLAG_CHUNKED = 0)
    (hl : g.data_len
      = ((segments_text pre ++ '<' :: (name ++ '>' :: (value ++ segments_text post))).length
          : Int)) :
    process_post_content g
        (segments_text pre ++ '<' :: (name ++ '>' :: (value ++ segments_text post)))
      = some (post.foldl Segment.apply (pre.foldl Segment.apply g)) := by
  obtain ⟨X, hX⟩ : ∃ X, segments_text post = '<' :: X := by
    rcases segments_text_head post with e | e
    · exfalso
      cases post with
      | nil => exact hne rfl
      | cons seg segs =>
        have : 0 < (segments_text (seg :: segs)).length := by
          cases seg <;> simp [segments_text, Segment.text]
        rw [e] at this
        simp at this
    · cases hs : segments_text post with
      | nil =>
        rw [hs] at e
        simp at e
      | cons c S1 =>
        rw [hs] at e
        simp only [List.head?_cons, Option.some.injEq] at e
        exact ⟨S1, by rw [e]⟩
  have hp := segments_length_le post
  have hp2 : post.length ≤ (segments_text post).length := hp
  rw [hX] at hnul hl hopen hp2 ⊢
  rw [List.tail_cons] at hopen
  have hplain := process_post_content_plain g
    (segments_text pre ++ '<' :: (name ++ '>' :: (value ++ '<' :: X))) [] hc hl
  rw [List.append_nil, takeWhile_id _ hnul] at hplain
  rw [hplain]
  rw [← scan_text_stable false g _ pre.length _ (by simp)]
  obtain ⟨t1, h1, h2⟩ := scan_text_segments_then pre
    (2 * (segments_text pre ++ '<' :: (name ++ '>' :: (value ++ '<' :: X))).length + 2) g []
    ('<' :: (name ++ '>' :: (value ++ '<' :: X)))
    (by simp) hpre
  rw [List.nil_append] at h2
  unfold segments_text at h2 ⊢
  rw [h2, scan_text, text_step_to_element _ t1 name _ h1 hn1 hn2 hn3,
    text_element_closer _ name value _ hv hvl, if_pos hopen]
  dsimp only
  rw [scan_text_at_new_tag]
  have hs := scan_text_segments post
    (2 * ((pre.map Segment.text).flatten
      ++ '<' :: (name ++ '>' :: (value ++ '<' :: X))).length + 1)
    (pre.foldl Segment.apply g) [] (by simp) hpost (by
      simp only [List.length_append, List.length_cons] at hp2 ⊢
      omega)
  rw [List.nil_append] at hs
  unfold segments_text at hX
  rw [hX] at hs
  exact hs

/-! ### Canonical uuids -/

theorem uuid_byte_passes_hex (c : Char) (h : (hex_value c).isSome = true) :
    uuid_byte_passes c = true := by
  have hn : (65 ≤ c.toNat ∧ c.toNat ≤ 70) ∨ (97 ≤ c.toNat ∧ c.toNat ≤ 102)
      ∨ (48 ≤ c.toNat ∧ c.toNat ≤ 57) := by
    unfold hex_value at h
    have a1 : 'A'.toNat = 65 ∧ 'F'.toNat = 70 ∧ 'a'.toNat = 97 ∧ 'f'.toNat = 102
        ∧ '0'.toNat = 48 ∧ '9'.toNat = 57 := by decide
    obtain ⟨b1, b2, b3, b4, b5, b6⟩ := a1
    rw [b1, b2, b3, b4, b5, b6] at h
    by_cases c1 : 65 ≤ c.toNat ∧ c.toNat ≤ 70
    · exact Or.inl c1
    · by_cases c2 : 97 ≤ c.toNat ∧ c.toNat ≤ 102
      · exact Or.inr (Or.inl c2)
      · by_cases c3 : 48 ≤ c.toNat ∧ c.toNat ≤ 57
        · exact Or.inr (Or.inr c3)
        · rw [if_neg c1, if_neg c2, if_neg c3] at h
          cases h
  unfold uuid_byte_passes
  have a1 : 'A'.toNat = 65 ∧ 'F'.toNat = 70 ∧ 'a'.toNat = 97 ∧ 'f'.toNat = 102
      ∧ '0'.toNat = 48 ∧ '9'.toNat = 57 := by decide
  obtain ⟨b1, b2, b3, b4, b5, b6⟩ := a1
  rw [b1, b2, b3, b4, b5, b6]
  rw [decide_eq_true_eq]
  rintro ⟨_, g1, g2, g3⟩
  omega

theorem validate_uuid_group_ok (mem : List Char) :
    ∀ (n p : Nat), (∀ k < n, ∃ c, mem.get? (p + k) = some c ∧ uuid_byte_passes c = true) →
      validate_uuid_group mem n p = some (some (p + n))
  | 0, p, _ => rfl
  | n + 1, p, h => by
    obtain ⟨c, hc, hp⟩ := h 0 (by omega)
    rw [Nat.add_zero] at hc
    rw [validate_uuid_group, hc]
    dsimp only
    rw [if_pos hp, validate_uuid_group_ok mem n (p + 1) (fun k hk => by
      obtain ⟨d, hd, hq⟩ := h (k + 1) (by omega)
      exact ⟨d, by rw [← hd]; congr 1; omega, hq⟩)]
    congr 2
    omega

/-- The function `validate_uuid` returns 1 for every string of the canonical form,
whatever follows the string in memory. -/
theorem validate_uuid_canonical (s after : List Char) (h : canonical_uuid s = true) :
    validate_uuid (s ++ NUL :: after) = some 1 := by
  unfold canonical_uuid at h
  rw [Bool.and_eq_true, decide_eq_true_eq, List.all_eq_true] at h
  obtain ⟨hl, hall⟩ := h
  have hget : ∀ i < 36, (s ++ NUL :: after).get? i = some (rd s i) := by
    intro i hi
    have hi2 : i < s.length := by omega
    rw [List.get?_eq_getElem?, List.getElem?_append_left hi2, List.getElem?_eq_getElem hi2]
    unfold rd
    rw [List.getD_eq_getElem _ _ hi2]
  have hend : (s ++ NUL :: after).get? 36 = some NUL := by
    rw [List.get?_eq_getElem?, ← hl, List.getElem?_append_right (Nat.le_refl _)]
    simp
  have hdash : ∀ i, i < 36 → (i = 8 ∨ i = 13 ∨ i = 18 ∨ i = 23) →
      (s ++ NUL :: after).get? i = some '-' := by
    intro i hi hd
    have := hall i (List.mem_range.2 hi)
    rw [if_pos hd, decide_eq_true_eq] at this
    rw [hget i hi, this]
  have hhex : ∀ i, i < 36 → ¬ (i = 8 ∨ i = 13 ∨ i = 18 ∨ i = 23) →
      ∃ c, (s ++ NUL :: after).get? i = some c ∧ uuid_byte_passes c = true := by
    intro i hi hd
    have := hall i (List.mem_range.2 hi)
    rw [if_neg hd] at this
    exact ⟨rd s i, hget i hi, uuid_byte_passes_hex _ this⟩
  have g0 := validate_uuid_group_ok (s ++ NUL :: after) 8 0
    (fun k hk => hhex (0 + k) (by omega) (by omega))
  have g1 := validate_uuid_group_ok (s ++ NUL :: after) 4 9
    (fun k hk => hhex (9 + k) (by omega) (by omega))
  have g2 := validate_uuid_group_ok (s ++ NUL :: after) 4 14
    (fun k hk => hhex (14 + k) (by omega) (by omega))
  have g3 := validate_uuid_group_ok (s ++ NUL :: after) 4 19
    (fun k hk => hhex (19 + k) (by omega) (by omega))
  have g4 := validate_uuid_group_ok (s ++ NUL :: after) 12 24
    (fun k hk => hhex (24 + k) (by omega) (by omega))
  have d8 := hdash 8 (by omega) (by omega)
  have d13 := hdash 13 (by omega) (by omega)
  have d18 := hdash 18 (by omega) (by omega)
  have d23 := hdash 23 (by omega) (by omega)
  simp only [validate_uuid, validate_uuid_groups, g0, g1, g2, g3, g4, d8, d13, d18, d23, hend,
    if_true, ne_eq, not_true_eq_false, if_false, Nat.reduceAdd, Bool.false_eq_true]

/-! ### The names that get_mime_type reads within their bounds -/

theorem get_mime_type_loop_none (filename : List Char) :
    ∀ (fuel : Nat) (i : Int), -1 ≤ i → i < filename.length →
      (filename.length : Int) - 7 ≤ i → i - filename.length + 7 < fuel →
      get_mime_type_loop filename filename.length fuel i = none →
      filename.length < 6 ∧ ∀ j : Nat, (j : Int) ≤ i → rd filename j ≠ '.' := by
  intro fuel
  induction fuel with
  | zero =>
    intro i h1 h2 h3 hf _
    omega
  | succ fuel ih =>
    intro i h1 h2 h3 hf e
    rw [get_mime_type_loop] at e
    by_cases hg : i > (filename.length : Int) - 7
    · rw [if_pos hg] at e
      by_cases hneg : i < 0
      · refine ⟨by omega, ?_⟩
        intro j hj
        omega
      · rw [if_neg hneg] at e
        by_cases hd : rd filename i.toNat = '.'
        · rw [if_pos hd] at e
          unfold get_mime_type_from_ext at e
          rw [if_neg (by
            rw [List.length_drop]
            omega)] at e
          cases e
        · rw [if_neg hd] at e
          obtain ⟨a, b⟩ := ih (i - 1) (by omega) (by omega) (by omega) (by omega) e
          refine ⟨a, ?_⟩
          intro j hj
          by_cases hji : (j : Int) = i
          · have : j = i.toNat := by omega
            rw [this]
            exact hd
          · exact b j (by omega)
    · rw [if_neg hg] at e
      cases e

/-- The reads of `get_mime_type` leave the name exactly for the names of fewer than six
bytes that hold no dot; for every other name all reads are within the name and the
extension that is copied has at most five bytes. -/
theorem get_mime_type_none_iff (filename : List Char) :
    get_mime_type filename = none
      ↔ (filename.length < 6 ∧ ∀ c ∈ filename, c ≠ '.') := by
  constructor
  · intro e
    unfold get_mime_type at e
    by_cases h0 : filename = []
    · rw [h0]
      exact ⟨by decide, by simp⟩
    · have hpos : 0 < filename.length := List.length_pos.2 h0
      obtain ⟨a, b⟩ := get_mime_type_loop_none filename 7 ((filename.length : Int) - 1)
        (by omega) (by omega) (by omega) (by omega) e
      refine ⟨a, ?_⟩
      intro c hc
      obtain ⟨j, hj, rfl⟩ := List.getElem_of_mem hc
      have := b j (by omega)
      unfold rd at this
      rw [List.getD_eq_getElem _ _ hj] at this
      exact this
  · rintro ⟨h1, h2⟩
    exact get_mime_type_short_name filename h1 h2

end MicroDLNA
